import Mathlib

/-!
# Vitastor: stabilize, sync, flush, recovery and the etcd state client

A shallow embedding of `blockstore::dequeue_stable` and `handle_stable_event`
(src/blockstore_stable.cpp), of `blockstore_impl_t::continue_sync`, `handle_sync_event`
and `ack_sync` (src/src/blockstore_sync.cpp), of `osd_t::submit_pg_flush_ops`,
`handle_flush_op`, `pick_next_recovery` and `continue_recovery` (src/src/osd_flush.cpp),
of `etcd_state_client_t::parse_etcd_kv`, `parse_state` and the watcher
(src/etcd_state_client.cpp), of `osd_messenger_t::outbox_push`, `measure_exec`,
`try_send` and `handle_send` (src/src/msgr_send.cpp) and of `osd_t::enqueue_op`
(src/osd.cpp), followed by the properties proved about them.

Conventions of the embedding:
* `std::map` is an association list in key order, `find` is `map_find`;
* an operation's callback is not run, its invocations are logged in the operation;
* submitted io_uring requests are logged in the ring;
* helpers, macros and constants whose definitions are not part of the sources at hand
  are fields of a `helpers` record that every definition takes as its first argument;
* `none` stands for C++ undefined behaviour, a failed `assert` or a thrown exception;
  where the two must be told apart the result is an `Except fault`;
* calls of functions that are not part of the sources at hand are logged in order.
-/

namespace Vitastor

/-- Object identifier, the pair of inode and stripe. -/
structure object_id where
  inode : Nat
  stripe : Nat
deriving DecidableEq, Repr

/-- Versioned object identifier. -/
structure obj_ver_id where
  oid : object_id
  version : Nat
deriving DecidableEq, Repr

/-- The `find` of a `std::map` held as an association list. -/
def map_find {κ β : Type} [DecidableEq κ] : List (κ × β) → κ → Option β
  | [], _ => none
  | (k, b) :: rest, x => if k = x then some b else map_find rest x

/-- A request handed to io_uring. Buffers are named by their offset in the journal
sector buffer. -/
inductive io_req where
  | writev (fd : Nat) (iov_base : Nat) (iov_len : Nat) (offset : Nat)
  | fsync (fd : Nat)
deriving DecidableEq, Repr

/-- The errno value EINVAL of the C library (Linux). -/
def EINVAL : Int := 22

/-- The errno value EAGAIN of the C library (Linux). -/
def EAGAIN : Int := 11

/-! ## src/blockstore_stable.cpp -/

namespace Stable

/-- Entry of `dirty_db`. -/
structure dirty_entry where
  state : Nat
  location : Nat
  offset : Nat
  size : Nat
deriving DecidableEq, Repr

/-- Entry of `clean_db`. -/
structure clean_entry where
  version : Nat
  location : Nat
deriving DecidableEq, Repr

/-- A `journal_entry_stable` as it lies in the sector buffer. -/
structure journal_entry_stable where
  magic : Nat
  type : Nat
  size : Nat
  crc32 : Nat
  crc32_prev : Nat
  oid : object_id
  version : Nat
deriving DecidableEq, Repr

/-- One element of `journal.sector_info`. -/
structure journal_sector_info_t where
  offset : Nat
  usage_count : Nat
deriving DecidableEq, Repr

/-- The journal state. `entries` is the content of `sector_buf`: the entries filled in so
far, each with the index of the sector buffer that holds it. -/
structure journal_t where
  fd : Nat
  offset : Nat
  cur_sector : Nat
  in_sector_pos : Nat
  next_free : Nat
  crc32_last : Nat
  sector_info : List journal_sector_info_t
  entries : List (Nat × journal_entry_stable)
deriving DecidableEq, Repr

/-- Modelled from the spec: the macro `BS_SUBMIT_GET_SQE_DECL` and the ring loop behind it
are not in the sources. The ring has a number of free SQEs and keeps the requests prepared
so far; an operation that needs more SQEs than are free returns 0 and is retried later
(section 5, suspension points). -/
structure ring_t where
  free_sqes : Nat
  prepared : List io_req
deriving DecidableEq, Repr

/-- The part of `blockstore` that `dequeue_stable` touches. -/
structure blockstore where
  dirty_db : List (obj_ver_id × dirty_entry)
  clean_db : List (object_id × clean_entry)
  journal : journal_t
  ring : ring_t
deriving DecidableEq, Repr

/-- A stabilize operation. `buf` is the array of `len` versions; `callbacks` logs the
value of `retval` at each invocation of `callback`. -/
structure blockstore_operation where
  buf : List obj_ver_id
  retval : Int
  pending_ops : Int
  min_used_journal_sector : Nat
  max_used_journal_sector : Nat
  callbacks : List Int
deriving DecidableEq, Repr

/-- What `dequeue_stable` uses and blockstore_stable.cpp does not define. -/
structure helpers where
  /-- macro `IS_UNSYNCED(st)` -/
  IS_UNSYNCED : Nat → Bool
  /-- macro `IS_STABLE(st)` -/
  IS_STABLE : Nat → Bool
  /-- constant `JE_STABLE` -/
  JE_STABLE : Nat
  /-- `sizeof(journal_entry_stable)` -/
  sizeof_journal_entry_stable : Nat
  /-- `blockstore_journal_check_t::check_available(op, required, size, data_after)`:
  `none` when it returns 0, else `sectors_required` -/
  check_available : blockstore → blockstore_operation → Nat → Nat → Nat → Option Nat
  /-- `prefill_single_journal_entry(journal, type, size)`: the journal after the call and
  the entry it hands back -/
  prefill_single_journal_entry : journal_t → Nat → Nat → journal_t × journal_entry_stable
  /-- `je_crc32(je)` -/
  je_crc32 : journal_entry_stable → Nat

/-- `op->callback(op)`. -/
def blockstore_operation.callback (op : blockstore_operation) : blockstore_operation :=
  { op with callbacks := op.callbacks ++ [op.retval] }

/-- What the first loop of `dequeue_stable` (lines 37-66) ends with. -/
inductive scan_result where
  | no_such_version
  | not_synced
  | todo (n : Nat)
deriving DecidableEq, Repr

/-- The first loop of `dequeue_stable`, lines 37-66, over the versions still to visit. -/
def scan (h : helpers) (bs : blockstore) : List obj_ver_id → Nat → scan_result
  | [], todo => .todo todo
  | v :: rest, todo =>
    match map_find bs.dirty_db v with
    | none =>
      match map_find bs.clean_db v.oid with
      | none => .no_such_version
      | some c => if c.version < v.version then .no_such_version else scan h bs rest todo
    | some d =>
      if h.IS_UNSYNCED d.state then .not_synced
      else if !h.IS_STABLE d.state then scan h bs rest (todo + 1)
      else scan h bs rest todo

/-- The locals of the second loop of `dequeue_stable`: the journal, the ring, `s` and
`cur_sector` (`none` for -1). -/
structure fill_state where
  journal : journal_t
  ring : ring_t
  s : Nat
  cur_sector : Option Nat
deriving DecidableEq, Repr

/-- `journal.sector_info[i].usage_count++`. -/
def bump_usage : List journal_sector_info_t → Nat → List journal_sector_info_t
  | [], _ => []
  | si :: rest, 0 => { si with usage_count := si.usage_count + 1 } :: rest
  | si :: rest, i + 1 => si :: bump_usage rest i

/-- One iteration of the second loop of `dequeue_stable`, lines 91-109. `nsqe` is the
length of the array `sqe`. -/
def fill_one (h : helpers) (nsqe : Nat) (st : fill_state) (v : obj_ver_id) :
    Option fill_state :=
  let (j1, je0) := h.prefill_single_journal_entry st.journal h.JE_STABLE
    h.sizeof_journal_entry_stable
  let je1 := { je0 with oid := v.oid, version := v.version }
  let je := { je1 with crc32 := h.je_crc32 je1 }
  let j2 := { j1 with crc32_last := je.crc32, entries := j1.entries ++ [(j1.cur_sector, je)] }
  if st.cur_sector ≠ some j2.cur_sector then
    if st.s < nsqe then
      match j2.sector_info.get? j2.cur_sector with
      | none => none
      | some si =>
        some { journal := { j2 with sector_info := bump_usage j2.sector_info j2.cur_sector },
               ring := { st.ring with prepared := st.ring.prepared ++
                 [io_req.writev j2.fd (512 * j2.cur_sector) 512 (j2.offset + si.offset)] },
               s := st.s + 1,
               cur_sector := some j2.cur_sector }
    else none
  else some { st with journal := j2 }

/-- The second loop of `dequeue_stable`, lines 89-110. -/
def fill (h : helpers) (nsqe : Nat) : fill_state → List obj_ver_id → Option fill_state
  | st, [] => some st
  | st, v :: rest =>
    match fill_one h nsqe st v with
    | none => none
    | some st1 => fill h nsqe st1 rest

/-- What a call of `dequeue_stable` leaves behind: its return value, the blockstore and
the operation. -/
structure outcome where
  ret : Int
  bs : blockstore
  op : blockstore_operation
deriving DecidableEq, Repr

/-- `blockstore::dequeue_stable`. -/
def dequeue_stable (h : helpers) (bs : blockstore) (op : blockstore_operation) :
    Option outcome :=
  match scan h bs op.buf 0 with
  | .no_such_version =>
    some { ret := 1, bs := bs, op := ({ op with retval := EINVAL }).callback }
  | .not_synced =>
    some { ret := 1, bs := bs, op := ({ op with retval := EAGAIN }).callback }
  | .todo 0 =>
    some { ret := 1, bs := bs, op := ({ op with retval := 0 }).callback }
  | .todo (n + 1) =>
    match h.check_available bs op (n + 1) h.sizeof_journal_entry_stable 0 with
    | none => some { ret := 0, bs := bs, op := op }
    | some sectors_required =>
      if bs.ring.free_sqes < sectors_required + 1 then
        some { ret := 0, bs := bs, op := op }
      else
        let ring1 := { bs.ring with free_sqes := bs.ring.free_sqes - (sectors_required + 1) }
        let op1 := { op with min_used_journal_sector := 1 + bs.journal.cur_sector }
        match fill h (sectors_required + 1)
            { journal := bs.journal, ring := ring1, s := 0, cur_sector := none } op.buf with
        | none => none
        | some st =>
          some { ret := 1,
                 bs := { bs with journal := st.journal, ring := st.ring },
                 op := { op1 with pending_ops := st.s,
                                  max_used_journal_sector := 1 + st.journal.cur_sector } }

/-- An item of a stabilize list that needs no work: not in `dirty_db` with a clean entry
of its object at the same or a higher version, or in `dirty_db` in a stable state. -/
def already_stable (h : helpers) (bs : blockstore) (v : obj_ver_id) : Bool :=
  match map_find bs.dirty_db v with
  | none =>
    match map_find bs.clean_db v.oid with
    | none => false
    | some c => decide (v.version ≤ c.version)
  | some d => h.IS_STABLE d.state

/-- The error an item of a stabilize list calls for, if any: EINVAL when it is not in
`dirty_db` and its object has no clean entry or a clean entry of a lower version, EAGAIN
when it is in `dirty_db` in an unsynced state. -/
def offence (h : helpers) (bs : blockstore) (v : obj_ver_id) : Option Int :=
  match map_find bs.dirty_db v with
  | none =>
    match map_find bs.clean_db v.oid with
    | none => some EINVAL
    | some c => if c.version < v.version then some EINVAL else none
  | some d => if h.IS_UNSYNCED d.state then some EAGAIN else none

/-- The call reported an error: the callback was invoked once more, with a retval other
than 0. -/
def reports_error (op : blockstore_operation) (r : outcome) : Prop :=
  ∃ e : Int, e ≠ 0 ∧ r.op.retval = e ∧ r.op.callbacks = op.callbacks ++ [e]

/-- A sample of the helpers, to evaluate the definitions at concrete inputs. States 2-3
and 16-19 are unsynced, 4 and 20 synced, 5-7 and 21-23 stable; every journal entry fits
the current sector. -/
def sample_helpers : helpers where
  IS_UNSYNCED st := (2 ≤ st && st ≤ 3) || (16 ≤ st && st ≤ 19)
  IS_STABLE st := (5 ≤ st && st ≤ 7) || (21 ≤ st && st ≤ 23)
  JE_STABLE := 5
  sizeof_journal_entry_stable := 40
  check_available _ _ _ _ _ := some 1
  prefill_single_journal_entry j type size :=
    ({ j with in_sector_pos := j.in_sector_pos + size },
     { magic := 1, type := type, size := size, crc32 := 0, crc32_prev := j.crc32_last,
       oid := { inode := 0, stripe := 0 }, version := 0 })
  je_crc32 je := (je.crc32_prev + je.oid.inode + je.oid.stripe + je.version + 1) % 2 ^ 32

/-- A sample journal: one sector buffer, nothing written yet. -/
def sample_journal : journal_t :=
  { fd := 3, offset := 0, cur_sector := 0, in_sector_pos := 0, next_free := 512,
    crc32_last := 0, sector_info := [{ offset := 0, usage_count := 0 }], entries := [] }

/-- A sample operation on the list `buf`. -/
def sample_op (buf : List obj_ver_id) : blockstore_operation :=
  { buf := buf, retval := 0, pending_ops := 0, min_used_journal_sector := 0,
    max_used_journal_sector := 0, callbacks := [] }

/-- A sample blockstore: object 1 has a stable dirty version 1, object 2 a synced dirty
version 1 and object 3 an unsynced dirty version 1; object 4 is clean at version 7. -/
def sample_bs : blockstore :=
  { dirty_db := [(⟨⟨1, 0⟩, 1⟩, { state := 5, location := 0, offset := 0, size := 0 }),
                 (⟨⟨2, 0⟩, 1⟩, { state := 4, location := 0, offset := 0, size := 0 }),
                 (⟨⟨3, 0⟩, 1⟩, { state := 3, location := 0, offset := 0, size := 0 })],
    clean_db := [(⟨4, 0⟩, { version := 7, location := 0 })],
    journal := sample_journal,
    ring := { free_sqes := 8, prepared := [] } }

end Stable

/-! ## src/src/blockstore_sync.cpp -/

/-- The order of `object_id` keys: by inode, then by stripe. -/
def object_id.lt (a b : object_id) : Bool :=
  a.inode < b.inode || (a.inode == b.inode && a.stripe < b.stripe)

/-- The order of `obj_ver_id` keys: by object, then by version. -/
def obj_ver_id.lt (a b : obj_ver_id) : Bool :=
  a.oid.lt b.oid || (a.oid == b.oid && a.version < b.version)

/-- The element of key `k` of the map, which holds that key, becomes `f` of itself. -/
def map_modify {κ β : Type} [DecidableEq κ] (f : β → β) : List (κ × β) → κ → List (κ × β)
  | [], _ => []
  | (k1, b) :: rest, k =>
    if k1 = k then (k1, f b) :: rest else (k1, b) :: map_modify f rest k

/-- A new key `k` enters the map with value `b`, at its place in key order. -/
def map_insert {κ β : Type} (lt : κ → κ → Bool) : List (κ × β) → κ → β → List (κ × β)
  | [], k, b => [(k, b)]
  | (k1, b1) :: rest, k, b =>
    if lt k k1 then (k, b) :: (k1, b1) :: rest else (k1, b1) :: map_insert lt rest k b

/-- The `operator[]` of a `std::map` followed by an update of the element: the element
of key `k` becomes `f` of itself, a missing key is first inserted with the default
value. -/
def map_update {κ β : Type} [DecidableEq κ] (lt : κ → κ → Bool) (dflt : β) (f : β → β)
    (m : List (κ × β)) (k : κ) : List (κ × β) :=
  match map_find m k with
  | some _ => map_modify f m k
  | none => map_insert lt m k (f dflt)

/-- The value `operator[]` of a `std::map` yields for key `k`: the element, or the default
value for a missing key. -/
def map_read {κ β : Type} [DecidableEq κ] (dflt : β) (m : List (κ × β)) (k : κ) : β :=
  (map_find m k).getD dflt

/-- `s & ~m`: the bits of `m` cleared in `s`. -/
def and_not (s m : Nat) : Nat := s ^^^ (s &&& m)

namespace Sync

/-- `#define SYNC_HAS_SMALL 1` -/
def SYNC_HAS_SMALL : Nat := 1
/-- `#define SYNC_HAS_BIG 2` -/
def SYNC_HAS_BIG : Nat := 2
/-- `#define SYNC_DATA_SYNC_SENT 3` -/
def SYNC_DATA_SYNC_SENT : Nat := 3
/-- `#define SYNC_DATA_SYNC_DONE 4` -/
def SYNC_DATA_SYNC_DONE : Nat := 4
/-- `#define SYNC_JOURNAL_WRITE_SENT 5` -/
def SYNC_JOURNAL_WRITE_SENT : Nat := 5
/-- `#define SYNC_JOURNAL_WRITE_DONE 6` -/
def SYNC_JOURNAL_WRITE_DONE : Nat := 6
/-- `#define SYNC_JOURNAL_SYNC_SENT 7` -/
def SYNC_JOURNAL_SYNC_SENT : Nat := 7
/-- `#define SYNC_DONE 8` -/
def SYNC_DONE : Nat := 8

/-- Entry of `dirty_db`. -/
structure dirty_entry where
  state : Nat
  location : Nat
  offset : Nat
  len : Nat
  journal_sector : Nat
deriving DecidableEq, Repr

/-- The value `operator[]` inserts for a missing key of `dirty_db`. -/
def dirty_entry.zero : dirty_entry :=
  { state := 0, location := 0, offset := 0, len := 0, journal_sector := 0 }

/-- A `journal_entry_big_write` as it lies in the sector buffer. -/
structure journal_entry_big_write where
  magic : Nat
  type : Nat
  size : Nat
  crc32 : Nat
  crc32_prev : Nat
  oid : object_id
  version : Nat
  offset : Nat
  len : Nat
  location : Nat
deriving DecidableEq, Repr

/-- One element of `journal.sector_info`. -/
structure journal_sector_info_t where
  offset : Nat
  dirty : Bool
deriving DecidableEq, Repr

/-- The journal state. `entries` is the content of `sector_buf`: the entries filled in so
far, each with the index of the sector buffer that holds it. -/
structure journal_t where
  fd : Nat
  cur_sector : Nat
  in_sector_pos : Nat
  next_free : Nat
  crc32_last : Nat
  sector_info : List journal_sector_info_t
  used_sectors : List (Nat × Nat)
  entries : List (Nat × journal_entry_big_write)
deriving DecidableEq, Repr

/-- A request prepared on the ring by blockstore_sync.cpp, named by the place that
prepares it. -/
inductive sync_io where
  | data_fsync (fd : Nat)
  | journal_sector_write (sector : Nat)
  | journal_fsync (fd : Nat)
deriving DecidableEq, Repr

/-- Modelled from the spec: the macros `BS_SUBMIT_GET_SQE`, `BS_SUBMIT_GET_ONLY_SQE` and
`BS_SUBMIT_GET_SQE_DECL` and the ring loop behind them are not in the sources. The ring
has a number of free SQEs, keeps the requests prepared so far and counts the `wakeup`
calls; an operation that needs more SQEs than are free returns 0 and is retried later
(section 5, suspension points). -/
structure ring_t where
  free_sqes : Nat
  prepared : List sync_io
  wakeups : Nat
deriving DecidableEq, Repr

/-- The part of `blockstore_impl_t` that blockstore_sync.cpp touches. `mark_stable_calls`
logs the arguments of the calls of `mark_stable`. -/
structure blockstore_impl_t where
  immediate_commit : Nat
  disable_data_fsync : Bool
  disable_journal_fsync : Bool
  data_fd : Nat
  stop_sync_submitted : Bool
  live : Bool
  unsynced_big_write_count : Int
  unsynced_big_writes : List obj_ver_id
  unsynced_small_writes : List obj_ver_id
  dirty_db : List (obj_ver_id × dirty_entry)
  unstable_writes : List (object_id × Nat)
  journal : journal_t
  ring : ring_t
  mark_stable_calls : List obj_ver_id
deriving DecidableEq, Repr

/-- A sync operation with its private part. `callbacks` logs the value of `retval` at
each invocation of the callback. -/
structure blockstore_op_t where
  retval : Int
  callbacks : List Int
  op_state : Nat
  sync_big_writes : List obj_ver_id
  sync_small_writes : List obj_ver_id
  sync_small_checked : Nat
  sync_big_checked : Nat
  min_flushed_journal_sector : Nat
  max_flushed_journal_sector : Nat
  pending_ops : Int
deriving DecidableEq, Repr

/-- What blockstore_sync.cpp uses and does not define. The helper functions act on the
part of the state they are handed in the source. -/
structure helpers where
  /-- constant `IMMEDIATE_ALL` -/
  IMMEDIATE_ALL : Nat
  /-- constant `BS_ST_DELETE` -/
  BS_ST_DELETE : Nat
  /-- constant `BS_ST_WAIT_BIG` -/
  BS_ST_WAIT_BIG : Nat
  /-- constant `BS_ST_IN_FLIGHT` -/
  BS_ST_IN_FLIGHT : Nat
  /-- constant `BS_ST_WRITTEN` -/
  BS_ST_WRITTEN : Nat
  /-- constant `BS_ST_SYNCED` -/
  BS_ST_SYNCED : Nat
  /-- constant `BS_ST_INSTANT` -/
  BS_ST_INSTANT : Nat
  /-- constant `BS_ST_WORKFLOW_MASK` -/
  BS_ST_WORKFLOW_MASK : Nat
  /-- constant `JE_BIG_WRITE` -/
  JE_BIG_WRITE : Nat
  /-- constant `JE_BIG_WRITE_INSTANT` -/
  JE_BIG_WRITE_INSTANT : Nat
  /-- `sizeof(journal_entry_big_write)` -/
  sizeof_journal_entry_big_write : Nat
  /-- constant `JOURNAL_STABILIZE_RESERVATION` -/
  JOURNAL_STABILIZE_RESERVATION : Nat
  /-- `blockstore_journal_check_t::check_available(op, required, size, data_after)`:
  `none` when it returns 0, else `sectors_to_write` -/
  check_available : journal_t → Nat → Nat → Nat → Option Nat
  /-- `journal.entry_fits(size)` -/
  entry_fits : journal_t → Nat → Bool
  /-- `prefill_single_journal_entry(journal, type, size)`: the journal after the call and
  the entry it hands back -/
  prefill_single_journal_entry : journal_t → Nat → Nat → journal_t × journal_entry_big_write
  /-- `je_crc32(je)` -/
  je_crc32 : journal_entry_big_write → Nat
  /-- `prepare_journal_sector_write(journal, cur_sector, sqe, cb)`: the journal after the
  call -/
  prepare_journal_sector_write : journal_t → Nat → journal_t
  /-- `release_journal_sectors(op)`: the journal and the operation's
  `min_flushed_journal_sector` and `max_flushed_journal_sector` after the call -/
  release_journal_sectors : journal_t → Nat → Nat → journal_t × Nat × Nat
  /-- `mark_stable(v)`: `dirty_db` and `unstable_writes` after the call -/
  mark_stable : List (obj_ver_id × dirty_entry) × List (object_id × Nat) → obj_ver_id →
    List (obj_ver_id × dirty_entry) × List (object_id × Nat)

/-- Modelled from the spec: the macro `FINISH_OP(op)` is not in the sources. It completes
the operation: the operation's callback is invoked (section 4.2, operation shape). -/
def FINISH_OP (op : blockstore_op_t) : blockstore_op_t :=
  { op with callbacks := op.callbacks ++ [op.retval] }

/-- What a call leaves behind: its return value, the blockstore and the operation. -/
structure outcome where
  ret : Int
  bs : blockstore_impl_t
  op : blockstore_op_t
deriving DecidableEq, Repr

/-- How a block of `continue_sync` ends: outside defined behaviour, with a `return`, or
by falling through to the next block. -/
inductive flow where
  | ub
  | ret (r : Int) (bs : blockstore_impl_t) (op : blockstore_op_t)
  | go (bs : blockstore_impl_t) (op : blockstore_op_t)
deriving DecidableEq, Repr

/-- The update `unstab = unstab < it->version ? it->version : unstab` of
`unstable_writes[it->oid]`. -/
def raise_unstable (uw : List (object_id × Nat)) (it : obj_ver_id) : List (object_id × Nat) :=
  map_update object_id.lt 0 (fun u => if u < it.version then it.version else u) uw it.oid

/-- `(state & ~BS_ST_WORKFLOW_MASK) | w`. -/
def set_workflow (h : helpers) (state w : Nat) : Nat :=
  and_not state h.BS_ST_WORKFLOW_MASK ||| w

/-- A call of `mark_stable(v)`, logged. -/
def call_mark_stable (h : helpers) (bs : blockstore_impl_t) (v : obj_ver_id) :
    blockstore_impl_t :=
  let r := h.mark_stable (bs.dirty_db, bs.unstable_writes) v
  { bs with dirty_db := r.1, unstable_writes := r.2,
            mark_stable_calls := bs.mark_stable_calls ++ [v] }

/-- The loop of lines 215-222 from an iterator position: the entries of `oid` that follow
leave WAIT_BIG for IN_FLIGHT. -/
def wake_followers (h : helpers) (oid : object_id) :
    List (obj_ver_id × dirty_entry) → List (obj_ver_id × dirty_entry)
  | [] => []
  | (k, e) :: rest =>
    if k.oid = oid then
      (k, if e.state &&& h.BS_ST_WORKFLOW_MASK = h.BS_ST_WAIT_BIG
          then { e with state := set_workflow h e.state h.BS_ST_IN_FLIGHT } else e)
        :: wake_followers h oid rest
    else (k, e) :: rest

/-- Lines 214-222: `dirty_it++` from the entry of key `it`, then the loop over the
followers. `none` when the iterator no longer points to an entry. -/
def after_key (h : helpers) (it : obj_ver_id) :
    List (obj_ver_id × dirty_entry) → Option (List (obj_ver_id × dirty_entry))
  | [] => none
  | (k, e) :: rest =>
    if k = it then some ((k, e) :: wake_followers h it.oid rest)
    else (after_key h it rest).map (fun r => (k, e) :: r)

/-- The body of the first loop of `ack_sync`, lines 206-222. -/
def ack_sync_big (h : helpers) (bs : blockstore_impl_t) (it : obj_ver_id) :
    Option blockstore_impl_t :=
  let bs1 := { bs with unstable_writes := raise_unstable bs.unstable_writes it }
  match map_find bs1.dirty_db it with
  | none => none
  | some e =>
    let st := set_workflow h e.state h.BS_ST_SYNCED
    let db2 := map_update obj_ver_id.lt dirty_entry.zero (fun d => { d with state := st })
      bs1.dirty_db it
    let bs2 := { bs1 with dirty_db := db2 }
    let bs3 := if st &&& h.BS_ST_INSTANT ≠ 0 then call_mark_stable h bs2 it else bs2
    match after_key h it bs3.dirty_db with
    | none => none
    | some db => some { bs3 with dirty_db := db }

/-- The body of the second loop of `ack_sync`, lines 229-244. -/
def ack_sync_small (h : helpers) (bs : blockstore_impl_t) (it : obj_ver_id) :
    blockstore_impl_t :=
  let bs1 := { bs with unstable_writes := raise_unstable bs.unstable_writes it }
  let e := map_read dirty_entry.zero bs1.dirty_db it
  if e.state = h.BS_ST_DELETE ||| h.BS_ST_WRITTEN then
    let db2 := map_update obj_ver_id.lt dirty_entry.zero
      (fun d => { d with state := h.BS_ST_DELETE ||| h.BS_ST_SYNCED }) bs1.dirty_db it
    let bs2 := { bs1 with dirty_db := db2 }
    call_mark_stable h bs2 it
  else
    let st := set_workflow h e.state h.BS_ST_SYNCED
    let db2 := map_update obj_ver_id.lt dirty_entry.zero (fun d => { d with state := st })
      bs1.dirty_db it
    let bs2 := { bs1 with dirty_db := db2 }
    if st &&& h.BS_ST_INSTANT ≠ 0 then call_mark_stable h bs2 it else bs2

/-- The first loop of `ack_sync`, lines 201-223. -/
def ack_sync_bigs (h : helpers) : blockstore_impl_t → List obj_ver_id → Option blockstore_impl_t
  | bs, [] => some bs
  | bs, it :: rest =>
    match ack_sync_big h bs it with
    | none => none
    | some bs1 => ack_sync_bigs h bs1 rest

/-- The second loop of `ack_sync`, lines 224-245. -/
def ack_sync_smalls (h : helpers) : blockstore_impl_t → List obj_ver_id → blockstore_impl_t
  | bs, [] => bs
  | bs, it :: rest => ack_sync_smalls h (ack_sync_small h bs it) rest

/-- `blockstore_impl_t::ack_sync`. -/
def ack_sync (h : helpers) (bs : blockstore_impl_t) (op : blockstore_op_t) :
    Option (blockstore_impl_t × blockstore_op_t) :=
  match ack_sync_bigs h bs op.sync_big_writes with
  | none => none
  | some bs1 =>
    some (ack_sync_smalls h bs1 op.sync_small_writes, FINISH_OP { op with retval := 0 })

/-- `blockstore_impl_t::handle_sync_event`, called with `data->res` and
`data->iov.iov_len`; the comparison of the two is made in `size_t`. -/
def handle_sync_event (h : helpers) (bs : blockstore_impl_t) (op : blockstore_op_t)
    (res : Int) (iov_len : Nat) : Option (blockstore_impl_t × blockstore_op_t) :=
  let bs1 := { bs with live := true }
  if res % 2 ^ 64 ≠ (iov_len : Int) then none
  else
    let op1 := { op with pending_ops := op.pending_ops - 1 }
    if op1.pending_ops = 0 then
      let r := h.release_journal_sectors bs1.journal op1.min_flushed_journal_sector
        op1.max_flushed_journal_sector
      let bs2 := { bs1 with journal := r.1 }
      let op2 := { op1 with min_flushed_journal_sector := r.2.1,
                            max_flushed_journal_sector := r.2.2 }
      let woken := { bs2 with ring := { bs2.ring with wakeups := bs2.ring.wakeups + 1 } }
      if op2.op_state = SYNC_DATA_SYNC_SENT then
        some (woken, { op2 with op_state := SYNC_DATA_SYNC_DONE })
      else if op2.op_state = SYNC_JOURNAL_WRITE_SENT then
        some (woken, { op2 with op_state := SYNC_JOURNAL_WRITE_DONE })
      else if op2.op_state = SYNC_JOURNAL_SYNC_SENT then
        some (woken, { op2 with op_state := SYNC_DONE })
      else none
    else some (bs1, op1)

/-- Lines 24-40 of `continue_sync`: the block run when `op_state` is 0. -/
def sync_start (bs : blockstore_impl_t) (op : blockstore_op_t) :
    blockstore_impl_t × blockstore_op_t :=
  let big := bs.unsynced_big_writes
  let small := bs.unsynced_small_writes
  let bs1 := { bs with stop_sync_submitted := false,
                       unsynced_big_write_count := bs.unsynced_big_write_count - big.length,
                       unsynced_big_writes := [],
                       unsynced_small_writes := [] }
  let op1 := { op with sync_big_writes := big, sync_small_writes := small,
                       sync_small_checked := 0, sync_big_checked := 0 }
  if 0 < big.length then (bs1, { op1 with op_state := SYNC_HAS_BIG })
  else if 0 < small.length then (bs1, { op1 with op_state := SYNC_HAS_SMALL })
  else (bs1, { op1 with op_state := SYNC_DONE })

/-- Lines 41-58 of `continue_sync`: the block of state SYNC_HAS_SMALL. -/
def sync_has_small (h : helpers) (bs : blockstore_impl_t) (op : blockstore_op_t) : flow :=
  match bs.journal.sector_info.get? bs.journal.cur_sector with
  | none => .ub
  | some si =>
    if si.dirty then
      if bs.ring.free_sqes = 0 then .ret 0 bs op
      else
        let sector := bs.journal.cur_sector
        let j1 := h.prepare_journal_sector_write bs.journal sector
        let ring1 := { bs.ring with free_sqes := bs.ring.free_sqes - 1,
                                    prepared := bs.ring.prepared ++ [sync_io.journal_sector_write sector] }
        .ret 1 { bs with journal := j1, ring := ring1 }
          { op with min_flushed_journal_sector := 1 + j1.cur_sector,
                    max_flushed_journal_sector := 1 + j1.cur_sector,
                    pending_ops := 1,
                    op_state := SYNC_JOURNAL_WRITE_SENT }
    else .go bs { op with op_state := SYNC_JOURNAL_WRITE_DONE }

/-- Lines 59-77 of `continue_sync`: the block of state SYNC_HAS_BIG. -/
def sync_has_big (bs : blockstore_impl_t) (op : blockstore_op_t) : flow :=
  if !bs.disable_data_fsync then
    if bs.ring.free_sqes = 0 then .ret 0 bs op
    else
      let ring1 := { bs.ring with free_sqes := bs.ring.free_sqes - 1,
                                  prepared := bs.ring.prepared ++ [sync_io.data_fsync bs.data_fd] }
      .ret 1 { bs with ring := ring1 }
        { op with min_flushed_journal_sector := 0,
                  max_flushed_journal_sector := 0,
                  pending_ops := 1,
                  op_state := SYNC_DATA_SYNC_SENT }
  else .go bs { op with op_state := SYNC_DATA_SYNC_DONE }

/-- The locals and the state the loop of lines 96-127 works on. `cur_sector` is `none`
for -1, `min_flushed` is the operation's `min_flushed_journal_sector`. -/
structure write_state where
  journal : journal_t
  dirty_db : List (obj_ver_id × dirty_entry)
  prepared : List sync_io
  s : Nat
  cur_sector : Option Nat
  min_flushed : Nat
deriving DecidableEq, Repr

/-- Lines 98-105: the current sector is written out when the next entry does not fit and
the sector is dirty. `nsqe` is the length of the array `sqe`. -/
def write_flush (h : helpers) (nsqe : Nat) (st : write_state) : Option write_state :=
  if h.entry_fits st.journal h.sizeof_journal_entry_big_write then some st
  else
    match st.journal.sector_info.get? st.journal.cur_sector with
    | none => none
    | some si =>
      if si.dirty then
        if st.s < nsqe then
          let j1 := h.prepare_journal_sector_write st.journal st.journal.cur_sector
          some { st with
            min_flushed := if st.cur_sector = none then 1 + st.journal.cur_sector
                           else st.min_flushed,
            journal := j1,
            prepared := st.prepared ++ [sync_io.journal_sector_write st.journal.cur_sector],
            s := st.s + 1,
            cur_sector := some j1.cur_sector }
        else none
      else some st

/-- `journal.used_sectors[offset]++`. -/
def bump_used (used : List (Nat × Nat)) (offset : Nat) : List (Nat × Nat) :=
  map_update (fun a b => decide (a < b)) 0 (fun c => c + 1) used offset

/-- Lines 106-126: the journal entry of one big write is filled in. -/
def write_entry (h : helpers) (st : write_state) (it : obj_ver_id) : Option write_state :=
  let e := map_read dirty_entry.zero st.dirty_db it
  let type := if e.state &&& h.BS_ST_INSTANT ≠ 0 then h.JE_BIG_WRITE_INSTANT
              else h.JE_BIG_WRITE
  let r := h.prefill_single_journal_entry st.journal type h.sizeof_journal_entry_big_write
  let j1 := r.1
  match j1.sector_info.get? j1.cur_sector with
  | none => none
  | some si =>
    let db1 := map_update obj_ver_id.lt dirty_entry.zero
      (fun d => { d with journal_sector := si.offset }) st.dirty_db it
    let e1 := map_read dirty_entry.zero db1 it
    let je1 := { r.2 with oid := it.oid, version := it.version, offset := e1.offset,
                          len := e1.len, location := e1.location }
    let je := { je1 with crc32 := h.je_crc32 je1 }
    let j2 := { j1 with used_sectors := bump_used j1.used_sectors si.offset,
                        crc32_last := je.crc32,
                        entries := j1.entries ++ [(j1.cur_sector, je)] }
    some { st with journal := j2, dirty_db := db1 }

/-- The loop of lines 96-127. -/
def write_entries (h : helpers) (nsqe : Nat) :
    write_state → List obj_ver_id → Option write_state
  | st, [] => some st
  | st, it :: rest =>
    match write_flush h nsqe st with
    | none => none
    | some st1 =>
      match write_entry h st1 it with
      | none => none
      | some st2 => write_entries h nsqe st2 rest

/-- Lines 78-136 of `continue_sync`: the block of state SYNC_DATA_SYNC_DONE. -/
def sync_data_sync_done (h : helpers) (bs : blockstore_impl_t) (op : blockstore_op_t) : flow :=
  match h.check_available bs.journal op.sync_big_writes.length
      h.sizeof_journal_entry_big_write h.JOURNAL_STABILIZE_RESERVATION with
  | none => .ret 0 bs op
  | some sectors_to_write =>
    if bs.ring.free_sqes < sectors_to_write then .ret 0 bs op
    else
      match write_entries h sectors_to_write
          { journal := bs.journal, dirty_db := bs.dirty_db, prepared := bs.ring.prepared,
            s := 0, cur_sector := none, min_flushed := op.min_flushed_journal_sector }
          op.sync_big_writes with
      | none => .ub
      | some st =>
        if st.s < sectors_to_write then
          let sector := st.journal.cur_sector
          let j1 := h.prepare_journal_sector_write st.journal sector
          let s := st.s + 1
          if s = sectors_to_write then
            let ring1 := { bs.ring with free_sqes := bs.ring.free_sqes - sectors_to_write,
                                        prepared := st.prepared ++ [sync_io.journal_sector_write sector] }
            .ret 1 { bs with journal := j1, dirty_db := st.dirty_db, ring := ring1 }
              { op with
                min_flushed_journal_sector :=
                  if st.cur_sector = none then 1 + j1.cur_sector else st.min_flushed,
                max_flushed_journal_sector := 1 + j1.cur_sector,
                pending_ops := s,
                op_state := SYNC_JOURNAL_WRITE_SENT }
          else .ub
        else .ub

/-- Lines 137-153 of `continue_sync`: the block of state SYNC_JOURNAL_WRITE_DONE. -/
def sync_journal_write_done (bs : blockstore_impl_t) (op : blockstore_op_t) : flow :=
  if !bs.disable_journal_fsync then
    if bs.ring.free_sqes = 0 then .ret 0 bs op
    else
      let ring1 := { bs.ring with free_sqes := bs.ring.free_sqes - 1,
                                  prepared := bs.ring.prepared ++ [sync_io.journal_fsync bs.journal.fd] }
      .ret 1 { bs with ring := ring1 }
        { op with pending_ops := 1, op_state := SYNC_JOURNAL_SYNC_SENT }
  else .go bs { op with op_state := SYNC_DONE }

/-- Lines 154-159 of `continue_sync`. -/
def sync_finish (h : helpers) (bs : blockstore_impl_t) (op : blockstore_op_t)
    ( queue_has_in_progress_sync : Bool) : Option outcome :=
  if op.op_state = SYNC_DONE ∧ queue_has_in_progress_sync = false then
    match ack_sync h bs op with
    | none => none
    | some r => some { ret := 2, bs := r.1, op := r.2 }
  else some { ret := 1, bs := bs, op := op }

/-- Runs a block of `continue_sync` when its `if` holds, then hands over to the rest. -/
def flow.andThen (f : flow) (rest : blockstore_impl_t → blockstore_op_t → Option outcome) :
    Option outcome :=
  match f with
  | .ub => none
  | .ret r bs op => some { ret := r, bs := bs, op := op }
  | .go bs op => rest bs op

/-- `blockstore_impl_t::continue_sync`. -/
def continue_sync (h : helpers) (bs : blockstore_impl_t) (op : blockstore_op_t)
    ( queue_has_in_progress_sync : Bool) : Option outcome :=
  if bs.immediate_commit = h.IMMEDIATE_ALL then
    some { ret := 2, bs := bs, op := FINISH_OP { op with retval := 0 } }
  else
    let p0 := if op.op_state = 0 then sync_start bs op else (bs, op)
    (if p0.2.op_state = SYNC_HAS_SMALL then sync_has_small h p0.1 p0.2
      else flow.go p0.1 p0.2).andThen fun bs1 op1 =>
    (if op1.op_state = SYNC_HAS_BIG then sync_has_big bs1 op1
      else flow.go bs1 op1).andThen fun bs2 op2 =>
    (if op2.op_state = SYNC_DATA_SYNC_DONE then sync_data_sync_done h bs2 op2
      else flow.go bs2 op2).andThen fun bs3 op3 =>
    (if op3.op_state = SYNC_JOURNAL_WRITE_DONE then sync_journal_write_done bs3 op3
      else flow.go bs3 op3).andThen fun bs4 op4 =>
    sync_finish h bs4 op4 queue_has_in_progress_sync

/-- A sync operation as it is enqueued: state 0, nothing captured, nothing pending. -/
def fresh_op : blockstore_op_t :=
  { retval := 0, callbacks := [], op_state := 0, sync_big_writes := [],
    sync_small_writes := [], sync_small_checked := 0, sync_big_checked := 0,
    min_flushed_journal_sector := 0, max_flushed_journal_sector := 0, pending_ops := 0 }

/-- The blockstore with its two lists of unsynced writes replaced. -/
def set_unsynced (bs : blockstore_impl_t) (big small : List obj_ver_id) : blockstore_impl_t :=
  { bs with unsynced_big_writes := big, unsynced_small_writes := small }

/-! ### Runs of one sync operation

The operation is driven by calls of `continue_sync` from the queue and by completions of
the requests it prepared, each of which calls `handle_sync_event`; between them anything
else may change the blockstore, its configuration apart. -/

/-- What is seen of a run: a request of the operation is prepared, or completes. -/
inductive trace_item where
  | submitted (io : sync_io)
  | completed (io : sync_io)
deriving DecidableEq, Repr

/-- One step of a run. `complete i res iov_len` completes the i-th outstanding request
with result `res`; `iov_len` is the length of the iovec of a journal sector write (the
iovec of an fsync is zero). -/
inductive event where
  | continue_sync ( queue_has_in_progress_sync : Bool)
  | complete (i : Nat) (res : Int) (iov_len : Nat)
  | other (f : blockstore_impl_t → blockstore_impl_t)

/-- The state of a run: blockstore and operation, whether `continue_sync` has returned 2,
the operation's requests still in flight, and the trace so far. -/
structure run_state where
  bs : blockstore_impl_t
  op : blockstore_op_t
  finished : Bool
  outstanding : List sync_io
  trace : List trace_item

/-- The blockstore `new` with the configuration of `old`. -/
def keep_config (old new : blockstore_impl_t) : blockstore_impl_t :=
  { new with immediate_commit := old.immediate_commit,
             disable_data_fsync := old.disable_data_fsync,
             disable_journal_fsync := old.disable_journal_fsync,
             data_fd := old.data_fd }

/-- The iovec length `handle_sync_event` compares the result of a request with. -/
def iov_len_of (io : sync_io) (iov_len : Nat) : Nat :=
  match io with
  | .journal_sector_write _ => iov_len
  | _ => 0

/-- One step of a run; `none` when the step cannot be taken. -/
def step (h : helpers) (st : run_state) : event → Option run_state
  | .other f => some { st with bs := keep_config st.bs (f st.bs) }
  | .continue_sync q =>
    if st.finished then none
    else
      match continue_sync h st.bs st.op q with
      | none => none
      | some o =>
        let fresh := o.bs.ring.prepared.drop st.bs.ring.prepared.length
        some { bs := o.bs, op := o.op, finished := decide (o.ret = 2),
               outstanding := st.outstanding ++ fresh,
               trace := st.trace ++ fresh.map trace_item.submitted }
  | .complete i res iov_len =>
    if st.finished then none
    else
      match st.outstanding.get? i with
      | none => none
      | some io =>
        match handle_sync_event h st.bs st.op res (iov_len_of io iov_len) with
        | none => none
        | some r =>
          some { st with bs := r.1, op := r.2,
                         outstanding := st.outstanding.eraseIdx i,
                         trace := st.trace ++ [trace_item.completed io] }

/-- A run: the steps taken one after the other. -/
def run (h : helpers) : run_state → List event → Option run_state
  | st, [] => some st
  | st, e :: es =>
    match step h st e with
    | none => none
    | some st1 => run h st1 es

/-- The start of a run: a fresh operation on the blockstore `bs`. -/
def start (bs : blockstore_impl_t) : run_state :=
  { bs := bs, op := fresh_op, finished := false, outstanding := [], trace := [] }

/-- The trace item is the submission of a data device fsync. -/
def is_data_fsync_submit : trace_item → Bool
  | .submitted (.data_fsync _) => true
  | _ => false

/-- The trace item is the preparation of a journal sector write. -/
def is_journal_write_submit : trace_item → Bool
  | .submitted (.journal_sector_write _) => true
  | _ => false

/-- Every request of the list is a journal sector write. -/
def only_journal_writes (l : List sync_io) : Prop :=
  ∀ x ∈ l, ∃ s, x = sync_io.journal_sector_write s

/-- What the blocks of `continue_sync` between the first one and the acknowledgement
leave alone: of the blockstore all but the journal, the dirty index and the ring, to which
requests are only appended; of the operation all but its state, `pending_ops` and the
flushed sector bounds. -/
def stage_frame (bs : blockstore_impl_t) (op : blockstore_op_t) (bs1 : blockstore_impl_t)
    (op1 : blockstore_op_t) : Prop :=
  bs1 = { bs with journal := bs1.journal, dirty_db := bs1.dirty_db, ring := bs1.ring } ∧
  op1 = { op with op_state := op1.op_state, pending_ops := op1.pending_ops,
                  min_flushed_journal_sector := op1.min_flushed_journal_sector,
                  max_flushed_journal_sector := op1.max_flushed_journal_sector } ∧
  ∃ fresh, bs1.ring.prepared = bs.ring.prepared ++ fresh

/-- The outcome with the two lists of unsynced writes of its blockstore replaced. -/
def outcome.with_unsynced (o : outcome) (big small : List obj_ver_id) : outcome :=
  { o with bs := set_unsynced o.bs big small }

/-- The flow with the two lists of unsynced writes of its blockstore replaced. -/
def flow.with_unsynced (f : flow) (big small : List obj_ver_id) : flow :=
  match f with
  | .ub => .ub
  | .ret r bs op => .ret r (set_unsynced bs big small) op
  | .go bs op => .go (set_unsynced bs big small) op

/-- A sync that completes in a single call of `continue_sync` made with no earlier sync
in progress: the call returns 2, stores retval 0 and invokes the callback once, prepares
no request and leaves the journal, the dirty index, the unstable-writes map and the log of
`mark_stable` calls as they were. -/
def completes_at_once (h : helpers) (bs : blockstore_impl_t) (op : blockstore_op_t) : Prop :=
  ∃ o, continue_sync h bs op false = some o ∧ o.ret = 2 ∧ o.op.retval = 0 ∧
    o.op.callbacks = op.callbacks ++ [0] ∧ o.bs.ring = bs.ring ∧ o.bs.journal = bs.journal ∧
    o.bs.dirty_db = bs.dirty_db ∧ o.bs.unstable_writes = bs.unstable_writes ∧
    o.bs.mark_stable_calls = bs.mark_stable_calls

/-- The changes of `op_state` one call of `continue_sync` can make. -/
def allowed (s s1 : Nat) : Prop :=
  s1 = s ∨ (s = 1 ∧ (s1 = 5 ∨ s1 = 6 ∨ s1 = 7 ∨ s1 = 8)) ∨
    (s = 2 ∧ (s1 = 3 ∨ s1 = 4 ∨ s1 = 5)) ∨ (s = 4 ∧ s1 = 5) ∨ (s = 6 ∧ (s1 = 7 ∨ s1 = 8))

/-- How the blocks of `continue_sync` move an operation from state `s` with `p` pending
requests to state `s1` with `p1` pending requests while preparing the requests `fresh`,
on a blockstore with `disable_data_fsync = d` and `data_fd = fd`: the change of state is
an allowed one; nothing is prepared without a change of state; from SYNC_HAS_BIG with the
data fsync enabled the operation stays or goes to SYNC_DATA_SYNC_SENT; that step prepares
exactly the data fsync, and no other step prepares a data fsync. -/
def trans_ok (d : Bool) (fd : Nat) (s : Nat) (p : Int) (s1 : Nat) (p1 : Int)
    (fresh : List sync_io) : Prop :=
  allowed s s1 ∧
  (s1 = s → fresh = [] ∧ p1 = p) ∧
  (s = 2 → d = false → s1 = 2 ∨ s1 = 3) ∧
  (s = 2 → s1 = 3 → fresh = [sync_io.data_fsync fd] ∧ p1 = 1) ∧
  (¬ (s = 2 ∧ s1 = 3) → ∀ x ∈ fresh, ∀ fd1, x ≠ sync_io.data_fsync fd1)

/-- The blocks of `continue_sync` took blockstore and operation from `bs`, `op` to `bs1`,
`op1`: requests were appended to the ring, the operation moved as `trans_ok` allows, and
`disable_data_fsync` and `data_fd` are as they were. -/
def stage_ok (bs : blockstore_impl_t) (op : blockstore_op_t) (bs1 : blockstore_impl_t)
    (op1 : blockstore_op_t) : Prop :=
  ∃ fresh, bs1.ring.prepared = bs.ring.prepared ++ fresh ∧
    trans_ok bs.disable_data_fsync bs.data_fd op.op_state op.pending_ops
      op1.op_state op1.pending_ops fresh ∧
    bs1.disable_data_fsync = bs.disable_data_fsync ∧ bs1.data_fd = bs.data_fd

/-- The invariant of the runs of one sync operation that start from a fresh operation:
what the trace and the requests in flight look like in each state of the operation. -/
def sync_inv (h : helpers) (st : run_state) : Prop :=
  (st.op.op_state = 0 ∧ st.op.sync_big_writes = [] ∧ st.trace = [] ∧ st.outstanding = []) ∨
  (st.op.sync_big_writes = [] ∧ (st.op.op_state = 1 ∨ (5 ≤ st.op.op_state ∧ st.op.op_state ≤ 8)) ∧
    ∀ x ∈ st.trace, is_data_fsync_submit x = false) ∨
  (st.op.sync_big_writes ≠ [] ∧ st.op.op_state ≠ 0 ∧ st.bs.disable_data_fsync = true) ∨
  (st.op.sync_big_writes ≠ [] ∧ st.bs.disable_data_fsync = false ∧
    st.bs.immediate_commit ≠ h.IMMEDIATE_ALL ∧ st.finished = false ∧
    st.op.op_state = 2 ∧ st.trace = [] ∧ st.outstanding = []) ∨
  (st.op.sync_big_writes ≠ [] ∧ st.bs.disable_data_fsync = false ∧
    st.bs.immediate_commit ≠ h.IMMEDIATE_ALL ∧ st.finished = false ∧
    st.op.op_state = 3 ∧ st.op.pending_ops = 1 ∧
    ∃ fd, st.trace = [trace_item.submitted (sync_io.data_fsync fd)] ∧
      st.outstanding = [sync_io.data_fsync fd]) ∨
  (st.op.sync_big_writes ≠ [] ∧ st.bs.disable_data_fsync = false ∧
    st.bs.immediate_commit ≠ h.IMMEDIATE_ALL ∧ st.finished = false ∧
    st.op.op_state = 4 ∧
    ∃ fd, st.trace = [trace_item.submitted (sync_io.data_fsync fd),
        trace_item.completed (sync_io.data_fsync fd)] ∧
      st.outstanding = []) ∨
  (st.op.sync_big_writes ≠ [] ∧ st.bs.disable_data_fsync = false ∧
    5 ≤ st.op.op_state ∧ st.op.op_state ≤ 8 ∧
    ∃ fd rest, st.trace = trace_item.submitted (sync_io.data_fsync fd) ::
        trace_item.completed (sync_io.data_fsync fd) :: rest ∧
      ∀ x ∈ rest, is_data_fsync_submit x = false)

/-! ### What `ack_sync` is measured against -/

/-- The dirty entry of key `k` carries the INSTANT flag. -/
def is_instant (h : helpers) (db : List (obj_ver_id × dirty_entry)) (k : obj_ver_id) : Bool :=
  decide ((map_read dirty_entry.zero db k).state &&& h.BS_ST_INSTANT ≠ 0)

/-- The state of the dirty entry of key `k` is exactly `BS_ST_DELETE | BS_ST_WRITTEN`. -/
def is_delete_written (h : helpers) (db : List (obj_ver_id × dirty_entry)) (k : obj_ver_id) :
    Bool :=
  decide ((map_read dirty_entry.zero db k).state = h.BS_ST_DELETE ||| h.BS_ST_WRITTEN)

/-- The state constants form a bit layout: the INSTANT flag and the kind DELETE lie
outside the workflow mask, the workflow values IN_FLIGHT, WRITTEN and SYNCED inside it,
and WRITTEN differs from WAIT_BIG and IN_FLIGHT. -/
def layout_ok (h : helpers) : Prop :=
  h.BS_ST_INSTANT &&& h.BS_ST_WORKFLOW_MASK = 0 ∧
  h.BS_ST_DELETE &&& h.BS_ST_WORKFLOW_MASK = 0 ∧
  h.BS_ST_IN_FLIGHT &&& h.BS_ST_WORKFLOW_MASK = h.BS_ST_IN_FLIGHT ∧
  h.BS_ST_WRITTEN &&& h.BS_ST_WORKFLOW_MASK = h.BS_ST_WRITTEN ∧
  h.BS_ST_SYNCED &&& h.BS_ST_WORKFLOW_MASK = h.BS_ST_SYNCED ∧
  h.BS_ST_WRITTEN ≠ h.BS_ST_WAIT_BIG ∧
  h.BS_ST_WRITTEN ≠ h.BS_ST_IN_FLIGHT

/-- What is asked of `mark_stable`: it removes no dirty entry, and for every dirty entry
it leaves the INSTANT flag as it is and neither makes nor unmakes the state
`BS_ST_DELETE | BS_ST_WRITTEN`. -/
def mark_stable_keeps (h : helpers) : Prop :=
  ∀ (db : List (obj_ver_id × dirty_entry)) (uw : List (object_id × Nat)) (v k : obj_ver_id)
    (e : dirty_entry), map_find db k = some e →
    ∃ e1, map_find (h.mark_stable (db, uw) v).1 k = some e1 ∧
      e1.state &&& h.BS_ST_INSTANT = e.state &&& h.BS_ST_INSTANT ∧
      (e1.state = h.BS_ST_DELETE ||| h.BS_ST_WRITTEN ↔
        e.state = h.BS_ST_DELETE ||| h.BS_ST_WRITTEN)

/-- Entry `e1` has the INSTANT flag of entry `e`, and its state is
`BS_ST_DELETE | BS_ST_WRITTEN` exactly when that of `e` is. -/
def keeps_bits (h : helpers) (e e1 : dirty_entry) : Prop :=
  e1.state &&& h.BS_ST_INSTANT = e.state &&& h.BS_ST_INSTANT ∧
  (e1.state = h.BS_ST_DELETE ||| h.BS_ST_WRITTEN ↔ e.state = h.BS_ST_DELETE ||| h.BS_ST_WRITTEN)

/-- An entry of key `k` of the index `db` is still there in `db1`, with its bits kept. -/
def db_keeps (h : helpers) (db db1 : List (obj_ver_id × dirty_entry)) (k : obj_ver_id) : Prop :=
  ∀ e, map_find db k = some e → ∃ e1, map_find db1 k = some e1 ∧ keeps_bits h e e1

/-- Key `k` has an entry in the index `db0` and one in `db`, the second with the bits of
the first. -/
def tracked (h : helpers) (db0 db : List (obj_ver_id × dirty_entry)) (k : obj_ver_id) : Prop :=
  ∃ e0 e, map_find db0 k = some e0 ∧ map_find db k = some e ∧ keeps_bits h e0 e

/-! ### Samples, to evaluate the definitions at concrete inputs -/

/-- A sample of the helpers. The kind is held in bits 0-3 (3 for DELETE), the workflow in
bits 4-7 and INSTANT is bit 8; every journal entry fits the current sector and one sector
write is asked for; `mark_stable` moves the entry it is given from SYNCED to STABLE. -/
def sample_helpers : helpers where
  IMMEDIATE_ALL := 2
  BS_ST_DELETE := 0x03
  BS_ST_WAIT_BIG := 0x10
  BS_ST_IN_FLIGHT := 0x20
  BS_ST_WRITTEN := 0x40
  BS_ST_SYNCED := 0x50
  BS_ST_INSTANT := 0x100
  BS_ST_WORKFLOW_MASK := 0xF0
  JE_BIG_WRITE := 3
  JE_BIG_WRITE_INSTANT := 8
  sizeof_journal_entry_big_write := 56
  JOURNAL_STABILIZE_RESERVATION := 65536
  check_available _ _ _ _ := some 1
  entry_fits _ _ := true
  prefill_single_journal_entry j type size :=
    ({ j with in_sector_pos := j.in_sector_pos + size },
     { magic := 1, type := type, size := size, crc32 := 0, crc32_prev := j.crc32_last,
       oid := { inode := 0, stripe := 0 }, version := 0, offset := 0, len := 0,
       location := 0 })
  je_crc32 je := (je.crc32_prev + je.oid.inode + je.oid.stripe + je.version + 1) % 2 ^ 32
  prepare_journal_sector_write j _ := j
  release_journal_sectors j _ _ := (j, 0, 0)
  mark_stable p v :=
    (map_modify (fun e => if e.state &&& 0xF0 = 0x50
        then { e with state := and_not e.state 0xF0 ||| 0x60 } else e) p.1 v, p.2)

/-- A sample journal: one sector buffer, nothing written yet. -/
def sample_journal : journal_t :=
  { fd := 4, cur_sector := 0, in_sector_pos := 0, next_free := 512, crc32_last := 0,
    sector_info := [{ offset := 0, dirty := false }], used_sectors := [], entries := [] }

/-- A sample blockstore with the given `immediate_commit`, unsynced lists and dirty
index. -/
def sample_bs ( immediate_commit : Nat) (big small : List obj_ver_id)
    (db : List (obj_ver_id × dirty_entry)) : blockstore_impl_t :=
  { immediate_commit := immediate_commit, disable_data_fsync := false,
    disable_journal_fsync := false, data_fd := 3, stop_sync_submitted := false,
    live := false, unsynced_big_write_count := big.length, unsynced_big_writes := big,
    unsynced_small_writes := small, dirty_db := db, unstable_writes := [],
    journal := sample_journal, ring := { free_sqes := 8, prepared := [], wakeups := 0 },
    mark_stable_calls := [] }

/-- A sample run to the end of a sync that carries one big and one small write: the data
fsync, its completion, the journal sector write, its completion, the journal fsync, its
completion, and the acknowledgement. -/
def sample_events : List event :=
  [event.continue_sync false, event.complete 0 0 0, event.continue_sync false,
   event.complete 0 512 512, event.continue_sync false, event.complete 0 0 0,
   event.continue_sync false]

/-- A sample dirty entry in the given state. -/
def sample_entry (state : Nat) : dirty_entry :=
  { state := state, location := 0, offset := 0, len := 0, journal_sector := 0 }

end Sync

/-! ## src/src/osd_flush.cpp -/

/-- How a call ends when it does not return to its caller: with a thrown exception, or in
C++ undefined behaviour. -/
inductive fault where
  | thrown (what : String)
  | undefined
deriving DecidableEq, Repr

/-- The `erase(key)` of a `std::map` held as an association list. -/
def map_erase {κ β : Type} [DecidableEq κ] (m : List (κ × β)) (k : κ) : List (κ × β) :=
  m.filter (fun p => !decide (p.1 = k))

/-- The `erase(iterator)` of a map or multimap: the first element of key `k` leaves. -/
def map_erase_first {κ β : Type} [DecidableEq κ] : List (κ × β) → κ → List (κ × β)
  | [], _ => []
  | (k1, b) :: rest, k => if k1 = k then rest else (k1, b) :: map_erase_first rest k

/-- The order of keys that are numbers. -/
def nat_lt (a b : Nat) : Bool := decide (a < b)

namespace Flush

/-- `#define FLUSH_BATCH 512` -/
def FLUSH_BATCH : Nat := 512

/-- Key of `pg_t::flush_actions`: one piece of an object on one OSD. -/
structure obj_piece_id_t where
  oid : object_id
  osd_num : Nat
deriving DecidableEq, Repr

/-- What is to be done with one piece: roll it back, make it stable, or both. -/
structure flush_action_t where
  rollback : Bool
  make_stable : Bool
  stable_to : Nat
  rollback_to : Nat
  submitted : Bool
deriving DecidableEq, Repr

/-- One batch of flush sub-operations; the lists are per peer OSD. -/
structure pg_flush_batch_t where
  flush_ops : Nat
  flush_done : Nat
  flush_objects : Nat
  rollback_lists : List (Nat × List obj_ver_id)
  stable_lists : List (Nat × List obj_ver_id)
deriving DecidableEq, Repr

/-- Key of `osd_t::pgs`. -/
structure pool_pg_num_t where
  pool_id : Nat
  pg_num : Nat
deriving DecidableEq, Repr

/-- The fields of `pg_t` the flush and recovery code reads or writes. `flush_batch` is a
pointer: `none` is NULL, `some a` the batch object at address `a`. The values of
`write_queue` are pointers to queued write operations; of the degraded and misplaced
objects only the keys matter here. -/
structure pg_t where
  pool_id : Nat
  pg_num : Nat
  state : Nat
  inflight : Nat
  flush_batch : Option Nat
  flush_actions : List (obj_piece_id_t × flush_action_t)
  ver_override : List (object_id × Nat)
  write_queue : List (object_id × Nat)
  degraded_objects : List (object_id × Nat)
  misplaced_objects : List (object_id × Nat)
deriving DecidableEq, Repr

/-- The fields of `osd_recovery_op_t` that `pick_next_recovery` sets. -/
structure osd_recovery_op_t where
  degraded : Bool
  oid : object_id
deriving DecidableEq, Repr

/-- A call of a function that is not part of the sources at hand. Such calls are logged in
order; what they do to the OSD is not part of the embedding. -/
inductive call where
  | bs_enqueue_op (rollback : Bool) (data : List obj_ver_id)
  | outbox_push (peer_fd : Int) (id : Nat) (rollback : Bool) (data : List obj_ver_id)
  | stop_client (peer_fd : Int)
  | report_pg_state (pg_id : pool_pg_num_t)
  | continue_primary_write (op : Nat)
  | finish_stop_pg (pg_id : pool_pg_num_t)
  | start_pg_peering (pg_id : pool_pg_num_t)
  | exec_op (inode : Nat) (offset : Nat) (len : Nat)
deriving DecidableEq, Repr

/-- The fields of `osd_t` the flush and recovery code reads or writes. `batches` holds the
live `pg_flush_batch_t` objects by address. -/
structure osd_t where
  osd_num : Nat
  no_recovery : Bool
  no_rebalance : Bool
  recovery_queue_depth : Nat
  pgs : List (pool_pg_num_t × pg_t)
  batches : List (Nat × pg_flush_batch_t)
  osd_peer_fds : List (Nat × Int)
  next_subop_id : Nat
  recovery_ops : List (object_id × osd_recovery_op_t)
  calls : List call
deriving DecidableEq, Repr

/-- Constants of headers that are not part of the sources at hand. -/
structure helpers where
  STRIPE_MASK : Nat
  PG_ACTIVE : Nat
  PG_DEGRADED : Nat
  PG_HAS_DEGRADED : Nat
  PG_HAS_MISPLACED : Nat
  PG_HAS_UNCLEAN : Nat
  PG_STOPPING : Nat
  PG_REPEERING : Nat

/-- The test `a.inode != b.inode || (a.stripe & ~STRIPE_MASK) != (b.stripe & ~STRIPE_MASK)`:
the two pieces belong to different objects. -/
def object_differs (h : helpers) (a b : object_id) : Bool :=
  a.inode != b.inode || and_not a.stripe h.STRIPE_MASK != and_not b.stripe h.STRIPE_MASK

/-- The state of the loop of `submit_pg_flush_ops`: the batch, the key under `prev_it`
(`none` while `first` holds) and the actions passed so far. -/
structure scan_state where
  fb : pg_flush_batch_t
  prev : Option obj_piece_id_t
  done : List (obj_piece_id_t × flush_action_t)
deriving DecidableEq, Repr

/-- The condition of the `if` at the head of the loop of `submit_pg_flush_ops`, as C++
parses it, `(!first && differs && rollback full) || stable full`, with the elements that
`operator[]` inserts into the lists it looks at. -/
def scan_stop (h : helpers) (st : scan_state) (k : obj_piece_id_t) : Bool × pg_flush_batch_t :=
  let differs := match st.prev with
    | none => false
    | some p => object_differs h k.oid p.oid
  if differs then
    let rl := map_update nat_lt [] id st.fb.rollback_lists k.osd_num
    if FLUSH_BATCH ≤ (map_read [] rl k.osd_num).length then
      (true, { st.fb with rollback_lists := rl })
    else
      let sl := map_update nat_lt [] id st.fb.stable_lists k.osd_num
      (decide (FLUSH_BATCH ≤ (map_read [] sl k.osd_num).length),
       { st.fb with rollback_lists := rl, stable_lists := sl })
  else
    let sl := map_update nat_lt [] id st.fb.stable_lists k.osd_num
    (decide (FLUSH_BATCH ≤ (map_read [] sl k.osd_num).length), { st.fb with stable_lists := sl })

/-- The body of the loop of `submit_pg_flush_ops` below the `if`: the action is marked
submitted and enters the lists of its peer. -/
def scan_take (fb : pg_flush_batch_t) (k : obj_piece_id_t) (a : flush_action_t) :
    pg_flush_batch_t :=
  let fb1 := if a.rollback then
      { fb with flush_objects := fb.flush_objects + 1,
                rollback_lists := map_update nat_lt []
                  (fun l => l ++ [{ oid := k.oid, version := a.rollback_to }])
                  fb.rollback_lists k.osd_num }
    else fb
  if a.make_stable then
    { fb1 with flush_objects := fb1.flush_objects + 1,
               stable_lists := map_update nat_lt []
                 (fun l => l ++ [{ oid := k.oid, version := a.stable_to }])
                 fb1.stable_lists k.osd_num }
  else fb1

/-- The loop of `submit_pg_flush_ops` from the iterator `it` on: the result is the state
at the `break` or at the end, with the actions from `it` on that were not visited. -/
def scan (h : helpers) : scan_state → List (obj_piece_id_t × flush_action_t) →
    scan_state × List (obj_piece_id_t × flush_action_t)
  | st, [] => (st, [])
  | st, (k, a) :: rest =>
    let c := scan_stop h st k
    if c.1 then ({ st with fb := c.2 }, (k, a) :: rest)
    else
      scan h { fb := scan_take c.2 k a, prev := some k,
               done := st.done ++ [(k, { a with submitted := true })] } rest

/-- The empty batch `new pg_flush_batch_t()` yields. -/
def empty_batch : pg_flush_batch_t :=
  { flush_ops := 0, flush_done := 0, flush_objects := 0, rollback_lists := [],
    stable_lists := [] }

/-- The loop of `submit_pg_flush_ops` run over the whole map. -/
def scan_all (h : helpers) (acts : List (obj_piece_id_t × flush_action_t)) :
    scan_state × List (obj_piece_id_t × flush_action_t) :=
  scan h { fb := empty_batch, prev := none, done := [] } acts

/-- `osd_t::submit_flush_op`: a local sub-operation goes to the blockstore, a remote one to
the outbox of the peer, whose file descriptor `operator[]` reads. -/
def submit_flush_op (osd : osd_t) (rollback : Bool) (peer_osd : Nat) (data : List obj_ver_id) :
    osd_t :=
  if peer_osd = osd.osd_num then
    { osd with calls := osd.calls ++ [call.bs_enqueue_op rollback data] }
  else
    let fds := map_update nat_lt (0 : Int) id osd.osd_peer_fds peer_osd
    { osd with osd_peer_fds := fds, next_subop_id := osd.next_subop_id + 1,
               calls := osd.calls ++
                 [call.outbox_push (map_read 0 fds peer_osd) osd.next_subop_id rollback data] }

/-- One of the two loops at the end of `submit_pg_flush_ops`: a sub-operation for each peer
with a list that is not empty. The result is the OSD and the number of sub-operations. -/
def submit_lists (rollback : Bool) : osd_t → Nat → List (Nat × List obj_ver_id) → osd_t × Nat
  | osd, n, [] => (osd, n)
  | osd, n, (peer, l) :: rest =>
    if 0 < l.length then submit_lists rollback (submit_flush_op osd rollback peer l) (n + 1) rest
    else submit_lists rollback osd n rest

/-- `osd_t::submit_pg_flush_ops` on the PG `pg`: `fb` is the address of the new batch. The
result is the OSD and the PG, which the caller holds by reference. -/
def submit_pg_flush_ops (h : helpers) (osd : osd_t) (pg : pg_t) (fb : Nat) : osd_t × pg_t :=
  let r := scan_all h pg.flush_actions
  let r1 := submit_lists true osd r.1.fb.flush_ops r.1.fb.rollback_lists
  let r2 := submit_lists false r1.1 r1.2 r.1.fb.stable_lists
  let b := { r.1.fb with flush_ops := r2.2 }
  ({ r2.1 with batches := map_update nat_lt b (fun _ => b) r2.1.batches fb },
   { pg with flush_batch := some fb, flush_actions := r.1.done ++ r.2 })

/-- The state of the loop of `handle_flush_op`: `before` holds the actions in front of
`erase_start`, `run` those from `erase_start` up to `it`, `prev` is the key under
`prev_it`. -/
structure erase_state where
  before : List (obj_piece_id_t × flush_action_t)
  run : List (obj_piece_id_t × flush_action_t)
  prev : obj_piece_id_t
  ver_override : List (object_id × Nat)
  write_queue : List (object_id × Nat)
  continue_ops : List Nat
deriving DecidableEq, Repr

/-- The first `if` of the loop of `handle_flush_op`, taken: the version override of the
object under `prev_it` is erased and a write queued for it is to be continued. -/
def forget_object (h : helpers) (st : erase_state) : erase_state :=
  let oid : object_id :=
    { inode := st.prev.oid.inode, stripe := and_not st.prev.oid.stripe h.STRIPE_MASK }
  let vo := map_erase st.ver_override oid
  match map_find st.write_queue oid with
  | some w =>
    { st with ver_override := vo, continue_ops := st.continue_ops ++ [w],
              write_queue := map_erase_first st.write_queue oid }
  | none => { st with ver_override := vo }

/-- The loop of `handle_flush_op` from the iterator `it` on. -/
def erase_loop (h : helpers) : erase_state → List (obj_piece_id_t × flush_action_t) →
    erase_state
  | st, [] =>
    let st1 := forget_object h st
    if st1.run ≠ [] then { st1 with run := [] } else st1
  | st, (k, a) :: rest =>
    let st1 := if object_differs h k.oid st.prev.oid then forget_object h st else st
    let st2 := if !a.submitted ∧ st1.run ≠ [] then { st1 with run := [] } else st1
    let st3 := { st2 with prev := k }
    if !a.submitted then
      erase_loop h { st3 with before := st3.before ++ st3.run ++ [(k, a)], run := [] } rest
    else
      erase_loop h { st3 with run := st3.run ++ [(k, a)] } rest

/-- The part of `handle_flush_op` that runs when the last sub-operation of the batch is
done. With an empty `flush_actions` the loop dereferences the end iterator. -/
def finish_batch (h : helpers) (osd : osd_t) (pg_id : pool_pg_num_t) (pg : pg_t) (fb : Nat) :
    Except fault osd_t :=
  match pg.flush_actions with
  | [] => Except.error fault.undefined
  | (k0, _) :: _ =>
    let st := erase_loop h { before := [], run := [], prev := k0,
                             ver_override := pg.ver_override, write_queue := pg.write_queue,
                             continue_ops := [] } pg.flush_actions
    let left := st.before ++ st.run
    let state1 := if left.length = 0 then and_not pg.state h.PG_HAS_UNCLEAN else pg.state
    let pg1 := { pg with flush_actions := left, ver_override := st.ver_override,
                         write_queue := st.write_queue, flush_batch := none, state := state1 }
    let c1 := if left.length = 0 then [call.report_pg_state pg_id] else []
    let c2 := st.continue_ops.map call.continue_primary_write
    let c3 := if state1 &&& h.PG_STOPPING ≠ 0 ∧ pg1.inflight = 0 then
        [call.finish_stop_pg pg_id]
      else if state1 &&& h.PG_REPEERING ≠ 0 ∧ pg1.inflight = 0 then
        [call.start_pg_peering pg_id]
      else []
    Except.ok { osd with pgs := map_modify (fun _ => pg1) osd.pgs pg_id,
                         batches := map_erase osd.batches fb,
                         calls := osd.calls ++ c1 ++ c2 ++ c3 }

/-- `osd_t::handle_flush_op`: the result of one flush sub-operation arrives. -/
def handle_flush_op (h : helpers) (osd : osd_t) (rollback : Bool) (pool_id pg_num : Nat)
    (fb : Nat) (peer_osd : Nat) (retval : Int) : Except fault osd_t :=
  let pg_id : pool_pg_num_t := { pool_id := pool_id, pg_num := pg_num }
  match map_find osd.pgs pg_id with
  | none => Except.ok osd
  | some pg =>
    if pg.flush_batch ≠ some fb then Except.ok osd
    else if retval ≠ 0 then
      if peer_osd = osd.osd_num then
        Except.error (fault.thrown "Error while doing local flush operation")
      else
        match map_find osd.osd_peer_fds peer_osd with
        | some fd => Except.ok { osd with calls := osd.calls ++ [call.stop_client fd] }
        | none => Except.ok osd
    else
      match map_find osd.batches fb with
      | none => Except.error fault.undefined
      | some b =>
        let b1 := { b with flush_done := b.flush_done + 1 }
        if b1.flush_done = b1.flush_ops then finish_batch h osd pg_id pg fb
        else Except.ok { osd with batches := map_modify (fun _ => b1) osd.batches fb }

/-- The inner loop of `pick_next_recovery`: the first object that is not being recovered. -/
def first_idle (recovery_ops : List (object_id × osd_recovery_op_t)) :
    List (object_id × Nat) → Option object_id
  | [] => none
  | (oid, _) :: rest =>
    if map_find recovery_ops oid = none then some oid else first_idle recovery_ops rest

/-- One of the two outer loops of `pick_next_recovery`, over the PGs whose state passes
`want`, with the objects `objs` of each. -/
def pick_in (want : Nat → Bool) (objs : pg_t → List (object_id × Nat))
    (recovery_ops : List (object_id × osd_recovery_op_t)) :
    List (pool_pg_num_t × pg_t) → Option object_id
  | [] => none
  | (_, pg) :: rest =>
    if want pg.state then
      match first_idle recovery_ops (objs pg) with
      | some oid => some oid
      | none => pick_in want objs recovery_ops rest
    else pick_in want objs recovery_ops rest

/-- The state test of the first loop of `pick_next_recovery`. -/
def want_degraded (h : helpers) (state : Nat) : Bool :=
  state &&& (h.PG_ACTIVE ||| h.PG_HAS_DEGRADED) = (h.PG_ACTIVE ||| h.PG_HAS_DEGRADED)

/-- The state test of the second loop of `pick_next_recovery`. -/
def want_misplaced (h : helpers) (state : Nat) : Bool :=
  state &&& (h.PG_ACTIVE ||| h.PG_DEGRADED ||| h.PG_HAS_MISPLACED) =
    (h.PG_ACTIVE ||| h.PG_HAS_MISPLACED)

/-- `osd_t::pick_next_recovery`: `none` is the result `false`, `some op` the result `true`
with the fields written into `op`. -/
def pick_next_recovery (h : helpers) (osd : osd_t) : Option osd_recovery_op_t :=
  let d := if !osd.no_recovery then
      pick_in (want_degraded h) (fun pg => pg.degraded_objects) osd.recovery_ops osd.pgs
    else none
  match d with
  | some oid => some { degraded := true, oid := oid }
  | none =>
    let m := if !osd.no_rebalance then
        pick_in (want_misplaced h) (fun pg => pg.misplaced_objects) osd.recovery_ops osd.pgs
      else none
    match m with
    | some oid => some { degraded := false, oid := oid }
    | none => none

/-- `osd_t::submit_recovery_op`: a write of length zero to the object is handed to
`exec_op`. The callback of that write runs when the write completes, not here. -/
def submit_recovery_op (osd : osd_t) (op : osd_recovery_op_t) : osd_t :=
  { osd with calls := osd.calls ++ [call.exec_op op.oid.inode op.oid.stripe 0] }

/-- The loop of `osd_t::continue_recovery`, run for at most `fuel` rounds; `none` when the
rounds do not suffice. -/
def continue_recovery_loop (h : helpers) : Nat → osd_t → Option (Bool × osd_t)
  | 0, osd => if osd.recovery_ops.length < osd.recovery_queue_depth then none else some (true, osd)
  | fuel + 1, osd =>
    if osd.recovery_ops.length < osd.recovery_queue_depth then
      match pick_next_recovery h osd with
      | some op =>
        let ops := map_update object_id.lt op (fun _ => op) osd.recovery_ops op.oid
        continue_recovery_loop h fuel (submit_recovery_op { osd with recovery_ops := ops } op)
      | none => some (false, osd)
    else some (true, osd)

/-- `osd_t::continue_recovery`. Each round adds an entry to `recovery_ops`, so the loop
ends within `recovery_queue_depth` rounds. -/
def continue_recovery (h : helpers) (osd : osd_t) : Option (Bool × osd_t) :=
  continue_recovery_loop h osd.recovery_queue_depth osd

/-- The actions of `acts` for peer `p` that roll back, as `submit_pg_flush_ops` lists
them. -/
def rollbacks_of (p : Nat) (acts : List (obj_piece_id_t × flush_action_t)) : List obj_ver_id :=
  (acts.filter (fun x => decide (x.1.osd_num = p) && x.2.rollback)).map
    (fun x => { oid := x.1.oid, version := x.2.rollback_to })

/-- The actions of `acts` for peer `p` that stabilize, as `submit_pg_flush_ops` lists
them. -/
def stables_of (p : Nat) (acts : List (obj_piece_id_t × flush_action_t)) : List obj_ver_id :=
  (acts.filter (fun x => decide (x.1.osd_num = p) && x.2.make_stable)).map
    (fun x => { oid := x.1.oid, version := x.2.stable_to })

/-- At every start of an object inside `l`, the actions in front of it hold fewer than
`FLUSH_BATCH` rollbacks and fewer than `FLUSH_BATCH` stabilizations for the peer of the
action the object starts with. -/
def starts_bounded (h : helpers) (l : List (obj_piece_id_t × flush_action_t)) : Prop :=
  ∀ pre x y post, l = pre ++ x :: y :: post → object_differs h y.1.oid x.1.oid = true →
    (rollbacks_of y.1.osd_num (pre ++ [x])).length < FLUSH_BATCH ∧
    (stables_of y.1.osd_num (pre ++ [x])).length < FLUSH_BATCH

/-- Every action of `l` met a stabilize list of its peer with fewer than `FLUSH_BATCH`
entries from the actions in front of it. -/
def stable_bounded (l : List (obj_piece_id_t × flush_action_t)) : Prop :=
  ∀ pre x post, l = pre ++ x :: post → (stables_of x.1.osd_num pre).length < FLUSH_BATCH

/-- The loop of `submit_pg_flush_ops` ends in front of the action `x` that follows the
actions `l`: the stabilize list of its peer is full, or `x` starts an object and the
rollback list of its peer is full. -/
def stops_before (h : helpers) (l : List (obj_piece_id_t × flush_action_t))
    (x : obj_piece_id_t × flush_action_t) : Prop :=
  FLUSH_BATCH ≤ (stables_of x.1.osd_num l).length ∨
  ∃ pre y, l = pre ++ [y] ∧ object_differs h x.1.oid y.1.oid = true ∧
    FLUSH_BATCH ≤ (rollbacks_of x.1.osd_num l).length

/-- All the bits of `m` are set in `s`. -/
def has_bits (s m : Nat) : Prop := s &&& m = m

/-- The object is degraded in a PG that is active and has degraded objects, and it is not
being recovered. -/
def idle_degraded (h : helpers) (osd : osd_t) (oid : object_id) : Prop :=
  ∃ e ∈ osd.pgs, has_bits e.2.state h.PG_ACTIVE ∧ has_bits e.2.state h.PG_HAS_DEGRADED ∧
    oid ∈ e.2.degraded_objects.map Prod.fst ∧ map_find osd.recovery_ops oid = none

/-- The object is misplaced in a PG that is active, has misplaced objects and is not
degraded, and it is not being recovered. -/
def idle_misplaced (h : helpers) (osd : osd_t) (oid : object_id) : Prop :=
  ∃ e ∈ osd.pgs, has_bits e.2.state h.PG_ACTIVE ∧ has_bits e.2.state h.PG_HAS_MISPLACED ∧
    e.2.state &&& h.PG_DEGRADED = 0 ∧
    oid ∈ e.2.misplaced_objects.map Prod.fst ∧ map_find osd.recovery_ops oid = none

/-- The action with its `submitted` flag set. -/
def mark_submitted (x : obj_piece_id_t × flush_action_t) : obj_piece_id_t × flush_action_t :=
  (x.1, { x.2 with submitted := true })

/-- Sample constants: a stripe mask of twelve bits and one bit for each PG state. -/
def sample_helpers : helpers :=
  { STRIPE_MASK := 4095, PG_ACTIVE := 8, PG_DEGRADED := 128, PG_HAS_DEGRADED := 512,
    PG_HAS_MISPLACED := 1024, PG_HAS_UNCLEAN := 2048, PG_STOPPING := 32, PG_REPEERING := 16 }

/-- A sample action for piece 0 of object `inode` on OSD `osd_num`. -/
def sample_action (inode osd_num : Nat) (rollback make_stable : Bool) :
    obj_piece_id_t × flush_action_t :=
  ({ oid := { inode := inode, stripe := 0 }, osd_num := osd_num },
   { rollback := rollback, make_stable := make_stable, stable_to := 1, rollback_to := 1,
     submitted := false })

/-- A sample of 512 objects with an action that makes the piece on OSD 2 stable, and a
further object with such an action on OSD 1 and on OSD 2. -/
def split_actions : List (obj_piece_id_t × flush_action_t) :=
  (List.range 512).map (fun i => sample_action (i + 1) 2 false true) ++
    [sample_action 513 1 false true, sample_action 513 2 false true]

/-- A sample of 512 objects with an action that rolls the piece on OSD 2 back, and a
further object with such an action on OSD 1 and on OSD 2. -/
def long_rollback_actions : List (obj_piece_id_t × flush_action_t) :=
  (List.range 512).map (fun i => sample_action (i + 1) 2 true false) ++
    [sample_action 513 1 true false, sample_action 513 2 true false]

/-- A sample PG, active with unclean objects, that holds the given flush actions. -/
def sample_pg (acts : List (obj_piece_id_t × flush_action_t)) : pg_t :=
  { pool_id := 1, pg_num := 1, state := 8 + 2048, inflight := 0, flush_batch := none,
    flush_actions := acts, ver_override := [], write_queue := [], degraded_objects := [],
    misplaced_objects := [] }

/-- A sample OSD, number 1, that holds the given PGs. -/
def sample_osd (pgs : List (pool_pg_num_t × pg_t)) : osd_t :=
  { osd_num := 1, no_recovery := false, no_rebalance := false, recovery_queue_depth := 4,
    pgs := pgs, batches := [], osd_peer_fds := [(2, 7)], next_subop_id := 1,
    recovery_ops := [], calls := [] }

/-- A sample PG whose batch, at address 1, holds the first of its two actions. -/
def sample_batch_pg : pg_t :=
  { pool_id := 1, pg_num := 1, state := 8 + 2048, inflight := 0, flush_batch := some 1,
    flush_actions := [mark_submitted (sample_action 1 2 false true),
                      sample_action 2 2 false true],
    ver_override := [], write_queue := [], degraded_objects := [], misplaced_objects := [] }

/-- The batch of `sample_batch_pg`: one sub-operation, not yet done. -/
def sample_batch : pg_flush_batch_t :=
  { flush_ops := 1, flush_done := 0, flush_objects := 1, rollback_lists := [],
    stable_lists := [(2, [{ oid := { inode := 1, stripe := 0 }, version := 1 }])] }

/-- A sample OSD that holds `sample_batch_pg` and its batch. -/
def sample_flush_osd : osd_t :=
  { osd_num := 1, no_recovery := false, no_rebalance := false, recovery_queue_depth := 4,
    pgs := [({ pool_id := 1, pg_num := 1 }, sample_batch_pg)], batches := [(1, sample_batch)],
    osd_peer_fds := [(2, 7)], next_subop_id := 1, recovery_ops := [], calls := [] }

/-- A sample OSD with object 5 degraded in an active PG and object 6 misplaced in another
active PG. -/
def sample_recovery_osd : osd_t :=
  { osd_num := 1, no_recovery := false, no_rebalance := false, recovery_queue_depth := 4,
    pgs := [({ pool_id := 1, pg_num := 1 },
             { pool_id := 1, pg_num := 1, state := 8 + 512, inflight := 0, flush_batch := none,
               flush_actions := [], ver_override := [], write_queue := [],
               degraded_objects := [({ inode := 5, stripe := 0 }, 0)],
               misplaced_objects := [] }),
            ({ pool_id := 1, pg_num := 2 },
             { pool_id := 1, pg_num := 2, state := 8 + 1024, inflight := 0, flush_batch := none,
               flush_actions := [], ver_override := [], write_queue := [],
               degraded_objects := [],
               misplaced_objects := [({ inode := 6, stripe := 0 }, 0)] })],
    batches := [], osd_peer_fds := [], next_subop_id := 1, recovery_ops := [], calls := [] }

end Flush

/-! ## src/etcd_state_client.cpp -/

namespace Etcd

/-- A JSON value as the json11 library holds it. A `std::string` is the list of its
characters, an object the list of its members in key order; numbers are integers. -/
inductive json where
  | null
  | bool (b : Bool)
  | num (n : Int)
  | str (s : List Char)
  | arr (items : List json)
  | obj (items : List (List Char × json))

/-- `operator[](const std::string &)` of json11: the member of an object, null for a
missing member and for a value that is not an object. -/
def json.get (v : json) (key : List Char) : json :=
  match v with
  | json.obj items => (map_find items key).getD json.null
  | _ => json.null

/-- `array_items()` of json11: empty for a value that is not an array. -/
def json.array_items (v : json) : List json :=
  match v with
  | json.arr items => items
  | _ => []

/-- `object_items()` of json11: empty for a value that is not an object. -/
def json.object_items (v : json) : List (List Char × json) :=
  match v with
  | json.obj items => items
  | _ => []

/-- `string_value()` of json11: empty for a value that is not a string. -/
def json.string_value (v : json) : List Char :=
  match v with
  | json.str s => s
  | _ => []

/-- `bool_value()` of json11: false for a value that is not a boolean. -/
def json.bool_value (v : json) : Bool :=
  match v with
  | json.bool b => b
  | _ => false

/-- `uint64_value()`: the number as a `uint64_t`, zero for a value that is not a number. -/
def json.uint64_value (v : json) : Nat :=
  match v with
  | json.num n => (n % 2 ^ 64).toNat
  | _ => 0

/-- `int64_value()`: the number as an `int64_t`, zero for a value that is not a number. -/
def json.int64_value (v : json) : Int :=
  match v with
  | json.num n => (n + 2 ^ 63) % 2 ^ 64 - 2 ^ 63
  | _ => 0

/-- `is_null()` of json11. -/
def json.is_null (v : json) : Bool :=
  match v with
  | json.null => true
  | _ => false

/-- `is_array()` of json11. -/
def json.is_array (v : json) : Bool :=
  match v with
  | json.arr _ => true
  | _ => false

/-- `is_object()` of json11. -/
def json.is_object (v : json) : Bool :=
  match v with
  | json.obj _ => true
  | _ => false

/-- The comparison `v == "..."` of json11 with a string: `v` is that string. -/
def json.eq_str (v : json) (s : List Char) : Bool :=
  match v with
  | json.str t => decide (t = s)
  | _ => false

/-- The result of `parse_etcd_kv`. -/
structure json_kv_t where
  key : List Char
  value : json

/-- The fields of `pg_config_t`. The field `exists` is `exists_` here. -/
structure pg_config_t where
  exists_ : Bool
  primary : Nat
  target_set : List Nat
  target_history : List (List Nat)
  all_peers : List Nat
  pause : Bool
  cur_primary : Nat
  cur_state : Nat
deriving DecidableEq, Repr

/-- The element `operator[]` inserts into `pg_config` for a new PG. -/
def pg_config_t.zero : pg_config_t :=
  { exists_ := false, primary := 0, target_set := [], target_history := [], all_peers := [],
    pause := false, cur_primary := 0, cur_state := 0 }

/-- The fields of `etcd_state_client_t` that the watcher and `parse_state` read or write.
The calls of `on_change_hook` are logged with the keys of the changes they are given. -/
structure etcd_state_client_t where
  etcd_prefix : List Char
  etcd_watches_initialised : Int
  etcd_watch_revision : Nat
  pg_config : List (Nat × pg_config_t)
  peer_states : List (Nat × json)
  on_change_hook : List (List (List Char))

/-- Functions and constants whose definitions are not part of the sources at hand:
`base64_decode`; `json11::Json::parse`, which yields the value and the error text;
`stoull_full`, which yields zero for a string that is not a number; `std::stoull`, `none`
when it throws; `pg_state_names` paired with `pg_state_bits`; and three of the PG state
bits. -/
structure helpers where
  base64_decode : List Char → List Char
  json_parse : List Char → json × List Char
  stoull_full : List Char → Nat
  stoull : List Char → Option Nat
  pg_states : List (List Char × Nat)
  PG_OFFLINE : Nat
  PG_PEERING : Nat
  PG_INCOMPLETE : Nat

/-- The order of `std::string` keys: by character, a proper prefix first. -/
def str_lt : List Char → List Char → Bool
  | [], [] => false
  | [], _ :: _ => true
  | _ :: _, [] => false
  | a :: s, b :: t => decide (a.toNat < b.toNat) || (decide (a = b) && str_lt s t)

/-- The text "key". -/
def s_key : List Char := ['k', 'e', 'y']
/-- The text "value". -/
def s_value : List Char := ['v', 'a', 'l', 'u', 'e']
/-- The text "kv". -/
def s_kv : List Char := ['k', 'v']
/-- The text "result". -/
def s_result : List Char := ['r', 'e', 's', 'u', 'l', 't']
/-- The text "created". -/
def s_created : List Char := ['c', 'r', 'e', 'a', 't', 'e', 'd']
/-- The text "header". -/
def s_header : List Char := ['h', 'e', 'a', 'd', 'e', 'r']
/-- The text "revision". -/
def s_revision : List Char := ['r', 'e', 'v', 'i', 's', 'i', 'o', 'n']
/-- The text "events". -/
def s_events : List Char := ['e', 'v', 'e', 'n', 't', 's']
/-- The text "items". -/
def s_items : List Char := ['i', 't', 'e', 'm', 's']
/-- The text "pause". -/
def s_pause : List Char := ['p', 'a', 'u', 's', 'e']
/-- The text "primary". -/
def s_primary : List Char := ['p', 'r', 'i', 'm', 'a', 'r', 'y']
/-- The text "osd_set". -/
def s_osd_set : List Char := ['o', 's', 'd', '_', 's', 'e', 't']
/-- The text "osd_sets". -/
def s_osd_sets : List Char := ['o', 's', 'd', '_', 's', 'e', 't', 's']
/-- The text "all_peers". -/
def s_all_peers : List Char := ['a', 'l', 'l', '_', 'p', 'e', 'e', 'r', 's']
/-- The text "state". -/
def s_state : List Char := ['s', 't', 'a', 't', 'e']
/-- The text "up". -/
def s_up : List Char := ['u', 'p']
/-- The text "addresses". -/
def s_addresses : List Char := ['a', 'd', 'd', 'r', 'e', 's', 's', 'e', 's']
/-- The text "port". -/
def s_port : List Char := ['p', 'o', 'r', 't']
/-- The text "/config/pgs". -/
def s_config_pgs : List Char := ['/', 'c', 'o', 'n', 'f', 'i', 'g', '/', 'p', 'g', 's']
/-- The text "/pg/history/". -/
def s_pg_history : List Char := ['/', 'p', 'g', '/', 'h', 'i', 's', 't', 'o', 'r', 'y', '/']
/-- The text "/pg/state/". -/
def s_pg_state : List Char := ['/', 'p', 'g', '/', 's', 't', 'a', 't', 'e', '/']
/-- The text "/osd/state/". -/
def s_osd_state : List Char := ['/', 'o', 's', 'd', '/', 's', 't', 'a', 't', 'e', '/']

/-- `etcd_state_client_t::parse_etcd_kv`: the key and the parsed value of an event; the key
is empty when the value is not valid JSON. An empty value text is the null value. -/
def parse_etcd_kv (h : helpers) (kv_json : json) : json_kv_t :=
  let key := h.base64_decode (kv_json.get s_key).string_value
  let json_text := h.base64_decode (kv_json.get s_value).string_value
  let parsed := if json_text = [] then (json.null, []) else h.json_parse json_text
  if parsed.2 ≠ [] then { key := [], value := parsed.1 } else { key := key, value := parsed.1 }

/-- `resize` of a `std::vector` of numbers. -/
def resize (n : Nat) (l : List Nat) : List Nat :=
  l.take n ++ List.replicate (n - l.length) 0

/-- The value of the type `pg_num_t`, 32 bits wide, for a 64-bit number. -/
def to_pg_num (n : Nat) : Nat := n % 2 ^ 32

/-- The PG number the loop over `items` of `/config/pgs` reads from the key of an item. -/
def item_pg_num (h : helpers) (pg_item : List Char × json) : Nat :=
  to_pg_num (h.stoull_full pg_item.1)

/-- What the body of the loop over `items` of `/config/pgs` does to the element of the PG. -/
def set_pg_config (item : json) (c : pg_config_t) : pg_config_t :=
  let c1 := { c with exists_ := true }
  let c2 := { c1 with pause := (item.get s_pause).bool_value }
  let c3 := { c2 with primary := (item.get s_primary).uint64_value }
  let c4 := { c3 with target_set := (item.get s_osd_set).array_items.map json.uint64_value }
  if c4.target_set.length ≠ 3 then
    { c4 with target_set := resize 3 c4.target_set, pause := true }
  else c4

/-- One round of the loop over `items` of `/config/pgs`. -/
def parse_pg_item (h : helpers) (cfg : List (Nat × pg_config_t)) (pg_item : List Char × json) :
    List (Nat × pg_config_t) :=
  let pg_num := item_pg_num h pg_item
  if pg_num = 0 then cfg
  else map_update nat_lt pg_config_t.zero (set_pg_config pg_item.2) cfg pg_num

/-- The loop over the state names of `/pg/state/<n>`: `none` when a name is not one of
`pg_state_names`, the state with the bits of the names otherwise. -/
def parse_state_names (h : helpers) : Nat → List json → Option Nat
  | state, [] => some state
  | state, e :: rest =>
    match map_find h.pg_states e.string_value with
    | some bit => parse_state_names h (state ||| bit) rest
    | none => none

/-- The test of `/pg/state/<n>` that refuses a primary and state. -/
def bad_pg_state (h : helpers) (cur_primary : Nat) (value : json) (state : Nat) : Bool :=
  cur_primary == 0 || !(value.get s_state).is_array || state == 0 ||
    (state &&& h.PG_OFFLINE != 0 && state != h.PG_OFFLINE) ||
    (state &&& h.PG_PEERING != 0 && state != h.PG_PEERING) ||
    (state &&& h.PG_INCOMPLETE != 0 && state != h.PG_INCOMPLETE)

/-- The test of `/osd/state/<n>` that takes the value as the state of a live peer. -/
def is_up (value : json) : Bool :=
  value.is_object && (value.get s_state).eq_str s_up && (value.get s_addresses).is_array &&
    decide (0 < (value.get s_port).int64_value) && decide ((value.get s_port).int64_value < 65536)

/-- `etcd_state_client_t::parse_state`. -/
def parse_state (h : helpers) (st : etcd_state_client_t) (key : List Char) (value : json) :
    Except fault etcd_state_client_t :=
  if key = st.etcd_prefix ++ s_config_pgs then
    let cleared := st.pg_config.map (fun e => (e.1, { e.2 with exists_ := false }))
    let cfg := (value.get s_items).object_items.foldl (parse_pg_item h) cleared
    Except.ok { st with pg_config := cfg }
  else if key.take (st.etcd_prefix.length + 12) = st.etcd_prefix ++ s_pg_history then
    let pg_num := to_pg_num (h.stoull_full (key.drop (st.etcd_prefix.length + 12)))
    if pg_num = 0 then Except.ok st
    else
      let hist := (value.get s_osd_sets).array_items.map
        (fun hist_item => hist_item.array_items.map json.uint64_value)
      let peers := (value.get s_all_peers).array_items.map json.uint64_value
      let cfg := map_update nat_lt pg_config_t.zero
        (fun c => { c with target_history := hist, all_peers := peers }) st.pg_config pg_num
      Except.ok { st with pg_config := cfg }
  else if key.take (st.etcd_prefix.length + 10) = st.etcd_prefix ++ s_pg_state then
    let pg_num := to_pg_num (h.stoull_full (key.drop (st.etcd_prefix.length + 10)))
    if pg_num = 0 then Except.ok st
    else if value.is_null then
      let cfg := map_update nat_lt pg_config_t.zero
        (fun c => { c with cur_primary := 0, cur_state := 0 }) st.pg_config pg_num
      Except.ok { st with pg_config := cfg }
    else
      let cur_primary := (value.get s_primary).uint64_value
      match parse_state_names h 0 (value.get s_state).array_items with
      | none => Except.ok st
      | some state =>
        if bad_pg_state h cur_primary value state then Except.ok st
        else
          let cfg := map_update nat_lt pg_config_t.zero
            (fun c => { c with cur_primary := cur_primary, cur_state := state })
            st.pg_config pg_num
          Except.ok { st with pg_config := cfg }
  else if key.take (st.etcd_prefix.length + 11) = st.etcd_prefix ++ s_osd_state then
    match h.stoull (key.drop (st.etcd_prefix.length + 11)) with
    | none => Except.error (fault.thrown "stoull")
    | some peer_osd =>
      if 0 < peer_osd then
        if is_up value then
          let peers := map_update nat_lt value (fun _ => value) st.peer_states peer_osd
          Except.ok { st with peer_states := peers }
        else Except.ok { st with peer_states := map_erase st.peer_states peer_osd }
      else Except.ok st
  else Except.ok st

/-- The first loop of the watcher: the changes of the events, one per key, a later event
of a key taking the place of an earlier one. -/
def gather_changes (h : helpers) : List (List Char × json) → List json →
    List (List Char × json)
  | changes, [] => changes
  | changes, ev :: rest =>
    let kv := parse_etcd_kv h (ev.get s_kv)
    if kv.key ≠ [] then
      gather_changes h (map_update str_lt json.null (fun _ => kv.value) changes kv.key) rest
    else gather_changes h changes rest

/-- The second loop of the watcher: `parse_state` for each change, in key order. -/
def parse_changes (h : helpers) : etcd_state_client_t → List (List Char × json) →
    Except fault etcd_state_client_t
  | st, [] => Except.ok st
  | st, kv :: rest =>
    match parse_state h st kv.1 kv.2 with
    | Except.ok st1 => parse_changes h st1 rest
    | Except.error e => Except.error e

/-- The events of a watcher message. -/
def watch_events (data : json) : List json :=
  ((data.get s_result).get s_events).array_items

/-- The changes the first loop of the watcher gathers from the message `data`; the second
loop calls `parse_state` for each of them. -/
def watch_changes (h : helpers) (data : json) : List (List Char × json) :=
  gather_changes h [] (watch_events data)

/-- What the watcher does with a message whose body is the JSON value `data`. -/
def on_watch_data (h : helpers) (st : etcd_state_client_t) (data : json) :
    Except fault etcd_state_client_t :=
  let result := data.get s_result
  let st1 := if (result.get s_created).bool_value then
      { st with etcd_watches_initialised := st.etcd_watches_initialised + 1 }
    else st
  let st2 := if st1.etcd_watches_initialised = 4 then
      { st1 with etcd_watch_revision := ((result.get s_header).get s_revision).uint64_value }
    else st1
  let changes := watch_changes h data
  match parse_changes h st2 changes with
  | Except.ok st3 =>
    Except.ok { st3 with on_change_hook := st3.on_change_hook ++ [changes.map Prod.fst] }
  | Except.error e => Except.error e

/-- The keys and values `parse_etcd_kv` yields for the events of a message. -/
def event_kvs (h : helpers) (events : List json) : List json_kv_t :=
  events.map (fun ev => parse_etcd_kv h (ev.get s_kv))

/-- Among `kvs`, the last one of key `k` has the value `v`. -/
def last_value (kvs : List json_kv_t) (k : List Char) (v : json) : Prop :=
  ∃ pre post, kvs = pre ++ { key := k, value := v } :: post ∧ ∀ x ∈ post, x.key ≠ k

/-- The state with the bits of all the names, each a name of `pg_state_names`. -/
def named_state (h : helpers) (names : List json) (state : Nat) : Prop :=
  ∃ bits : List Nat, List.Forall₂ (fun e bit => map_find h.pg_states e.string_value = some bit)
    names bits ∧ state = bits.foldl (fun s bit => s ||| bit) 0

/-- What the claim about `/pg/state/<n>` asks of a value for its primary and state to be
stored: the primary is not zero, `state` is an array of known state names whose bits make
`state`, which is not zero and is `OFFLINE`, `PEERING` or `INCOMPLETE` alone or holds none
of the three. -/
def accepted_pg_state (h : helpers) (value : json) (state : Nat) : Prop :=
  (value.get s_primary).uint64_value ≠ 0 ∧ (value.get s_state).is_array = true ∧
  named_state h (value.get s_state).array_items state ∧ state ≠ 0 ∧
  (state = h.PG_OFFLINE ∨ state = h.PG_PEERING ∨ state = h.PG_INCOMPLETE ∨
    (state &&& h.PG_OFFLINE = 0 ∧ state &&& h.PG_PEERING = 0 ∧
      state &&& h.PG_INCOMPLETE = 0))

/-- What the claim about `/osd/state/<n>` asks of a value for the peer to be up: an object
whose `state` is the string "up", whose `addresses` is an array and whose `port` is a
number that, as an `int64_t`, lies in 1..65535. -/
def up_value (value : json) : Prop :=
  (∃ items, value = json.obj items) ∧ value.get s_state = json.str s_up ∧
  (∃ l, value.get s_addresses = json.arr l) ∧
  ∃ p, value.get s_port = json.num p ∧ 1 ≤ (json.num p).int64_value ∧
    (json.num p).int64_value ≤ 65535

/-- A number in decimal digits, for the samples. -/
def sample_number : Nat → List Char → Option Nat
  | _, [] => none
  | acc, [c] => if c.isDigit then some (acc * 10 + (c.toNat - 48)) else none
  | acc, c :: d :: rest =>
    if c.isDigit then sample_number (acc * 10 + (c.toNat - 48)) (d :: rest) else none

/-- Sample helpers: texts are taken as they are, the texts "1" and "true" parse as JSON and
no other does, and the PG states are one bit each. -/
def sample_helpers : helpers :=
  { base64_decode := fun s => s,
    json_parse := fun t =>
      if t = ['1'] then (json.num 1, [])
      else if t = ['t', 'r', 'u', 'e'] then (json.bool true, [])
      else (json.null, ['b', 'a', 'd']),
    stoull_full := fun s => (sample_number 0 s).getD 0,
    stoull := fun s => sample_number 0 s,
    pg_states := [(['p', 'e', 'e', 'r', 'i', 'n', 'g'], 2),
                  (['i', 'n', 'c', 'o', 'm', 'p', 'l', 'e', 't', 'e'], 4),
                  (['a', 'c', 't', 'i', 'v', 'e'], 8),
                  (['o', 'f', 'f', 'l', 'i', 'n', 'e'], 64),
                  (['d', 'e', 'g', 'r', 'a', 'd', 'e', 'd'], 128)],
    PG_OFFLINE := 64, PG_PEERING := 2, PG_INCOMPLETE := 4 }

/-- A sample client with the prefix "/v" that knows nothing yet. -/
def sample_client : etcd_state_client_t :=
  { etcd_prefix := ['/', 'v'], etcd_watches_initialised := 4, etcd_watch_revision := 0,
    pg_config := [], peer_states := [], on_change_hook := [] }

/-- A sample watch event with the given key and value text. -/
def sample_event (key value : List Char) : json :=
  json.obj [(s_kv, json.obj [(s_key, json.str key), (s_value, json.str value)])]

/-- A sample value for a `/pg/state/<n>` key: primary 1, state active. -/
def sample_pg_state : json :=
  json.obj [(s_primary, json.num 1), (s_state, json.arr [json.str ['a', 'c', 't', 'i', 'v', 'e']])]

/-- A sample value for an `/osd/state/<n>` key: a live peer at port 11203. -/
def sample_osd_state : json :=
  json.obj [(s_addresses, json.arr [json.str ['h']]), (s_port, json.num 11203),
            (s_state, json.str s_up)]

/-- A sample watcher message with the given events. -/
def sample_message (events : List json) : json :=
  json.obj [(s_result, json.obj [(s_events, json.arr events)])]

end Etcd

/-! ## src/blockstore_stable.cpp, completion of the journal writes -/

namespace Stable

/-- The state constants that `handle_stable_event` names; they come from a header that
blockstore_stable.cpp includes. -/
structure state_names where
  ST_J_SYNCED : Nat
  ST_J_STABLE : Nat
  ST_D_META_SYNCED : Nat
  ST_D_STABLE : Nat
deriving DecidableEq, Repr

/-- The position of the element that `find` returns, `none` for `end()`. -/
def map_index {κ β : Type} [DecidableEq κ] : List (κ × β) → κ → Option Nat
  | [], _ => none
  | (k, _) :: rest, x => if k = x then some 0 else (map_index rest x).map (· + 1)

/-- Lines 147-154: the assignment to `dirty_it->second.state`. -/
def stabilize (c : state_names) (d : dirty_entry) : dirty_entry :=
  if d.state = c.ST_J_SYNCED then { d with state := c.ST_J_STABLE }
  else if d.state = c.ST_D_META_SYNCED then { d with state := c.ST_D_STABLE }
  else d

/-- Lines 147-154 with `dirty_it` at position `i` of `dirty_db`. -/
def stabilize_at (c : state_names) :
    List (obj_ver_id × dirty_entry) → Nat → List (obj_ver_id × dirty_entry)
  | [], _ => []
  | (k, d) :: rest, 0 => (k, stabilize c d) :: rest
  | p :: rest, i + 1 => p :: stabilize_at c rest i

/-- The test `dirty_it->first.oid == v->oid` with `dirty_it` at position `i`. -/
def oid_at (db : List (obj_ver_id × dirty_entry)) (i : Nat) (oid : object_id) : Bool :=
  match db.get? i with
  | none => false
  | some (k, _) => decide (k.oid = oid)

/-- The `do ... while` of lines 145-156 with `dirty_it` at position `i`: the assignment,
`dirty_it--`, then the test `dirty_it != dirty_db.begin() && dirty_it->first.oid == v->oid`.
At position 0 the decrement moves the iterator before `begin()`, which is undefined. -/
def mark_stable_from (c : state_names) (oid : object_id) :
    List (obj_ver_id × dirty_entry) → Nat → Option (List (obj_ver_id × dirty_entry))
  | _, 0 => none
  | db, i + 1 =>
    let db1 := stabilize_at c db (i + 1)
    if i ≠ 0 ∧ oid_at db1 i oid = true then mark_stable_from c oid db1 i
    else some db1

/-- One iteration of the `for` of lines 136-161: the entries of `v` are marked, then the
operation is acknowledged. -/
def stable_item (c : state_names)
    (st : List (obj_ver_id × dirty_entry) × blockstore_operation) (v : obj_ver_id) :
    Option (List (obj_ver_id × dirty_entry) × blockstore_operation) :=
  let marked :=
    match map_index st.1 v with
    | none => some st.1
    | some i => mark_stable_from c v.oid st.1 i
  match marked with
  | none => none
  | some db1 => some (db1, ({ st.2 with retval := 0 }).callback)

/-- The `for` of lines 136-161 over the versions still to visit. -/
def stable_items (c : state_names) :
    List (obj_ver_id × dirty_entry) × blockstore_operation → List obj_ver_id →
    Option (List (obj_ver_id × dirty_entry) × blockstore_operation)
  | st, [] => some st
  | st, v :: rest =>
    match stable_item c st v with
    | none => none
    | some st1 => stable_items c st1 rest

/-- `blockstore::handle_stable_event`; `res` is `data->res`. -/
def handle_stable_event (c : state_names) (res : Int) (bs : blockstore)
    (op : blockstore_operation) : Except fault (blockstore × blockstore_operation) :=
  if res < 0 then
    .error (.thrown "write operation failed. in-memory state is corrupted. AAAAAAAaaaaaaaaa!!!111")
  else
    let op1 := { op with pending_ops := op.pending_ops - 1 }
    if op1.pending_ops = 0 then
      match stable_items c (bs.dirty_db, op1) op1.buf with
      | none => .error .undefined
      | some (db1, op2) => .ok ({ bs with dirty_db := db1 }, op2)
    else .ok (bs, op1)

/-- `dequeue_stable` followed by the completions `events` of the journal writes it
submitted, each with its `data->res`; `none` when `dequeue_stable` is undefined. -/
def stabilize_run (h : helpers) (c : state_names) (bs : blockstore)
    (op : blockstore_operation) (events : List Int) :
    Option (Except fault (blockstore × blockstore_operation)) :=
  match dequeue_stable h bs op with
  | none => none
  | some r =>
    some (events.foldl
      (fun acc res =>
        match acc with
        | .error e => .error e
        | .ok (bs1, op1) => handle_stable_event c res bs1 op1)
      (.ok (r.bs, r.op)))

/-- The state constants that go with `sample_helpers`. -/
def sample_names : state_names :=
  { ST_J_SYNCED := 4, ST_J_STABLE := 5, ST_D_META_SYNCED := 20, ST_D_STABLE := 21 }

/-- A sample blockstore: the first object of the dirty index has two journal-synced
versions, the next one a synced version with its data on the data device. -/
def sample_synced_bs : blockstore :=
  { dirty_db := [(⟨⟨1, 0⟩, 1⟩, { state := 4, location := 0, offset := 0, size := 0 }),
                 (⟨⟨1, 0⟩, 2⟩, { state := 4, location := 0, offset := 0, size := 0 }),
                 (⟨⟨2, 0⟩, 1⟩, { state := 20, location := 0, offset := 0, size := 0 })],
    clean_db := [],
    journal := sample_journal,
    ring := { free_sqes := 8, prepared := [] } }

/-- The state constants that `handle_stable_event` names are numbered as in the header:
each synced state is followed by its stable state, the journal states come first. -/
def names_ordered (c : state_names) : Prop :=
  c.ST_J_SYNCED < c.ST_J_STABLE ∧ c.ST_J_STABLE < c.ST_D_META_SYNCED ∧
  c.ST_D_META_SYNCED < c.ST_D_STABLE

/-- The entry `e1` is the entry `e` as it was, or moved from journal-synced to
journal-stable, or from data-metadata-synced to data-stable. -/
def stabilized (c : state_names) (e e1 : dirty_entry) : Prop :=
  e1 = e ∨ (e.state = c.ST_J_SYNCED ∧ e1 = { e with state := c.ST_J_STABLE }) ∨
  (e.state = c.ST_D_META_SYNCED ∧ e1 = { e with state := c.ST_D_STABLE })

/-- The index `db1` has the keys of the index `db` in the same order, each with its entry
as it was or moved from a synced to the matching stable state. -/
def db_stabilized (c : state_names) (db db1 : List (obj_ver_id × dirty_entry)) : Prop :=
  List.Forall₂ (fun p q => q.1 = p.1 ∧ stabilized c p.2 q.2) db db1

end Stable

/-! ## The checksum chain of the journal -/

/-- The entries, each given by its `crc32_prev` and its `crc32`, are chained: the
`crc32_prev` of each is the `crc32` of the one before it, and that of the first is
`prev`. -/
def crc_chained (prev : Nat) : List (Nat × Nat) → Prop
  | [] => True
  | e :: rest => e.1 = prev ∧ crc_chained e.2 rest

/-- The `crc32` of the last of the entries, `prev` when there is none. -/
def crc_last (prev : Nat) : List (Nat × Nat) → Nat
  | [] => prev
  | e :: rest => crc_last e.2 rest

namespace Stable

/-- The `crc32_prev` and the `crc32` of the logged entries. -/
def crcs (es : List (Nat × journal_entry_stable)) : List (Nat × Nat) :=
  es.map (fun e => (e.2.crc32_prev, e.2.crc32))

/-- What is asked of `prefill_single_journal_entry`: the entry it hands back has the
journal's `crc32_last` as its `crc32_prev`, and the log of the entries filled in, which
only the embedding keeps, is as it was. -/
def prefill_chains (h : helpers) : Prop :=
  ∀ (j : journal_t) (type size : Nat),
    (h.prefill_single_journal_entry j type size).2.crc32_prev = j.crc32_last ∧
    (h.prefill_single_journal_entry j type size).1.entries = j.entries

/-- The journal `j1` is the journal `j` with entries appended that are chained from the
`crc32_last` of `j`, and the `crc32_last` of `j1` is the `crc32` of the last of them. -/
def appended (j j1 : journal_t) : Prop :=
  ∃ es, j1.entries = j.entries ++ es ∧ crc_chained j.crc32_last (crcs es) ∧
    j1.crc32_last = crc_last j.crc32_last (crcs es)

end Stable

namespace Sync

/-- The `crc32_prev` and the `crc32` of the logged entries. -/
def crcs (es : List (Nat × journal_entry_big_write)) : List (Nat × Nat) :=
  es.map (fun e => (e.2.crc32_prev, e.2.crc32))

/-- What is asked of `prefill_single_journal_entry` and of
`prepare_journal_sector_write`: the entry handed back has the journal's `crc32_last` as
its `crc32_prev`, and neither changes `crc32_last` or the log of the entries filled in,
which only the embedding keeps. -/
def prefill_chains (h : helpers) : Prop :=
  (∀ (j : journal_t) (type size : Nat),
    (h.prefill_single_journal_entry j type size).2.crc32_prev = j.crc32_last ∧
    (h.prefill_single_journal_entry j type size).1.entries = j.entries) ∧
  (∀ (j : journal_t) (sector : Nat),
    (h.prepare_journal_sector_write j sector).crc32_last = j.crc32_last ∧
    (h.prepare_journal_sector_write j sector).entries = j.entries)

/-- The journal `j1` is the journal `j` with entries appended that are chained from the
`crc32_last` of `j`, and the `crc32_last` of `j1` is the `crc32` of the last of them. -/
def appended (j j1 : journal_t) : Prop :=
  ∃ es, j1.entries = j.entries ++ es ∧ crc_chained j.crc32_last (crcs es) ∧
    j1.crc32_last = crc_last j.crc32_last (crcs es)

end Sync

namespace Sync

/-- The flow ends in the blockstore `bs1` and the operation `op1`, with a `return` or by
falling through. -/
def flow.ends (f : flow) (bs1 : blockstore_impl_t) (op1 : blockstore_op_t) : Prop :=
  (∃ r, f = .ret r bs1 op1) ∨ f = .go bs1 op1

/-- What is asked of `prefill_single_journal_entry` and of
`prepare_journal_sector_write`: neither changes `journal.used_sectors`. -/
def keeps_used (h : helpers) : Prop :=
  (∀ (j : journal_t) (type size : Nat),
    (h.prefill_single_journal_entry j type size).1.used_sectors = j.used_sectors) ∧
  (∀ (j : journal_t) (sector : Nat),
    (h.prepare_journal_sector_write j sector).used_sectors = j.used_sectors)

/-- The number of the writes `l` whose dirty entry has `journal_sector` equal to `x`. -/
def sector_users (db : List (obj_ver_id × dirty_entry)) (l : List obj_ver_id) (x : Nat) : Nat :=
  l.countP (fun it => decide ((map_read dirty_entry.zero db it).journal_sector = x))

/-- One change of `op_state` out of those the sync state machine is made of. -/
def linear_step (s s1 : Nat) : Prop :=
  (s = 0 ∧ (s1 = SYNC_HAS_BIG ∨ s1 = SYNC_HAS_SMALL ∨ s1 = SYNC_DONE)) ∨
  (s = SYNC_HAS_BIG ∧ (s1 = SYNC_DATA_SYNC_SENT ∨ s1 = SYNC_DATA_SYNC_DONE)) ∨
  (s = SYNC_DATA_SYNC_SENT ∧ s1 = SYNC_DATA_SYNC_DONE) ∨
  (s = SYNC_DATA_SYNC_DONE ∧ s1 = SYNC_JOURNAL_WRITE_SENT) ∨
  (s = SYNC_HAS_SMALL ∧ (s1 = SYNC_JOURNAL_WRITE_SENT ∨ s1 = SYNC_JOURNAL_WRITE_DONE)) ∨
  (s = SYNC_JOURNAL_WRITE_SENT ∧ s1 = SYNC_JOURNAL_WRITE_DONE) ∨
  (s = SYNC_JOURNAL_WRITE_DONE ∧ (s1 = SYNC_JOURNAL_SYNC_SENT ∨ s1 = SYNC_DONE)) ∨
  (s = SYNC_JOURNAL_SYNC_SENT ∧ s1 = SYNC_DONE)

/-- The state `s1` is reached from the state `s` by a sequence of such changes, which may
be empty. -/
def linear_path (s s1 : Nat) : Prop := Relation.ReflTransGen linear_step s s1

/-- The state is one of the three in which requests of the operation are in flight. -/
def is_sent (s : Nat) : Prop :=
  s = SYNC_DATA_SYNC_SENT ∨ s = SYNC_JOURNAL_WRITE_SENT ∨ s = SYNC_JOURNAL_SYNC_SENT

/-- What a block of `continue_sync` does to the state of the operation, to `pending_ops`
and to the ring: the state moves along the changes the machine is made of; and either
nothing is prepared, `pending_ops` is as it was and the state is the same or neither the
old nor the new one is a SENT state, or the operation goes from a state that is not a
SENT state to one that is, and `pending_ops` is the number of the requests prepared,
which is not zero. -/
def stage_lin (bs : blockstore_impl_t) (op : blockstore_op_t) (bs1 : blockstore_impl_t)
    (op1 : blockstore_op_t) : Prop :=
  linear_path op.op_state op1.op_state ∧
  ∃ fresh, bs1.ring.prepared = bs.ring.prepared ++ fresh ∧
    ((fresh = [] ∧ op1.pending_ops = op.pending_ops ∧
        (op1.op_state = op.op_state ∨ (¬ is_sent op.op_state ∧ ¬ is_sent op1.op_state))) ∨
     (¬ is_sent op.op_state ∧ is_sent op1.op_state ∧
        op1.pending_ops = (fresh.length : Int) ∧ fresh ≠ []))

/-- The invariant of the runs of one sync operation that ties `pending_ops` to the
requests in flight: it is their number, and it is zero outside the SENT states. -/
def pending_inv (st : run_state) : Prop :=
  st.op.pending_ops = (st.outstanding.length : Int) ∧
  (st.op.pending_ops ≠ 0 → is_sent st.op.op_state)

/-- The position of a state on the workflow axis: its bits under the workflow mask. -/
def workflow (h : helpers) (state : Nat) : Nat := state &&& h.BS_ST_WORKFLOW_MASK

/-- The workflow values that `ack_sync` names are numbered in the order of the axis:
WAIT_BIG is not above IN_FLIGHT, and IN_FLIGHT is below SYNCED. -/
def workflow_ordered (h : helpers) : Prop :=
  h.BS_ST_WAIT_BIG ≤ h.BS_ST_IN_FLIGHT ∧ h.BS_ST_IN_FLIGHT < h.BS_ST_SYNCED

/-- The entry `e1` is the entry `e` not moved backwards: its position on the workflow axis
is that of `e` or a later one, and its bits outside the workflow mask, the kind and the
INSTANT flag, are those of `e`. -/
def forward (h : helpers) (e e1 : dirty_entry) : Prop :=
  workflow h e.state ≤ workflow h e1.state ∧
  and_not e1.state h.BS_ST_WORKFLOW_MASK = and_not e.state h.BS_ST_WORKFLOW_MASK

/-- The entry `e1` is the entry `e` not moved backwards, and still before SYNCED if `e`
was. -/
def calm (h : helpers) (e e1 : dirty_entry) : Prop :=
  forward h e e1 ∧ (workflow h e.state < h.BS_ST_SYNCED → workflow h e1.state < h.BS_ST_SYNCED)

/-- From the index `db` to the index `db1` no entry was moved backwards or removed, no
entry that was before SYNCED has reached it, and no key was added. -/
def db_calm (h : helpers) (db db1 : List (obj_ver_id × dirty_entry)) : Prop :=
  (∀ k e, map_find db k = some e → ∃ e1, map_find db1 k = some e1 ∧ calm h e e1) ∧
  (∀ k, map_find db k = none → map_find db1 k = none)

/-- What is asked of `mark_stable`: it moves no dirty entry backwards and removes none, it
leaves the entries that are before SYNCED before SYNCED, and it adds no key. -/
def mark_stable_forward (h : helpers) : Prop :=
  ∀ (db : List (obj_ver_id × dirty_entry)) (uw : List (object_id × Nat)) (v : obj_ver_id),
    db_calm h db (h.mark_stable (db, uw) v).1

/-- From the index `db` to the index `db1` no entry was moved backwards or removed; and
for the keys outside `l`, no entry that was before SYNCED has reached it and no key was
added. -/
def db_acked (h : helpers) (l : List obj_ver_id) (db db1 : List (obj_ver_id × dirty_entry)) :
    Prop :=
  (∀ k e, map_find db k = some e → ∃ e1, map_find db1 k = some e1 ∧ forward h e e1 ∧
    (k ∉ l → workflow h e.state < h.BS_ST_SYNCED → workflow h e1.state < h.BS_ST_SYNCED)) ∧
  (∀ k, k ∉ l → map_find db k = none → map_find db1 k = none)

/-- The writes `l` are not yet synced in the index `db`: the entry of each, if there is
one, is before SYNCED on the workflow axis. -/
def unsynced_in (h : helpers) (db : List (obj_ver_id × dirty_entry)) (l : List obj_ver_id) :
    Prop :=
  ∀ it ∈ l, ∀ e, map_find db it = some e → workflow h e.state < h.BS_ST_SYNCED

end Sync

namespace Flush

/-- A sample PG whose batch, at address 1, holds the action of object 1, while the action
of object 2 is left for a later batch. Both objects have a version override, and a write
of object 2, the operation at address 77, waits in the write queue. -/
def sample_override_pg : pg_t :=
  { sample_batch_pg with
    ver_override := [({ inode := 1, stripe := 0 }, 1), ({ inode := 2, stripe := 0 }, 1)],
    write_queue := [({ inode := 2, stripe := 0 }, 77)] }

/-- A sample OSD that holds `sample_override_pg` and its batch. -/
def sample_override_osd : osd_t :=
  { sample_flush_osd with pgs := [({ pool_id := 1, pg_num := 1 }, sample_override_pg)] }

end Flush

/-! ## src/src/msgr_send.cpp -/

namespace Msgr

/-- `sizeof(int)` on the platforms the program is built for (Linux on x86-64 and
arm64): the step of pointer arithmetic on an `int*`. -/
def sizeof_int : Nat := 4

/-- `struct iovec`; `iov_base` is an address. -/
structure iovec where
  iov_base : Nat
  iov_len : Nat
deriving DecidableEq, Repr

/-- One element of an outbox; `op` is the address of the operation. -/
structure msgr_sendp_t where
  op : Nat
  flags : Nat
deriving DecidableEq, Repr

/-- `struct timespec`. -/
structure timespec where
  tv_sec : Int
  tv_nsec : Int
deriving DecidableEq, Repr

/-- The fields of a request header that msgr_send.cpp reads. -/
structure osd_op_header_t where
  id : Nat
  opcode : Nat
deriving DecidableEq, Repr

/-- The fields of `req.rw` that msgr_send.cpp reads. -/
structure osd_op_rw_t where
  len : Nat
deriving DecidableEq, Repr

/-- The fields of `req.sec_rw` that msgr_send.cpp reads. -/
structure osd_op_sec_rw_t where
  len : Nat
  attr_len : Nat
deriving DecidableEq, Repr

/-- The fields of `req.sec_read_bmp` that msgr_send.cpp reads. -/
structure osd_op_sec_read_bmp_t where
  len : Nat
deriving DecidableEq, Repr

/-- The request of an operation. In the source it is a union whose member is chosen by
the opcode; here each member that is read has a field of its own. `buf` is the address
of the packet. -/
structure osd_any_op_t where
  buf : Nat
  hdr : osd_op_header_t
  rw : osd_op_rw_t
  sec_rw : osd_op_sec_rw_t
  sec_read_bmp : osd_op_sec_read_bmp_t
deriving DecidableEq, Repr

/-- The fields of a reply header that msgr_send.cpp reads. -/
structure osd_reply_header_t where
  retval : Int
deriving DecidableEq, Repr

/-- The fields of `reply.sec_rw` that msgr_send.cpp reads. -/
structure osd_reply_sec_rw_t where
  attr_len : Nat
deriving DecidableEq, Repr

/-- The reply of an operation; `buf` is the address of the packet. -/
structure osd_any_reply_t where
  buf : Nat
  hdr : osd_reply_header_t
  sec_rw : osd_reply_sec_rw_t
deriving DecidableEq, Repr

/-- An operation. `addr` is its address, `bitmap` and `buf` are addresses, `iov` is
`iov.buf[0 .. iov.count)`. -/
structure osd_op_t where
  addr : Nat
  peer_fd : Int
  op_type : Nat
  tv_begin : timespec
  tv_end : timespec
  req : osd_any_op_t
  reply : osd_any_reply_t
  bitmap : Nat
  buf : Nat
  iov : List iovec
deriving DecidableEq, Repr

/-- A client. `write_msg_iovlen` is `write_msg.msg_iovlen`; `write_msg.msg_iov` always
points at the data of `send_list` and is left out. `sent_ops` maps a request id to the
address of the operation, `received_ops` holds addresses. `freed` is set by `delete cl`. -/
structure osd_client_t where
  peer_fd : Int
  peer_state : Nat
  refs : Int
  received_ops : List Nat
  sent_ops : List (Nat × Nat)
  send_list : List iovec
  next_send_list : List iovec
  outbox : List msgr_sendp_t
  next_outbox : List msgr_sendp_t
  write_msg_iovlen : Nat
  write_state : Nat
  freed : Bool
deriving DecidableEq, Repr

/-- Modelled from the spec: the ring loop is not in the sources. It has a number of free
SQEs, `get_sqe` hands one out or returns NULL; the `sendmsg` requests prepared so far
are kept with the descriptor and the `msg_iovlen` of each, and the calls of `wakeup`
are counted. -/
structure ring_loop_t where
  free_sqes : Nat
  prepared : List (Int × Nat)
  wakeups : Nat
deriving DecidableEq, Repr

/-- The counters of `stats`; each array is held as a map from the opcode, a missing key
reads as 0. -/
structure osd_op_stats_t where
  op_stat_sum : List (Nat × Nat)
  op_stat_count : List (Nat × Nat)
  op_stat_bytes : List (Nat × Nat)
deriving DecidableEq, Repr

/-- The part of `osd_messenger_t` that msgr_send.cpp touches. `ringloop` is `none` for a
NULL pointer; `deleted_ops` logs the addresses of the operations deleted. -/
structure osd_messenger_t where
  clients : List (Int × osd_client_t)
  ringloop : Option ring_loop_t
  use_sync_send_recv : Bool
  write_ready_clients : List Int
  stats : osd_op_stats_t
  deleted_ops : List Nat
deriving DecidableEq, Repr

/-- What msgr_send.cpp uses and does not define. -/
structure helpers where
  OSD_OP_IN : Nat
  OSD_OP_OUT : Nat
  OSD_PACKET_SIZE : Nat
  MSGR_SENDP_HDR : Nat
  MSGR_SENDP_FREE : Nat
  CL_WRITE_READY : Nat
  PEER_STOPPED : Nat
  /-- `IOV_MAX` of limits.h -/
  IOV_MAX : Nat
  OSD_OP_MAX : Nat
  OSD_OP_READ : Nat
  OSD_OP_WRITE : Nat
  OSD_OP_SEC_READ : Nat
  OSD_OP_SEC_WRITE : Nat
  OSD_OP_SEC_WRITE_STABLE : Nat
  OSD_OP_SEC_STABILIZE : Nat
  OSD_OP_SEC_ROLLBACK : Nat
  OSD_OP_SEC_LIST : Nat
  OSD_OP_SHOW_CONFIG : Nat
  OSD_OP_SEC_READ_BMP : Nat
  /-- `stop_client(cl->peer_fd)`, on the messenger and the client at hand -/
  stop_client : osd_messenger_t → osd_client_t → osd_messenger_t × osd_client_t
  /-- `sendmsg(peer_fd, &cl->write_msg, MSG_NOSIGNAL)` on the first `msg_iovlen` elements
  of `send_list`, a failure already replaced by `-errno` (lines 190-194) -/
  sendmsg : Int → List iovec → Int

/-- `a[k] = v` on an array held as a map. -/
def array_set (a : List (Nat × Nat)) (k v : Nat) : List (Nat × Nat) :=
  map_update nat_lt 0 (fun _ => v) a k

/-- `osd_messenger_t::measure_exec`; `now` is what `clock_gettime` stores. The counters
are `uint64_t`. -/
def measure_exec (h : helpers) (now : timespec) (stats : osd_op_stats_t) (cur_op : osd_op_t) :
    osd_op_stats_t × osd_op_t :=
  let opcode := cur_op.req.hdr.opcode
  if opcode > h.OSD_OP_MAX then (stats, cur_op)
  else
    let op1 := if cur_op.tv_end.tv_sec = 0 then { cur_op with tv_end := now } else cur_op
    let count1 := (map_read 0 stats.op_stat_count opcode + 1) % 2 ^ 64
    let stats1 :=
      if count1 = 0 then
        { op_stat_count := array_set stats.op_stat_count opcode 1,
          op_stat_sum := array_set stats.op_stat_sum opcode 0,
          op_stat_bytes := array_set stats.op_stat_bytes opcode 0 }
      else { stats with op_stat_count := array_set stats.op_stat_count opcode count1 }
    let spent : Int := (op1.tv_end.tv_sec - op1.tv_begin.tv_sec) * 1000000 +
      Int.tdiv (op1.tv_end.tv_nsec - op1.tv_begin.tv_nsec) 1000
    let sum1 := (((map_read 0 stats1.op_stat_sum opcode : Nat) : Int) + spent) % 2 ^ 64
    let stats2 := { stats1 with op_stat_sum := array_set stats1.op_stat_sum opcode sum1.toNat }
    let bytes := map_read 0 stats2.op_stat_bytes opcode
    if opcode = h.OSD_OP_READ ∨ opcode = h.OSD_OP_WRITE then
      let bytes1 := (bytes + cur_op.req.rw.len) % 2 ^ 64
      ({ stats2 with op_stat_bytes := array_set stats2.op_stat_bytes opcode bytes1 }, op1)
    else if opcode = h.OSD_OP_SEC_READ ∨ opcode = h.OSD_OP_SEC_WRITE ∨
        opcode = h.OSD_OP_SEC_WRITE_STABLE then
      let bytes1 := (bytes + cur_op.req.sec_rw.len) % 2 ^ 64
      ({ stats2 with op_stat_bytes := array_set stats2.op_stat_bytes opcode bytes1 }, op1)
    else (stats2, op1)

/-- What the loop of lines 237-256 of `handle_send` leaves behind: `send_list` from
position `done` on, `done`, and the addresses of the operations deleted. -/
structure sent_t where
  rest : List iovec
  done : Nat
  deleted : List Nat
deriving DecidableEq, Repr

/-- The loop of lines 237-256 of `handle_send` with `result` bytes still to account for;
the lists are `send_list` and `outbox` from position `done` on. Reading `outbox[done]`
past the end of the outbox is undefined. -/
def send_loop (h : helpers) :
    Int → List iovec → List msgr_sendp_t → Nat → List Nat → Option sent_t
  | _, [], _, done, deleted => some { rest := [], done := done, deleted := deleted }
  | result, iov :: rest, outbox, done, deleted =>
    if 0 < result then
      if (iov.iov_len : Int) ≤ result then
        match outbox with
        | [] => none
        | p :: outbox1 =>
          send_loop h (result - iov.iov_len) rest outbox1 (done + 1)
            (if p.flags &&& h.MSGR_SENDP_FREE ≠ 0 then deleted ++ [p.op] else deleted)
      else
        some { rest := { iov_len := iov.iov_len - result.toNat,
                         iov_base := iov.iov_base + sizeof_int * result.toNat } :: rest,
               done := done, deleted := deleted }
    else some { rest := iov :: rest, done := done, deleted := deleted }

/-- `osd_messenger_t::handle_send`, built without RDMA. Using a client that was deleted
is undefined. -/
def handle_send (h : helpers) (result : Int) (m : osd_messenger_t) (cl : osd_client_t) :
    Option (osd_messenger_t × osd_client_t) :=
  if cl.freed then none
  else
    let cl1 := { cl with write_msg_iovlen := 0, refs := cl.refs - 1 }
    if cl1.peer_state = h.PEER_STOPPED then
      if cl1.refs ≤ 0 then some (m, { cl1 with freed := true }) else some (m, cl1)
    else if result < 0 ∧ result ≠ -EAGAIN then
      some (h.stop_client m cl1)
    else
      let sent :=
        if 0 ≤ result then
          match send_loop h result cl1.send_list cl1.outbox 0 [] with
          | none => none
          | some s =>
            let send_list1 := s.rest
            let outbox1 := cl1.outbox.drop s.done
            let cl2 :=
              if cl1.next_send_list.length ≠ 0 then
                { cl1 with send_list := send_list1 ++ cl1.next_send_list,
                           outbox := outbox1 ++ cl1.next_outbox,
                           next_send_list := [],
                           next_outbox := [] }
              else { cl1 with send_list := send_list1, outbox := outbox1 }
            some ({ m with deleted_ops := m.deleted_ops ++ s.deleted },
                  { cl2 with write_state := if 0 < cl2.outbox.length then h.CL_WRITE_READY else 0 })
        else some (m, cl1)
      match sent with
      | none => none
      | some (m1, cl3) =>
        if cl3.write_state ≠ 0 then
          some ({ m1 with write_ready_clients := m1.write_ready_clients ++ [cl3.peer_fd] }, cl3)
        else some (m1, cl3)

/-- `osd_messenger_t::try_send`: the value returned, the messenger and the client. -/
def try_send (h : helpers) (m : osd_messenger_t) (cl : osd_client_t) :
    Option (Bool × osd_messenger_t × osd_client_t) :=
  if cl.freed then none
  else if cl.send_list.length = 0 ∨ 0 < cl.write_msg_iovlen then some (true, m, cl)
  else
    let iovlen := if cl.send_list.length < h.IOV_MAX then cl.send_list.length else h.IOV_MAX
    match (if m.use_sync_send_recv then none else m.ringloop) with
    | some ring =>
      if ring.free_sqes = 0 then some (false, m, cl)
      else
        let ring1 := { ring with free_sqes := ring.free_sqes - 1,
                                 prepared := ring.prepared ++ [(cl.peer_fd, iovlen)] }
        some (true, { m with ringloop := some ring1 },
              { cl with write_msg_iovlen := iovlen, refs := cl.refs + 1 })
    | none =>
      let cl1 := { cl with write_msg_iovlen := iovlen, refs := cl.refs + 1 }
      match handle_send h (h.sendmsg cl1.peer_fd (cl1.send_list.take iovlen)) m cl1 with
      | none => none
      | some (m1, cl2) => some (true, m1, cl2)

/-- The loop of lines 113-116: `try_send` as long as the outbox holds something. The
result is `none` also when the loop has not ended after `fuel` rounds. -/
def send_all (h : helpers) :
    Nat → osd_messenger_t → osd_client_t → Option (osd_messenger_t × osd_client_t)
  | 0, _, _ => none
  | fuel + 1, m, cl =>
    if cl.freed then none
    else if cl.outbox.length ≠ 0 then
      match try_send h m cl with
      | none => none
      | some (_, m1, cl1) => send_all h fuel m1 cl1
    else some (m, cl)

/-- The two lists that `outbox_push` appends to. -/
structure push_t where
  to_send_list : List iovec
  to_outbox : List msgr_sendp_t
deriving DecidableEq, Repr

/-- The loop of lines 84-89 over the elements of `iov.buf` still to visit. -/
def push_data (cur_op : osd_op_t) : List iovec → push_t → Option push_t
  | [], dst => some dst
  | v :: rest, dst =>
    if v.iov_base = 0 then none
    else push_data cur_op rest
      { to_send_list := dst.to_send_list ++ [v],
        to_outbox := dst.to_outbox ++ [{ op := cur_op.addr, flags := 0 }] }

/-- `to_outbox[to_outbox.size()-1].flags |= MSGR_SENDP_FREE`. -/
def free_last (h : helpers) : List msgr_sendp_t → List msgr_sendp_t
  | [] => []
  | [p] => [{ p with flags := p.flags ||| h.MSGR_SENDP_FREE }]
  | p :: q :: rest => p :: free_last h (q :: rest)

/-- Lines 39-102 of `outbox_push`: what is appended to the two lists chosen. -/
def push_op (h : helpers) (cur_op : osd_op_t) (dst : push_t) : Option push_t :=
  let opcode := cur_op.req.hdr.opcode
  -- lines 39-49
  let to1 : push_t :=
    { to_send_list := dst.to_send_list ++
        [{ iov_base := if cur_op.op_type = h.OSD_OP_IN then cur_op.reply.buf else cur_op.req.buf,
           iov_len := h.OSD_PACKET_SIZE }],
      to_outbox := dst.to_outbox ++ [{ op := cur_op.addr, flags := h.MSGR_SENDP_HDR }] }
  -- lines 51-70
  let to2 : push_t :=
    if cur_op.op_type = h.OSD_OP_IN ∧ opcode = h.OSD_OP_SEC_READ ∧
        0 < cur_op.reply.sec_rw.attr_len then
      { to_send_list := to1.to_send_list ++
          [{ iov_base := cur_op.bitmap, iov_len := cur_op.reply.sec_rw.attr_len }],
        to_outbox := to1.to_outbox ++ [{ op := cur_op.addr, flags := 0 }] }
    else if cur_op.op_type = h.OSD_OP_OUT ∧
        (opcode = h.OSD_OP_SEC_WRITE ∨ opcode = h.OSD_OP_SEC_WRITE_STABLE) ∧
        0 < cur_op.req.sec_rw.attr_len then
      { to_send_list := to1.to_send_list ++
          [{ iov_base := cur_op.bitmap, iov_len := cur_op.req.sec_rw.attr_len }],
        to_outbox := to1.to_outbox ++ [{ op := cur_op.addr, flags := 0 }] }
    else to1
  -- lines 72-90
  let with_data : Bool :=
    (if cur_op.op_type = h.OSD_OP_IN then
      decide (opcode = h.OSD_OP_READ ∨ opcode = h.OSD_OP_SEC_READ ∨
        opcode = h.OSD_OP_SEC_LIST ∨ opcode = h.OSD_OP_SHOW_CONFIG)
    else
      decide (opcode = h.OSD_OP_WRITE ∨ opcode = h.OSD_OP_SEC_WRITE ∨
        opcode = h.OSD_OP_SEC_WRITE_STABLE ∨ opcode = h.OSD_OP_SEC_STABILIZE ∨
        opcode = h.OSD_OP_SEC_ROLLBACK ∨ opcode = h.OSD_OP_SHOW_CONFIG)) &&
    decide (0 < cur_op.iov.length)
  match (if with_data then push_data cur_op cur_op.iov to2 else some to2) with
  | none => none
  | some to3 =>
    -- lines 91-98
    let to4 : push_t :=
      if opcode = h.OSD_OP_SEC_READ_BMP then
        { to_send_list :=
            if cur_op.op_type = h.OSD_OP_IN ∧ 0 < cur_op.reply.hdr.retval then
              to3.to_send_list ++
                [{ iov_base := cur_op.buf, iov_len := cur_op.reply.hdr.retval.toNat }]
            else if cur_op.op_type = h.OSD_OP_OUT ∧ 0 < cur_op.req.sec_read_bmp.len then
              to3.to_send_list ++
                [{ iov_base := cur_op.buf, iov_len := cur_op.req.sec_read_bmp.len }]
            else to3.to_send_list,
          to_outbox := to3.to_outbox ++ [{ op := cur_op.addr, flags := 0 }] }
      else to3
    -- lines 99-102
    some (if cur_op.op_type = h.OSD_OP_IN then
      { to4 with to_outbox := free_last h to4.to_outbox } else to4)

/-- The client `cl` is stored back as the client of its descriptor. -/
def put_client (m : osd_messenger_t) (cl : osd_client_t) : osd_messenger_t :=
  { m with clients := map_modify (fun _ => cl) m.clients cl.peer_fd }

/-- `osd_messenger_t::outbox_push`, built without RDMA: the messenger and the operation
after the call. `now` is what `clock_gettime` stores, `fuel` bounds the loop of lines
113-116. The result is `none` for a failed `assert`, for the exception of `clients.at`,
for undefined behaviour and for a loop that has not ended. -/
def outbox_push (h : helpers) (fuel : Nat) (now : timespec) (m : osd_messenger_t)
    (cur_op : osd_op_t) : Option (osd_messenger_t × osd_op_t) :=
  if cur_op.peer_fd = 0 then none
  else
    match map_find m.clients cur_op.peer_fd with
    | none => none
    | some cl =>
      if cl.freed then none
      else
        -- lines 13-36
        let found := cur_op.op_type = h.OSD_OP_OUT ∨ cur_op.addr ∈ cl.received_ops
        if ¬ found then
          some ({ m with deleted_ops := m.deleted_ops ++ [cur_op.addr] }, cur_op)
        else
          let op1 := if cur_op.op_type = h.OSD_OP_OUT then { cur_op with tv_begin := now }
            else cur_op
          let cl1 := if cur_op.op_type = h.OSD_OP_OUT then cl
            else { cl with received_ops := cl.received_ops.erase cur_op.addr }
          -- lines 37-48
          let next : Bool := decide (cl1.write_msg_iovlen ≠ 0)
          let measured := if op1.op_type = h.OSD_OP_IN then measure_exec h now m.stats op1
            else (m.stats, op1)
          let m1 := { m with stats := measured.1 }
          let op2 := measured.2
          let sent_ops1 := map_update nat_lt 0 (fun _ => op2.addr) cl1.sent_ops op2.req.hdr.id
          let cl2 := if op2.op_type = h.OSD_OP_IN then cl1 else { cl1 with sent_ops := sent_ops1 }
          match push_op h op2
              (if next then { to_send_list := cl2.next_send_list, to_outbox := cl2.next_outbox }
               else { to_send_list := cl2.send_list, to_outbox := cl2.outbox }) with
          | none => none
          | some dst =>
            let cl3 :=
              if next then
                { cl2 with next_send_list := dst.to_send_list, next_outbox := dst.to_outbox }
              else { cl2 with send_list := dst.to_send_list, outbox := dst.to_outbox }
            -- lines 110-126
            match m1.ringloop with
            | none =>
              match send_all h fuel m1 cl3 with
              | none => none
              | some (m2, cl4) => some (put_client m2 cl4, op2)
            | some _ =>
              let tried :=
                if 0 < cl3.write_msg_iovlen then some (true, m1, cl3)
                else (try_send h m1 cl3).map (fun r => (!r.1, r.2.1, r.2.2))
              match tried with
              | none => none
              | some (waits, m2, cl4) =>
                if !waits then some (put_client m2 cl4, op2)
                else
                  let woken := m2.ringloop.map (fun ring => { ring with wakeups := ring.wakeups + 1 })
                  let m3 := { m2 with ringloop := woken }
                  if cl4.write_state = 0 then
                    some (put_client
                      { m3 with write_ready_clients := m3.write_ready_clients ++ [op2.peer_fd] }
                      { cl4 with write_state := h.CL_WRITE_READY }, op2)
                  else some (put_client m3 cl4, op2)

/-- The constants of the messenger and of the protocol, and a socket that takes all that
is sent to it; to evaluate the definitions at concrete inputs. -/
def sample_helpers : helpers where
  OSD_OP_IN := 0
  OSD_OP_OUT := 1
  OSD_PACKET_SIZE := 128
  MSGR_SENDP_HDR := 1
  MSGR_SENDP_FREE := 2
  CL_WRITE_READY := 1
  PEER_STOPPED := 5
  IOV_MAX := 1024
  OSD_OP_MAX := 16
  OSD_OP_READ := 11
  OSD_OP_WRITE := 12
  OSD_OP_SEC_READ := 1
  OSD_OP_SEC_WRITE := 2
  OSD_OP_SEC_WRITE_STABLE := 3
  OSD_OP_SEC_STABILIZE := 5
  OSD_OP_SEC_ROLLBACK := 6
  OSD_OP_SEC_LIST := 9
  OSD_OP_SHOW_CONFIG := 10
  OSD_OP_SEC_READ_BMP := 16
  stop_client m cl := (m, { cl with peer_state := 5 })
  sendmsg _ iov := ((iov.map (fun v => v.iov_len)).sum : Nat)

/-- A sample client of descriptor 7 with nothing queued; `iovlen` is
`write_msg.msg_iovlen`. -/
def sample_client (iovlen : Nat) : osd_client_t :=
  { peer_fd := 7, peer_state := 2, refs := 0, received_ops := [100], sent_ops := [],
    send_list := [], next_send_list := [], outbox := [], next_outbox := [],
    write_msg_iovlen := iovlen, write_state := 0, freed := false }

/-- A sample messenger with the one client `cl` and a ring loop with free SQEs. -/
def sample_messenger (cl : osd_client_t) : osd_messenger_t :=
  { clients := [(7, cl)],
    ringloop := some { free_sqes := 4, prepared := [], wakeups := 0 },
    use_sync_send_recv := false, write_ready_clients := [],
    stats := { op_stat_sum := [], op_stat_count := [], op_stat_bytes := [] },
    deleted_ops := [] }

/-- A sample operation at address 100 for the client of descriptor 7: no bitmap, no
data. -/
def sample_op (op_type opcode : Nat) (retval : Int) : osd_op_t :=
  { addr := 100, peer_fd := 7, op_type := op_type,
    tv_begin := { tv_sec := 10, tv_nsec := 0 }, tv_end := { tv_sec := 0, tv_nsec := 0 },
    req := { buf := 1000, hdr := { id := 1, opcode := opcode }, rw := { len := 0 },
             sec_rw := { len := 0, attr_len := 0 }, sec_read_bmp := { len := 0 } },
    reply := { buf := 2000, hdr := { retval := retval }, sec_rw := { attr_len := 0 } },
    bitmap := 3000, buf := 4000, iov := [] }

/-- The time that the samples take `clock_gettime` to store. -/
def sample_now : timespec := { tv_sec := 11, tv_nsec := 0 }

end Msgr

/-! ## src/osd.cpp -/

namespace Osd

/-- The fields of a request header that `enqueue_op` reads. -/
structure osd_op_header_t where
  magic : Nat
  opcode : Nat
deriving DecidableEq, Repr

/-- The request `sec_rw` of a secondary read or write. -/
structure osd_op_secondary_rw_t where
  oid : object_id
  version : Nat
  offset : Nat
  len : Nat
deriving DecidableEq, Repr

/-- The request `sec_del` of a secondary delete. -/
structure osd_op_secondary_del_t where
  oid : object_id
  version : Nat
deriving DecidableEq, Repr

/-- The request of an operation. In the source it is a union whose member is chosen by
the opcode; here each member that is read has a field of its own. `len` is what the
source reads as `op->len`. -/
structure osd_any_op_t where
  hdr : osd_op_header_t
  sec_rw : osd_op_secondary_rw_t
  sec_del : osd_op_secondary_del_t
  len : Nat
deriving DecidableEq, Repr

/-- The fields of `blockstore_operation` that `enqueue_op` writes; `buf` is an address. -/
structure blockstore_operation where
  flags : Int
  oid : object_id
  version : Nat
  offset : Nat
  len : Nat
  buf : Nat
  retval : Int
deriving DecidableEq, Repr

/-- An operation of the OSD; `addr` is its address, `buf` the address of its buffer, 0
for NULL. -/
structure osd_op_t where
  addr : Nat
  op : osd_any_op_t
  bs_op : blockstore_operation
  buf : Nat
deriving DecidableEq, Repr

/-- The part of a client that the callback of `enqueue_op` touches: the queue of
replies, as addresses of operations. -/
structure osd_client_t where
  replies : List Nat
deriving DecidableEq, Repr

/-- The part of `osd_t` that `enqueue_op` touches. `enqueued` logs the calls of
`bs->enqueue_op` with the operation as it is handed over, `freed` the addresses handed to
`free` and `deleted` the operations deleted. -/
structure osd_t where
  clients : List (Int × osd_client_t)
  enqueued : List blockstore_operation
  freed : List Nat
  deleted : List Nat
deriving DecidableEq, Repr

/-- What `enqueue_op` uses and osd.cpp does not define. -/
structure helpers where
  SECONDARY_OSD_OP_MAGIC : Nat
  OSD_OP_MIN : Nat
  OSD_OP_MAX : Nat
  OSD_OP_SECONDARY_READ : Nat
  OSD_OP_SECONDARY_WRITE : Nat
  OSD_OP_SECONDARY_SYNC : Nat
  OSD_OP_SECONDARY_STABILIZE : Nat
  OSD_OP_SECONDARY_DELETE : Nat
  OSD_RW_MAX : Nat
  OSD_RW_ALIGN : Nat
  OP_READ : Int
  OP_WRITE : Int
  OP_SYNC : Int
  OP_STABLE : Int
  OP_DELETE : Int
  /-- `sizeof(obj_ver_id)` -/
  sizeof_obj_ver_id : Nat

/-- The callback that `enqueue_op` stores in `bs_op` (lines 346-359). -/
def callback (osd : osd_t) (peer_fd : Int) (cur_op : osd_op_t) : osd_t :=
  match map_find osd.clients peer_fd with
  | some cl =>
    let cl1 := { cl with replies := cl.replies ++ [cur_op.addr] }
    { osd with clients := map_modify (fun _ => cl1) osd.clients peer_fd }
  | none =>
    { osd with freed := if cur_op.buf ≠ 0 then osd.freed ++ [cur_op.buf] else osd.freed,
               deleted := osd.deleted ++ [cur_op.addr] }

/-- The test of lines 360-363: the command is a bad one. The remainders are those of the
source for `OSD_RW_ALIGN` other than 0. -/
def bad_command (h : helpers) (op : osd_any_op_t) : Bool :=
  decide (op.hdr.magic ≠ h.SECONDARY_OSD_OP_MAGIC) ||
  decide (op.hdr.opcode < h.OSD_OP_MIN) || decide (op.hdr.opcode > h.OSD_OP_MAX) ||
  (decide (op.hdr.opcode = h.OSD_OP_SECONDARY_READ) ||
    decide (op.hdr.opcode = h.OSD_OP_SECONDARY_WRITE)) &&
  (decide (op.sec_rw.len > h.OSD_RW_MAX) || decide (op.sec_rw.len % h.OSD_RW_ALIGN ≠ 0) ||
    decide (op.sec_rw.offset % h.OSD_RW_ALIGN ≠ 0))

/-- The value stored in `bs_op->flags` (lines 370-375). -/
def op_flags (h : helpers) (opcode : Nat) : Int :=
  if opcode = h.OSD_OP_SECONDARY_READ then h.OP_READ
  else if opcode = h.OSD_OP_SECONDARY_WRITE then h.OP_WRITE
  else if opcode = h.OSD_OP_SECONDARY_SYNC then h.OP_SYNC
  else if opcode = h.OSD_OP_SECONDARY_STABILIZE then h.OP_STABLE
  else if opcode = h.OSD_OP_SECONDARY_DELETE then h.OP_DELETE
  else -1

/-- Lines 370-394: `bs_op` as it is filled in from the request. -/
def fill_bs_op (h : helpers) (cur_op : osd_op_t) : blockstore_operation :=
  let opcode := cur_op.op.hdr.opcode
  let b := { cur_op.bs_op with flags := op_flags h opcode }
  if opcode = h.OSD_OP_SECONDARY_READ ∨ opcode = h.OSD_OP_SECONDARY_WRITE then
    { b with oid := cur_op.op.sec_rw.oid, version := cur_op.op.sec_rw.version,
             offset := cur_op.op.sec_rw.offset, len := cur_op.op.sec_rw.len,
             buf := cur_op.buf }
  else if opcode = h.OSD_OP_SECONDARY_DELETE then
    { b with oid := cur_op.op.sec_del.oid, version := cur_op.op.sec_del.version }
  else if opcode = h.OSD_OP_SECONDARY_STABILIZE then
    { b with len := cur_op.op.len / h.sizeof_obj_ver_id, buf := cur_op.buf }
  else b

/-- `osd_t::enqueue_op`: the OSD and the operation after the call. -/
def enqueue_op (h : helpers) (osd : osd_t) (peer_fd : Int) (cur_op : osd_op_t) :
    osd_t × osd_op_t :=
  if bad_command h cur_op.op then
    let op1 := { cur_op with bs_op := { cur_op.bs_op with retval := -EINVAL } }
    (callback osd peer_fd op1, op1)
  else
    let op1 := { cur_op with bs_op := fill_bs_op h cur_op }
    ({ osd with enqueued := osd.enqueued ++ [op1.bs_op] }, op1)

/-- The request that the claim about `enqueue_op` calls a rejected one. -/
def rejected (h : helpers) (op : osd_any_op_t) : Prop :=
  op.hdr.magic ≠ h.SECONDARY_OSD_OP_MAGIC ∨
  op.hdr.opcode < h.OSD_OP_MIN ∨ h.OSD_OP_MAX < op.hdr.opcode ∨
  ((op.hdr.opcode = h.OSD_OP_SECONDARY_READ ∨ op.hdr.opcode = h.OSD_OP_SECONDARY_WRITE) ∧
    (h.OSD_RW_MAX < op.sec_rw.len ∨ op.sec_rw.len % h.OSD_RW_ALIGN ≠ 0 ∨
      op.sec_rw.offset % h.OSD_RW_ALIGN ≠ 0))

/-- The constants of the protocol, to evaluate the definitions at concrete inputs. -/
def sample_helpers : helpers where
  SECONDARY_OSD_OP_MAGIC := 0x2bd7b10325434553
  OSD_OP_MIN := 1
  OSD_OP_MAX := 5
  OSD_OP_SECONDARY_READ := 1
  OSD_OP_SECONDARY_WRITE := 2
  OSD_OP_SECONDARY_SYNC := 3
  OSD_OP_SECONDARY_STABILIZE := 4
  OSD_OP_SECONDARY_DELETE := 5
  OSD_RW_MAX := 64 * 1024 * 1024
  OSD_RW_ALIGN := 512
  OP_READ := 1
  OP_WRITE := 2
  OP_SYNC := 3
  OP_STABLE := 4
  OP_DELETE := 5
  sizeof_obj_ver_id := 24

/-- A sample OSD with one client, of descriptor 7. -/
def sample_osd : osd_t :=
  { clients := [(7, { replies := [] })], enqueued := [], freed := [], deleted := [] }

/-- A sample operation at address 100 whose request has the opcode `opcode`; its
`bs_op` still holds object 9, version 9, offset 4096 and length 8192. -/
def sample_op (opcode : Nat) : osd_op_t :=
  { addr := 100,
    op := { hdr := { magic := 0x2bd7b10325434553, opcode := opcode },
            sec_rw := { oid := ⟨1, 0⟩, version := 3, offset := 512, len := 1024 },
            sec_del := { oid := ⟨2, 0⟩, version := 4 },
            len := 48 },
    bs_op := { flags := 0, oid := ⟨9, 0⟩, version := 9, offset := 4096, len := 8192,
               buf := 0, retval := 0 },
    buf := 5000 }

end Osd

/-! ## Properties of `dequeue_stable` -/

namespace Stable

theorem scan_already_stable (h : helpers) (bs : blockstore)
    (hm : ∀ st, h.IS_STABLE st = true → h.IS_UNSYNCED st = false) :
    ∀ (l : List obj_ver_id) (n : Nat), (∀ v ∈ l, already_stable h bs v = true) →
      scan h bs l n = .todo n := by
  intro l
  induction l with
  | nil => intro n _; rfl
  | cons v rest ih =>
    intro n hall
    have hv := hall v (List.mem_cons_self _ _)
    have hrest : ∀ u ∈ rest, already_stable h bs u = true :=
      fun u hu => hall u (List.mem_cons_of_mem _ hu)
    unfold already_stable at hv
    unfold scan
    cases hd : map_find bs.dirty_db v with
    | none =>
      rw [hd] at hv
      cases hc : map_find bs.clean_db v.oid with
      | none => rw [hc] at hv; simp at hv
      | some c =>
        rw [hc] at hv
        have hle : v.version ≤ c.version := by simpa using hv
        simp only []
        rw [if_neg (by omega)]
        exact ih n hrest
    | some d =>
      rw [hd] at hv
      simp only [] at hv ⊢
      rw [hm _ hv, hv]
      simpa using ih n hrest

theorem scan_first_offence (h : helpers) (bs : blockstore) :
    ∀ (pre : List obj_ver_id) (v : obj_ver_id) (post : List obj_ver_id) (e : Int) (n : Nat),
      (∀ u ∈ pre, offence h bs u = none) → offence h bs v = some e →
      (e = EINVAL ∧ scan h bs (pre ++ v :: post) n = .no_such_version) ∨
      (e = EAGAIN ∧ scan h bs (pre ++ v :: post) n = .not_synced) := by
  intro pre
  induction pre with
  | nil =>
    intro v post e n _ hv
    unfold offence at hv
    simp only [List.nil_append]
    unfold scan
    cases hd : map_find bs.dirty_db v with
    | none =>
      rw [hd] at hv
      cases hc : map_find bs.clean_db v.oid with
      | none =>
        rw [hc] at hv
        simp only [Option.some.injEq] at hv
        exact Or.inl ⟨hv.symm, rfl⟩
      | some c =>
        rw [hc] at hv
        simp only [] at hv ⊢
        by_cases hlt : c.version < v.version
        · rw [if_pos hlt] at hv ⊢
          simp only [Option.some.injEq] at hv
          exact Or.inl ⟨hv.symm, rfl⟩
        · rw [if_neg hlt] at hv
          exact absurd hv (by simp)
    | some d =>
      rw [hd] at hv
      simp only [] at hv ⊢
      cases hu : h.IS_UNSYNCED d.state with
      | true =>
        rw [hu] at hv
        simp only [if_true, Option.some.injEq] at hv
        exact Or.inr ⟨hv.symm, by simp⟩
      | false =>
        rw [hu] at hv
        exact absurd hv (by simp)
  | cons u rest ih =>
    intro v post e n hpre hv
    have hu := hpre u (List.mem_cons_self _ _)
    have hrest : ∀ w ∈ rest, offence h bs w = none :=
      fun w hw => hpre w (List.mem_cons_of_mem _ hw)
    have key : ∀ m, scan h bs (u :: (rest ++ v :: post)) n = scan h bs (rest ++ v :: post) m →
        (e = EINVAL ∧ scan h bs (u :: rest ++ v :: post) n = .no_such_version) ∨
        (e = EAGAIN ∧ scan h bs (u :: rest ++ v :: post) n = .not_synced) := by
      intro m hm
      simp only [List.cons_append]
      rw [hm]
      exact ih v post e m hrest hv
    unfold offence at hu
    cases hd : map_find bs.dirty_db u with
    | none =>
      rw [hd] at hu
      cases hc : map_find bs.clean_db u.oid with
      | none => rw [hc] at hu; exact absurd hu (by simp)
      | some c =>
        rw [hc] at hu
        simp only [] at hu
        by_cases hlt : c.version < u.version
        · rw [if_pos hlt] at hu; exact absurd hu (by simp)
        · apply key n
          conv => lhs; unfold scan
          rw [hd]
          simp only []
          rw [hc]
          simp only []
          rw [if_neg hlt]
    | some d =>
      rw [hd] at hu
      simp only [] at hu
      cases hun : h.IS_UNSYNCED d.state with
      | true => rw [hun] at hu; exact absurd hu (by simp)
      | false =>
        cases hst : h.IS_STABLE d.state with
        | true =>
          apply key n
          conv => lhs; unfold scan
          rw [hd]
          simp [hun, hst]
        | false =>
          apply key (n + 1)
          conv => lhs; unfold scan
          rw [hd]
          simp [hun, hst]

theorem scan_no_offence (h : helpers) (bs : blockstore) :
    ∀ (l : List obj_ver_id) (n : Nat), (∀ u ∈ l, offence h bs u = none) →
      ∃ m, scan h bs l n = .todo m := by
  intro l
  induction l with
  | nil => intro n _; exact ⟨n, rfl⟩
  | cons u rest ih =>
    intro n hall
    have hu := hall u (List.mem_cons_self _ _)
    have hrest : ∀ w ∈ rest, offence h bs w = none :=
      fun w hw => hall w (List.mem_cons_of_mem _ hw)
    unfold offence at hu
    unfold scan
    cases hd : map_find bs.dirty_db u with
    | none =>
      rw [hd] at hu
      cases hc : map_find bs.clean_db u.oid with
      | none => rw [hc] at hu; exact absurd hu (by simp)
      | some c =>
        rw [hc] at hu
        simp only [] at hu ⊢
        by_cases hlt : c.version < u.version
        · rw [if_pos hlt] at hu; exact absurd hu (by simp)
        · rw [if_neg hlt]; exact ih n hrest
    | some d =>
      rw [hd] at hu
      simp only [] at hu ⊢
      cases hun : h.IS_UNSYNCED d.state with
      | true => rw [hun] at hu; exact absurd hu (by simp)
      | false =>
        cases hst : h.IS_STABLE d.state with
        | true => simpa using ih n hrest
        | false => simpa using ih (n + 1) hrest

/-- C1. Stabilize idempotence: when every listed version is either absent from the dirty
index with a clean entry of its object at the same or a higher version, or present in the
dirty index in a stable state, `dequeue_stable` returns 1 with retval 0, the callback is
invoked exactly once (with retval 0), and the blockstore (dirty index, clean index,
journal and ring) is left as it was: no journal entry is appended and no I/O prepared.
The macros `IS_STABLE` and `IS_UNSYNCED` are taken to class no state as both. -/
theorem dequeue_stable_idempotent (h : helpers) (bs : blockstore) (op : blockstore_operation)
    (hm : ∀ st, h.IS_STABLE st = true → h.IS_UNSYNCED st = false)
    (hall : ∀ v ∈ op.buf, already_stable h bs v = true) :
    dequeue_stable h bs op =
      some { ret := 1, bs := bs,
             op := { op with retval := 0, callbacks := op.callbacks ++ [0] } } := by
  unfold dequeue_stable
  rw [scan_already_stable h bs hm op.buf 0 hall]
  rfl

theorem dequeue_stable_idempotent_witness :
    dequeue_stable sample_helpers sample_bs
        (sample_op [⟨⟨1, 0⟩, 1⟩, ⟨⟨4, 0⟩, 7⟩, ⟨⟨4, 0⟩, 3⟩]) =
      some { ret := 1, bs := sample_bs,
             op := { sample_op [⟨⟨1, 0⟩, 1⟩, ⟨⟨4, 0⟩, 7⟩, ⟨⟨4, 0⟩, 3⟩] with
                     retval := 0, callbacks := [0] } } :=
  dequeue_stable_idempotent sample_helpers sample_bs
    (sample_op [⟨⟨1, 0⟩, 1⟩, ⟨⟨4, 0⟩, 7⟩, ⟨⟨4, 0⟩, 3⟩])
    (by intro st hst; simp only [sample_helpers, Bool.or_eq_true, Bool.and_eq_true,
          decide_eq_true_eq] at hst
        simp only [sample_helpers, Bool.or_eq_false_iff, Bool.and_eq_false_iff,
          decide_eq_false_iff_not]
        omega)
    (by decide)

/-- C2. `dequeue_stable` reports an error if and only if the list holds an offending
item, and the first offending item in list order decides the error: EINVAL for an item
absent from the dirty index whose object has no clean entry or a clean entry of a lower
version, EAGAIN for an item present in the dirty index in an unsynced state. When it
fails it returns 1, the callback is invoked once with that error, and the blockstore
(journal, sector usage counts, dirty entries) is left as it was. -/
theorem dequeue_stable_fails_iff (h : helpers) (bs : blockstore) (op : blockstore_operation) :
    (∀ pre v post e, op.buf = pre ++ v :: post →
        (∀ u ∈ pre, offence h bs u = none) → offence h bs v = some e →
        (e = EINVAL ∨ e = EAGAIN) ∧
        dequeue_stable h bs op =
          some { ret := 1, bs := bs,
                 op := { op with retval := e, callbacks := op.callbacks ++ [e] } }) ∧
    ((∃ r, dequeue_stable h bs op = some r ∧ reports_error op r) ↔
      ∃ v ∈ op.buf, offence h bs v ≠ none) := by
  have first : ∀ pre v post e, op.buf = pre ++ v :: post →
        (∀ u ∈ pre, offence h bs u = none) → offence h bs v = some e →
        (e = EINVAL ∨ e = EAGAIN) ∧
        dequeue_stable h bs op =
          some { ret := 1, bs := bs,
                 op := { op with retval := e, callbacks := op.callbacks ++ [e] } } := by
    intro pre v post e hbuf hpre hv
    unfold dequeue_stable
    rw [hbuf]
    rcases scan_first_offence h bs pre v post e 0 hpre hv with ⟨he, hs⟩ | ⟨he, hs⟩
    · rw [hs, he]; exact ⟨Or.inl rfl, rfl⟩
    · rw [hs, he]; exact ⟨Or.inr rfl, rfl⟩
  refine ⟨first, ?_, ?_⟩
  · rintro ⟨r, hr, e, he0, -, hcb⟩
    by_contra hno
    have hall : ∀ u ∈ op.buf, offence h bs u = none := by
      intro u hu
      by_contra hne
      exact hno ⟨u, hu, hne⟩
    obtain ⟨m, hm⟩ := scan_no_offence h bs op.buf 0 hall
    unfold dequeue_stable at hr
    rw [hm] at hr
    cases m with
    | zero =>
      simp only [Option.some.injEq] at hr
      subst hr
      simp only [blockstore_operation.callback, List.append_cancel_left_eq, List.cons.injEq,
        and_true] at hcb
      exact he0 hcb.symm
    | succ n =>
      have hlen : r.op.callbacks = op.callbacks := by
        simp only [] at hr
        split at hr
        · simp only [Option.some.injEq] at hr; subst hr; rfl
        · split at hr
          · simp only [Option.some.injEq] at hr; subst hr; rfl
          · split at hr
            · exact absurd hr (by simp)
            · simp only [Option.some.injEq] at hr; subst hr; rfl
      rw [hlen] at hcb
      have := congrArg List.length hcb
      simp at this
  · rintro ⟨v, hv, hne⟩
    have hex : ∃ pre w post, op.buf = pre ++ w :: post ∧
        (∀ u ∈ pre, offence h bs u = none) ∧ offence h bs w ≠ none := by
      clear first
      generalize op.buf = l at hv
      induction l with
      | nil => exact absurd hv (List.not_mem_nil _)
      | cons a rest ih =>
        by_cases ha : offence h bs a = none
        · rcases List.mem_cons.mp hv with rfl | hin
          · exact absurd ha hne
          · obtain ⟨pre, w, post, hl, hpre, hw⟩ := ih hin
            refine ⟨a :: pre, w, post, by rw [hl]; rfl, ?_, hw⟩
            intro u hu
            rcases List.mem_cons.mp hu with rfl | hu
            · exact ha
            · exact hpre u hu
        · exact ⟨[], a, rest, rfl, by simp, ha⟩
    obtain ⟨pre, w, post, hl, hpre, hw⟩ := hex
    obtain ⟨e, he⟩ := Option.ne_none_iff_exists'.mp hw
    obtain ⟨hkind, hres⟩ := first pre w post e hl hpre he
    refine ⟨_, hres, e, ?_, rfl, rfl⟩
    rcases hkind with rfl | rfl <;> decide

/-- C3, evaluated on a list naming an unknown version and on a list naming an unsynced
version: the retval stored is EINVAL = 22, respectively EAGAIN = 11, both greater than
zero. -/
theorem dequeue_stable_error_retval_positive :
    (dequeue_stable sample_helpers sample_bs (sample_op [⟨⟨9, 0⟩, 1⟩])).map
        (fun r => (r.ret, r.op.retval, r.op.callbacks)) = some (1, 22, [22]) ∧
    (dequeue_stable sample_helpers sample_bs (sample_op [⟨⟨3, 0⟩, 1⟩])).map
        (fun r => (r.ret, r.op.retval, r.op.callbacks)) = some (1, 11, [11]) := by
  decide

/-- C4, evaluated on a list of one stable and one synced version: the first loop counts
todo = 1, journal space is checked for one entry, and the second loop appends two STABLE
entries, one of them for the version that was already stable. -/
theorem dequeue_stable_appends_per_item :
    scan sample_helpers sample_bs [⟨⟨1, 0⟩, 1⟩, ⟨⟨2, 0⟩, 1⟩] 0 = .todo 1 ∧
    (dequeue_stable sample_helpers sample_bs (sample_op [⟨⟨1, 0⟩, 1⟩, ⟨⟨2, 0⟩, 1⟩])).map
        (fun r => (r.ret, r.bs.journal.entries.map (fun p => (p.2.type, p.2.oid, p.2.version)))) =
      some (1, [(5, ⟨1, 0⟩, 1), (5, ⟨2, 0⟩, 1)]) := by
  decide

end Stable

/-! ## Properties of `continue_sync`, `handle_sync_event` and `ack_sync` -/

namespace Sync

theorem andThen_some {f : flow} {rest : blockstore_impl_t → blockstore_op_t → Option outcome}
    {o : outcome} (hf : f.andThen rest = some o) :
    (∃ r bs op, f = .ret r bs op ∧ o = { ret := r, bs := bs, op := op }) ∨
    (∃ bs op, f = .go bs op ∧ rest bs op = some o) := by
  cases f with
  | ub => simp [flow.andThen] at hf
  | ret r bs op =>
    simp only [flow.andThen, Option.some.injEq] at hf
    exact Or.inl ⟨r, bs, op, rfl, hf.symm⟩
  | go bs op => exact Or.inr ⟨bs, op, rfl, hf⟩

theorem sync_has_small_ret {h : helpers} {bs bs1 : blockstore_impl_t} {op op1 : blockstore_op_t}
    {r : Int} (hr : sync_has_small h bs op = .ret r bs1 op1) :
    (r = 0 ∧ bs1 = bs ∧ op1 = op) ∨
    (r = 1 ∧ op1.op_state = SYNC_JOURNAL_WRITE_SENT ∧
      bs1 = { bs with journal := bs1.journal, ring := bs1.ring } ∧
      bs1.ring.prepared = bs.ring.prepared ++ [sync_io.journal_sector_write bs.journal.cur_sector] ∧
      op1 = { op with min_flushed_journal_sector := op1.min_flushed_journal_sector,
                      max_flushed_journal_sector := op1.max_flushed_journal_sector,
                      pending_ops := 1, op_state := SYNC_JOURNAL_WRITE_SENT }) := by
  unfold sync_has_small at hr
  split at hr
  · exact absurd hr (by simp)
  · split at hr
    · split at hr
      · simp only [flow.ret.injEq] at hr
        obtain ⟨h1, h2, h3⟩ := hr
        exact Or.inl ⟨h1.symm, h2.symm, h3.symm⟩
      · simp only [flow.ret.injEq] at hr
        obtain ⟨h1, h2, h3⟩ := hr
        subst h2 h3
        exact Or.inr ⟨h1.symm, rfl, rfl, rfl, rfl⟩
    · exact absurd hr (by simp)

theorem sync_has_small_go {h : helpers} {bs bs1 : blockstore_impl_t} {op op1 : blockstore_op_t}
    (hr : sync_has_small h bs op = .go bs1 op1) :
    bs1 = bs ∧ op1 = { op with op_state := SYNC_JOURNAL_WRITE_DONE } := by
  unfold sync_has_small at hr
  split at hr
  · exact absurd hr (by simp)
  · split at hr
    · split at hr <;> exact absurd hr (by simp)
    · simp only [flow.go.injEq] at hr
      exact ⟨hr.1.symm, hr.2.symm⟩


theorem sync_has_big_ret {bs bs1 : blockstore_impl_t} {op op1 : blockstore_op_t}
    {r : Int} (hr : sync_has_big bs op = .ret r bs1 op1) :
    (r = 0 ∧ bs1 = bs ∧ op1 = op) ∨
    (r = 1 ∧ bs.disable_data_fsync = false ∧
      bs1 = { bs with ring := bs1.ring } ∧
      bs1.ring.prepared = bs.ring.prepared ++ [sync_io.data_fsync bs.data_fd] ∧
      op1 = { op with min_flushed_journal_sector := 0, max_flushed_journal_sector := 0,
                      pending_ops := 1, op_state := SYNC_DATA_SYNC_SENT }) := by
  unfold sync_has_big at hr
  split at hr
  · rename_i hd
    split at hr
    · simp only [flow.ret.injEq] at hr
      obtain ⟨h1, h2, h3⟩ := hr
      exact Or.inl ⟨h1.symm, h2.symm, h3.symm⟩
    · simp only [flow.ret.injEq] at hr
      obtain ⟨h1, h2, h3⟩ := hr
      subst h2 h3
      exact Or.inr ⟨h1.symm, by simpa using hd, rfl, rfl, rfl⟩
  · exact absurd hr (by simp)

theorem sync_has_big_go {bs bs1 : blockstore_impl_t} {op op1 : blockstore_op_t}
    (hr : sync_has_big bs op = .go bs1 op1) :
    bs.disable_data_fsync = true ∧ bs1 = bs ∧
      op1 = { op with op_state := SYNC_DATA_SYNC_DONE } := by
  unfold sync_has_big at hr
  split at hr
  · split at hr <;> exact absurd hr (by simp)
  · rename_i hd
    simp only [flow.go.injEq] at hr
    exact ⟨by simpa using hd, hr.1.symm, hr.2.symm⟩

theorem write_flush_prepared {h : helpers} {n : Nat} {st st1 : write_state}
    (hw : write_flush h n st = some st1) :
    ∃ fresh, st1.prepared = st.prepared ++ fresh ∧ only_journal_writes fresh := by
  unfold write_flush at hw
  split at hw
  · simp only [Option.some.injEq] at hw
    subst hw
    exact ⟨[], by simp, by intro x hx; simp at hx⟩
  · split at hw
    · exact absurd hw (by simp)
    · split at hw
      · split at hw
        · simp only [Option.some.injEq] at hw
          subst hw
          refine ⟨[sync_io.journal_sector_write st.journal.cur_sector], rfl, ?_⟩
          intro x hx
          simp only [List.mem_singleton] at hx
          exact ⟨_, hx⟩
        · exact absurd hw (by simp)
      · simp only [Option.some.injEq] at hw
        subst hw
        exact ⟨[], by simp, by intro x hx; simp at hx⟩

theorem write_entry_prepared {h : helpers} {st st1 : write_state} {it : obj_ver_id}
    (hw : write_entry h st it = some st1) : st1.prepared = st.prepared := by
  unfold write_entry at hw
  simp only [] at hw
  split at hw
  · exact absurd hw (by simp)
  · simp only [Option.some.injEq] at hw
    subst hw
    rfl

theorem write_entries_prepared {h : helpers} {n : Nat} :
    ∀ (l : List obj_ver_id) (st st1 : write_state), write_entries h n st l = some st1 →
      ∃ fresh, st1.prepared = st.prepared ++ fresh ∧ only_journal_writes fresh := by
  intro l
  induction l with
  | nil =>
    intro st st1 hw
    simp only [write_entries, Option.some.injEq] at hw
    subst hw
    exact ⟨[], by simp, by intro x hx; simp at hx⟩
  | cons it rest ih =>
    intro st st1 hw
    unfold write_entries at hw
    split at hw
    · exact absurd hw (by simp)
    · rename_i sta hfl
      split at hw
      · exact absurd hw (by simp)
      · rename_i stb hen
        obtain ⟨f1, hf1, ho1⟩ := write_flush_prepared hfl
        have hf2 := write_entry_prepared hen
        obtain ⟨f3, hf3, ho3⟩ := ih stb st1 hw
        refine ⟨f1 ++ f3, by rw [hf3, hf2, hf1, List.append_assoc], ?_⟩
        intro x hx
        rcases List.mem_append.mp hx with hx | hx
        · exact ho1 x hx
        · exact ho3 x hx

theorem sync_data_sync_done_ret {h : helpers} {bs bs1 : blockstore_impl_t}
    {op op1 : blockstore_op_t} {r : Int} (hr : sync_data_sync_done h bs op = .ret r bs1 op1) :
    (r = 0 ∧ bs1 = bs ∧ op1 = op) ∨
    (r = 1 ∧
      bs1 = { bs with journal := bs1.journal, dirty_db := bs1.dirty_db, ring := bs1.ring } ∧
      (∃ fresh, bs1.ring.prepared = bs.ring.prepared ++ fresh ∧ only_journal_writes fresh) ∧
      op1 = { op with min_flushed_journal_sector := op1.min_flushed_journal_sector,
                      max_flushed_journal_sector := op1.max_flushed_journal_sector,
                      pending_ops := op1.pending_ops,
                      op_state := SYNC_JOURNAL_WRITE_SENT }) := by
  unfold sync_data_sync_done at hr
  split at hr
  · simp only [flow.ret.injEq] at hr
    exact Or.inl ⟨hr.1.symm, hr.2.1.symm, hr.2.2.symm⟩
  · split at hr
    · simp only [flow.ret.injEq] at hr
      exact Or.inl ⟨hr.1.symm, hr.2.1.symm, hr.2.2.symm⟩
    · split at hr
      · exact absurd hr (by simp)
      · rename_i st hst
        split at hr
        · simp only [] at hr
          split at hr
          · simp only [flow.ret.injEq] at hr
            obtain ⟨h1, h2, h3⟩ := hr
            subst h2 h3
            obtain ⟨f1, hf1, ho1⟩ := write_entries_prepared _ _ _ hst
            refine Or.inr ⟨h1.symm, rfl, ⟨f1 ++ [sync_io.journal_sector_write st.journal.cur_sector],
              ?_, ?_⟩, rfl⟩
            · simp only [hf1, List.append_assoc]
            · intro x hx
              rcases List.mem_append.mp hx with hx | hx
              · exact ho1 x hx
              · simp only [List.mem_singleton] at hx
                exact ⟨_, hx⟩
          · exact absurd hr (by simp)
        · exact absurd hr (by simp)

theorem sync_data_sync_done_go {h : helpers} {bs bs1 : blockstore_impl_t}
    {op op1 : blockstore_op_t} (hr : sync_data_sync_done h bs op = .go bs1 op1) : False := by
  unfold sync_data_sync_done at hr
  split at hr
  · exact absurd hr (by simp)
  · split at hr
    · exact absurd hr (by simp)
    · split at hr
      · exact absurd hr (by simp)
      · split at hr
        · simp only [] at hr
          split at hr <;> exact absurd hr (by simp)
        · exact absurd hr (by simp)

theorem sync_journal_write_done_ret {bs bs1 : blockstore_impl_t} {op op1 : blockstore_op_t}
    {r : Int} (hr : sync_journal_write_done bs op = .ret r bs1 op1) :
    (r = 0 ∧ bs1 = bs ∧ op1 = op) ∨
    (r = 1 ∧ bs1 = { bs with ring := bs1.ring } ∧
      bs1.ring.prepared = bs.ring.prepared ++ [sync_io.journal_fsync bs.journal.fd] ∧
      op1 = { op with pending_ops := 1, op_state := SYNC_JOURNAL_SYNC_SENT }) := by
  unfold sync_journal_write_done at hr
  split at hr
  · split at hr
    · simp only [flow.ret.injEq] at hr
      obtain ⟨h1, h2, h3⟩ := hr
      exact Or.inl ⟨h1.symm, h2.symm, h3.symm⟩
    · simp only [flow.ret.injEq] at hr
      obtain ⟨h1, h2, h3⟩ := hr
      subst h2 h3
      exact Or.inr ⟨h1.symm, rfl, rfl, rfl⟩
  · exact absurd hr (by simp)

theorem sync_journal_write_done_go {bs bs1 : blockstore_impl_t} {op op1 : blockstore_op_t}
    (hr : sync_journal_write_done bs op = .go bs1 op1) :
    bs1 = bs ∧ op1 = { op with op_state := SYNC_DONE } := by
  unfold sync_journal_write_done at hr
  split at hr
  · split at hr <;> exact absurd hr (by simp)
  · simp only [flow.go.injEq] at hr
    exact ⟨hr.1.symm, hr.2.symm⟩


theorem stage_frame_refl (bs : blockstore_impl_t) (op : blockstore_op_t) :
    stage_frame bs op bs op :=
  ⟨rfl, rfl, [], by simp⟩

theorem stage_frame_trans {bs bs1 bs2 : blockstore_impl_t} {op op1 op2 : blockstore_op_t}
    (h1 : stage_frame bs op bs1 op1) (h2 : stage_frame bs1 op1 bs2 op2) :
    stage_frame bs op bs2 op2 := by
  obtain ⟨a1, b1, f1, c1⟩ := h1
  obtain ⟨a2, b2, f2, c2⟩ := h2
  refine ⟨?_, ?_, f1 ++ f2, by rw [c2, c1, List.append_assoc]⟩
  · rw [a2]; simp only []; rw [a1]
  · rw [b2]; simp only []; rw [b1]

theorem stage_frame_state (bs : blockstore_impl_t) (op : blockstore_op_t) (s : Nat) :
    stage_frame bs op bs { op with op_state := s } :=
  ⟨rfl, rfl, [], by simp⟩

theorem ack_sync_big_frame {h : helpers} {bs bs1 : blockstore_impl_t} {it : obj_ver_id}
    (ha : ack_sync_big h bs it = some bs1) :
    bs1 = { bs with dirty_db := bs1.dirty_db, unstable_writes := bs1.unstable_writes,
                    mark_stable_calls := bs1.mark_stable_calls } := by
  unfold ack_sync_big at ha
  simp only [] at ha
  split at ha
  · exact absurd ha (by simp)
  · split at ha
    · exact absurd ha (by simp)
    · simp only [Option.some.injEq] at ha
      subst ha
      split <;> rfl

theorem ack_sync_small_frame (h : helpers) (bs : blockstore_impl_t) (it : obj_ver_id) :
    ∃ d u m, ack_sync_small h bs it =
      { bs with dirty_db := d, unstable_writes := u, mark_stable_calls := m } := by
  unfold ack_sync_small
  simp only []
  split
  · exact ⟨_, _, _, rfl⟩
  · split
    · exact ⟨_, _, _, rfl⟩
    · exact ⟨_, _, _, rfl⟩

theorem ack_sync_bigs_frame {h : helpers} :
    ∀ (l : List obj_ver_id) (bs bs1 : blockstore_impl_t), ack_sync_bigs h bs l = some bs1 →
      bs1 = { bs with dirty_db := bs1.dirty_db, unstable_writes := bs1.unstable_writes,
                      mark_stable_calls := bs1.mark_stable_calls } := by
  intro l
  induction l with
  | nil =>
    intro bs bs1 ha
    simp only [ack_sync_bigs, Option.some.injEq] at ha
    subst ha
    rfl
  | cons it rest ih =>
    intro bs bs1 ha
    unfold ack_sync_bigs at ha
    split at ha
    · exact absurd ha (by simp)
    · rename_i bsa hbig
      have h1 := ack_sync_big_frame hbig
      have h2 := ih bsa bs1 ha
      rw [h2]; simp only []; rw [h1]

theorem ack_sync_smalls_frame {h : helpers} :
    ∀ (l : List obj_ver_id) (bs : blockstore_impl_t),
      ∃ d u m, ack_sync_smalls h bs l =
        { bs with dirty_db := d, unstable_writes := u, mark_stable_calls := m } := by
  intro l
  induction l with
  | nil => intro bs; exact ⟨_, _, _, rfl⟩
  | cons it rest ih =>
    intro bs
    simp only [ack_sync_smalls]
    obtain ⟨d, u, m, h1⟩ := ack_sync_small_frame h bs it
    rw [h1]
    obtain ⟨d2, u2, m2, h2⟩ :=
      ih { bs with dirty_db := d, unstable_writes := u, mark_stable_calls := m }
    exact ⟨d2, u2, m2, h2⟩

theorem ack_sync_frame {h : helpers} {bs bs1 : blockstore_impl_t} {op op1 : blockstore_op_t}
    (ha : ack_sync h bs op = some (bs1, op1)) :
    op1 = { op with retval := 0, callbacks := op.callbacks ++ [0] } ∧
    bs1 = { bs with dirty_db := bs1.dirty_db, unstable_writes := bs1.unstable_writes,
                    mark_stable_calls := bs1.mark_stable_calls } := by
  unfold ack_sync at ha
  split at ha
  · exact absurd ha (by simp)
  · rename_i bsa hbig
    simp only [Option.some.injEq, Prod.mk.injEq] at ha
    obtain ⟨hb, ho⟩ := ha
    refine ⟨by rw [← ho]; rfl, ?_⟩
    have h1 := ack_sync_bigs_frame _ _ _ hbig
    obtain ⟨d, u, m, h2⟩ := ack_sync_smalls_frame (h := h) op.sync_small_writes bsa
    rw [← hb, h2]; simp only []; rw [h1]

theorem sync_finish_cases {h : helpers} {bs : blockstore_impl_t} {op : blockstore_op_t}
    {q : Bool} {o : outcome} (hf : sync_finish h bs op q = some o) :
    (o.ret = 1 ∧ o.bs = bs ∧ o.op = op ∧ (op.op_state ≠ SYNC_DONE ∨ q = true)) ∨
    (o.ret = 2 ∧ op.op_state = SYNC_DONE ∧ q = false ∧ ack_sync h bs op = some (o.bs, o.op)) := by
  unfold sync_finish at hf
  split at hf
  · rename_i hc
    split at hf
    · exact absurd hf (by simp)
    · rename_i r hr
      simp only [Option.some.injEq] at hf
      subst hf
      exact Or.inr ⟨rfl, hc.1, hc.2, hr⟩
  · rename_i hc
    simp only [Option.some.injEq] at hf
    subst hf
    refine Or.inl ⟨rfl, rfl, rfl, ?_⟩
    by_cases hd : op.op_state = SYNC_DONE
    · right
      cases q with
      | true => rfl
      | false => exact absurd ⟨hd, rfl⟩ hc
    · exact Or.inl hd

/-- The blocks of `continue_sync` after the first one, run from `bs` and `op`. -/
theorem sync_stages {h : helpers} {bs : blockstore_impl_t} {op : blockstore_op_t} {q : Bool}
    {o : outcome}
    (ho : ((if op.op_state = SYNC_HAS_SMALL then sync_has_small h bs op
      else flow.go bs op).andThen fun bs1 op1 =>
      (if op1.op_state = SYNC_HAS_BIG then sync_has_big bs1 op1
        else flow.go bs1 op1).andThen fun bs2 op2 =>
      (if op2.op_state = SYNC_DATA_SYNC_DONE then sync_data_sync_done h bs2 op2
        else flow.go bs2 op2).andThen fun bs3 op3 =>
      (if op3.op_state = SYNC_JOURNAL_WRITE_DONE then sync_journal_write_done bs3 op3
        else flow.go bs3 op3).andThen fun bs4 op4 =>
      sync_finish h bs4 op4 q) = some o) :
    ((o.ret = 0 ∨ o.ret = 1) ∧ stage_frame bs op o.bs o.op) ∨
    (o.ret = 2 ∧ q = false ∧ ∃ bs4 op4, stage_frame bs op bs4 op4 ∧
      op4.op_state = SYNC_DONE ∧ ack_sync h bs4 op4 = some (o.bs, o.op)) := by
  -- block of SYNC_HAS_SMALL
  rcases andThen_some ho with ⟨r, b, p, hf, rfl⟩ | ⟨bs1, op1, hf, ho1⟩
  · split at hf
    · rcases sync_has_small_ret hf with ⟨hr, hb, hp⟩ | ⟨hr, -, hb, hfr, hp⟩
      · subst hb hp; exact Or.inl ⟨Or.inl hr, stage_frame_refl _ _⟩
      · exact Or.inl ⟨Or.inr hr, by rw [hb], by rw [hp], _, hfr⟩
    · exact absurd hf (by simp)
  have f1 : stage_frame bs op bs1 op1 := by
    split at hf
    · obtain ⟨hb, hp⟩ := sync_has_small_go hf
      subst hb hp; exact stage_frame_state _ _ _
    · simp only [flow.go.injEq] at hf
      obtain ⟨hb, hp⟩ := hf
      subst hb hp; exact stage_frame_refl _ _
  -- block of SYNC_HAS_BIG
  rcases andThen_some ho1 with ⟨r, b, p, hf2, rfl⟩ | ⟨bs2, op2, hf2, ho2⟩
  · split at hf2
    · rcases sync_has_big_ret hf2 with ⟨hr, hb, hp⟩ | ⟨hr, -, hb, hfr, hp⟩
      · subst hb hp; exact Or.inl ⟨Or.inl hr, f1⟩
      · exact Or.inl ⟨Or.inr hr, stage_frame_trans f1 ⟨by rw [hb], by rw [hp], _, hfr⟩⟩
    · exact absurd hf2 (by simp)
  have f2 : stage_frame bs op bs2 op2 := by
    split at hf2
    · obtain ⟨-, hb, hp⟩ := sync_has_big_go hf2
      subst hb hp; exact stage_frame_trans f1 (stage_frame_state _ _ _)
    · simp only [flow.go.injEq] at hf2
      obtain ⟨hb, hp⟩ := hf2
      subst hb hp; exact f1
  -- block of SYNC_DATA_SYNC_DONE
  rcases andThen_some ho2 with ⟨r, b, p, hf3, rfl⟩ | ⟨bs3, op3, hf3, ho3⟩
  · split at hf3
    · rcases sync_data_sync_done_ret hf3 with ⟨hr, hb, hp⟩ | ⟨hr, hb, ⟨fr, hfr, -⟩, hp⟩
      · subst hb hp; exact Or.inl ⟨Or.inl hr, f2⟩
      · exact Or.inl ⟨Or.inr hr, stage_frame_trans f2 ⟨by rw [hb], by rw [hp], fr, hfr⟩⟩
    · exact absurd hf3 (by simp)
  have f3 : stage_frame bs op bs3 op3 := by
    split at hf3
    · exact (sync_data_sync_done_go hf3).elim
    · simp only [flow.go.injEq] at hf3
      obtain ⟨hb, hp⟩ := hf3
      subst hb hp; exact f2
  -- block of SYNC_JOURNAL_WRITE_DONE
  rcases andThen_some ho3 with ⟨r, b, p, hf4, rfl⟩ | ⟨bs4, op4, hf4, ho4⟩
  · split at hf4
    · rcases sync_journal_write_done_ret hf4 with ⟨hr, hb, hp⟩ | ⟨hr, hb, hfr, hp⟩
      · subst hb hp; exact Or.inl ⟨Or.inl hr, f3⟩
      · exact Or.inl ⟨Or.inr hr, stage_frame_trans f3 ⟨by rw [hb], by rw [hp], _, hfr⟩⟩
    · exact absurd hf4 (by simp)
  have f4 : stage_frame bs op bs4 op4 := by
    split at hf4
    · obtain ⟨hb, hp⟩ := sync_journal_write_done_go hf4
      subst hb hp; exact stage_frame_trans f3 (stage_frame_state _ _ _)
    · simp only [flow.go.injEq] at hf4
      obtain ⟨hb, hp⟩ := hf4
      subst hb hp; exact f3
  -- the acknowledgement
  rcases sync_finish_cases ho4 with ⟨hr, hb, hp, -⟩ | ⟨hr, hs, hq, ha⟩
  · rw [← hb, ← hp] at f4
    exact Or.inl ⟨Or.inr hr, f4⟩
  · exact Or.inr ⟨hr, hq, bs4, op4, f4, hs, ha⟩

theorem stage_frame_op {bs bs1 : blockstore_impl_t} {op op1 : blockstore_op_t}
    (hf : stage_frame bs op bs1 op1) :
    op1.retval = op.retval ∧ op1.callbacks = op.callbacks ∧
    op1.sync_big_writes = op.sync_big_writes ∧ op1.sync_small_writes = op.sync_small_writes := by
  obtain ⟨-, b, -⟩ := hf
  exact ⟨by rw [b], by rw [b], by rw [b], by rw [b]⟩

theorem stage_frame_bs {bs bs1 : blockstore_impl_t} {op op1 : blockstore_op_t}
    (hf : stage_frame bs op bs1 op1) :
    bs1.immediate_commit = bs.immediate_commit ∧
    bs1.disable_data_fsync = bs.disable_data_fsync ∧
    bs1.disable_journal_fsync = bs.disable_journal_fsync ∧
    bs1.data_fd = bs.data_fd ∧
    bs1.unsynced_big_writes = bs.unsynced_big_writes ∧
    bs1.unsynced_small_writes = bs.unsynced_small_writes ∧
    bs1.unsynced_big_write_count = bs.unsynced_big_write_count ∧
    bs1.unstable_writes = bs.unstable_writes ∧
    bs1.mark_stable_calls = bs.mark_stable_calls := by
  obtain ⟨a, -, -⟩ := hf
  exact ⟨by rw [a], by rw [a], by rw [a], by rw [a], by rw [a], by rw [a], by rw [a],
    by rw [a], by rw [a]⟩

theorem sync_start_eq (bs : blockstore_impl_t) (op : blockstore_op_t) :
    sync_start bs op =
      ({ bs with stop_sync_submitted := false,
                 unsynced_big_write_count :=
                   bs.unsynced_big_write_count - bs.unsynced_big_writes.length,
                 unsynced_big_writes := [],
                 unsynced_small_writes := [] },
       { op with sync_big_writes := bs.unsynced_big_writes,
                 sync_small_writes := bs.unsynced_small_writes,
                 sync_small_checked := 0, sync_big_checked := 0,
                 op_state := (sync_start bs op).2.op_state }) := by
  unfold sync_start
  simp only []
  split
  · rfl
  · split <;> rfl

/-- Under IMMEDIATE_ALL `continue_sync` finishes the operation and returns 2 at once. -/
theorem continue_sync_all_eq (h : helpers) (bs : blockstore_impl_t)
    (op : blockstore_op_t) (q : Bool) (hall : bs.immediate_commit = h.IMMEDIATE_ALL) :
    continue_sync h bs op q =
      some { ret := 2, bs := bs,
             op := { op with retval := 0, callbacks := op.callbacks ++ [0] } } := by
  unfold continue_sync
  rw [if_pos hall]
  rfl

/-- C8. With `immediate_commit` equal to IMMEDIATE_ALL, `continue_sync` returns 2, stores
retval 0 and invokes the callback once, whatever the operation and the blockstore; the
blockstore (ring, unsynced lists and their count, dirty index, unstable-writes map,
journal) is left exactly as it was, so no I/O is prepared. -/
theorem continue_sync_immediate_all (h : helpers) (bs : blockstore_impl_t)
    (op : blockstore_op_t) (q : Bool) (hall : bs.immediate_commit = h.IMMEDIATE_ALL) :
    continue_sync h bs op q =
      some { ret := 2, bs := bs,
             op := { op with retval := 0, callbacks := op.callbacks ++ [0] } } :=
  continue_sync_all_eq h bs op q hall

theorem continue_sync_immediate_all_witness :
    continue_sync sample_helpers
        (sample_bs 2 [⟨⟨1, 0⟩, 1⟩] [⟨⟨2, 0⟩, 1⟩] [(⟨⟨1, 0⟩, 1⟩, sample_entry 0x42)])
        fresh_op true =
      some { ret := 2,
             bs := sample_bs 2 [⟨⟨1, 0⟩, 1⟩] [⟨⟨2, 0⟩, 1⟩] [(⟨⟨1, 0⟩, 1⟩, sample_entry 0x42)],
             op := { fresh_op with retval := 0, callbacks := [0] } } :=
  continue_sync_immediate_all sample_helpers _ fresh_op true rfl

/-- C5, as stated, fails under `immediate_commit = IMMEDIATE_ALL`: called with
`queue_has_in_progress_sync = true`, `continue_sync` finishes the operation (the callback
is invoked with retval 0) and returns 2. -/
theorem continue_sync_acks_under_immediate_all :
    (continue_sync sample_helpers (sample_bs 2 [] [] []) fresh_op true).map
      (fun o => (o.ret, o.op.retval, o.op.callbacks)) = some (2, 0, [0]) := by
  decide

/-- C5, amended. Unless `immediate_commit` is IMMEDIATE_ALL, a call of `continue_sync`
with `queue_has_in_progress_sync = true` does not acknowledge the operation, whatever the
operation state: it returns 0 or 1, never 2, the callback is not invoked and retval is
not written (the operation is not finished), and `mark_stable` is not called nor the
unstable-writes map changed (`ack_sync` does not run). -/
theorem continue_sync_waits_for_earlier_sync (h : helpers) (bs : blockstore_impl_t)
    (op : blockstore_op_t) (o : outcome) (hnall : bs.immediate_commit ≠ h.IMMEDIATE_ALL)
    (ho : continue_sync h bs op true = some o) :
    (o.ret = 0 ∨ o.ret = 1) ∧ o.op.callbacks = op.callbacks ∧ o.op.retval = op.retval ∧
    o.bs.mark_stable_calls = bs.mark_stable_calls ∧
    o.bs.unstable_writes = bs.unstable_writes := by
  unfold continue_sync at ho
  rw [if_neg hnall] at ho
  simp only [] at ho
  rcases sync_stages ho with ⟨hr, hf⟩ | ⟨-, hq, -⟩
  · obtain ⟨o1, o2, -, -⟩ := stage_frame_op hf
    obtain ⟨-, -, -, -, -, -, -, b1, b2⟩ := stage_frame_bs hf
    refine ⟨hr, ?_, ?_, ?_, ?_⟩
    · rw [o2]; split
      · rw [sync_start_eq]
      · rfl
    · rw [o1]; split
      · rw [sync_start_eq]
      · rfl
    · rw [b2]; split
      · rw [sync_start_eq]
      · rfl
    · rw [b1]; split
      · rw [sync_start_eq]
      · rfl
  · exact absurd hq (by simp)

theorem continue_sync_waits_for_earlier_sync_witness :
    continue_sync sample_helpers (sample_bs 0 [] [] []) fresh_op true =
        some { ret := 1, bs := sample_bs 0 [] [] [],
               op := { fresh_op with op_state := SYNC_DONE } } ∧
      ((1 : Int) = 0 ∨ (1 : Int) = 1) ∧
      ({ fresh_op with op_state := SYNC_DONE }).callbacks = fresh_op.callbacks ∧
      ({ fresh_op with op_state := SYNC_DONE }).retval = fresh_op.retval ∧
      (sample_bs 0 [] [] []).mark_stable_calls = (sample_bs 0 [] [] []).mark_stable_calls ∧
      (sample_bs 0 [] [] []).unstable_writes = (sample_bs 0 [] [] []).unstable_writes :=
  ⟨by decide,
   continue_sync_waits_for_earlier_sync sample_helpers (sample_bs 0 [] [] []) fresh_op
     { ret := 1, bs := sample_bs 0 [] [] [], op := { fresh_op with op_state := SYNC_DONE } }
     (by decide) (by decide)⟩

theorem sync_has_small_unsynced (h : helpers) (bs : blockstore_impl_t) (op : blockstore_op_t)
    (B S : List obj_ver_id) :
    sync_has_small h (set_unsynced bs B S) op = (sync_has_small h bs op).with_unsynced B S := by
  unfold sync_has_small
  simp only [set_unsynced]
  split
  · rfl
  · split
    · split <;> rfl
    · rfl

theorem sync_has_big_unsynced (bs : blockstore_impl_t) (op : blockstore_op_t)
    (B S : List obj_ver_id) :
    sync_has_big (set_unsynced bs B S) op = (sync_has_big bs op).with_unsynced B S := by
  unfold sync_has_big
  simp only [set_unsynced]
  split
  · split <;> rfl
  · rfl

theorem sync_data_sync_done_unsynced (h : helpers) (bs : blockstore_impl_t)
    (op : blockstore_op_t) (B S : List obj_ver_id) :
    sync_data_sync_done h (set_unsynced bs B S) op =
      (sync_data_sync_done h bs op).with_unsynced B S := by
  unfold sync_data_sync_done
  simp only [set_unsynced]
  split
  · rfl
  · split
    · rfl
    · split
      · rfl
      · split
        · split <;> rfl
        · rfl

theorem sync_journal_write_done_unsynced (bs : blockstore_impl_t) (op : blockstore_op_t)
    (B S : List obj_ver_id) :
    sync_journal_write_done (set_unsynced bs B S) op =
      (sync_journal_write_done bs op).with_unsynced B S := by
  unfold sync_journal_write_done
  simp only [set_unsynced]
  split
  · split <;> rfl
  · rfl

theorem ack_sync_big_unsynced (h : helpers) (bs : blockstore_impl_t) (it : obj_ver_id)
    (B S : List obj_ver_id) :
    ack_sync_big h (set_unsynced bs B S) it =
      (ack_sync_big h bs it).map (fun b => set_unsynced b B S) := by
  unfold ack_sync_big
  simp only [set_unsynced]
  cases hd : map_find bs.dirty_db it with
  | none => rfl
  | some e =>
    simp only []
    by_cases hi : set_workflow h e.state h.BS_ST_SYNCED &&& h.BS_ST_INSTANT ≠ 0
    · simp only [if_pos hi, call_mark_stable]
      cases after_key h it (h.mark_stable (map_update obj_ver_id.lt dirty_entry.zero
        (fun d => { d with state := set_workflow h e.state h.BS_ST_SYNCED }) bs.dirty_db it,
        raise_unstable bs.unstable_writes it) it).1 <;> rfl
    · simp only [if_neg hi]
      cases after_key h it (map_update obj_ver_id.lt dirty_entry.zero
        (fun d => { d with state := set_workflow h e.state h.BS_ST_SYNCED }) bs.dirty_db it) <;> rfl

theorem ack_sync_small_unsynced (h : helpers) (bs : blockstore_impl_t) (it : obj_ver_id)
    (B S : List obj_ver_id) :
    ack_sync_small h (set_unsynced bs B S) it = set_unsynced (ack_sync_small h bs it) B S := by
  unfold ack_sync_small
  simp only [set_unsynced, call_mark_stable]
  split
  · rfl
  · split <;> rfl

theorem ack_sync_bigs_unsynced (h : helpers) (B S : List obj_ver_id) :
    ∀ (l : List obj_ver_id) (bs : blockstore_impl_t),
      ack_sync_bigs h (set_unsynced bs B S) l =
        (ack_sync_bigs h bs l).map (fun b => set_unsynced b B S) := by
  intro l
  induction l with
  | nil => intro bs; rfl
  | cons it rest ih =>
    intro bs
    unfold ack_sync_bigs
    rw [ack_sync_big_unsynced]
    cases hb : ack_sync_big h bs it with
    | none => rfl
    | some b1 => simpa using ih b1

theorem ack_sync_smalls_unsynced (h : helpers) (B S : List obj_ver_id) :
    ∀ (l : List obj_ver_id) (bs : blockstore_impl_t),
      ack_sync_smalls h (set_unsynced bs B S) l = set_unsynced (ack_sync_smalls h bs l) B S := by
  intro l
  induction l with
  | nil => intro bs; rfl
  | cons it rest ih =>
    intro bs
    simp only [ack_sync_smalls]
    rw [ack_sync_small_unsynced, ih]

theorem sync_finish_unsynced (h : helpers) (bs : blockstore_impl_t) (op : blockstore_op_t)
    (q : Bool) (B S : List obj_ver_id) :
    sync_finish h (set_unsynced bs B S) op q =
      (sync_finish h bs op q).map (fun o => o.with_unsynced B S) := by
  unfold sync_finish ack_sync
  rw [ack_sync_bigs_unsynced]
  split
  · cases hb : ack_sync_bigs h bs op.sync_big_writes with
    | none => rfl
    | some b1 =>
      simp only [Option.map_some', ack_sync_smalls_unsynced]
      rfl
  · rfl

theorem andThen_unsynced (f : flow)
    (rest rest1 : blockstore_impl_t → blockstore_op_t → Option outcome) (B S : List obj_ver_id)
    (hrest : ∀ bs op, rest1 (set_unsynced bs B S) op =
      (rest bs op).map (fun o => o.with_unsynced B S)) :
    (f.with_unsynced B S).andThen rest1 =
      (f.andThen rest).map (fun o => o.with_unsynced B S) := by
  cases f with
  | ub => rfl
  | ret r bs op => rfl
  | go bs op => exact hrest bs op

theorem continue_sync_unsynced (h : helpers) (bs : blockstore_impl_t) (op : blockstore_op_t)
    (q : Bool) (B S : List obj_ver_id) (hop : op.op_state ≠ 0) :
    continue_sync h (set_unsynced bs B S) op q =
      (continue_sync h bs op q).map (fun o => o.with_unsynced B S) := by
  unfold continue_sync
  have hc : (set_unsynced bs B S).immediate_commit = bs.immediate_commit := rfl
  rw [hc]
  split
  · rfl
  · simp only [if_neg hop]
    have e1 : (if op.op_state = SYNC_HAS_SMALL then sync_has_small h (set_unsynced bs B S) op
        else flow.go (set_unsynced bs B S) op) =
        (if op.op_state = SYNC_HAS_SMALL then sync_has_small h bs op
          else flow.go bs op).with_unsynced B S := by
      split
      · exact sync_has_small_unsynced h bs op B S
      · rfl
    rw [e1]
    apply andThen_unsynced
    intro bs1 op1
    have e2 : (if op1.op_state = SYNC_HAS_BIG then sync_has_big (set_unsynced bs1 B S) op1
        else flow.go (set_unsynced bs1 B S) op1) =
        (if op1.op_state = SYNC_HAS_BIG then sync_has_big bs1 op1
          else flow.go bs1 op1).with_unsynced B S := by
      split
      · exact sync_has_big_unsynced bs1 op1 B S
      · rfl
    rw [e2]
    apply andThen_unsynced
    intro bs2 op2
    have e3 : (if op2.op_state = SYNC_DATA_SYNC_DONE
        then sync_data_sync_done h (set_unsynced bs2 B S) op2
        else flow.go (set_unsynced bs2 B S) op2) =
        (if op2.op_state = SYNC_DATA_SYNC_DONE then sync_data_sync_done h bs2 op2
          else flow.go bs2 op2).with_unsynced B S := by
      split
      · exact sync_data_sync_done_unsynced h bs2 op2 B S
      · rfl
    rw [e3]
    apply andThen_unsynced
    intro bs3 op3
    have e4 : (if op3.op_state = SYNC_JOURNAL_WRITE_DONE
        then sync_journal_write_done (set_unsynced bs3 B S) op3
        else flow.go (set_unsynced bs3 B S) op3) =
        (if op3.op_state = SYNC_JOURNAL_WRITE_DONE then sync_journal_write_done bs3 op3
          else flow.go bs3 op3).with_unsynced B S := by
      split
      · exact sync_journal_write_done_unsynced bs3 op3 B S
      · rfl
    rw [e4]
    apply andThen_unsynced
    intro bs4 op4
    exact sync_finish_unsynced h bs4 op4 q B S

theorem sync_stages_keep {h : helpers} {bs : blockstore_impl_t} {op : blockstore_op_t} {q : Bool}
    {o : outcome}
    (ho : ((if op.op_state = SYNC_HAS_SMALL then sync_has_small h bs op
      else flow.go bs op).andThen fun bs1 op1 =>
      (if op1.op_state = SYNC_HAS_BIG then sync_has_big bs1 op1
        else flow.go bs1 op1).andThen fun bs2 op2 =>
      (if op2.op_state = SYNC_DATA_SYNC_DONE then sync_data_sync_done h bs2 op2
        else flow.go bs2 op2).andThen fun bs3 op3 =>
      (if op3.op_state = SYNC_JOURNAL_WRITE_DONE then sync_journal_write_done bs3 op3
        else flow.go bs3 op3).andThen fun bs4 op4 =>
      sync_finish h bs4 op4 q) = some o) :
    o.op.sync_big_writes = op.sync_big_writes ∧
    o.op.sync_small_writes = op.sync_small_writes ∧
    o.bs.unsynced_big_writes = bs.unsynced_big_writes ∧
    o.bs.unsynced_small_writes = bs.unsynced_small_writes ∧
    o.bs.unsynced_big_write_count = bs.unsynced_big_write_count ∧
    o.bs.immediate_commit = bs.immediate_commit := by
  rcases sync_stages ho with ⟨-, hf⟩ | ⟨-, -, bs4, op4, hf, -, ha⟩
  · obtain ⟨-, -, o3, o4⟩ := stage_frame_op hf
    obtain ⟨b0, -, -, -, b1, b2, b3, -, -⟩ := stage_frame_bs hf
    exact ⟨o3, o4, b1, b2, b3, b0⟩
  · obtain ⟨-, -, o3, o4⟩ := stage_frame_op hf
    obtain ⟨b0, -, -, -, b1, b2, b3, -, -⟩ := stage_frame_bs hf
    obtain ⟨ao, ab⟩ := ack_sync_frame ha
    refine ⟨?_, ?_, ?_, ?_, ?_, ?_⟩
    · rw [ao]; exact o3
    · rw [ao]; exact o4
    · rw [ab]; exact b1
    · rw [ab]; exact b2
    · rw [ab]; exact b3
    · rw [ab]; exact b0

/-- The first run of `continue_sync` on an operation, IMMEDIATE_ALL apart: the unsynced
lists move to the operation. -/
theorem continue_sync_first_run {h : helpers} {bs : blockstore_impl_t}
    {op : blockstore_op_t} {q : Bool} {o : outcome}
    (hnall : bs.immediate_commit ≠ h.IMMEDIATE_ALL) (hop : op.op_state = 0)
    (ho : continue_sync h bs op q = some o) :
    o.op.sync_big_writes = bs.unsynced_big_writes ∧
    o.op.sync_small_writes = bs.unsynced_small_writes ∧
    o.bs.unsynced_big_writes = [] ∧
    o.bs.unsynced_small_writes = [] ∧
    o.bs.unsynced_big_write_count =
      bs.unsynced_big_write_count - bs.unsynced_big_writes.length := by
  unfold continue_sync at ho
  rw [if_neg hnall] at ho
  simp only [if_pos hop] at ho
  obtain ⟨k1, k2, k3, k4, k5, -⟩ := sync_stages_keep ho
  rw [k1, k2, k3, k4, k5, sync_start_eq]
  exact ⟨rfl, rfl, rfl, rfl, rfl⟩

/-- C6. When `continue_sync` first runs on a sync operation (`op_state` 0) and
`immediate_commit` is not IMMEDIATE_ALL, the operation's `sync_big_writes` and
`sync_small_writes` become the blockstore's previous unsynced lists, the blockstore's two
lists become empty and `unsynced_big_write_count` goes down by the number of big writes
taken. On a later call (`op_state` not 0) the blockstore's unsynced lists and their count
come out as they went in and so do the operation's captured lists; the call does not read
the unsynced lists either: run on a blockstore that differs in these two lists only, it
gives the same outcome but for these two lists. -/
theorem continue_sync_captures_unsynced (h : helpers) (bs : blockstore_impl_t)
    (op : blockstore_op_t) (q : Bool) :
    (bs.immediate_commit ≠ h.IMMEDIATE_ALL → op.op_state = 0 →
      ∀ o, continue_sync h bs op q = some o →
        o.op.sync_big_writes = bs.unsynced_big_writes ∧
        o.op.sync_small_writes = bs.unsynced_small_writes ∧
        o.bs.unsynced_big_writes = [] ∧
        o.bs.unsynced_small_writes = [] ∧
        o.bs.unsynced_big_write_count =
          bs.unsynced_big_write_count - bs.unsynced_big_writes.length) ∧
    (op.op_state ≠ 0 →
      (∀ o, continue_sync h bs op q = some o →
        o.bs.unsynced_big_writes = bs.unsynced_big_writes ∧
        o.bs.unsynced_small_writes = bs.unsynced_small_writes ∧
        o.bs.unsynced_big_write_count = bs.unsynced_big_write_count ∧
        o.op.sync_big_writes = op.sync_big_writes ∧
        o.op.sync_small_writes = op.sync_small_writes) ∧
      (∀ big small, continue_sync h (set_unsynced bs big small) op q =
        (continue_sync h bs op q).map (fun o => o.with_unsynced big small))) := by
  constructor
  · intro hnall hop o ho
    exact continue_sync_first_run hnall hop ho
  · intro hop
    refine ⟨?_, fun big small => continue_sync_unsynced h bs op q big small hop⟩
    intro o ho
    by_cases hall : bs.immediate_commit = h.IMMEDIATE_ALL
    · rw [continue_sync_all_eq h bs op q hall] at ho
      simp only [Option.some.injEq] at ho
      subst ho
      exact ⟨rfl, rfl, rfl, rfl, rfl⟩
    · unfold continue_sync at ho
      rw [if_neg hall] at ho
      simp only [if_neg hop] at ho
      obtain ⟨k1, k2, k3, k4, k5, -⟩ := sync_stages_keep ho
      exact ⟨k3, k4, k5, k1, k2⟩

theorem continue_sync_captures_unsynced_witness :
    (continue_sync sample_helpers
        (sample_bs 0 [⟨⟨1, 0⟩, 1⟩] [⟨⟨2, 0⟩, 1⟩]
          [(⟨⟨1, 0⟩, 1⟩, sample_entry 0x42), (⟨⟨2, 0⟩, 1⟩, sample_entry 0x41)])
        fresh_op false).map
      (fun o => (o.ret, o.op.op_state, o.bs.ring.prepared)) =
      some (1, 3, [sync_io.data_fsync 3]) ∧
    (∀ o, continue_sync sample_helpers
        (sample_bs 0 [⟨⟨1, 0⟩, 1⟩] [⟨⟨2, 0⟩, 1⟩]
          [(⟨⟨1, 0⟩, 1⟩, sample_entry 0x42), (⟨⟨2, 0⟩, 1⟩, sample_entry 0x41)])
        fresh_op false = some o →
      o.op.sync_big_writes = [⟨⟨1, 0⟩, 1⟩] ∧ o.op.sync_small_writes = [⟨⟨2, 0⟩, 1⟩] ∧
      o.bs.unsynced_big_writes = [] ∧ o.bs.unsynced_small_writes = [] ∧
      o.bs.unsynced_big_write_count = 1 - 1) :=
  ⟨by decide,
   (continue_sync_captures_unsynced sample_helpers
      (sample_bs 0 [⟨⟨1, 0⟩, 1⟩] [⟨⟨2, 0⟩, 1⟩]
        [(⟨⟨1, 0⟩, 1⟩, sample_entry 0x42), (⟨⟨2, 0⟩, 1⟩, sample_entry 0x41)])
      fresh_op false).1 (by decide) rfl⟩

theorem completes_at_once_of_all {h : helpers} {bs : blockstore_impl_t}
    (op : blockstore_op_t) (hall : bs.immediate_commit = h.IMMEDIATE_ALL) :
    completes_at_once h bs op :=
  ⟨_, continue_sync_all_eq h bs op false hall, rfl, rfl, rfl, rfl, rfl, rfl, rfl, rfl⟩

theorem completes_at_once_of_empty {h : helpers} {bs : blockstore_impl_t}
    {op : blockstore_op_t} (hop : op.op_state = 0) (hb : bs.unsynced_big_writes = [])
    (hs : bs.unsynced_small_writes = []) : completes_at_once h bs op := by
  by_cases hall : bs.immediate_commit = h.IMMEDIATE_ALL
  · exact completes_at_once_of_all op hall
  · unfold completes_at_once continue_sync
    rw [if_neg hall]
    simp only [if_pos hop, sync_start, hb, hs, List.length_nil, Nat.lt_irrefl, if_false]
    simp [SYNC_DONE, SYNC_HAS_SMALL, SYNC_HAS_BIG, SYNC_DATA_SYNC_DONE,
      SYNC_JOURNAL_WRITE_DONE, flow.andThen, sync_finish, ack_sync, ack_sync_bigs,
      ack_sync_smalls, FINISH_OP]

/-- C9, as stated, fails under `immediate_commit = IMMEDIATE_ALL`: the first (and only)
step of a sync returns 2 at once and leaves a non-empty list of unsynced writes as it
was, so the lists are not empty for the sync that follows. -/
theorem continue_sync_immediate_all_keeps_unsynced :
    (continue_sync sample_helpers
        (sample_bs 2 [] [⟨⟨2, 0⟩, 1⟩] [(⟨⟨2, 0⟩, 1⟩, sample_entry 0x41)]) fresh_op false).map
      (fun o => (o.ret, o.bs.unsynced_big_writes, o.bs.unsynced_small_writes)) =
      some (2, [], [⟨⟨2, 0⟩, 1⟩]) := by
  decide

/-- C9, amended. A sync dequeued (`op_state` 0) when both unsynced lists are empty and no
earlier sync is in progress completes in a single `continue_sync` call: return value 2,
retval 0, one callback, no request prepared, journal, dirty index and unstable-writes map
unchanged. Unless `immediate_commit` is IMMEDIATE_ALL, the first step of a sync empties
both unsynced lists; and in either configuration a second sync that follows the first
step of a sync with nothing in between completes in a single call in that same way. -/
theorem sync_twice_completes_at_once (h : helpers) (bs : blockstore_impl_t)
    (op1 op2 : blockstore_op_t) (q : Bool) (hop1 : op1.op_state = 0) (hop2 : op2.op_state = 0) :
    (bs.unsynced_big_writes = [] → bs.unsynced_small_writes = [] →
      completes_at_once h bs op1) ∧
    (∀ o1, continue_sync h bs op1 q = some o1 →
      (bs.immediate_commit ≠ h.IMMEDIATE_ALL →
        o1.bs.unsynced_big_writes = [] ∧ o1.bs.unsynced_small_writes = []) ∧
      completes_at_once h o1.bs op2) := by
  refine ⟨fun hb hs => completes_at_once_of_empty hop1 hb hs, ?_⟩
  intro o1 ho1
  by_cases hall : bs.immediate_commit = h.IMMEDIATE_ALL
  · refine ⟨fun hn => absurd hall hn, ?_⟩
    rw [continue_sync_all_eq h bs op1 q hall] at ho1
    simp only [Option.some.injEq] at ho1
    subst ho1
    exact completes_at_once_of_all op2 hall
  · obtain ⟨-, -, e1, e2, -⟩ := continue_sync_first_run hall hop1 ho1
    exact ⟨fun _ => ⟨e1, e2⟩, completes_at_once_of_empty hop2 e1 e2⟩

theorem sync_twice_completes_at_once_witness :
    (sample_bs 0 [] [] []).unsynced_big_writes = [] ∧
    (sample_bs 0 [] [] []).unsynced_small_writes = [] ∧
    completes_at_once sample_helpers (sample_bs 0 [] [] []) fresh_op ∧
    (continue_sync sample_helpers
        (sample_bs 0 [] [⟨⟨2, 0⟩, 1⟩] [(⟨⟨2, 0⟩, 1⟩, sample_entry 0x41)]) fresh_op false).isSome :=
  ⟨rfl, rfl,
   (sync_twice_completes_at_once sample_helpers (sample_bs 0 [] [] []) fresh_op fresh_op false
      rfl rfl).1 rfl rfl,
   by decide⟩

theorem allowed_le {s s1 : Nat} (h : allowed s s1) : s ≤ s1 := by
  unfold allowed at h; omega

theorem allowed_from_three {s1 : Nat} (h : allowed 3 s1) : s1 = 3 := by
  unfold allowed at h; omega

theorem allowed_to_two {s : Nat} (h : allowed s 2) : s = 2 := by
  unfold allowed at h; omega

theorem allowed_to_three {s : Nat} (h : allowed s 3) : s = 2 ∨ s = 3 := by
  unfold allowed at h; omega

theorem allowed_trans {s s1 s2 : Nat} (h1 : allowed s s1) (h2 : allowed s1 s2) :
    allowed s s2 := by
  unfold allowed at h1
  rcases h1 with rfl | ⟨rfl, rfl | rfl | rfl | rfl⟩ | ⟨rfl, rfl | rfl | rfl⟩ | ⟨rfl, rfl⟩ |
    ⟨rfl, rfl | rfl⟩
  all_goals (unfold allowed at h2 ⊢; omega)

theorem trans_ok_refl (d : Bool) (fd : Nat) (s : Nat) (p : Int) : trans_ok d fd s p s p [] := by
  refine ⟨Or.inl rfl, fun _ => ⟨rfl, rfl⟩, fun h2 _ => Or.inl h2, ?_, ?_⟩
  · intro h2 h3; omega
  · intro _ x hx; simp at hx

theorem trans_ok_trans {d : Bool} {fd : Nat} {s s1 s2 : Nat} {p p1 p2 : Int}
    {f1 f2 : List sync_io} (h1 : trans_ok d fd s p s1 p1 f1) (h2 : trans_ok d fd s1 p1 s2 p2 f2) :
    trans_ok d fd s p s2 p2 (f1 ++ f2) := by
  obtain ⟨a1, b1, c1, d1, e1⟩ := h1
  obtain ⟨a2, b2, c2, d2, e2⟩ := h2
  have m1 := allowed_le a1
  have m2 := allowed_le a2
  refine ⟨allowed_trans a1 a2, ?_, ?_, ?_, ?_⟩
  · intro hs
    have hs1 : s1 = s := by omega
    have hs2 : s2 = s1 := by omega
    obtain ⟨x1, y1⟩ := b1 hs1
    obtain ⟨x2, y2⟩ := b2 hs2
    exact ⟨by rw [x1, x2]; rfl, by rw [y2, y1]⟩
  · intro hs hd
    rcases c1 hs hd with h | h
    · exact c2 h hd
    · right; rw [h] at a2; exact allowed_from_three a2
  · intro hs hs2
    rw [hs2] at a2
    rcases allowed_to_three a2 with h | h
    · obtain ⟨x1, y1⟩ := b1 (by omega)
      obtain ⟨x2, y2⟩ := d2 h hs2
      exact ⟨by rw [x1, x2]; rfl, y2⟩
    · obtain ⟨x1, y1⟩ := d1 hs h
      obtain ⟨x2, y2⟩ := b2 (by omega)
      exact ⟨by rw [x1, x2]; rfl, by rw [y2, y1]⟩
  · intro hn x hx fd1
    rcases List.mem_append.mp hx with hx | hx
    · refine e1 ?_ x hx fd1
      rintro ⟨hs, hs1⟩
      rw [hs1] at a2
      exact hn ⟨hs, allowed_from_three a2⟩
    · refine e2 ?_ x hx fd1
      rintro ⟨hs1, hs2⟩
      rw [hs1] at a1
      exact hn ⟨allowed_to_two a1, hs2⟩

theorem stage_ok_refl (bs : blockstore_impl_t) (op : blockstore_op_t) : stage_ok bs op bs op :=
  ⟨[], by simp, trans_ok_refl _ _ _ _, rfl, rfl⟩

theorem stage_ok_trans {bs bs1 bs2 : blockstore_impl_t} {op op1 op2 : blockstore_op_t}
    (h1 : stage_ok bs op bs1 op1) (h2 : stage_ok bs1 op1 bs2 op2) : stage_ok bs op bs2 op2 := by
  obtain ⟨f1, p1, t1, d1, e1⟩ := h1
  obtain ⟨f2, p2, t2, d2, e2⟩ := h2
  rw [d1, e1] at t2
  exact ⟨f1 ++ f2, by rw [p2, p1, List.append_assoc], trans_ok_trans t1 t2,
    by rw [d2, d1], by rw [e2, e1]⟩

theorem stage_small_ok {h : helpers} {bs : blockstore_impl_t} {op : blockstore_op_t} :
    (∀ r b p, (if op.op_state = SYNC_HAS_SMALL then sync_has_small h bs op
        else flow.go bs op) = .ret r b p → r ≠ 2 ∧ stage_ok bs op b p) ∧
    (∀ b p, (if op.op_state = SYNC_HAS_SMALL then sync_has_small h bs op
        else flow.go bs op) = .go b p → stage_ok bs op b p) := by
  constructor
  · intro r b p hf
    split at hf
    · rename_i hs
      rcases sync_has_small_ret hf with ⟨hr, hb, hp⟩ | ⟨hr, hp5, hb, hfr, hp⟩
      · subst hb hp; exact ⟨by omega, stage_ok_refl _ _⟩
      · refine ⟨by omega, _, hfr, ?_, by rw [hb], by rw [hb]⟩
        simp only [SYNC_HAS_SMALL] at hs
        simp only [SYNC_JOURNAL_WRITE_SENT] at hp5
        refine ⟨?_, ?_, ?_, ?_, ?_⟩
        · unfold allowed; omega
        · intro hc; omega
        · intro hc; omega
        · intro hc; omega
        · intro _ x hx fd1
          simp only [List.mem_singleton] at hx
          rw [hx]; simp
    · exact absurd hf (by simp)
  · intro b p hf
    split at hf
    · rename_i hs
      obtain ⟨hb, hp⟩ := sync_has_small_go hf
      subst hb hp
      refine ⟨[], by simp, ?_, rfl, rfl⟩
      simp only [SYNC_HAS_SMALL] at hs
      simp only [SYNC_JOURNAL_WRITE_DONE]
      refine ⟨?_, ?_, ?_, ?_, ?_⟩
      · unfold allowed; omega
      · intro hc; omega
      · intro hc; omega
      · intro hc; omega
      · intro _ x hx; simp at hx
    · simp only [flow.go.injEq] at hf
      obtain ⟨hb, hp⟩ := hf
      subst hb hp; exact stage_ok_refl _ _

theorem stage_big_ok {bs : blockstore_impl_t} {op : blockstore_op_t} :
    (∀ r b p, (if op.op_state = SYNC_HAS_BIG then sync_has_big bs op
        else flow.go bs op) = .ret r b p → r ≠ 2 ∧ stage_ok bs op b p) ∧
    (∀ b p, (if op.op_state = SYNC_HAS_BIG then sync_has_big bs op
        else flow.go bs op) = .go b p → stage_ok bs op b p) := by
  constructor
  · intro r b p hf
    split at hf
    · rename_i hs
      rcases sync_has_big_ret hf with ⟨hr, hb, hp⟩ | ⟨hr, hd, hb, hfr, hp⟩
      · subst hb hp; exact ⟨by omega, stage_ok_refl _ _⟩
      · refine ⟨by omega, _, hfr, ?_, by rw [hb], by rw [hb]⟩
        simp only [SYNC_HAS_BIG] at hs
        have hp3 : p.op_state = 3 := by rw [hp]; rfl
        have hpp : p.pending_ops = 1 := by rw [hp]
        refine ⟨?_, ?_, ?_, ?_, ?_⟩
        · unfold allowed; omega
        · intro hc; omega
        · intro _ _; exact Or.inr hp3
        · intro _ _; exact ⟨rfl, hpp⟩
        · intro hn; exact absurd ⟨hs, hp3⟩ hn
    · exact absurd hf (by simp)
  · intro b p hf
    split at hf
    · rename_i hs
      obtain ⟨hd, hb, hp⟩ := sync_has_big_go hf
      subst hb hp
      refine ⟨[], by simp, ?_, rfl, rfl⟩
      simp only [SYNC_HAS_BIG] at hs
      simp only [SYNC_DATA_SYNC_DONE]
      refine ⟨?_, ?_, ?_, ?_, ?_⟩
      · unfold allowed; omega
      · intro hc; omega
      · intro _ hc; rw [hd] at hc; exact absurd hc (by simp)
      · intro _ hc; omega
      · intro _ x hx; simp at hx
    · simp only [flow.go.injEq] at hf
      obtain ⟨hb, hp⟩ := hf
      subst hb hp; exact stage_ok_refl _ _

theorem stage_data_ok {h : helpers} {bs : blockstore_impl_t} {op : blockstore_op_t} :
    (∀ r b p, (if op.op_state = SYNC_DATA_SYNC_DONE then sync_data_sync_done h bs op
        else flow.go bs op) = .ret r b p → r ≠ 2 ∧ stage_ok bs op b p) ∧
    (∀ b p, (if op.op_state = SYNC_DATA_SYNC_DONE then sync_data_sync_done h bs op
        else flow.go bs op) = .go b p → stage_ok bs op b p) := by
  constructor
  · intro r b p hf
    split at hf
    · rename_i hs
      rcases sync_data_sync_done_ret hf with ⟨hr, hb, hp⟩ | ⟨hr, hb, ⟨fr, hfr, hjw⟩, hp⟩
      · subst hb hp; exact ⟨by omega, stage_ok_refl _ _⟩
      · refine ⟨by omega, fr, hfr, ?_, by rw [hb], by rw [hb]⟩
        simp only [SYNC_DATA_SYNC_DONE] at hs
        have hp5 : p.op_state = 5 := by rw [hp]; rfl
        refine ⟨?_, ?_, ?_, ?_, ?_⟩
        · unfold allowed; omega
        · intro hc; omega
        · intro hc; omega
        · intro hc; omega
        · intro _ x hx fd1
          obtain ⟨sct, hsct⟩ := hjw x hx
          rw [hsct]; simp
    · exact absurd hf (by simp)
  · intro b p hf
    split at hf
    · exact (sync_data_sync_done_go hf).elim
    · simp only [flow.go.injEq] at hf
      obtain ⟨hb, hp⟩ := hf
      subst hb hp; exact stage_ok_refl _ _

theorem stage_journal_ok {bs : blockstore_impl_t} {op : blockstore_op_t} :
    (∀ r b p, (if op.op_state = SYNC_JOURNAL_WRITE_DONE then sync_journal_write_done bs op
        else flow.go bs op) = .ret r b p → r ≠ 2 ∧ stage_ok bs op b p) ∧
    (∀ b p, (if op.op_state = SYNC_JOURNAL_WRITE_DONE then sync_journal_write_done bs op
        else flow.go bs op) = .go b p → stage_ok bs op b p) := by
  constructor
  · intro r b p hf
    split at hf
    · rename_i hs
      rcases sync_journal_write_done_ret hf with ⟨hr, hb, hp⟩ | ⟨hr, hb, hfr, hp⟩
      · subst hb hp; exact ⟨by omega, stage_ok_refl _ _⟩
      · refine ⟨by omega, _, hfr, ?_, by rw [hb], by rw [hb]⟩
        simp only [SYNC_JOURNAL_WRITE_DONE] at hs
        have hp7 : p.op_state = 7 := by rw [hp]; rfl
        refine ⟨?_, ?_, ?_, ?_, ?_⟩
        · unfold allowed; omega
        · intro hc; omega
        · intro hc; omega
        · intro hc; omega
        · intro _ x hx fd1
          simp only [List.mem_singleton] at hx
          rw [hx]; simp
    · exact absurd hf (by simp)
  · intro b p hf
    split at hf
    · rename_i hs
      obtain ⟨hb, hp⟩ := sync_journal_write_done_go hf
      subst hb hp
      refine ⟨[], by simp, ?_, rfl, rfl⟩
      simp only [SYNC_JOURNAL_WRITE_DONE] at hs
      simp only [SYNC_DONE]
      refine ⟨?_, ?_, ?_, ?_, ?_⟩
      · unfold allowed; omega
      · intro hc; omega
      · intro hc; omega
      · intro hc; omega
      · intro _ x hx; simp at hx
    · simp only [flow.go.injEq] at hf
      obtain ⟨hb, hp⟩ := hf
      subst hb hp; exact stage_ok_refl _ _

theorem sync_finish_ok {h : helpers} {bs : blockstore_impl_t} {op : blockstore_op_t} {q : Bool}
    {o : outcome} (hf : sync_finish h bs op q = some o) :
    stage_ok bs op o.bs o.op ∧ (o.ret = 2 → o.op.op_state = 8) ∧ (o.ret = 1 ∨ o.ret = 2) ∧
    o.op.sync_big_writes = op.sync_big_writes := by
  rcases sync_finish_cases hf with ⟨hr, hb, hp, -⟩ | ⟨hr, hs, -, ha⟩
  · rw [hb, hp]
    exact ⟨stage_ok_refl _ _, fun hc => by omega, Or.inl hr, rfl⟩
  · obtain ⟨ao, ab⟩ := ack_sync_frame ha
    have e1 : o.op.op_state = op.op_state := by rw [ao]
    have e2 : o.op.pending_ops = op.pending_ops := by rw [ao]
    have e3 : o.bs.ring = bs.ring := by rw [ab]
    refine ⟨⟨[], by rw [e3]; simp, ?_, by rw [ab], by rw [ab]⟩, ?_, Or.inr hr, by rw [ao]⟩
    · rw [e1, e2]; exact trans_ok_refl _ _ _ _
    · intro _; rw [e1, hs]; rfl

/-- The blocks of `continue_sync` after the first one: how they move the operation. -/
theorem sync_stages_trans {h : helpers} {bs : blockstore_impl_t} {op : blockstore_op_t}
    {q : Bool} {o : outcome}
    (ho : ((if op.op_state = SYNC_HAS_SMALL then sync_has_small h bs op
      else flow.go bs op).andThen fun bs1 op1 =>
      (if op1.op_state = SYNC_HAS_BIG then sync_has_big bs1 op1
        else flow.go bs1 op1).andThen fun bs2 op2 =>
      (if op2.op_state = SYNC_DATA_SYNC_DONE then sync_data_sync_done h bs2 op2
        else flow.go bs2 op2).andThen fun bs3 op3 =>
      (if op3.op_state = SYNC_JOURNAL_WRITE_DONE then sync_journal_write_done bs3 op3
        else flow.go bs3 op3).andThen fun bs4 op4 =>
      sync_finish h bs4 op4 q) = some o) :
    stage_ok bs op o.bs o.op ∧ (o.ret = 2 → o.op.op_state = 8) := by
  rcases andThen_some ho with ⟨r, b, p, hf, rfl⟩ | ⟨bs1, op1, hf, ho1⟩
  · obtain ⟨hr, hk⟩ := stage_small_ok.1 r b p hf
    exact ⟨hk, fun hc => absurd hc hr⟩
  have k1 := stage_small_ok.2 bs1 op1 hf
  rcases andThen_some ho1 with ⟨r, b, p, hf2, rfl⟩ | ⟨bs2, op2, hf2, ho2⟩
  · obtain ⟨hr, hk⟩ := stage_big_ok.1 r b p hf2
    exact ⟨stage_ok_trans k1 hk, fun hc => absurd hc hr⟩
  have k2 := stage_ok_trans k1 (stage_big_ok.2 bs2 op2 hf2)
  rcases andThen_some ho2 with ⟨r, b, p, hf3, rfl⟩ | ⟨bs3, op3, hf3, ho3⟩
  · obtain ⟨hr, hk⟩ := stage_data_ok.1 r b p hf3
    exact ⟨stage_ok_trans k2 hk, fun hc => absurd hc hr⟩
  have k3 := stage_ok_trans k2 (stage_data_ok.2 bs3 op3 hf3)
  rcases andThen_some ho3 with ⟨r, b, p, hf4, rfl⟩ | ⟨bs4, op4, hf4, ho4⟩
  · obtain ⟨hr, hk⟩ := stage_journal_ok.1 r b p hf4
    exact ⟨stage_ok_trans k3 hk, fun hc => absurd hc hr⟩
  have k4 := stage_ok_trans k3 (stage_journal_ok.2 bs4 op4 hf4)
  obtain ⟨k5, h8, -, -⟩ := sync_finish_ok ho4
  exact ⟨stage_ok_trans k4 k5, h8⟩

theorem handle_sync_event_trans {h : helpers} {bs bs1 : blockstore_impl_t}
    {op op1 : blockstore_op_t} {res : Int} {len : Nat}
    (he : handle_sync_event h bs op res len = some (bs1, op1)) :
    bs1.disable_data_fsync = bs.disable_data_fsync ∧
    bs1.immediate_commit = bs.immediate_commit ∧
    op1.sync_big_writes = op.sync_big_writes ∧
    ((op1.op_state = op.op_state ∧ op.pending_ops ≠ 1) ∨
     (op.pending_ops = 1 ∧ ((op.op_state = 3 ∧ op1.op_state = 4) ∨
       (op.op_state = 5 ∧ op1.op_state = 6) ∨ (op.op_state = 7 ∧ op1.op_state = 8)))) := by
  unfold handle_sync_event at he
  simp only [] at he
  split at he
  · exact absurd he (by simp)
  · split at he
    · rename_i hp
      have hp1 : op.pending_ops = 1 := by omega
      split at he
      · rename_i hs
        simp only [Option.some.injEq, Prod.mk.injEq] at he
        obtain ⟨hb, ho⟩ := he
        subst hb ho
        exact ⟨rfl, rfl, rfl, Or.inr ⟨hp1, Or.inl ⟨hs, rfl⟩⟩⟩
      · split at he
        · rename_i hs
          simp only [Option.some.injEq, Prod.mk.injEq] at he
          obtain ⟨hb, ho⟩ := he
          subst hb ho
          exact ⟨rfl, rfl, rfl, Or.inr ⟨hp1, Or.inr (Or.inl ⟨hs, rfl⟩)⟩⟩
        · split at he
          · rename_i hs
            simp only [Option.some.injEq, Prod.mk.injEq] at he
            obtain ⟨hb, ho⟩ := he
            subst hb ho
            exact ⟨rfl, rfl, rfl, Or.inr ⟨hp1, Or.inr (Or.inr ⟨hs, rfl⟩)⟩⟩
          · exact absurd he (by simp)
    · rename_i hp
      simp only [Option.some.injEq, Prod.mk.injEq] at he
      obtain ⟨hb, ho⟩ := he
      subst hb ho
      exact ⟨rfl, rfl, rfl, Or.inl ⟨rfl, by intro hc; apply hp; show op.pending_ops - 1 = 0; omega⟩⟩

/-- What one call of `continue_sync` does to the ring and to the operation's state. In
the first case `immediate_commit` is IMMEDIATE_ALL; in the second the operation was
started before; in the third it starts now, in state `s0`. -/
theorem continue_sync_step {h : helpers} {bs : blockstore_impl_t} {op : blockstore_op_t}
    {q : Bool} {o : outcome} (ho : continue_sync h bs op q = some o) :
    ∃ fresh, o.bs.ring.prepared = bs.ring.prepared ++ fresh ∧
      o.bs.disable_data_fsync = bs.disable_data_fsync ∧
      o.bs.immediate_commit = bs.immediate_commit ∧
      ((bs.immediate_commit = h.IMMEDIATE_ALL ∧ fresh = [] ∧ o.op.op_state = op.op_state ∧
          o.op.sync_big_writes = op.sync_big_writes ∧ o.op.pending_ops = op.pending_ops) ∨
       (bs.immediate_commit ≠ h.IMMEDIATE_ALL ∧ op.op_state ≠ 0 ∧
          o.op.sync_big_writes = op.sync_big_writes ∧
          trans_ok bs.disable_data_fsync bs.data_fd op.op_state op.pending_ops
            o.op.op_state o.op.pending_ops fresh ∧
          (o.ret = 2 → o.op.op_state = 8)) ∨
       (bs.immediate_commit ≠ h.IMMEDIATE_ALL ∧ op.op_state = 0 ∧
          o.op.sync_big_writes = bs.unsynced_big_writes ∧
          ∃ s0, ((s0 = 2 ∧ bs.unsynced_big_writes ≠ []) ∨
              ((s0 = 1 ∨ s0 = 8) ∧ bs.unsynced_big_writes = [])) ∧
            trans_ok bs.disable_data_fsync bs.data_fd s0 op.pending_ops
              o.op.op_state o.op.pending_ops fresh ∧
            (o.ret = 2 → o.op.op_state = 8))) := by
  by_cases hall : bs.immediate_commit = h.IMMEDIATE_ALL
  · rw [continue_sync_all_eq h bs op q hall] at ho
    simp only [Option.some.injEq] at ho
    subst ho
    exact ⟨[], by simp, rfl, rfl, Or.inl ⟨hall, rfl, rfl, rfl, rfl⟩⟩
  · unfold continue_sync at ho
    rw [if_neg hall] at ho
    simp only [] at ho
    obtain ⟨⟨fresh, hp, ht, hd, hfd⟩, h8⟩ := sync_stages_trans ho
    obtain ⟨k1, -, -, -, -, k6⟩ := sync_stages_keep ho
    by_cases hop : op.op_state = 0
    · simp only [if_pos hop] at hp ht hd hfd k1 k6
      rw [sync_start_eq] at hp hd hfd k1 k6
      simp only [] at hp hd hfd k1 k6
      refine ⟨fresh, hp, hd, k6, Or.inr (Or.inr ⟨hall, hop, k1, (sync_start bs op).2.op_state,
        ?_, ?_, h8⟩)⟩
      · unfold sync_start
        simp only []
        cases hb : bs.unsynced_big_writes with
        | nil =>
          simp only [List.length_nil, Nat.lt_irrefl, if_false]
          right
          refine ⟨?_, trivial⟩
          split
          · left; rfl
          · right; rfl
        | cons a l =>
          simp only [List.length_cons, Nat.zero_lt_succ, if_true]
          left
          exact ⟨rfl, by simp⟩
      · have e1 : (sync_start bs op).1.disable_data_fsync = bs.disable_data_fsync := by
          rw [sync_start_eq]
        have e2 : (sync_start bs op).1.data_fd = bs.data_fd := by rw [sync_start_eq]
        have e3 : (sync_start bs op).2.pending_ops = op.pending_ops := by rw [sync_start_eq]
        rw [e1, e2, e3] at ht
        exact ht
    · simp only [if_neg hop] at hp ht hd hfd k1 k6
      exact ⟨fresh, hp, hd, k6, Or.inr (Or.inl ⟨hall, hop, k1, ht, h8⟩)⟩

theorem no_fsync_of_fresh {fresh : List sync_io}
    (hf : ∀ x ∈ fresh, ∀ fd1, x ≠ sync_io.data_fsync fd1) :
    ∀ x ∈ fresh.map trace_item.submitted, is_data_fsync_submit x = false := by
  intro x hx
  obtain ⟨y, hy, rfl⟩ := List.mem_map.mp hx
  cases y with
  | data_fsync fd => exact absurd rfl (hf _ hy fd)
  | journal_sector_write s => rfl
  | journal_fsync fd => rfl

theorem trans_in_set {d : Bool} {fd s s1 : Nat} {p p1 : Int} {fresh : List sync_io}
    (ht : trans_ok d fd s p s1 p1 fresh) (hs : s = 1 ∨ (5 ≤ s ∧ s ≤ 8)) :
    (s1 = 1 ∨ (5 ≤ s1 ∧ s1 ≤ 8)) ∧
    ∀ x ∈ fresh.map trace_item.submitted, is_data_fsync_submit x = false := by
  obtain ⟨a, -, -, -, e⟩ := ht
  refine ⟨by unfold allowed at a; omega, no_fsync_of_fresh (e (by omega))⟩

theorem trans_high {d : Bool} {fd s s1 : Nat} {p p1 : Int} {fresh : List sync_io}
    (ht : trans_ok d fd s p s1 p1 fresh) (hs : 5 ≤ s ∧ s ≤ 8) :
    (5 ≤ s1 ∧ s1 ≤ 8) ∧
    ∀ x ∈ fresh.map trace_item.submitted, is_data_fsync_submit x = false := by
  obtain ⟨a, -, -, -, e⟩ := ht
  refine ⟨by unfold allowed at a; omega, no_fsync_of_fresh (e (by omega))⟩

theorem trans_two {d : Bool} {fd s s1 : Nat} {p p1 : Int} {fresh : List sync_io}
    (ht : trans_ok d fd s p s1 p1 fresh) (hs : s = 2) (hd : d = false) :
    (s1 = 2 ∧ fresh = []) ∨ (s1 = 3 ∧ fresh = [sync_io.data_fsync fd] ∧ p1 = 1) := by
  obtain ⟨-, b, c, dd, -⟩ := ht
  rcases c hs hd with h2 | h3
  · exact Or.inl ⟨h2, (b (by omega)).1⟩
  · exact Or.inr ⟨h3, dd hs h3⟩

theorem trans_three {d : Bool} {fd s s1 : Nat} {p p1 : Int} {fresh : List sync_io}
    (ht : trans_ok d fd s p s1 p1 fresh) (hs : s = 3) : s1 = 3 ∧ fresh = [] ∧ p1 = p := by
  obtain ⟨a, b, -, -, -⟩ := ht
  have h3 : s1 = 3 := by unfold allowed at a; omega
  exact ⟨h3, b (by omega)⟩

theorem trans_four {d : Bool} {fd s s1 : Nat} {p p1 : Int} {fresh : List sync_io}
    (ht : trans_ok d fd s p s1 p1 fresh) (hs : s = 4) :
    (s1 = 4 ∧ fresh = []) ∨
    (s1 = 5 ∧ ∀ x ∈ fresh.map trace_item.submitted, is_data_fsync_submit x = false) := by
  obtain ⟨a, b, -, -, e⟩ := ht
  have h45 : s1 = 4 ∨ s1 = 5 := by unfold allowed at a; omega
  rcases h45 with h4 | h5
  · exact Or.inl ⟨h4, (b (by omega)).1⟩
  · exact Or.inr ⟨h5, no_fsync_of_fresh (e (by omega))⟩

theorem trans_nonzero {d : Bool} {fd s s1 : Nat} {p p1 : Int} {fresh : List sync_io}
    (ht : trans_ok d fd s p s1 p1 fresh) (hs : s ≠ 0) : s1 ≠ 0 := by
  have := allowed_le ht.1
  omega

theorem inv_continue_sync {h : helpers} {st : run_state} {q : Bool} {o : outcome}
    (hi : sync_inv h st) (ho : continue_sync h st.bs st.op q = some o) :
    sync_inv h
      { bs := o.bs, op := o.op, finished := decide (o.ret = 2),
        outstanding := st.outstanding ++ o.bs.ring.prepared.drop st.bs.ring.prepared.length,
        trace := st.trace ++
          (o.bs.ring.prepared.drop st.bs.ring.prepared.length).map trace_item.submitted } := by
  obtain ⟨fresh, hp, hd, hic, hcase⟩ := continue_sync_step ho
  have hdrop : o.bs.ring.prepared.drop st.bs.ring.prepared.length = fresh := by
    rw [hp]; simp
  rw [hdrop]
  have hfin : ∀ s, o.op.op_state = s → s ≠ 8 → (o.ret = 2 → o.op.op_state = 8) →
      decide (o.ret = 2) = false := by
    intro s hs hne h8
    exact decide_eq_false (fun hr => hne (by rw [← hs]; exact h8 hr))
  unfold sync_inv at hi ⊢
  simp only []
  rcases hi with ⟨hA0, hAb, hAt, hAo⟩ | ⟨hBb, hBs, hBt⟩ | ⟨hCb, hCs, hCd⟩ |
    ⟨h2b, h2d, h2n, -, h2s, h2t, h2o⟩ | ⟨h3b, h3d, h3n, -, h3s, h3p, fd3, h3t, h3o⟩ |
    ⟨h4b, h4d, h4n, -, h4s, fd4, h4t, h4o⟩ | ⟨h5b, h5d, h5l, h5u, fd5, rest5, h5t, h5r⟩
  · -- not started yet
    rcases hcase with ⟨-, hf, hs, hb, -⟩ | ⟨-, hop, -⟩ | ⟨hnall, -, hb, s0, hs0, ht, h8⟩
    · exact Or.inl ⟨by rw [hs, hA0], by rw [hb, hAb], by rw [hAt, hf]; rfl, by rw [hAo, hf]; rfl⟩
    · exact absurd hA0 hop
    · rcases hs0 with ⟨rfl, hbig⟩ | ⟨h18, hbig⟩
      · cases hdd : st.bs.disable_data_fsync with
        | true =>
          exact Or.inr (Or.inr (Or.inl ⟨by rw [hb]; exact hbig, trans_nonzero ht (by decide),
            by rw [hd]; exact hdd⟩))
        | false =>
          rw [hdd] at ht
          rcases trans_two ht rfl rfl with ⟨e2, hfr⟩ | ⟨e3, hfr, hp1⟩
          · exact Or.inr (Or.inr (Or.inr (Or.inl ⟨by rw [hb]; exact hbig, by rw [hd]; exact hdd,
              by rw [hic]; exact hnall, hfin 2 e2 (by decide) h8, e2,
              by rw [hAt, hfr]; rfl, by rw [hAo, hfr]; rfl⟩)))
          · exact Or.inr (Or.inr (Or.inr (Or.inr (Or.inl ⟨by rw [hb]; exact hbig,
              by rw [hd]; exact hdd, by rw [hic]; exact hnall, hfin 3 e3 (by decide) h8, e3, hp1,
              st.bs.data_fd, by rw [hAt, hfr]; rfl, by rw [hAo, hfr]; rfl⟩))))
      · obtain ⟨hset, hnf⟩ := trans_in_set ht (by omega)
        exact Or.inr (Or.inl ⟨by rw [hb, hbig], hset, by rw [hAt]; simpa using hnf⟩)
  · -- no big write captured
    rcases hcase with ⟨-, hf, hs, hb, -⟩ | ⟨-, -, hb, ht, -⟩ | ⟨-, hop, -⟩
    · exact Or.inr (Or.inl ⟨by rw [hb, hBb], by rw [hs]; exact hBs, by rw [hf]; simpa using hBt⟩)
    · obtain ⟨hset, hnf⟩ := trans_in_set ht hBs
      refine Or.inr (Or.inl ⟨by rw [hb, hBb], hset, ?_⟩)
      intro x hx
      rcases List.mem_append.mp hx with hx | hx
      · exact hBt x hx
      · exact hnf x hx
    · omega
  · -- big writes captured, data fsync disabled
    rcases hcase with ⟨-, -, hs, hb, -⟩ | ⟨-, -, hb, ht, -⟩ | ⟨-, hop, -⟩
    · exact Or.inr (Or.inr (Or.inl ⟨by rw [hb]; exact hCb, by rw [hs]; exact hCs,
        by rw [hd]; exact hCd⟩))
    · exact Or.inr (Or.inr (Or.inl ⟨by rw [hb]; exact hCb, trans_nonzero ht hCs,
        by rw [hd]; exact hCd⟩))
    · exact absurd hop hCs
  · -- SYNC_HAS_BIG
    rcases hcase with ⟨hall, -⟩ | ⟨hnall, -, hb, ht, h8⟩ | ⟨-, hop, -⟩
    · exact absurd hall h2n
    · rw [h2d] at ht
      rcases trans_two ht h2s rfl with ⟨e2, hfr⟩ | ⟨e3, hfr, hp1⟩
      · exact Or.inr (Or.inr (Or.inr (Or.inl ⟨by rw [hb]; exact h2b, by rw [hd]; exact h2d,
          by rw [hic]; exact hnall, hfin 2 e2 (by decide) h8, e2,
          by rw [h2t, hfr]; rfl, by rw [h2o, hfr]; rfl⟩)))
      · exact Or.inr (Or.inr (Or.inr (Or.inr (Or.inl ⟨by rw [hb]; exact h2b,
          by rw [hd]; exact h2d, by rw [hic]; exact hnall, hfin 3 e3 (by decide) h8, e3, hp1,
          st.bs.data_fd, by rw [h2t, hfr]; rfl, by rw [h2o, hfr]; rfl⟩))))
    · omega
  · -- SYNC_DATA_SYNC_SENT
    rcases hcase with ⟨hall, -⟩ | ⟨hnall, -, hb, ht, h8⟩ | ⟨-, hop, -⟩
    · exact absurd hall h3n
    · obtain ⟨e3, hfr, hp1⟩ := trans_three ht h3s
      exact Or.inr (Or.inr (Or.inr (Or.inr (Or.inl ⟨by rw [hb]; exact h3b,
        by rw [hd]; exact h3d, by rw [hic]; exact hnall, hfin 3 e3 (by decide) h8, e3,
        by rw [hp1]; exact h3p, fd3, by rw [h3t, hfr]; rfl, by rw [h3o, hfr]; rfl⟩))))
    · omega
  · -- SYNC_DATA_SYNC_DONE
    rcases hcase with ⟨hall, -⟩ | ⟨hnall, -, hb, ht, h8⟩ | ⟨-, hop, -⟩
    · exact absurd hall h4n
    · rcases trans_four ht h4s with ⟨e4, hfr⟩ | ⟨e5, hnf⟩
      · exact Or.inr (Or.inr (Or.inr (Or.inr (Or.inr (Or.inl ⟨by rw [hb]; exact h4b,
          by rw [hd]; exact h4d, by rw [hic]; exact hnall, hfin 4 e4 (by decide) h8, e4,
          fd4, by rw [h4t, hfr]; rfl, by rw [h4o, hfr]; rfl⟩)))))
      · exact Or.inr (Or.inr (Or.inr (Or.inr (Or.inr (Or.inr ⟨by rw [hb]; exact h4b,
          by rw [hd]; exact h4d, by omega, by omega, fd4, fresh.map trace_item.submitted,
          by rw [h4t]; rfl, hnf⟩)))))
    · omega
  · -- the journal is being written or synced, or all is done
    rcases hcase with ⟨-, hf, hs, hb, -⟩ | ⟨-, -, hb, ht, -⟩ | ⟨-, hop, -⟩
    · exact Or.inr (Or.inr (Or.inr (Or.inr (Or.inr (Or.inr ⟨by rw [hb]; exact h5b,
        by rw [hd]; exact h5d, by omega, by omega, fd5, rest5,
        by rw [h5t, hf]; simp, h5r⟩)))))
    · obtain ⟨hset, hnf⟩ := trans_high ht ⟨h5l, h5u⟩
      refine Or.inr (Or.inr (Or.inr (Or.inr (Or.inr (Or.inr ⟨by rw [hb]; exact h5b,
        by rw [hd]; exact h5d, hset.1, hset.2, fd5, rest5 ++ fresh.map trace_item.submitted,
        by rw [h5t]; rfl, ?_⟩)))))
      intro x hx
      rcases List.mem_append.mp hx with hx | hx
      · exact h5r x hx
      · exact hnf x hx
    · omega

theorem inv_complete {h : helpers} {st : run_state} {i : Nat} {io : sync_io} {res : Int}
    {len : Nat} {r : blockstore_impl_t × blockstore_op_t}
    (hi : sync_inv h st) (hio : st.outstanding.get? i = some io)
    (he : handle_sync_event h st.bs st.op res len = some r) :
    sync_inv h
      { st with bs := r.1, op := r.2, outstanding := st.outstanding.eraseIdx i,
                trace := st.trace ++ [trace_item.completed io] } := by
  have he1 : handle_sync_event h st.bs st.op res len = some (r.1, r.2) := he
  obtain ⟨hd, hic, hb, hcase⟩ := handle_sync_event_trans he1
  unfold sync_inv at hi ⊢
  simp only []
  rcases hi with ⟨-, -, -, hAo⟩ | ⟨hBb, hBs, hBt⟩ | ⟨hCb, hCs, hCd⟩ |
    ⟨-, -, -, -, -, -, h2o⟩ | ⟨h3b, h3d, h3n, h3f, h3s, h3p, fd3, h3t, h3o⟩ |
    ⟨-, -, -, -, -, -, -, h4o⟩ | ⟨h5b, h5d, h5l, h5u, fd5, rest5, h5t, h5r⟩
  · rw [hAo] at hio; simp at hio
  · refine Or.inr (Or.inl ⟨by rw [hb, hBb], by omega, ?_⟩)
    intro x hx
    rcases List.mem_append.mp hx with hx | hx
    · exact hBt x hx
    · simp only [List.mem_singleton] at hx
      rw [hx]; rfl
  · exact Or.inr (Or.inr (Or.inl ⟨by rw [hb]; exact hCb, by omega, by rw [hd]; exact hCd⟩))
  · rw [h2o] at hio; simp at hio
  · rw [h3o] at hio
    have hi0 : i = 0 := by
      cases i with
      | zero => rfl
      | succ n => simp at hio
    subst hi0
    simp only [List.get?_cons_zero, Option.some.injEq] at hio
    subst hio
    have e4 : r.2.op_state = 4 := by omega
    refine Or.inr (Or.inr (Or.inr (Or.inr (Or.inr (Or.inl ⟨by rw [hb]; exact h3b,
      by rw [hd]; exact h3d, by rw [hic]; exact h3n, h3f, e4, fd3, by rw [h3t]; rfl,
      by rw [h3o]; rfl⟩)))))
  · rw [h4o] at hio; simp at hio
  · refine Or.inr (Or.inr (Or.inr (Or.inr (Or.inr (Or.inr ⟨by rw [hb]; exact h5b,
      by rw [hd]; exact h5d, by omega, by omega, fd5, rest5 ++ [trace_item.completed io],
      by rw [h5t]; rfl, ?_⟩)))))
    intro x hx
    rcases List.mem_append.mp hx with hx | hx
    · exact h5r x hx
    · simp only [List.mem_singleton] at hx
      rw [hx]; rfl

theorem inv_other {h : helpers} {st : run_state}
    (f : blockstore_impl_t → blockstore_impl_t) (hi : sync_inv h st) :
    sync_inv h { st with bs := keep_config st.bs (f st.bs) } := by
  unfold sync_inv at hi ⊢
  simpa [keep_config] using hi

theorem step_inv {h : helpers} {st st1 : run_state} {e : event}
    (hi : sync_inv h st) (hs : step h st e = some st1) : sync_inv h st1 := by
  cases e with
  | other f =>
    simp only [step, Option.some.injEq] at hs
    subst hs
    exact inv_other f hi
  | continue_sync q =>
    simp only [step] at hs
    split at hs
    · exact absurd hs (by simp)
    · split at hs
      · exact absurd hs (by simp)
      · rename_i o ho
        simp only [Option.some.injEq] at hs
        subst hs
        exact inv_continue_sync hi ho
  | complete i res len =>
    simp only [step] at hs
    split at hs
    · exact absurd hs (by simp)
    · split at hs
      · exact absurd hs (by simp)
      · rename_i io hio
        split at hs
        · exact absurd hs (by simp)
        · rename_i r he
          simp only [Option.some.injEq] at hs
          subst hs
          exact inv_complete hi hio he

theorem run_inv {h : helpers} :
    ∀ (evs : List event) (st st1 : run_state), sync_inv h st → run h st evs = some st1 →
      sync_inv h st1 := by
  intro evs
  induction evs with
  | nil =>
    intro st st1 hi hr
    simp only [run, Option.some.injEq] at hr
    subst hr
    exact hi
  | cons e es ih =>
    intro st st1 hi hr
    unfold run at hr
    split at hr
    · exact absurd hr (by simp)
    · rename_i st2 hs
      exact ih st2 st1 (step_inv hi hs) hr

theorem start_inv (h : helpers) (bs : blockstore_impl_t) : sync_inv h (start bs) :=
  Or.inl ⟨rfl, rfl, rfl, rfl⟩

/-- A fresh sync with big writes to carry submits the data fsync as soon as an SQE is free. -/
theorem continue_sync_submits_data_fsync (h : helpers) (bs : blockstore_impl_t) (q : Bool)
    (hnall : bs.immediate_commit ≠ h.IMMEDIATE_ALL) (hbig : bs.unsynced_big_writes ≠ [])
    (hd : bs.disable_data_fsync = false) (hfree : bs.ring.free_sqes ≠ 0) :
    ∃ o, continue_sync h bs fresh_op q = some o ∧ o.ret = 1 ∧
      o.op.op_state = SYNC_DATA_SYNC_SENT ∧ o.op.pending_ops = 1 ∧
      o.op.sync_big_writes = bs.unsynced_big_writes ∧
      o.bs.ring.prepared = bs.ring.prepared ++ [sync_io.data_fsync bs.data_fd] := by
  have hlen : 0 < bs.unsynced_big_writes.length := List.length_pos.mpr hbig
  unfold continue_sync
  rw [if_neg hnall]
  simp [fresh_op, sync_start, hlen, SYNC_HAS_BIG, SYNC_HAS_SMALL, sync_has_big, hd, hfree,
    flow.andThen, SYNC_DATA_SYNC_SENT]

/-- The completion of the data fsync takes the operation to SYNC_DATA_SYNC_DONE. -/
theorem handle_sync_event_data_fsync_done (h : helpers) (bs : blockstore_impl_t)
    (op : blockstore_op_t) (hs : op.op_state = SYNC_DATA_SYNC_SENT) (hp : op.pending_ops = 1) :
    ∃ r, handle_sync_event h bs op 0 0 = some r ∧ r.2.op_state = SYNC_DATA_SYNC_DONE := by
  unfold handle_sync_event
  simp [hs, hp]

/-- C7. Along every run of a sync operation that starts from a fresh operation (calls of
`continue_sync`, completions calling `handle_sync_event`, other activity on the
blockstore in between): if the operation captured no big write, it is never in state
SYNC_DATA_SYNC_SENT and no data device fsync is ever submitted; if it captured a big
write and `disable_data_fsync` is unset, at most one data fsync is submitted, and once
the operation has passed the data sync (state SYNC_DATA_SYNC_DONE or later), has prepared
a journal sector write or has been acknowledged, the trace begins with the submission of
the data fsync followed by its completion, and no other data fsync is submitted: exactly
one data fsync, completed before any journal sector write is prepared. The data fsync is
submitted by the first call of `continue_sync` that finds a free SQE, and its completion
takes the operation to SYNC_DATA_SYNC_DONE. -/
theorem sync_data_fsync_discipline (h : helpers) (bs : blockstore_impl_t) (evs : List event)
    (st : run_state) (hrun : run h (start bs) evs = some st) :
    (st.op.sync_big_writes = [] →
      st.op.op_state ≠ SYNC_DATA_SYNC_SENT ∧
      ∀ x ∈ st.trace, is_data_fsync_submit x = false) ∧
    (st.op.sync_big_writes ≠ [] → st.bs.disable_data_fsync = false →
      (st.trace.filter is_data_fsync_submit).length ≤ 1 ∧
      ((st.finished = true ∨ SYNC_DATA_SYNC_DONE ≤ st.op.op_state ∨
          ∃ x ∈ st.trace, is_journal_write_submit x = true) →
        (st.trace.filter is_data_fsync_submit).length = 1 ∧
        ∃ fd rest, st.trace = trace_item.submitted (sync_io.data_fsync fd) ::
            trace_item.completed (sync_io.data_fsync fd) :: rest ∧
          ∀ x ∈ rest, is_data_fsync_submit x = false)) ∧
    (bs.immediate_commit ≠ h.IMMEDIATE_ALL → bs.unsynced_big_writes ≠ [] →
      bs.disable_data_fsync = false → bs.ring.free_sqes ≠ 0 →
      ∀ q, ∃ o, continue_sync h bs fresh_op q = some o ∧ o.ret = 1 ∧
        o.op.op_state = SYNC_DATA_SYNC_SENT ∧ o.op.pending_ops = 1 ∧
        o.op.sync_big_writes = bs.unsynced_big_writes ∧
        o.bs.ring.prepared = bs.ring.prepared ++ [sync_io.data_fsync bs.data_fd]) ∧
    (st.op.op_state = SYNC_DATA_SYNC_SENT → st.op.pending_ops = 1 →
      ∃ r, handle_sync_event h st.bs st.op 0 0 = some r ∧
        r.2.op_state = SYNC_DATA_SYNC_DONE) := by
  have hi := run_inv evs (start bs) st (start_inv h bs) hrun
  unfold sync_inv at hi
  have hnil : ∀ rest : List trace_item, (∀ x ∈ rest, is_data_fsync_submit x = false) →
      rest.filter is_data_fsync_submit = [] := by
    intro rest hr
    exact List.filter_eq_nil_iff.mpr (fun x hx => by rw [hr x hx]; simp)
  refine ⟨?_, ?_, fun hn hb hd hf q => continue_sync_submits_data_fsync h bs q hn hb hd hf,
    fun hs hp => handle_sync_event_data_fsync_done h st.bs st.op hs hp⟩
  · intro hb
    rcases hi with ⟨hA0, -, hAt, -⟩ | ⟨-, hBs, hBt⟩ | ⟨hCb, -⟩ | ⟨h2b, -⟩ | ⟨h3b, -⟩ |
      ⟨h4b, -⟩ | ⟨h5b, -⟩
    · exact ⟨by rw [hA0]; decide, by rw [hAt]; intro x hx; simp at hx⟩
    · exact ⟨by simp only [SYNC_DATA_SYNC_SENT]; omega, hBt⟩
    · exact absurd hb hCb
    · exact absurd hb h2b
    · exact absurd hb h3b
    · exact absurd hb h4b
    · exact absurd hb h5b
  · intro hb hd
    rcases hi with ⟨-, hAb, -⟩ | ⟨hBb, -⟩ | ⟨-, -, hCd⟩ | ⟨-, -, -, h2f, h2s, h2t, -⟩ |
      ⟨-, -, -, h3f, h3s, -, fd3, h3t, -⟩ | ⟨-, -, -, h4f, h4s, fd4, h4t, -⟩ |
      ⟨-, -, -, -, fd5, rest5, h5t, h5r⟩
    · exact absurd hAb hb
    · exact absurd hBb hb
    · rw [hd] at hCd; exact absurd hCd (by simp)
    · refine ⟨by rw [h2t]; simp, ?_⟩
      rintro (hf | hs | ⟨x, hx, -⟩)
      · rw [h2f] at hf; exact absurd hf (by simp)
      · simp only [SYNC_DATA_SYNC_DONE] at hs; omega
      · rw [h2t] at hx; simp at hx
    · refine ⟨by rw [h3t]; simp [is_data_fsync_submit], ?_⟩
      rintro (hf | hs | ⟨x, hx, hj⟩)
      · rw [h3f] at hf; exact absurd hf (by simp)
      · simp only [SYNC_DATA_SYNC_DONE] at hs; omega
      · rw [h3t] at hx
        simp only [List.mem_singleton] at hx
        rw [hx] at hj
        simp [is_journal_write_submit] at hj
    · have hc : (st.trace.filter is_data_fsync_submit).length = 1 := by
        rw [h4t]; simp [is_data_fsync_submit]
      exact ⟨by omega, fun _ => ⟨hc, fd4, [], h4t, by intro x hx; simp at hx⟩⟩
    · have hc : (st.trace.filter is_data_fsync_submit).length = 1 := by
        rw [h5t]
        simp [is_data_fsync_submit, hnil rest5 h5r]
      exact ⟨by omega, fun _ => ⟨hc, fd5, rest5, h5t, h5r⟩⟩

theorem sync_data_fsync_discipline_witness :
    ∃ st, run sample_helpers
        (start (sample_bs 0 [⟨⟨1, 0⟩, 1⟩] [⟨⟨2, 0⟩, 1⟩]
          [(⟨⟨1, 0⟩, 1⟩, sample_entry 0x42), (⟨⟨2, 0⟩, 1⟩, sample_entry 0x41)]))
        sample_events = some st ∧
      st.finished = true ∧
      st.trace = [trace_item.submitted (sync_io.data_fsync 3),
        trace_item.completed (sync_io.data_fsync 3),
        trace_item.submitted (sync_io.journal_sector_write 0),
        trace_item.completed (sync_io.journal_sector_write 0),
        trace_item.submitted (sync_io.journal_fsync 4),
        trace_item.completed (sync_io.journal_fsync 4)] ∧
      (st.trace.filter is_data_fsync_submit).length = 1 := by
  have hev : (run sample_helpers
        (start (sample_bs 0 [⟨⟨1, 0⟩, 1⟩] [⟨⟨2, 0⟩, 1⟩]
          [(⟨⟨1, 0⟩, 1⟩, sample_entry 0x42), (⟨⟨2, 0⟩, 1⟩, sample_entry 0x41)]))
        sample_events).map
      (fun st => (st.finished, st.op.sync_big_writes, st.bs.disable_data_fsync, st.trace)) =
      some (true, [⟨⟨1, 0⟩, 1⟩], false,
        [trace_item.submitted (sync_io.data_fsync 3),
         trace_item.completed (sync_io.data_fsync 3),
         trace_item.submitted (sync_io.journal_sector_write 0),
         trace_item.completed (sync_io.journal_sector_write 0),
         trace_item.submitted (sync_io.journal_fsync 4),
         trace_item.completed (sync_io.journal_fsync 4)]) := by
    decide
  cases hrun : run sample_helpers
      (start (sample_bs 0 [⟨⟨1, 0⟩, 1⟩] [⟨⟨2, 0⟩, 1⟩]
        [(⟨⟨1, 0⟩, 1⟩, sample_entry 0x42), (⟨⟨2, 0⟩, 1⟩, sample_entry 0x41)]))
      sample_events with
  | none => rw [hrun] at hev; simp at hev
  | some st =>
    rw [hrun] at hev
    simp only [Option.map_some', Option.some.injEq, Prod.mk.injEq] at hev
    obtain ⟨hf, hb, hd, ht⟩ := hev
    have key := (sync_data_fsync_discipline sample_helpers _ sample_events st hrun).2.1
      (by rw [hb]; simp) hd
    exact ⟨st, rfl, hf, ht, (key.2 (Or.inl hf)).1⟩

theorem map_find_modify {κ β : Type} [DecidableEq κ] (f : β → β) (k : κ) :
    ∀ (m : List (κ × β)) (x : κ),
      map_find (map_modify f m k) x = if x = k then (map_find m k).map f else map_find m x := by
  intro m
  induction m with
  | nil => intro x; simp [map_modify, map_find]
  | cons a rest ih =>
    intro x
    obtain ⟨k1, b⟩ := a
    unfold map_modify
    by_cases h1 : k1 = k
    · subst h1
      simp only [if_true, map_find]
      by_cases hx : k1 = x
      · subst hx; simp
      · have hx' : ¬ x = k1 := fun hc => hx hc.symm
        simp [hx, hx']
    · simp only [if_neg h1, map_find]
      by_cases hx : k1 = x
      · subst hx; simp [h1]
      · simp only [if_neg hx]
        exact ih x

theorem map_find_insert {κ β : Type} [DecidableEq κ] (lt : κ → κ → Bool) (k : κ) (b : β) :
    ∀ (m : List (κ × β)) (x : κ), map_find m k = none →
      map_find (map_insert lt m k b) x = if x = k then some b else map_find m x := by
  intro m
  induction m with
  | nil =>
    intro x _
    simp only [map_insert, map_find]
    by_cases hx : k = x
    · subst hx; simp
    · have hx' : ¬ x = k := fun hc => hx hc.symm
      simp [hx, hx']
  | cons a rest ih =>
    intro x hk
    obtain ⟨k1, b1⟩ := a
    simp only [map_find] at hk
    by_cases h1 : k1 = k
    · simp [h1] at hk
    · simp only [if_neg h1] at hk
      unfold map_insert
      by_cases hl : lt k k1 = true
      · simp only [hl, if_true, map_find]
        by_cases hx : k = x
        · subst hx; simp
        · have hx' : ¬ x = k := fun hc => hx hc.symm
          simp [hx, hx']
      · simp only [hl, map_find]
        by_cases hx : k1 = x
        · subst hx
          have : ¬ k1 = k := h1
          simp [this]
        · simp only [if_neg hx]
          simpa using ih x hk

theorem map_find_update {κ β : Type} [DecidableEq κ] (lt : κ → κ → Bool) (d : β) (f : β → β)
    (m : List (κ × β)) (k x : κ) :
    map_find (map_update lt d f m k) x =
      if x = k then some (f (map_read d m k)) else map_find m x := by
  unfold map_update map_read
  cases hk : map_find m k with
  | none =>
    simp only [Option.getD_none]
    exact map_find_insert lt k (f d) m x hk
  | some e =>
    simp only [Option.getD_some]
    rw [map_find_modify, hk]
    rfl

theorem testBit_of_and_eq_zero {a m : Nat} (h : a &&& m = 0) (i : Nat) :
    (a.testBit i && m.testBit i) = false := by
  rw [← Nat.testBit_and, h, Nat.zero_testBit]

theorem testBit_of_and_eq_self {a m : Nat} (h : a &&& m = a) (i : Nat) :
    (a.testBit i && m.testBit i) = a.testBit i := by
  rw [← Nat.testBit_and, h]

theorem bool_set_flag (s m x f : Bool) (h1 : (f && m) = false) (h2 : (x && m) = x) :
    ((Bool.xor s (s && m) || x) && f) = (s && f) := by
  revert h1 h2; cases s <;> cases m <;> cases x <;> cases f <;> simp

theorem bool_set_mask (s m x : Bool) (h2 : (x && m) = x) :
    ((Bool.xor s (s && m) || x) && m) = x := by
  revert h2; cases s <;> cases m <;> cases x <;> simp

theorem bool_kind_mask (d m w : Bool) (h1 : (d && m) = false) (h2 : (w && m) = w) :
    ((d || w) && m) = w := by
  revert h1 h2; cases d <;> cases m <;> cases w <;> simp

/-- Replacing the workflow of a state leaves a flag outside the mask as it is. -/
theorem set_workflow_flag (h : helpers) (s x f : Nat)
    (hf : f &&& h.BS_ST_WORKFLOW_MASK = 0) (hx : x &&& h.BS_ST_WORKFLOW_MASK = x) :
    set_workflow h s x &&& f = s &&& f := by
  apply Nat.eq_of_testBit_eq
  intro i
  simp only [set_workflow, and_not, Nat.testBit_and, Nat.testBit_or, Nat.testBit_xor]
  exact bool_set_flag _ _ _ _ (testBit_of_and_eq_zero hf i) (testBit_of_and_eq_self hx i)

/-- The workflow of a state whose workflow was replaced is the new one. -/
theorem set_workflow_mask (h : helpers) (s x : Nat) (hx : x &&& h.BS_ST_WORKFLOW_MASK = x) :
    set_workflow h s x &&& h.BS_ST_WORKFLOW_MASK = x := by
  apply Nat.eq_of_testBit_eq
  intro i
  simp only [set_workflow, and_not, Nat.testBit_and, Nat.testBit_or, Nat.testBit_xor]
  exact bool_set_mask _ _ _ (testBit_of_and_eq_self hx i)

/-- The workflow of `BS_ST_DELETE | BS_ST_WRITTEN` is BS_ST_WRITTEN. -/
theorem delete_written_mask (h : helpers) (hl : layout_ok h) :
    (h.BS_ST_DELETE ||| h.BS_ST_WRITTEN) &&& h.BS_ST_WORKFLOW_MASK = h.BS_ST_WRITTEN := by
  obtain ⟨-, hd, -, hw, -⟩ := hl
  apply Nat.eq_of_testBit_eq
  intro i
  simp only [Nat.testBit_and, Nat.testBit_or]
  exact bool_kind_mask _ _ _ (testBit_of_and_eq_zero hd i) (testBit_of_and_eq_self hw i)

theorem keeps_bits_refl (h : helpers) (e : dirty_entry) : keeps_bits h e e :=
  ⟨rfl, Iff.rfl⟩

theorem keeps_bits_trans {h : helpers} {e e1 e2 : dirty_entry} (h1 : keeps_bits h e e1)
    (h2 : keeps_bits h e1 e2) : keeps_bits h e e2 :=
  ⟨h2.1.trans h1.1, h2.2.trans h1.2⟩

/-- An entry woken from WAIT_BIG keeps its bits. -/
theorem keeps_bits_woken (h : helpers) (hl : layout_ok h) (e : dirty_entry)
    (hw : e.state &&& h.BS_ST_WORKFLOW_MASK = h.BS_ST_WAIT_BIG) :
    keeps_bits h e { e with state := set_workflow h e.state h.BS_ST_IN_FLIGHT } := by
  have hdw := delete_written_mask h hl
  obtain ⟨hi, -, hif, -, -, hne1, hne2⟩ := hl
  refine ⟨set_workflow_flag h _ _ _ hi hif, ?_, ?_⟩
  · intro hc
    simp only [] at hc
    have := set_workflow_mask h e.state _ hif
    rw [hc, hdw] at this
    exact absurd this hne2
  · intro hc
    rw [hc, hdw] at hw
    exact absurd hw hne1

theorem wake_followers_keeps (h : helpers) (hl : layout_ok h) (oid : object_id) :
    ∀ (l : List (obj_ver_id × dirty_entry)) (k : obj_ver_id),
      db_keeps h l (wake_followers h oid l) k := by
  intro l
  induction l with
  | nil => intro k e he; simp [map_find] at he
  | cons a rest ih =>
    intro k e he
    obtain ⟨k1, e1⟩ := a
    unfold wake_followers
    simp only [map_find] at he
    by_cases ho : k1.oid = oid
    · simp only [if_pos ho, map_find]
      by_cases hk : k1 = k
      · simp only [if_pos hk] at he ⊢
        simp only [Option.some.injEq] at he
        subst he
        by_cases hw : e1.state &&& h.BS_ST_WORKFLOW_MASK = h.BS_ST_WAIT_BIG
        · simp only [if_pos hw]
          exact ⟨_, rfl, keeps_bits_woken h hl e1 hw⟩
        · simp only [if_neg hw]
          exact ⟨_, rfl, keeps_bits_refl h e1⟩
      · simp only [if_neg hk] at he ⊢
        exact ih k e he
    · simp only [if_neg ho, map_find]
      by_cases hk : k1 = k
      · simp only [if_pos hk] at he ⊢
        simp only [Option.some.injEq] at he
        subst he
        exact ⟨_, rfl, keeps_bits_refl h e1⟩
      · simp only [if_neg hk] at he ⊢
        exact ⟨e, he, keeps_bits_refl h e⟩

theorem after_key_keeps (h : helpers) (hl : layout_ok h) (it : obj_ver_id) :
    ∀ (l : List (obj_ver_id × dirty_entry)) (e0 : dirty_entry), map_find l it = some e0 →
      ∃ l1, after_key h it l = some l1 ∧ ∀ k, db_keeps h l l1 k := by
  intro l
  induction l with
  | nil => intro e0 he; simp [map_find] at he
  | cons a rest ih =>
    intro e0 he
    obtain ⟨k1, e1⟩ := a
    unfold after_key
    simp only [map_find] at he
    by_cases hk : k1 = it
    · simp only [if_pos hk]
      refine ⟨_, rfl, ?_⟩
      intro k e hke
      simp only [map_find] at hke ⊢
      by_cases hkk : k1 = k
      · simp only [if_pos hkk] at hke ⊢
        simp only [Option.some.injEq] at hke
        subst hke
        exact ⟨_, rfl, keeps_bits_refl h e1⟩
      · simp only [if_neg hkk] at hke ⊢
        exact wake_followers_keeps h hl it.oid rest k e hke
    · simp only [if_neg hk] at he ⊢
      obtain ⟨l1, hl1, hkeep⟩ := ih e0 he
      rw [hl1]
      refine ⟨_, rfl, ?_⟩
      intro k e hke
      simp only [map_find] at hke ⊢
      by_cases hkk : k1 = k
      · simp only [if_pos hkk] at hke ⊢
        simp only [Option.some.injEq] at hke
        subst hke
        exact ⟨_, rfl, keeps_bits_refl h e1⟩
      · simp only [if_neg hkk] at hke ⊢
        exact hkeep k e hke

theorem db_keeps_trans {h : helpers} {db db1 db2 : List (obj_ver_id × dirty_entry)}
    {k : obj_ver_id} (h1 : db_keeps h db db1 k) (h2 : db_keeps h db1 db2 k) :
    db_keeps h db db2 k := by
  intro e he
  obtain ⟨e1, he1, hb1⟩ := h1 e he
  obtain ⟨e2, he2, hb2⟩ := h2 e1 he1
  exact ⟨e2, he2, keeps_bits_trans hb1 hb2⟩

theorem tracked_step {h : helpers} {db0 db db1 : List (obj_ver_id × dirty_entry)}
    {k : obj_ver_id} (ht : tracked h db0 db k) (hk : db_keeps h db db1 k) :
    tracked h db0 db1 k := by
  obtain ⟨e0, e, h0, he, hb⟩ := ht
  obtain ⟨e1, he1, hb1⟩ := hk e he
  exact ⟨e0, e1, h0, he1, keeps_bits_trans hb hb1⟩

theorem db_keeps_update (h : helpers) (db : List (obj_ver_id × dirty_entry))
    (f : dirty_entry → dirty_entry) (it k : obj_ver_id) (hne : k ≠ it) :
    db_keeps h db (map_update obj_ver_id.lt dirty_entry.zero f db it) k := by
  intro e he
  refine ⟨e, ?_, keeps_bits_refl h e⟩
  rw [map_find_update, if_neg hne]
  exact he

theorem db_keeps_mark_stable (h : helpers) (hms : mark_stable_keeps h)
    (db : List (obj_ver_id × dirty_entry)) (uw : List (object_id × Nat)) (v k : obj_ver_id) :
    db_keeps h db (h.mark_stable (db, uw) v).1 k := by
  intro e he
  obtain ⟨e1, he1, hb1, hb2⟩ := hms db uw v k e he
  exact ⟨e1, he1, hb1, hb2⟩

/-- One big write of `ack_sync`: `mark_stable` is called exactly when the entry carries
INSTANT, and the other entries keep their bits. -/
theorem ack_sync_big_calls (h : helpers) (hl : layout_ok h) (hms : mark_stable_keeps h)
    (bs : blockstore_impl_t) (it : obj_ver_id) (e : dirty_entry)
    (he : map_find bs.dirty_db it = some e) :
    ∃ bs1, ack_sync_big h bs it = some bs1 ∧
      bs1.mark_stable_calls = bs.mark_stable_calls ++
        (if e.state &&& h.BS_ST_INSTANT ≠ 0 then [it] else []) ∧
      ∀ k, k ≠ it → db_keeps h bs.dirty_db bs1.dirty_db k := by
  have hflag : set_workflow h e.state h.BS_ST_SYNCED &&& h.BS_ST_INSTANT =
      e.state &&& h.BS_ST_INSTANT := set_workflow_flag h _ _ _ hl.1 hl.2.2.2.2.1
  unfold ack_sync_big
  simp only [he, hflag]
  have hfind : ∀ f, map_find (map_update obj_ver_id.lt dirty_entry.zero f bs.dirty_db it) it =
      some (f e) := by
    intro f
    rw [map_find_update, if_pos rfl]
    simp [map_read, he]
  by_cases hi : e.state &&& h.BS_ST_INSTANT ≠ 0
  · simp only [if_pos hi, call_mark_stable]
    obtain ⟨e1, he1, -⟩ := hms _ (raise_unstable bs.unstable_writes it) it it _ (hfind _)
    obtain ⟨l1, hl1, hkeep⟩ := after_key_keeps h hl it _ e1 he1
    rw [hl1]
    refine ⟨_, rfl, rfl, ?_⟩
    intro k hk
    exact db_keeps_trans (db_keeps_update h _ _ it k hk)
      (db_keeps_trans (db_keeps_mark_stable h hms _ _ it k) (hkeep k))
  · simp only [if_neg hi]
    obtain ⟨l1, hl1, hkeep⟩ := after_key_keeps h hl it _ _ (hfind _)
    rw [hl1]
    refine ⟨_, rfl, by simp, ?_⟩
    intro k hk
    exact db_keeps_trans (db_keeps_update h _ _ it k hk) (hkeep k)

/-- One small write of `ack_sync`: `mark_stable` is called exactly when the state is
`BS_ST_DELETE | BS_ST_WRITTEN` or the entry carries INSTANT, and the other entries keep
their bits. -/
theorem ack_sync_small_calls (h : helpers) (hl : layout_ok h) (hms : mark_stable_keeps h)
    (bs : blockstore_impl_t) (it : obj_ver_id) (e : dirty_entry)
    (he : map_find bs.dirty_db it = some e) :
    (ack_sync_small h bs it).mark_stable_calls = bs.mark_stable_calls ++
        (if e.state = h.BS_ST_DELETE ||| h.BS_ST_WRITTEN ∨ e.state &&& h.BS_ST_INSTANT ≠ 0
          then [it] else []) ∧
      ∀ k, k ≠ it → db_keeps h bs.dirty_db (ack_sync_small h bs it).dirty_db k := by
  have hflag : set_workflow h e.state h.BS_ST_SYNCED &&& h.BS_ST_INSTANT =
      e.state &&& h.BS_ST_INSTANT := set_workflow_flag h _ _ _ hl.1 hl.2.2.2.2.1
  have hread : map_read dirty_entry.zero bs.dirty_db it = e := by simp [map_read, he]
  unfold ack_sync_small
  simp only [hread, hflag]
  by_cases hdw : e.state = h.BS_ST_DELETE ||| h.BS_ST_WRITTEN
  · rw [if_pos hdw, if_pos (Or.inl hdw)]
    simp only [call_mark_stable]
    refine ⟨trivial, ?_⟩
    intro k hk
    exact db_keeps_trans (db_keeps_update h _ _ it k hk) (db_keeps_mark_stable h hms _ _ it k)
  · rw [if_neg hdw]
    by_cases hi : e.state &&& h.BS_ST_INSTANT ≠ 0
    · rw [if_pos hi, if_pos (Or.inr hi)]
      simp only [call_mark_stable]
      refine ⟨trivial, ?_⟩
      intro k hk
      exact db_keeps_trans (db_keeps_update h _ _ it k hk)
        (db_keeps_mark_stable h hms _ _ it k)
    · rw [if_neg hi, if_neg (by rintro (hc | hc); exact hdw hc; exact hi hc)]
      refine ⟨by simp, ?_⟩
      intro k hk
      exact db_keeps_update h _ _ it k hk

theorem ack_sync_bigs_calls (h : helpers) (hl : layout_ok h) (hms : mark_stable_keeps h)
    (db0 : List (obj_ver_id × dirty_entry)) (S : List obj_ver_id) :
    ∀ (l : List obj_ver_id) (bs : blockstore_impl_t), (l ++ S).Nodup →
      (∀ k ∈ l ++ S, tracked h db0 bs.dirty_db k) →
      ∃ bs1, ack_sync_bigs h bs l = some bs1 ∧
        bs1.mark_stable_calls = bs.mark_stable_calls ++ l.filter (is_instant h db0) ∧
        ∀ k ∈ S, tracked h db0 bs1.dirty_db k := by
  intro l
  induction l with
  | nil =>
    intro bs _ htr
    exact ⟨bs, rfl, by simp, fun k hk => htr k (by simpa using hk)⟩
  | cons it rest ih =>
    intro bs hnd htr
    rw [List.cons_append, List.nodup_cons] at hnd
    obtain ⟨hnot, hnd1⟩ := hnd
    obtain ⟨e0, e, h0, he, hb⟩ := htr it (by simp)
    obtain ⟨bs1, hbig, hcalls, hkeep⟩ := ack_sync_big_calls h hl hms bs it e he
    have htr1 : ∀ k ∈ rest ++ S, tracked h db0 bs1.dirty_db k := by
      intro k hk
      have hne : k ≠ it := fun hc => hnot (hc ▸ hk)
      exact tracked_step (htr k (by rw [List.cons_append]; exact List.mem_cons_of_mem _ hk))
        (hkeep k hne)
    obtain ⟨bs2, hbigs, hcalls2, htr2⟩ := ih bs1 hnd1 htr1
    refine ⟨bs2, ?_, ?_, htr2⟩
    · unfold ack_sync_bigs
      rw [hbig]
      exact hbigs
    · rw [hcalls2, hcalls, List.append_assoc]
      congr 1
      have hinst : is_instant h db0 it = decide (e.state &&& h.BS_ST_INSTANT ≠ 0) := by
        unfold is_instant map_read
        rw [h0, Option.getD_some, hb.1]
      rw [List.filter_cons, hinst]
      by_cases hi : e.state &&& h.BS_ST_INSTANT ≠ 0
      · simp [hi]
      · simp [hi]

theorem ack_sync_smalls_calls (h : helpers) (hl : layout_ok h) (hms : mark_stable_keeps h)
    (db0 : List (obj_ver_id × dirty_entry)) :
    ∀ (l : List obj_ver_id) (bs : blockstore_impl_t), l.Nodup →
      (∀ k ∈ l, tracked h db0 bs.dirty_db k) →
      (ack_sync_smalls h bs l).mark_stable_calls = bs.mark_stable_calls ++
        l.filter (fun k => is_instant h db0 k || is_delete_written h db0 k) := by
  intro l
  induction l with
  | nil => intro bs _ _; simp [ack_sync_smalls]
  | cons it rest ih =>
    intro bs hnd htr
    rw [List.nodup_cons] at hnd
    obtain ⟨hnot, hnd1⟩ := hnd
    obtain ⟨e0, e, h0, he, hb⟩ := htr it (by simp)
    obtain ⟨hcalls, hkeep⟩ := ack_sync_small_calls h hl hms bs it e he
    have htr1 : ∀ k ∈ rest, tracked h db0 (ack_sync_small h bs it).dirty_db k := by
      intro k hk
      have hne : k ≠ it := fun hc => hnot (hc ▸ hk)
      exact tracked_step (htr k (List.mem_cons_of_mem _ hk)) (hkeep k hne)
    simp only [ack_sync_smalls]
    rw [ih _ hnd1 htr1, hcalls, List.append_assoc]
    congr 1
    have hinst : is_instant h db0 it = decide (e.state &&& h.BS_ST_INSTANT ≠ 0) := by
      unfold is_instant map_read
      rw [h0, Option.getD_some, hb.1]
    have hdel : is_delete_written h db0 it =
        decide (e.state = h.BS_ST_DELETE ||| h.BS_ST_WRITTEN) := by
      unfold is_delete_written map_read
      rw [h0, Option.getD_some]
      exact decide_eq_decide.mpr hb.2.symm
    rw [List.filter_cons, hinst, hdel]
    by_cases hdw : e.state = h.BS_ST_DELETE ||| h.BS_ST_WRITTEN
    · simp [hdw]
    · by_cases hi : e.state &&& h.BS_ST_INSTANT ≠ 0
      · simp [hi]
      · simp [hdw, hi]

/-- C10, as stated, fails on a delete entry whose workflow state is not WRITTEN: for a
small-write list holding one entry of kind DELETE in state IN_FLIGHT without the INSTANT
flag, `ack_sync` sets the entry to SYNCED and does not call `mark_stable`. -/
theorem ack_sync_skips_unwritten_delete :
    (0x23 &&& 0x0F = sample_helpers.BS_ST_DELETE ∧
      0x23 &&& sample_helpers.BS_ST_WORKFLOW_MASK = sample_helpers.BS_ST_IN_FLIGHT) ∧
    (ack_sync sample_helpers (sample_bs 0 [] [] [(⟨⟨7, 0⟩, 1⟩, sample_entry 0x23)])
        { fresh_op with sync_small_writes := [⟨⟨7, 0⟩, 1⟩] }).map
      (fun r => (r.1.mark_stable_calls, r.1.dirty_db.map (fun p => p.2.state), r.2.callbacks)) =
      some ([], [0x53], [0]) := by
  decide

/-- C10, amended. When a sync is acknowledged whose lists name each dirty entry at most
once, all of them present in the dirty index, `ack_sync` calls `mark_stable` on exactly
these entries, once each and in list order, and on no other: the entries of the big-write
list that carry the INSTANT flag, then the entries of the small-write list that carry the
INSTANT flag or whose state is exactly `BS_ST_DELETE | BS_ST_WRITTEN`. A delete entry in
another workflow state is marked stable only if it carries INSTANT. The state constants
are taken to form a bit layout, and `mark_stable` to keep the entries, their INSTANT flag
and whether their state is `BS_ST_DELETE | BS_ST_WRITTEN`. -/
theorem ack_sync_mark_stable_calls (h : helpers) (bs : blockstore_impl_t)
    (op : blockstore_op_t) (hl : layout_ok h) (hms : mark_stable_keeps h)
    (hnd : (op.sync_big_writes ++ op.sync_small_writes).Nodup)
    (hpres : ∀ k ∈ op.sync_big_writes ++ op.sync_small_writes,
      (map_find bs.dirty_db k).isSome = true) :
    ∃ r, ack_sync h bs op = some r ∧
      r.1.mark_stable_calls = bs.mark_stable_calls ++
        op.sync_big_writes.filter (is_instant h bs.dirty_db) ++
        op.sync_small_writes.filter
          (fun k => is_instant h bs.dirty_db k || is_delete_written h bs.dirty_db k) := by
  have htr : ∀ k ∈ op.sync_big_writes ++ op.sync_small_writes,
      tracked h bs.dirty_db bs.dirty_db k := by
    intro k hk
    obtain ⟨e, he⟩ := Option.isSome_iff_exists.mp (hpres k hk)
    exact ⟨e, e, he, he, keeps_bits_refl h e⟩
  obtain ⟨bs1, hbigs, hcalls, htr1⟩ :=
    ack_sync_bigs_calls h hl hms bs.dirty_db op.sync_small_writes op.sync_big_writes bs hnd htr
  have hnd2 : op.sync_small_writes.Nodup := (List.nodup_append.mp hnd).2.1
  have hsm := ack_sync_smalls_calls h hl hms bs.dirty_db op.sync_small_writes bs1 hnd2 htr1
  refine ⟨_, by unfold ack_sync; rw [hbigs], ?_⟩
  simp only []
  rw [hsm, hcalls]

theorem sample_layout_ok : layout_ok sample_helpers := by
  unfold layout_ok
  decide

theorem sample_mark_stable_keeps : mark_stable_keeps sample_helpers := by
  intro db uw v k e he
  have hfind : map_find (sample_helpers.mark_stable (db, uw) v).1 k =
      if k = v then (map_find db v).map (fun e => if e.state &&& 0xF0 = 0x50
        then { e with state := and_not e.state 0xF0 ||| 0x60 } else e) else map_find db k :=
    map_find_modify _ v db k
  rw [hfind]
  by_cases hk : k = v
  · subst hk
    rw [if_pos rfl, he]
    simp only [Option.map_some']
    by_cases hs : e.state &&& 0xF0 = 0x50
    · rw [if_pos hs]
      refine ⟨_, rfl, ?_, ?_⟩
      · exact set_workflow_flag sample_helpers e.state 0x60 0x100 (by decide) (by decide)
      · have hm := set_workflow_mask sample_helpers e.state 0x60 (by decide)
        constructor
        · intro hc
          have hc' : set_workflow sample_helpers e.state 0x60 = 0x43 := hc
          rw [hc'] at hm
          exact absurd hm (by decide)
        · intro hc
          have hc' : e.state = 0x43 := hc
          rw [hc'] at hs
          exact absurd hs (by decide)
    · rw [if_neg hs]
      exact ⟨e, rfl, keeps_bits_refl _ e⟩
  · rw [if_neg hk]
    exact ⟨e, he, keeps_bits_refl _ e⟩

theorem ack_sync_mark_stable_calls_witness :
    ∃ r, ack_sync sample_helpers
        (sample_bs 0 [] []
          [(⟨⟨1, 0⟩, 1⟩, sample_entry 0x142), (⟨⟨2, 0⟩, 1⟩, sample_entry 0x42),
           (⟨⟨3, 0⟩, 1⟩, sample_entry 0x41), (⟨⟨4, 0⟩, 1⟩, sample_entry 0x43),
           (⟨⟨5, 0⟩, 1⟩, sample_entry 0x141)])
        { fresh_op with sync_big_writes := [⟨⟨1, 0⟩, 1⟩, ⟨⟨2, 0⟩, 1⟩],
                        sync_small_writes := [⟨⟨3, 0⟩, 1⟩, ⟨⟨4, 0⟩, 1⟩, ⟨⟨5, 0⟩, 1⟩] } = some r ∧
      r.1.mark_stable_calls = [⟨⟨1, 0⟩, 1⟩, ⟨⟨4, 0⟩, 1⟩, ⟨⟨5, 0⟩, 1⟩] := by
  obtain ⟨r, hr, hc⟩ := ack_sync_mark_stable_calls sample_helpers
    (sample_bs 0 [] []
      [(⟨⟨1, 0⟩, 1⟩, sample_entry 0x142), (⟨⟨2, 0⟩, 1⟩, sample_entry 0x42),
       (⟨⟨3, 0⟩, 1⟩, sample_entry 0x41), (⟨⟨4, 0⟩, 1⟩, sample_entry 0x43),
       (⟨⟨5, 0⟩, 1⟩, sample_entry 0x141)])
    { fresh_op with sync_big_writes := [⟨⟨1, 0⟩, 1⟩, ⟨⟨2, 0⟩, 1⟩],
                    sync_small_writes := [⟨⟨3, 0⟩, 1⟩, ⟨⟨4, 0⟩, 1⟩, ⟨⟨5, 0⟩, 1⟩] }
    sample_layout_ok sample_mark_stable_keeps (by decide) (by decide)
  refine ⟨r, hr, ?_⟩
  rw [hc]
  decide

end Sync

/-! ## Properties of `submit_pg_flush_ops`, `handle_flush_op` and the recovery queue -/

namespace Flush

theorem map_read_update {κ β : Type} [DecidableEq κ] (lt : κ → κ → Bool) (d : β) (f : β → β)
    (m : List (κ × β)) (k x : κ) :
    map_read d (map_update lt d f m k) x =
      if x = k then f (map_read d m k) else map_read d m x := by
  have hf := Sync.map_find_update lt d f m k x
  by_cases hx : x = k
  · rw [if_pos hx] at hf
    rw [if_pos hx]
    unfold map_read at hf ⊢
    rw [hf]; rfl
  · rw [if_neg hx] at hf
    rw [if_neg hx]
    unfold map_read
    rw [hf]

theorem map_read_touch {κ β : Type} [DecidableEq κ] (lt : κ → κ → Bool) (d : β)
    (m : List (κ × β)) (k x : κ) :
    map_read d (map_update lt d id m k) x = map_read d m x := by
  rw [map_read_update]
  by_cases hx : x = k
  · rw [if_pos hx, hx]; rfl
  · rw [if_neg hx]

theorem scan_stop_lists (h : helpers) (st : scan_state) (k : obj_piece_id_t) (p : Nat) :
    map_read [] (scan_stop h st k).2.rollback_lists p = map_read [] st.fb.rollback_lists p ∧
    map_read [] (scan_stop h st k).2.stable_lists p = map_read [] st.fb.stable_lists p := by
  unfold scan_stop
  simp only []
  split
  · split
    · exact ⟨map_read_touch _ _ _ _ _, rfl⟩
    · exact ⟨map_read_touch _ _ _ _ _, map_read_touch _ _ _ _ _⟩
  · exact ⟨rfl, map_read_touch _ _ _ _ _⟩

theorem scan_stop_false (h : helpers) (st : scan_state) (k : obj_piece_id_t)
    (hc : (scan_stop h st k).1 = false) :
    (map_read [] st.fb.stable_lists k.osd_num).length < FLUSH_BATCH ∧
    (∀ p, st.prev = some p → object_differs h k.oid p.oid = true →
      (map_read [] st.fb.rollback_lists k.osd_num).length < FLUSH_BATCH) := by
  unfold scan_stop at hc
  simp only [] at hc
  split at hc
  · rename_i hd
    split at hc
    · simp at hc
    · rename_i hr
      rw [map_read_touch] at hr
      simp only [map_read_touch, decide_eq_false_iff_not] at hc
      exact ⟨by omega, fun _ _ _ => by omega⟩
  · rename_i hd
    simp only [map_read_touch, decide_eq_false_iff_not] at hc
    refine ⟨by omega, fun p hp hdiff => ?_⟩
    rw [hp] at hd
    exact absurd hdiff hd

theorem rollbacks_of_append (p : Nat) (pre : List (obj_piece_id_t × flush_action_t))
    (k : obj_piece_id_t) (a : flush_action_t) :
    rollbacks_of p (pre ++ [(k, a)]) = rollbacks_of p pre ++
      (if k.osd_num = p ∧ a.rollback = true then [{ oid := k.oid, version := a.rollback_to }]
       else []) := by
  unfold rollbacks_of
  by_cases hc : k.osd_num = p ∧ a.rollback = true
  · simp [List.filter_append, List.filter_cons, hc]
  · rw [if_neg hc]
    have : (decide (k.osd_num = p) && a.rollback) = false := by
      cases hr : a.rollback <;> simp_all
    simp [List.filter_append, List.filter_cons, this]

theorem stables_of_append (p : Nat) (pre : List (obj_piece_id_t × flush_action_t))
    (k : obj_piece_id_t) (a : flush_action_t) :
    stables_of p (pre ++ [(k, a)]) = stables_of p pre ++
      (if k.osd_num = p ∧ a.make_stable = true then [{ oid := k.oid, version := a.stable_to }]
       else []) := by
  unfold stables_of
  by_cases hc : k.osd_num = p ∧ a.make_stable = true
  · simp [List.filter_append, List.filter_cons, hc]
  · rw [if_neg hc]
    have : (decide (k.osd_num = p) && a.make_stable) = false := by
      cases hr : a.make_stable <;> simp_all
    simp [List.filter_append, List.filter_cons, this]

theorem scan_take_rollback (fb : pg_flush_batch_t) (k : obj_piece_id_t) (a : flush_action_t)
    (p : Nat) :
    map_read [] (scan_take fb k a).rollback_lists p = map_read [] fb.rollback_lists p ++
      (if k.osd_num = p ∧ a.rollback = true then [{ oid := k.oid, version := a.rollback_to }]
       else []) := by
  unfold scan_take
  cases hr : a.rollback <;> cases hs : a.make_stable <;> simp [map_read_update]
  all_goals
    by_cases hp : p = k.osd_num
    · subst hp; simp
    · have hp2 : ¬ k.osd_num = p := fun hc => hp hc.symm
      simp [hp, hp2]

theorem scan_take_stable (fb : pg_flush_batch_t) (k : obj_piece_id_t) (a : flush_action_t)
    (p : Nat) :
    map_read [] (scan_take fb k a).stable_lists p = map_read [] fb.stable_lists p ++
      (if k.osd_num = p ∧ a.make_stable = true then [{ oid := k.oid, version := a.stable_to }]
       else []) := by
  unfold scan_take
  cases hr : a.rollback <;> cases hs : a.make_stable <;> simp [map_read_update]
  all_goals
    by_cases hp : p = k.osd_num
    · subst hp; simp
    · have hp2 : ¬ k.osd_num = p := fun hc => hp hc.symm
      simp [hp, hp2]

end Flush

namespace Flush

theorem starts_bounded_snoc (h : helpers) (pre : List (obj_piece_id_t × flush_action_t))
    (z : obj_piece_id_t × flush_action_t) (hb : starts_bounded h pre)
    (hz : ∀ pre0 x, pre = pre0 ++ [x] → object_differs h z.1.oid x.1.oid = true →
      (rollbacks_of z.1.osd_num pre).length < FLUSH_BATCH ∧
      (stables_of z.1.osd_num pre).length < FLUSH_BATCH) :
    starts_bounded h (pre ++ [z]) := by
  intro p x y post heq hd
  rcases List.eq_nil_or_concat post with hp | ⟨post0, w, hp⟩
  · subst hp
    have h1 : pre ++ [z] = (p ++ [x]) ++ [y] := by rw [heq]; simp
    have h2 := List.append_inj' h1 rfl
    have hzy : z = y := by simpa using h2.2
    subst hzy
    have := hz p x h2.1 hd
    rw [h2.1] at this
    exact this
  · subst hp
    have h1 : pre ++ [z] = (p ++ x :: y :: post0) ++ [w] := by rw [heq]; simp
    have h2 := List.append_inj' h1 rfl
    exact hb p x y post0 h2.1 hd

theorem stable_bounded_snoc (pre : List (obj_piece_id_t × flush_action_t))
    (z : obj_piece_id_t × flush_action_t) (hb : stable_bounded pre)
    (hz : (stables_of z.1.osd_num pre).length < FLUSH_BATCH) :
    stable_bounded (pre ++ [z]) := by
  intro p x post heq
  rcases List.eq_nil_or_concat post with hp | ⟨post0, w, hp⟩
  · subst hp
    have h1 : pre ++ [z] = p ++ [x] := heq
    have h2 := List.append_inj' h1 rfl
    have hzx : z = x := by simpa using h2.2
    subst hzx
    rw [← h2.1]
    exact hz
  · subst hp
    have h1 : pre ++ [z] = (p ++ x :: post0) ++ [w] := by rw [heq]; simp
    have h2 := List.append_inj' h1 rfl
    exact hb p x post0 h2.1

theorem scan_stop_true (h : helpers) (st : scan_state) (k : obj_piece_id_t)
    (hc : (scan_stop h st k).1 = true) :
    FLUSH_BATCH ≤ (map_read [] st.fb.stable_lists k.osd_num).length ∨
    ∃ p, st.prev = some p ∧ object_differs h k.oid p.oid = true ∧
      FLUSH_BATCH ≤ (map_read [] st.fb.rollback_lists k.osd_num).length := by
  unfold scan_stop at hc
  simp only [] at hc
  split at hc
  · rename_i hd
    split at hc
    · rename_i hr
      rw [map_read_touch] at hr
      right
      cases hp : st.prev with
      | none => rw [hp] at hd; simp at hd
      | some p =>
        rw [hp] at hd
        exact ⟨p, rfl, hd, hr⟩
    · simp only [map_read_touch, decide_eq_true_eq] at hc
      exact Or.inl hc
  · simp only [map_read_touch, decide_eq_true_eq] at hc
    exact Or.inl hc

theorem scan_spec (h : helpers) :
    ∀ (rest : List (obj_piece_id_t × flush_action_t)) (st : scan_state)
      (pre : List (obj_piece_id_t × flush_action_t)),
      st.done = pre.map mark_submitted →
      (∀ p, map_read [] st.fb.rollback_lists p = rollbacks_of p pre ∧
            map_read [] st.fb.stable_lists p = stables_of p pre) →
      st.prev = pre.getLast?.map Prod.fst →
      starts_bounded h pre →
      stable_bounded pre →
      ∃ m, m ≤ rest.length ∧
        (scan h st rest).1.done = (pre ++ rest.take m).map mark_submitted ∧
        (scan h st rest).2 = rest.drop m ∧
        (∀ p, map_read [] (scan h st rest).1.fb.rollback_lists p =
                rollbacks_of p (pre ++ rest.take m) ∧
              map_read [] (scan h st rest).1.fb.stable_lists p =
                stables_of p (pre ++ rest.take m)) ∧
        starts_bounded h (pre ++ rest.take m) ∧
        stable_bounded (pre ++ rest.take m) ∧
        (m = rest.length ∨
          ∃ x rest1, rest.drop m = x :: rest1 ∧ stops_before h (pre ++ rest.take m) x) := by
  intro rest
  induction rest with
  | nil =>
    intro st pre hd hl _ hb hsb
    refine ⟨0, le_refl _, ?_, rfl, ?_, ?_, ?_, Or.inl rfl⟩
    · simpa [scan] using hd
    · simpa [scan] using hl
    · simpa using hb
    · simpa using hsb
  | cons e rest ih =>
    intro st pre hd hl hp hb hsb
    obtain ⟨k, a⟩ := e
    by_cases hc : (scan_stop h st k).1 = true
    · refine ⟨0, Nat.zero_le _, ?_, ?_, ?_, ?_, ?_, Or.inr ⟨(k, a), rest, rfl, ?_⟩⟩
      · simp only [scan, hc, if_true, List.take_zero, List.append_nil]
        exact hd
      · simp only [scan, hc, if_true, List.drop_zero]
      · intro p
        simp only [scan, hc, if_true, List.take_zero, List.append_nil]
        rw [(scan_stop_lists h st k p).1, (scan_stop_lists h st k p).2]
        exact hl p
      · simpa using hb
      · simpa using hsb
      · simp only [List.take_zero, List.append_nil]
        rcases scan_stop_true h st k hc with h1 | ⟨p, h1, h2, h3⟩
        · left
          rw [(hl k.osd_num).2] at h1
          exact h1
        · right
          rw [(hl k.osd_num).1] at h3
          rw [hp] at h1
          rcases List.eq_nil_or_concat pre with hpre | ⟨pre0, y, hpre⟩
          · rw [hpre] at h1; simp at h1
          · rw [hpre] at h1
            simp at h1
            refine ⟨pre0, y, by rw [hpre]; simp, ?_, h3⟩
            rw [h1]; exact h2
    · have hcf : (scan_stop h st k).1 = false := by simpa using hc
      have hno := scan_stop_false h st k hcf
      have hstep : scan h st ((k, a) :: rest) =
          scan h { fb := scan_take (scan_stop h st k).2 k a, prev := some k,
                   done := st.done ++ [(k, { a with submitted := true })] } rest := by
        simp only [scan, hcf]
        rfl
      rw [hstep]
      have hd1 : st.done ++ [(k, { a with submitted := true })] =
          (pre ++ [(k, a)]).map mark_submitted := by
        rw [hd]; simp [mark_submitted]
      have hl1 : ∀ p, map_read [] (scan_take (scan_stop h st k).2 k a).rollback_lists p =
            rollbacks_of p (pre ++ [(k, a)]) ∧
          map_read [] (scan_take (scan_stop h st k).2 k a).stable_lists p =
            stables_of p (pre ++ [(k, a)]) := by
        intro p
        rw [scan_take_rollback, scan_take_stable, (scan_stop_lists h st k p).1,
          (scan_stop_lists h st k p).2, (hl p).1, (hl p).2, rollbacks_of_append,
          stables_of_append]
        exact ⟨rfl, rfl⟩
      have hp1 : some k = (pre ++ [(k, a)]).getLast?.map Prod.fst := by simp
      have hb1 : starts_bounded h (pre ++ [(k, a)]) := by
        apply starts_bounded_snoc h pre (k, a) hb
        intro pre0 x hpre hdiff
        have hprev : st.prev = some x.1 := by rw [hp, hpre]; simp
        have h2 := hno.2 x.1 hprev hdiff
        have h1 := hno.1
        rw [(hl k.osd_num).2] at h1
        rw [(hl k.osd_num).1] at h2
        exact ⟨h2, h1⟩
      have hsb1 : stable_bounded (pre ++ [(k, a)]) := by
        apply stable_bounded_snoc pre (k, a) hsb
        have h1 := hno.1
        rw [(hl k.osd_num).2] at h1
        exact h1
      obtain ⟨m, hm, r1, r2, r3, r4, r5, r6⟩ := ih
        { fb := scan_take (scan_stop h st k).2 k a, prev := some k,
          done := st.done ++ [(k, { a with submitted := true })] }
        (pre ++ [(k, a)]) hd1 hl1 hp1 hb1 hsb1
      refine ⟨m + 1, by simp; omega, ?_, ?_, ?_, ?_, ?_, ?_⟩
      · simpa using r1
      · simpa using r2
      · intro p; simpa using r3 p
      · simpa using r4
      · simpa using r5
      · rcases r6 with r6 | ⟨x, rest1, r6, r7⟩
        · left; simp [r6]
        · right
          exact ⟨x, rest1, by simpa using r6, by simpa using r7⟩

theorem scan_all_spec (h : helpers) (acts : List (obj_piece_id_t × flush_action_t)) :
    ∃ n, n ≤ acts.length ∧
      (scan_all h acts).1.done = (acts.take n).map mark_submitted ∧
      (scan_all h acts).2 = acts.drop n ∧
      (∀ p, map_read [] (scan_all h acts).1.fb.rollback_lists p = rollbacks_of p (acts.take n) ∧
            map_read [] (scan_all h acts).1.fb.stable_lists p = stables_of p (acts.take n)) ∧
      starts_bounded h (acts.take n) ∧
      stable_bounded (acts.take n) ∧
      (n = acts.length ∨
        ∃ x rest1, acts.drop n = x :: rest1 ∧ stops_before h (acts.take n) x) := by
  have hb0 : starts_bounded h [] := by
    intro pre x y post heq _
    simp at heq
  have hs0 : stable_bounded [] := by
    intro pre x post heq
    simp at heq
  have := scan_spec h acts { fb := empty_batch, prev := none, done := [] } [] rfl
    (fun p => ⟨rfl, rfl⟩) rfl hb0 hs0
  simpa [scan_all] using this

theorem submit_pg_flush_ops_batch (h : helpers) (osd : osd_t) (pg : pg_t) (fb : Nat) :
    ∃ b, map_find (submit_pg_flush_ops h osd pg fb).1.batches fb = some b ∧
      b.rollback_lists = (scan_all h pg.flush_actions).1.fb.rollback_lists ∧
      b.stable_lists = (scan_all h pg.flush_actions).1.fb.stable_lists := by
  unfold submit_pg_flush_ops
  simp only []
  rw [Sync.map_find_update, if_pos rfl]
  exact ⟨_, rfl, rfl, rfl⟩

theorem rollbacks_of_length_le (p : Nat) (l : List (obj_piece_id_t × flush_action_t)) :
    (rollbacks_of p l).length ≤ l.length := by
  unfold rollbacks_of
  rw [List.length_map]
  exact List.length_filter_le _ _

theorem stables_of_length_le (p : Nat) (l : List (obj_piece_id_t × flush_action_t)) :
    (stables_of p l).length ≤ l.length := by
  unfold stables_of
  rw [List.length_map]
  exact List.length_filter_le _ _

theorem submit_flush_op_batches (osd : osd_t) (rollback : Bool) (peer : Nat)
    (data : List obj_ver_id) :
    (submit_flush_op osd rollback peer data).batches = osd.batches := by
  unfold submit_flush_op
  split <;> rfl

theorem submit_lists_batches (rollback : Bool) :
    ∀ (ls : List (Nat × List obj_ver_id)) (osd : osd_t) (n : Nat),
      (submit_lists rollback osd n ls).1.batches = osd.batches := by
  intro ls
  induction ls with
  | nil => intro osd n; rfl
  | cons e rest ih =>
    intro osd n
    obtain ⟨peer, l⟩ := e
    unfold submit_lists
    split
    · rw [ih, submit_flush_op_batches]
    · rw [ih]

end Flush

namespace Flush

theorem submit_pg_flush_ops_actions (h : helpers) (osd : osd_t) (pg : pg_t) (fb : Nat) :
    (submit_pg_flush_ops h osd pg fb).2.flush_actions =
      (scan_all h pg.flush_actions).1.done ++ (scan_all h pg.flush_actions).2 := rfl

set_option maxRecDepth 100000 in
theorem split_actions_facts :
    split_actions.length = 514 ∧
    split_actions.drop 512 = [sample_action 513 1 false true, sample_action 513 2 false true] ∧
    (stables_of 1 (split_actions.take 512)).length = 0 ∧
    (rollbacks_of 1 (split_actions.take 512)).length = 0 ∧
    split_actions.take 514 = split_actions.take 513 ++ [sample_action 513 2 false true] ∧
    (stables_of 2 (split_actions.take 513)).length = 512 ∧
    ((split_actions.take 513).map mark_submitted ++ split_actions.drop 513).map
        (fun x => (x.1.oid.inode, x.1.oid.stripe, x.1.osd_num, x.2.submitted)) =
      (List.range 512).map (fun i => (i + 1, 0, 2, true)) ++
        [(513, 0, 1, true), (513, 0, 2, false)] := by
  decide!

theorem split_actions_taken (n : Nat) (hn : n ≤ split_actions.length)
    (hsb : stable_bounded (split_actions.take n))
    (hstop : n = split_actions.length ∨ ∃ x rest1, split_actions.drop n = x :: rest1 ∧
      stops_before sample_helpers (split_actions.take n) x) : n = 513 := by
  obtain ⟨f1, f2, f3, f4, f5, f6, _⟩ := split_actions_facts
  rw [f1] at hn hstop
  rcases (show n < 512 ∨ n = 512 ∨ n = 513 ∨ n = 514 by omega) with c | c | c | c
  · exfalso
    rcases hstop with h6 | ⟨x, r, _, hst⟩
    · omega
    · have e1 := stables_of_length_le x.1.osd_num (split_actions.take n)
      have e2 := rollbacks_of_length_le x.1.osd_num (split_actions.take n)
      have e3 : (split_actions.take n).length ≤ n := List.length_take_le n _
      unfold stops_before FLUSH_BATCH at hst
      rcases hst with hst | ⟨_, _, _, _, hst⟩
      · omega
      · omega
  · exfalso
    subst c
    rcases hstop with h6 | ⟨x, r, hx, hst⟩
    · omega
    · rw [f2] at hx
      have hx1 : sample_action 513 1 false true = x := (List.cons.inj hx).1
      subst hx1
      unfold stops_before FLUSH_BATCH at hst
      have g3 : (stables_of (sample_action 513 1 false true).1.osd_num
          (split_actions.take 512)).length = 0 := f3
      have g4 : (rollbacks_of (sample_action 513 1 false true).1.osd_num
          (split_actions.take 512)).length = 0 := f4
      rcases hst with hst | ⟨_, _, _, _, hst⟩
      · omega
      · omega
  · exact c
  · exfalso
    subst c
    have h1 := hsb (split_actions.take 513) (sample_action 513 2 false true) [] f5
    have h2 : (stables_of 2 (split_actions.take 513)).length < FLUSH_BATCH := h1
    unfold FLUSH_BATCH at h2
    omega

/-- C11: `submit_pg_flush_ops` can split an object. On 512 objects with a stabilization on
OSD 2 followed by object 513 with a stabilization on OSD 1 and one on OSD 2, the batch
takes the first 513 actions and ends between the two pieces of object 513: the piece on
OSD 1 is the last action submitted, and the piece on OSD 2, the first action left out,
belongs to the same object. -/
theorem submit_pg_flush_ops_splits_object :
    (submit_pg_flush_ops sample_helpers (sample_osd []) (sample_pg split_actions)
        1).2.flush_actions.map
      (fun x => (x.1.oid.inode, x.1.oid.stripe, x.1.osd_num, x.2.submitted)) =
      (List.range 512).map (fun i => (i + 1, 0, 2, true)) ++
        [(513, 0, 1, true), (513, 0, 2, false)] := by
  rw [submit_pg_flush_ops_actions]
  have hacts : (sample_pg split_actions).flush_actions = split_actions := rfl
  rw [hacts]
  obtain ⟨n, hn, h1, h2, _, _, h5, h6⟩ := scan_all_spec sample_helpers split_actions
  have hn513 := split_actions_taken n hn h5 h6
  subst hn513
  rw [h1, h2]
  exact split_actions_facts.2.2.2.2.2.2

set_option maxRecDepth 100000 in
theorem long_rollback_actions_facts :
    long_rollback_actions.length = 514 ∧
    long_rollback_actions.drop 512 =
      [sample_action 513 1 true false, sample_action 513 2 true false] ∧
    (stables_of 1 (long_rollback_actions.take 512)).length = 0 ∧
    (rollbacks_of 1 (long_rollback_actions.take 512)).length = 0 ∧
    long_rollback_actions.drop 513 = [sample_action 513 2 true false] ∧
    long_rollback_actions.take 513 =
      long_rollback_actions.take 512 ++ [sample_action 513 1 true false] ∧
    (stables_of 2 (long_rollback_actions.take 513)).length = 0 ∧
    (rollbacks_of 2 (long_rollback_actions.take 514)).length = 513 := by
  decide!

theorem long_rollback_actions_taken (n : Nat) (hn : n ≤ long_rollback_actions.length)
    (hstop : n = long_rollback_actions.length ∨
      ∃ x rest1, long_rollback_actions.drop n = x :: rest1 ∧
        stops_before sample_helpers (long_rollback_actions.take n) x) : n = 514 := by
  obtain ⟨f1, f2, f3, f4, f5, f6, f7, _⟩ := long_rollback_actions_facts
  rw [f1] at hn hstop
  rcases (show n < 512 ∨ n = 512 ∨ n = 513 ∨ n = 514 by omega) with c | c | c | c
  · exfalso
    rcases hstop with h6 | ⟨x, r, _, hst⟩
    · omega
    · have e1 := stables_of_length_le x.1.osd_num (long_rollback_actions.take n)
      have e2 := rollbacks_of_length_le x.1.osd_num (long_rollback_actions.take n)
      have e3 : (long_rollback_actions.take n).length ≤ n := List.length_take_le n _
      unfold stops_before FLUSH_BATCH at hst
      rcases hst with hst | ⟨_, _, _, _, hst⟩
      · omega
      · omega
  · exfalso
    subst c
    rcases hstop with h6 | ⟨x, r, hx, hst⟩
    · omega
    · rw [f2] at hx
      have hx1 : sample_action 513 1 true false = x := (List.cons.inj hx).1
      subst hx1
      unfold stops_before FLUSH_BATCH at hst
      have g3 : (stables_of (sample_action 513 1 true false).1.osd_num
          (long_rollback_actions.take 512)).length = 0 := f3
      have g4 : (rollbacks_of (sample_action 513 1 true false).1.osd_num
          (long_rollback_actions.take 512)).length = 0 := f4
      rcases hst with hst | ⟨_, _, _, _, hst⟩
      · omega
      · omega
  · exfalso
    subst c
    rcases hstop with h6 | ⟨x, r, hx, hst⟩
    · omega
    · rw [f5] at hx
      have hx1 : sample_action 513 2 true false = x := (List.cons.inj hx).1
      subst hx1
      unfold stops_before FLUSH_BATCH at hst
      have g7 : (stables_of (sample_action 513 2 true false).1.osd_num
          (long_rollback_actions.take 513)).length = 0 := f7
      rcases hst with hst | ⟨pre, y, hy, hdiff, _⟩
      · omega
      · rw [f6] at hy
        have hy1 : sample_action 513 1 true false = y := by
          have := (List.append_inj' hy rfl).2
          simpa using this
        subst hy1
        revert hdiff
        decide
  · exact c

/-- C12, counterexample: on 512 objects with a rollback on OSD 2 followed by object 513
with a rollback on OSD 1 and one on OSD 2, the rollback list of OSD 2 holds 513 entries,
more than `FLUSH_BATCH`. -/
theorem submit_pg_flush_ops_long_rollback_list :
    ∃ b, map_find (submit_pg_flush_ops sample_helpers (sample_osd [])
        (sample_pg long_rollback_actions) 1).1.batches 1 = some b ∧
      (map_read [] b.rollback_lists 2).length = 513 ∧ FLUSH_BATCH < 513 := by
  obtain ⟨b, hb1, hb2, _⟩ := submit_pg_flush_ops_batch sample_helpers (sample_osd [])
    (sample_pg long_rollback_actions) 1
  have hacts : (sample_pg long_rollback_actions).flush_actions = long_rollback_actions := rfl
  rw [hacts] at hb2
  obtain ⟨n, hn, _, _, h3, _, _, h6⟩ := scan_all_spec sample_helpers long_rollback_actions
  have hn514 := long_rollback_actions_taken n hn h6
  subst hn514
  refine ⟨b, hb1, ?_, by decide⟩
  rw [hb2, (h3 2).1]
  exact long_rollback_actions_facts.2.2.2.2.2.2.2

/-- C12, as amended: the batch `submit_pg_flush_ops` builds takes a prefix of the flush
actions, the list of each peer holds the rollbacks (stabilizations) of that prefix for the
peer, and wherever an object starts inside the prefix the rollback list and the stabilize
list of the peer of its first action held fewer than `FLUSH_BATCH` entries. -/
theorem submit_pg_flush_ops_bounds_object_starts (h : helpers) (osd : osd_t) (pg : pg_t)
    (fb : Nat) :
    ∃ n b, n ≤ pg.flush_actions.length ∧
      (submit_pg_flush_ops h osd pg fb).2.flush_actions =
        (pg.flush_actions.take n).map mark_submitted ++ pg.flush_actions.drop n ∧
      map_find (submit_pg_flush_ops h osd pg fb).1.batches fb = some b ∧
      (∀ p, map_read [] b.rollback_lists p = rollbacks_of p (pg.flush_actions.take n) ∧
            map_read [] b.stable_lists p = stables_of p (pg.flush_actions.take n)) ∧
      starts_bounded h (pg.flush_actions.take n) := by
  obtain ⟨n, hn, h1, h2, h3, h4, _, _⟩ := scan_all_spec h pg.flush_actions
  obtain ⟨b, hb1, hb2, hb3⟩ := submit_pg_flush_ops_batch h osd pg fb
  refine ⟨n, b, hn, ?_, hb1, ?_, h4⟩
  · rw [submit_pg_flush_ops_actions, h1, h2]
  · rw [hb2, hb3]
    exact h3

end Flush

namespace Flush

theorem forget_object_lists (h : helpers) (st : erase_state) :
    (forget_object h st).before = st.before ∧ (forget_object h st).run = st.run ∧
    (forget_object h st).prev = st.prev := by
  unfold forget_object
  simp only []
  split <;> exact ⟨rfl, rfl, rfl⟩

theorem erase_loop_left (h : helpers) :
    ∀ (rest : List (obj_piece_id_t × flush_action_t)) (st : erase_state),
      (erase_loop h st rest).before ++ (erase_loop h st rest).run =
        st.before ++ rest.filter (fun x => !x.2.submitted) := by
  intro rest
  induction rest with
  | nil =>
    intro st
    unfold erase_loop
    simp only []
    obtain ⟨f1, f2, _⟩ := forget_object_lists h st
    split
    · simp [f1]
    · rename_i hr
      have hr2 : (forget_object h st).run = [] := by simpa using hr
      simp [f1, hr2]
  | cons e rest ih =>
    intro st
    obtain ⟨k, a⟩ := e
    unfold erase_loop
    simp only []
    have hb1 : (if object_differs h k.oid st.prev.oid = true then forget_object h st
        else st).before = st.before := by
      split
      · exact (forget_object_lists h st).1
      · rfl
    generalize (if object_differs h k.oid st.prev.oid = true then forget_object h st
        else st) = st1 at hb1 ⊢
    cases hs : a.submitted
    · simp only [Bool.not_false, true_and, if_true, List.filter_cons, hs]
      rw [ih]
      by_cases hr : st1.run = []
      · simp [hr, hb1]
      · simp [hr, hb1]
    · simp only [Bool.not_true, Bool.false_eq_true, false_and, if_false, List.filter_cons, hs]
      rw [ih]
      simp [hb1]

/-- C13: when the last sub-operation of the current batch of a PG succeeds,
`handle_flush_op` returns with `flush_actions` holding the actions that were not marked
submitted, in their order, and none that was; `flush_batch` is NULL; and `PG_HAS_UNCLEAN`
is cleared from the state if `flush_actions` is now empty, the state being as before
otherwise. -/
theorem handle_flush_op_last_done (h : helpers) (osd : osd_t) (rollback : Bool)
    (pool_id pg_num fb peer_osd : Nat) (pg : pg_t) (b : pg_flush_batch_t)
    (hpg : map_find osd.pgs { pool_id := pool_id, pg_num := pg_num } = some pg)
    (hfb : pg.flush_batch = some fb)
    (hb : map_find osd.batches fb = some b)
    (hlast : b.flush_done + 1 = b.flush_ops)
    (hne : pg.flush_actions ≠ []) :
    ∃ osd1 pg1, handle_flush_op h osd rollback pool_id pg_num fb peer_osd 0 = Except.ok osd1 ∧
      map_find osd1.pgs { pool_id := pool_id, pg_num := pg_num } = some pg1 ∧
      pg1.flush_actions = pg.flush_actions.filter (fun x => !x.2.submitted) ∧
      (∀ x ∈ pg1.flush_actions, x.2.submitted = false) ∧
      pg1.flush_batch = none ∧
      pg1.state = (if pg1.flush_actions = [] then and_not pg.state h.PG_HAS_UNCLEAN
                   else pg.state) := by
  cases hacts : pg.flush_actions with
  | nil => exact absurd hacts hne
  | cons e rest =>
    obtain ⟨k0, a0⟩ := e
    have hrun : handle_flush_op h osd rollback pool_id pg_num fb peer_osd 0 =
        finish_batch h osd { pool_id := pool_id, pg_num := pg_num } pg fb := by
      unfold handle_flush_op
      simp only [hpg, hfb, hb, hlast, ne_eq, not_true_eq_false, if_false, if_true]
    rw [hrun]
    unfold finish_batch
    simp only [hacts]
    refine ⟨_, ?pg1, rfl, ?hfind, ?hacts, ?hall, ?hbatch, ?hstate⟩
    case hfind =>
      rw [Sync.map_find_modify, if_pos rfl, hpg]
      exact rfl
    case hacts =>
      simp only []
      rw [erase_loop_left]
      rfl
    case hall =>
      simp only []
      rw [erase_loop_left]
      intro x hx
      simp only [List.nil_append, List.mem_filter] at hx
      simpa using hx.2
    case hbatch => rfl
    case hstate => simp only [List.length_eq_zero]

end Flush

namespace Flush

/-- C14: a result that belongs to no PG, or to a batch that is not the current batch of its
PG, changes nothing. A result with `retval != 0` for the current batch throws when the peer
is the local OSD; for a remote peer the call returns with the PGs and the batches, hence
`flush_done`, `flush_actions`, `ver_override`, `write_queue` and the PG state, as they
were, and `stop_client` is called on the connection of the peer if one is registered. -/
theorem handle_flush_op_error (h : helpers) (osd : osd_t) (rollback : Bool)
    (pool_id pg_num fb peer_osd : Nat) (retval : Int) :
    ((map_find osd.pgs { pool_id := pool_id, pg_num := pg_num } = none ∨
      ∃ pg, map_find osd.pgs { pool_id := pool_id, pg_num := pg_num } = some pg ∧
        pg.flush_batch ≠ some fb) →
      handle_flush_op h osd rollback pool_id pg_num fb peer_osd retval = Except.ok osd) ∧
    (∀ pg, map_find osd.pgs { pool_id := pool_id, pg_num := pg_num } = some pg →
      pg.flush_batch = some fb → retval ≠ 0 →
      (peer_osd = osd.osd_num →
        ∃ what, handle_flush_op h osd rollback pool_id pg_num fb peer_osd retval =
          Except.error (fault.thrown what)) ∧
      (peer_osd ≠ osd.osd_num →
        ∃ osd1, handle_flush_op h osd rollback pool_id pg_num fb peer_osd retval =
            Except.ok osd1 ∧
          osd1.pgs = osd.pgs ∧ osd1.batches = osd.batches ∧
          osd1.calls = osd.calls ++
            (match map_find osd.osd_peer_fds peer_osd with
             | some fd => [call.stop_client fd]
             | none => []))) := by
  refine ⟨?_, ?_⟩
  · rintro (hn | ⟨pg, hpg, hfb⟩)
    · unfold handle_flush_op
      simp only [hn]
    · unfold handle_flush_op
      simp only [hpg, hfb, ne_eq, not_false_eq_true, if_true]
  · intro pg hpg hfb hr
    refine ⟨fun hp => ?_, fun hp => ?_⟩
    · refine ⟨"Error while doing local flush operation", ?_⟩
      unfold handle_flush_op
      simp only [hpg, hfb, hr, hp, ne_eq, not_true_eq_false, not_false_eq_true, if_false,
        if_true]
    · unfold handle_flush_op
      simp only [hpg, hfb, hr, hp, ne_eq, not_true_eq_false, not_false_eq_true, if_false,
        if_true]
      cases hfd : map_find osd.osd_peer_fds peer_osd with
      | none => exact ⟨_, rfl, rfl, rfl, by simp⟩
      | some fd => exact ⟨_, rfl, rfl, rfl, rfl⟩

theorem first_idle_some (rops : List (object_id × osd_recovery_op_t)) :
    ∀ (objs : List (object_id × Nat)) (oid : object_id), first_idle rops objs = some oid →
      oid ∈ objs.map Prod.fst ∧ map_find rops oid = none := by
  intro objs
  induction objs with
  | nil => intro oid hf; simp [first_idle] at hf
  | cons e rest ih =>
    intro oid hf
    obtain ⟨o, x⟩ := e
    unfold first_idle at hf
    by_cases hc : map_find rops o = none
    · rw [if_pos hc] at hf
      have : o = oid := by simpa using hf
      subst this
      exact ⟨by simp, hc⟩
    · rw [if_neg hc] at hf
      obtain ⟨h1, h2⟩ := ih oid hf
      exact ⟨by simp [List.mem_map] at h1 ⊢; exact Or.inr h1, h2⟩

theorem first_idle_none (rops : List (object_id × osd_recovery_op_t)) :
    ∀ (objs : List (object_id × Nat)), first_idle rops objs = none ↔
      ∀ oid ∈ objs.map Prod.fst, map_find rops oid ≠ none := by
  intro objs
  induction objs with
  | nil => simp [first_idle]
  | cons e rest ih =>
    obtain ⟨o, x⟩ := e
    unfold first_idle
    by_cases hc : map_find rops o = none
    · rw [if_pos hc]
      simp only [List.map_cons, List.mem_cons, forall_eq_or_imp, false_iff, not_and, reduceCtorEq]
      intro hno
      exact absurd hc hno
    · rw [if_neg hc, ih]
      simp only [List.map_cons, List.mem_cons, forall_eq_or_imp]
      exact ⟨fun hr => ⟨hc, hr⟩, fun hr => hr.2⟩

theorem pick_in_some (want : Nat → Bool) (objs : pg_t → List (object_id × Nat))
    (rops : List (object_id × osd_recovery_op_t)) :
    ∀ (pgs : List (pool_pg_num_t × pg_t)) (oid : object_id),
      pick_in want objs rops pgs = some oid →
      ∃ e ∈ pgs, want e.2.state = true ∧ oid ∈ (objs e.2).map Prod.fst ∧
        map_find rops oid = none := by
  intro pgs
  induction pgs with
  | nil => intro oid hf; simp [pick_in] at hf
  | cons e rest ih =>
    intro oid hf
    obtain ⟨id, pg⟩ := e
    unfold pick_in at hf
    by_cases hw : want pg.state = true
    · rw [if_pos hw] at hf
      cases hfi : first_idle rops (objs pg) with
      | some o =>
        rw [hfi] at hf
        have : o = oid := by simpa using hf
        subst this
        obtain ⟨h1, h2⟩ := first_idle_some rops _ _ hfi
        exact ⟨(id, pg), by simp, hw, h1, h2⟩
      | none =>
        rw [hfi] at hf
        obtain ⟨e, he, r⟩ := ih oid hf
        exact ⟨e, by simp [he], r⟩
    · rw [if_neg hw] at hf
      obtain ⟨e, he, r⟩ := ih oid hf
      exact ⟨e, by simp [he], r⟩

theorem pick_in_none (want : Nat → Bool) (objs : pg_t → List (object_id × Nat))
    (rops : List (object_id × osd_recovery_op_t)) :
    ∀ (pgs : List (pool_pg_num_t × pg_t)),
      pick_in want objs rops pgs = none ↔
      ∀ e ∈ pgs, want e.2.state = true → ∀ oid ∈ (objs e.2).map Prod.fst,
        map_find rops oid ≠ none := by
  intro pgs
  induction pgs with
  | nil => simp [pick_in]
  | cons e rest ih =>
    obtain ⟨id, pg⟩ := e
    unfold pick_in
    by_cases hw : want pg.state = true
    · rw [if_pos hw]
      cases hfi : first_idle rops (objs pg) with
      | some o =>
        obtain ⟨h1, h2⟩ := first_idle_some rops _ _ hfi
        simp only [List.mem_cons, forall_eq_or_imp, false_iff, not_and, reduceCtorEq]
        intro hall
        exact absurd h2 (hall hw o h1)
      | none =>
        simp only [List.mem_cons, forall_eq_or_imp]
        rw [ih]
        exact ⟨fun hr => ⟨fun _ => (first_idle_none rops _).1 hfi, hr⟩, fun hr => hr.2⟩
    · rw [if_neg hw, ih]
      simp only [List.mem_cons, forall_eq_or_imp]
      exact ⟨fun hr => ⟨fun hc => absurd hc hw, hr⟩, fun hr => hr.2⟩

theorem and_or_eq_iff (s a b : Nat) :
    s &&& (a ||| b) = (a ||| b) ↔ s &&& a = a ∧ s &&& b = b := by
  constructor
  · intro hs
    have hi : ∀ i, (s.testBit i && (a.testBit i || b.testBit i)) =
        (a.testBit i || b.testBit i) := by
      intro i; rw [← Nat.testBit_or, ← Nat.testBit_and, hs]
    constructor
    · apply Nat.eq_of_testBit_eq
      intro i
      have := hi i
      rw [Nat.testBit_and]
      revert this
      cases s.testBit i <;> cases a.testBit i <;> cases b.testBit i <;> simp
    · apply Nat.eq_of_testBit_eq
      intro i
      have := hi i
      rw [Nat.testBit_and]
      revert this
      cases s.testBit i <;> cases a.testBit i <;> cases b.testBit i <;> simp
  · rintro ⟨ha, hb⟩
    apply Nat.eq_of_testBit_eq
    intro i
    have h1 : (s.testBit i && a.testBit i) = a.testBit i := by rw [← Nat.testBit_and, ha]
    have h2 : (s.testBit i && b.testBit i) = b.testBit i := by rw [← Nat.testBit_and, hb]
    rw [Nat.testBit_and, Nat.testBit_or]
    revert h1 h2
    cases s.testBit i <;> cases a.testBit i <;> cases b.testBit i <;> simp

theorem and_or_clear_iff (s a d m : Nat) (hd : d &&& (a ||| m) = 0) :
    s &&& (a ||| d ||| m) = (a ||| m) ↔ s &&& a = a ∧ s &&& m = m ∧ s &&& d = 0 := by
  have hdi : ∀ i, (d.testBit i && (a.testBit i || m.testBit i)) = false := by
    intro i; rw [← Nat.testBit_or, ← Nat.testBit_and, hd, Nat.zero_testBit]
  constructor
  · intro hs
    have hi : ∀ i, (s.testBit i && (a.testBit i || d.testBit i || m.testBit i)) =
        (a.testBit i || m.testBit i) := by
      intro i; rw [← Nat.testBit_or, ← Nat.testBit_or, ← Nat.testBit_or, ← Nat.testBit_and, hs]
    refine ⟨?_, ?_, ?_⟩
    · apply Nat.eq_of_testBit_eq
      intro i
      have h1 := hi i
      have h2 := hdi i
      rw [Nat.testBit_and]
      revert h1 h2
      cases s.testBit i <;> cases a.testBit i <;> cases d.testBit i <;> cases m.testBit i <;> simp
    · apply Nat.eq_of_testBit_eq
      intro i
      have h1 := hi i
      have h2 := hdi i
      rw [Nat.testBit_and]
      revert h1 h2
      cases s.testBit i <;> cases a.testBit i <;> cases d.testBit i <;> cases m.testBit i <;> simp
    · apply Nat.eq_of_testBit_eq
      intro i
      have h1 := hi i
      have h2 := hdi i
      rw [Nat.testBit_and, Nat.zero_testBit]
      revert h1 h2
      cases s.testBit i <;> cases a.testBit i <;> cases d.testBit i <;> cases m.testBit i <;> simp
  · rintro ⟨ha, hm, hz⟩
    apply Nat.eq_of_testBit_eq
    intro i
    have h1 : (s.testBit i && a.testBit i) = a.testBit i := by rw [← Nat.testBit_and, ha]
    have h2 : (s.testBit i && m.testBit i) = m.testBit i := by rw [← Nat.testBit_and, hm]
    have h3 : (s.testBit i && d.testBit i) = false := by
      rw [← Nat.testBit_and, hz, Nat.zero_testBit]
    have h4 := hdi i
    rw [Nat.testBit_and, Nat.testBit_or, Nat.testBit_or, Nat.testBit_or]
    revert h1 h2 h3 h4
    cases s.testBit i <;> cases a.testBit i <;> cases d.testBit i <;> cases m.testBit i <;> simp

theorem want_degraded_iff (h : helpers) (s : Nat) :
    want_degraded h s = true ↔ has_bits s h.PG_ACTIVE ∧ has_bits s h.PG_HAS_DEGRADED := by
  unfold want_degraded has_bits
  rw [decide_eq_true_iff]
  exact and_or_eq_iff s _ _

theorem want_misplaced_iff (h : helpers) (s : Nat)
    (hd : h.PG_DEGRADED &&& (h.PG_ACTIVE ||| h.PG_HAS_MISPLACED) = 0) :
    want_misplaced h s = true ↔
      has_bits s h.PG_ACTIVE ∧ has_bits s h.PG_HAS_MISPLACED ∧ s &&& h.PG_DEGRADED = 0 := by
  unfold want_misplaced has_bits
  rw [decide_eq_true_iff]
  exact and_or_clear_iff s _ _ _ hd

end Flush

namespace Flush

theorem pick_degraded_some (h : helpers) (osd : osd_t) (oid : object_id)
    (hp : pick_in (want_degraded h) (fun pg => pg.degraded_objects) osd.recovery_ops osd.pgs =
      some oid) : idle_degraded h osd oid := by
  obtain ⟨e, he, hw, ho, hf⟩ := pick_in_some _ _ _ _ _ hp
  rw [want_degraded_iff] at hw
  exact ⟨e, he, hw.1, hw.2, ho, hf⟩

theorem pick_degraded_none (h : helpers) (osd : osd_t) :
    pick_in (want_degraded h) (fun pg => pg.degraded_objects) osd.recovery_ops osd.pgs = none ↔
      ¬ ∃ oid, idle_degraded h osd oid := by
  rw [pick_in_none]
  constructor
  · rintro hall ⟨oid, e, he, h1, h2, ho, hf⟩
    exact hall e he ((want_degraded_iff h _).2 ⟨h1, h2⟩) oid ho hf
  · intro hno e he hw oid ho hf
    rw [want_degraded_iff] at hw
    exact hno ⟨oid, e, he, hw.1, hw.2, ho, hf⟩

theorem pick_misplaced_some (h : helpers) (osd : osd_t) (oid : object_id)
    (hd : h.PG_DEGRADED &&& (h.PG_ACTIVE ||| h.PG_HAS_MISPLACED) = 0)
    (hp : pick_in (want_misplaced h) (fun pg => pg.misplaced_objects) osd.recovery_ops
      osd.pgs = some oid) : idle_misplaced h osd oid := by
  obtain ⟨e, he, hw, ho, hf⟩ := pick_in_some _ _ _ _ _ hp
  rw [want_misplaced_iff h _ hd] at hw
  exact ⟨e, he, hw.1, hw.2.1, hw.2.2, ho, hf⟩

theorem pick_misplaced_none (h : helpers) (osd : osd_t)
    (hd : h.PG_DEGRADED &&& (h.PG_ACTIVE ||| h.PG_HAS_MISPLACED) = 0) :
    pick_in (want_misplaced h) (fun pg => pg.misplaced_objects) osd.recovery_ops osd.pgs =
        none ↔ ¬ ∃ oid, idle_misplaced h osd oid := by
  rw [pick_in_none]
  constructor
  · rintro hall ⟨oid, e, he, h1, h2, h3, ho, hf⟩
    exact hall e he ((want_misplaced_iff h _ hd).2 ⟨h1, h2, h3⟩) oid ho hf
  · intro hno e he hw oid ho hf
    rw [want_misplaced_iff h _ hd] at hw
    exact hno ⟨oid, e, he, hw.1, hw.2.1, hw.2.2, ho, hf⟩

/-- C15: with recovery and rebalance enabled, and `PG_DEGRADED` a bit apart from `PG_ACTIVE`
and `PG_HAS_MISPLACED`, `pick_next_recovery` yields a degraded object only if it is
degraded in a PG with `ACTIVE` and `HAS_DEGRADED` set and is not a key of `recovery_ops`;
a misplaced object only if it is misplaced in a PG with `ACTIVE` and `HAS_MISPLACED` set
and `DEGRADED` clear, is not a key of `recovery_ops`, and no degraded object qualifies; and
it yields nothing exactly when no degraded and no misplaced object qualifies. -/
theorem pick_next_recovery_priority (h : helpers) (osd : osd_t)
    (hr : osd.no_recovery = false) (hb : osd.no_rebalance = false)
    (hd : h.PG_DEGRADED &&& (h.PG_ACTIVE ||| h.PG_HAS_MISPLACED) = 0) :
    (∀ oid, pick_next_recovery h osd = some { degraded := true, oid := oid } →
      idle_degraded h osd oid) ∧
    (∀ oid, pick_next_recovery h osd = some { degraded := false, oid := oid } →
      idle_misplaced h osd oid ∧ ¬ ∃ o, idle_degraded h osd o) ∧
    (pick_next_recovery h osd = none ↔
      (¬ ∃ o, idle_degraded h osd o) ∧ ¬ ∃ o, idle_misplaced h osd o) := by
  unfold pick_next_recovery
  simp only [hr, hb, Bool.not_false, if_true]
  cases h1 : pick_in (want_degraded h) (fun pg => pg.degraded_objects) osd.recovery_ops
      osd.pgs with
  | some o1 =>
    have hd1 := pick_degraded_some h osd o1 h1
    refine ⟨?_, ?_, ?_⟩
    · intro oid he
      simp only [Option.some.injEq, osd_recovery_op_t.mk.injEq, true_and] at he
      rw [← he]; exact hd1
    · intro oid he
      simp at he
    · simp only [reduceCtorEq, false_iff, not_and, not_not]
      intro hno
      exact absurd ⟨o1, hd1⟩ hno
  | none =>
    have hn1 := (pick_degraded_none h osd).1 h1
    cases h2 : pick_in (want_misplaced h) (fun pg => pg.misplaced_objects) osd.recovery_ops
        osd.pgs with
    | some o2 =>
      have hm2 := pick_misplaced_some h osd o2 hd h2
      refine ⟨?_, ?_, ?_⟩
      · intro oid he
        simp at he
      · intro oid he
        simp only [Option.some.injEq, osd_recovery_op_t.mk.injEq, true_and] at he
        rw [← he]; exact ⟨hm2, hn1⟩
      · simp only [reduceCtorEq, false_iff, not_and, not_not]
        intro _
        exact ⟨o2, hm2⟩
    | none =>
      have hn2 := (pick_misplaced_none h osd hd).1 h2
      refine ⟨?_, ?_, ?_⟩
      · intro oid he
        simp at he
      · intro oid he
        simp at he
      · simp only [true_iff]
        exact ⟨hn1, hn2⟩

theorem pick_next_recovery_idle (h : helpers) (osd : osd_t) (op : osd_recovery_op_t)
    (hp : pick_next_recovery h osd = some op) : map_find osd.recovery_ops op.oid = none := by
  unfold pick_next_recovery at hp
  simp only [] at hp
  split at hp
  · rename_i oid h1
    have : op.oid = oid := by
      simp only [Option.some.injEq] at hp
      rw [← hp]
    rw [this]
    split at h1
    · obtain ⟨_, _, _, _, hf⟩ := pick_in_some _ _ _ _ _ h1
      exact hf
    · simp at h1
  · split at hp
    · rename_i oid h2
      have : op.oid = oid := by
        simp only [Option.some.injEq] at hp
        rw [← hp]
      rw [this]
      split at h2
      · obtain ⟨_, _, _, _, hf⟩ := pick_in_some _ _ _ _ _ h2
        exact hf
      · simp at h2
    · simp at hp

theorem map_insert_length {κ β : Type} (lt : κ → κ → Bool) (k : κ) (b : β) :
    ∀ (m : List (κ × β)), (map_insert lt m k b).length = m.length + 1 := by
  intro m
  induction m with
  | nil => rfl
  | cons e rest ih =>
    obtain ⟨k1, b1⟩ := e
    unfold map_insert
    split
    · rfl
    · simp [ih]

theorem map_update_length_new {κ β : Type} [DecidableEq κ] (lt : κ → κ → Bool) (d : β)
    (f : β → β) (m : List (κ × β)) (k : κ) (hk : map_find m k = none) :
    (map_update lt d f m k).length = m.length + 1 := by
  unfold map_update
  rw [hk]
  exact map_insert_length lt k (f d) m

end Flush

namespace Flush

theorem continue_recovery_loop_spec (h : helpers) :
    ∀ (fuel : Nat) (osd : osd_t), osd.recovery_queue_depth ≤ osd.recovery_ops.length + fuel →
      ∃ b osd1, continue_recovery_loop h fuel osd = some (b, osd1) ∧
        osd1.recovery_queue_depth = osd.recovery_queue_depth ∧
        osd.recovery_ops.length ≤ osd1.recovery_ops.length ∧
        (osd.recovery_ops.length ≤ osd.recovery_queue_depth →
          osd1.recovery_ops.length ≤ osd.recovery_queue_depth) ∧
        (osd.recovery_queue_depth ≤ osd.recovery_ops.length → osd1 = osd) ∧
        (b = true ↔ osd.recovery_queue_depth ≤ osd1.recovery_ops.length) ∧
        (b = false ↔ osd1.recovery_ops.length < osd.recovery_queue_depth ∧
          pick_next_recovery h osd1 = none) ∧
        (∃ started : List osd_recovery_op_t,
          osd1.calls = osd.calls ++
            started.map (fun op => call.exec_op op.oid.inode op.oid.stripe 0) ∧
          osd.recovery_ops.length + started.length = osd1.recovery_ops.length) := by
  intro fuel
  induction fuel with
  | zero =>
    intro osd hf
    have hge : ¬ osd.recovery_ops.length < osd.recovery_queue_depth := by omega
    refine ⟨true, osd, ?_, rfl, le_refl _, fun hle => hle, fun _ => rfl, ?_, ?_, [], ?_, ?_⟩
    · simp only [continue_recovery_loop, if_neg hge]
    · simp only [true_iff]; omega
    · simp only [reduceCtorEq, false_iff, not_and]
      intro hlt; exact absurd hlt hge
    · simp
    · simp
  | succ fuel ih =>
    intro osd hf
    by_cases hlt : osd.recovery_ops.length < osd.recovery_queue_depth
    · cases hp : pick_next_recovery h osd with
      | none =>
        refine ⟨false, osd, ?_, rfl, le_refl _, fun hle => hle, fun _ => rfl, ?_, ?_, [], ?_, ?_⟩
        · simp only [continue_recovery_loop, if_pos hlt, hp]
        · simp only [reduceCtorEq, false_iff, not_le]; exact hlt
        · simp only [true_iff]; exact ⟨hlt, hp⟩
        · simp
        · simp
      | some op =>
        have hidle := pick_next_recovery_idle h osd op hp
        have hlen := map_update_length_new object_id.lt op (fun _ => op) osd.recovery_ops
          op.oid hidle
        have hstep : continue_recovery_loop h (fuel + 1) osd =
            continue_recovery_loop h fuel (submit_recovery_op
              { osd with recovery_ops :=
                  map_update object_id.lt op (fun _ => op) osd.recovery_ops op.oid } op) := by
          simp only [continue_recovery_loop, if_pos hlt, hp]
        have hlen2 : (submit_recovery_op
              { osd with recovery_ops :=
                  map_update object_id.lt op (fun _ => op) osd.recovery_ops op.oid }
              op).recovery_ops.length = osd.recovery_ops.length + 1 := hlen
        have hdepth2 : (submit_recovery_op
              { osd with recovery_ops :=
                  map_update object_id.lt op (fun _ => op) osd.recovery_ops op.oid }
              op).recovery_queue_depth = osd.recovery_queue_depth := rfl
        have hcalls2 : (submit_recovery_op
              { osd with recovery_ops :=
                  map_update object_id.lt op (fun _ => op) osd.recovery_ops op.oid }
              op).calls = osd.calls ++ [call.exec_op op.oid.inode op.oid.stripe 0] := rfl
        obtain ⟨b, osd1, r1, r2, r3, r4, _, r6, r7, started, r8, r9⟩ :=
          ih _ (by rw [hlen2, hdepth2]; omega)
        rw [hdepth2] at r2 r4 r6 r7
        rw [hlen2] at r3 r4 r9
        rw [hcalls2] at r8
        refine ⟨b, osd1, ?_, r2, by omega, fun _ => r4 (by omega), ?_, r6, r7,
          op :: started, ?_, ?_⟩
        · rw [hstep]; exact r1
        · intro hge; omega
        · rw [r8]; simp
        · simp only [List.length_cons]; omega
    · refine ⟨true, osd, ?_, rfl, le_refl _, fun hle => hle, fun _ => rfl, ?_, ?_, [], ?_, ?_⟩
      · simp only [continue_recovery_loop, if_neg hlt]
      · simp only [true_iff]; omega
      · simp only [reduceCtorEq, false_iff, not_and]
        intro hlt2; exact absurd hlt2 hlt
      · simp
      · simp

/-- C16: `continue_recovery` returns. It starts a recovery operation only while
`recovery_ops` holds fewer than `recovery_queue_depth` entries: each operation started
adds one entry, a size within the depth stays within the depth, and nothing is started
when the depth is reached at the call. It returns true exactly when the depth is reached
at the end, false exactly when the depth is not reached and `pick_next_recovery` finds
nothing. -/
theorem continue_recovery_respects_depth (h : helpers) (osd : osd_t) :
    ∃ b osd1, continue_recovery h osd = some (b, osd1) ∧
      osd1.recovery_queue_depth = osd.recovery_queue_depth ∧
      osd.recovery_ops.length ≤ osd1.recovery_ops.length ∧
      (osd.recovery_ops.length ≤ osd.recovery_queue_depth →
        osd1.recovery_ops.length ≤ osd.recovery_queue_depth) ∧
      (osd.recovery_queue_depth ≤ osd.recovery_ops.length → osd1 = osd) ∧
      (b = true ↔ osd.recovery_queue_depth ≤ osd1.recovery_ops.length) ∧
      (b = false ↔ osd1.recovery_ops.length < osd.recovery_queue_depth ∧
        pick_next_recovery h osd1 = none) ∧
      (∃ started : List osd_recovery_op_t,
        osd1.calls = osd.calls ++
          started.map (fun op => call.exec_op op.oid.inode op.oid.stripe 0) ∧
        osd.recovery_ops.length + started.length = osd1.recovery_ops.length) :=
  continue_recovery_loop_spec h osd.recovery_queue_depth osd (Nat.le_add_left _ _)

end Flush

/-! ## Properties of `parse_state` and of the watcher -/

namespace Etcd

theorem key_pg_state (p d : List Char) :
    p ++ s_pg_state ++ d ≠ p ++ s_config_pgs ∧
    (p ++ s_pg_state ++ d).take (p.length + 12) ≠ p ++ s_pg_history ∧
    (p ++ s_pg_state ++ d).take (p.length + 10) = p ++ s_pg_state ∧
    (p ++ s_pg_state ++ d).drop (p.length + 10) = d := by
  refine ⟨?_, ?_, ?_, ?_⟩
  · rw [List.append_assoc]
    intro hc
    have := List.append_cancel_left hc
    simp [s_pg_state, s_config_pgs] at this
  · rw [List.append_assoc, List.take_append]
    intro hc
    have := List.append_cancel_left hc
    simp [s_pg_state, s_pg_history] at this
  · rw [List.append_assoc, List.take_append]
    simp [s_pg_state]
  · rw [List.append_assoc, List.drop_append]
    simp [s_pg_state]

theorem key_osd_state (p d : List Char) :
    p ++ s_osd_state ++ d ≠ p ++ s_config_pgs ∧
    (p ++ s_osd_state ++ d).take (p.length + 12) ≠ p ++ s_pg_history ∧
    (p ++ s_osd_state ++ d).take (p.length + 10) ≠ p ++ s_pg_state ∧
    (p ++ s_osd_state ++ d).take (p.length + 11) = p ++ s_osd_state ∧
    (p ++ s_osd_state ++ d).drop (p.length + 11) = d := by
  refine ⟨?_, ?_, ?_, ?_, ?_⟩
  · rw [List.append_assoc]
    intro hc
    have := List.append_cancel_left hc
    simp [s_osd_state, s_config_pgs] at this
  · rw [List.append_assoc, List.take_append]
    intro hc
    have := List.append_cancel_left hc
    simp [s_osd_state, s_pg_history] at this
  · rw [List.append_assoc, List.take_append]
    intro hc
    have := List.append_cancel_left hc
    simp [s_osd_state, s_pg_state] at this
  · rw [List.append_assoc, List.take_append]
    simp [s_osd_state]
  · rw [List.append_assoc, List.drop_append]
    simp [s_osd_state]

theorem parse_state_names_iff (h : helpers) :
    ∀ (names : List json) (s0 s1 : Nat),
      parse_state_names h s0 names = some s1 ↔
        ∃ bits : List Nat,
          List.Forall₂ (fun e bit => map_find h.pg_states e.string_value = some bit) names bits ∧
          s1 = bits.foldl (fun s bit => s ||| bit) s0 := by
  intro names
  induction names with
  | nil =>
    intro s0 s1
    simp only [parse_state_names, Option.some.injEq]
    constructor
    · intro he; exact ⟨[], List.Forall₂.nil, by simp [he]⟩
    · rintro ⟨bits, hf, hs⟩
      cases hf
      simpa using hs.symm
  | cons e rest ih =>
    intro s0 s1
    unfold parse_state_names
    cases hb : map_find h.pg_states e.string_value with
    | none =>
      simp only [reduceCtorEq, false_iff, not_exists, not_and]
      intro bits hf
      cases hf with
      | cons h1 _ => rw [hb] at h1; cases h1
    | some bit =>
      simp only []
      rw [ih]
      constructor
      · rintro ⟨bits, hf, hs⟩
        exact ⟨bit :: bits, List.Forall₂.cons hb hf, by simpa using hs⟩
      · rintro ⟨bits, hf, hs⟩
        cases hf with
        | cons h1 h2 =>
          rw [hb] at h1
          cases h1
          exact ⟨_, h2, by simpa using hs⟩

end Etcd

namespace Etcd

theorem bad_pg_state_false_iff (h : helpers) (p : Nat) (value : json) (s : Nat)
    (hop : h.PG_OFFLINE &&& h.PG_PEERING = 0) (hoi : h.PG_OFFLINE &&& h.PG_INCOMPLETE = 0)
    (hpi : h.PG_PEERING &&& h.PG_INCOMPLETE = 0) :
    bad_pg_state h p value s = false ↔
      p ≠ 0 ∧ (value.get s_state).is_array = true ∧ s ≠ 0 ∧
      (s = h.PG_OFFLINE ∨ s = h.PG_PEERING ∨ s = h.PG_INCOMPLETE ∨
        (s &&& h.PG_OFFLINE = 0 ∧ s &&& h.PG_PEERING = 0 ∧ s &&& h.PG_INCOMPLETE = 0)) := by
  have hpo : h.PG_PEERING &&& h.PG_OFFLINE = 0 := by rw [Nat.land_comm]; exact hop
  have hio : h.PG_INCOMPLETE &&& h.PG_OFFLINE = 0 := by rw [Nat.land_comm]; exact hoi
  have hip : h.PG_INCOMPLETE &&& h.PG_PEERING = 0 := by rw [Nat.land_comm]; exact hpi
  unfold bad_pg_state
  simp only [Bool.or_eq_false_iff, Bool.and_eq_false_iff, beq_eq_false_iff_ne, bne_eq_false_iff_eq,
    Bool.not_eq_false', ne_eq, bne_iff_ne, Bool.not_eq_eq_eq_not, Bool.not_true]
  constructor
  · rintro ⟨⟨⟨⟨⟨h1, h2⟩, h3⟩, h4⟩, h5⟩, h6⟩
    refine ⟨h1, h2, h3, ?_⟩
    rcases h4 with h4 | h4
    · rcases h5 with h5 | h5
      · rcases h6 with h6 | h6
        · exact Or.inr (Or.inr (Or.inr ⟨h4, h5, h6⟩))
        · exact Or.inr (Or.inr (Or.inl h6))
      · exact Or.inr (Or.inl h5)
    · exact Or.inl h4
  · rintro ⟨h1, h2, h3, h4⟩
    refine ⟨⟨⟨⟨⟨h1, h2⟩, h3⟩, ?_⟩, ?_⟩, ?_⟩
    · rcases h4 with h4 | h4 | h4 | h4
      · exact Or.inr h4
      · left; rw [h4]; exact hpo
      · left; rw [h4]; exact hio
      · exact Or.inl h4.1
    · rcases h4 with h4 | h4 | h4 | h4
      · left; rw [h4]; exact hop
      · exact Or.inr h4
      · left; rw [h4]; exact hip
      · exact Or.inl h4.2.1
    · rcases h4 with h4 | h4 | h4 | h4
      · left; rw [h4]; exact hoi
      · left; rw [h4]; exact hpi
      · exact Or.inr h4
      · exact Or.inl h4.2.2

theorem parse_state_pg_state_run (h : helpers) (st : etcd_state_client_t) (digits : List Char)
    (value : json) (hn : to_pg_num (h.stoull_full digits) ≠ 0) (hv : value.is_null = false) :
    parse_state h st (st.etcd_prefix ++ s_pg_state ++ digits) value =
      match parse_state_names h 0 (value.get s_state).array_items with
      | none => Except.ok st
      | some state =>
        if bad_pg_state h (value.get s_primary).uint64_value value state then Except.ok st
        else
          Except.ok
            { st with
              pg_config := map_update nat_lt pg_config_t.zero
                (fun c => { c with cur_primary := (value.get s_primary).uint64_value,
                                   cur_state := state })
                st.pg_config (to_pg_num (h.stoull_full digits)) } := by
  obtain ⟨k1, k2, k3, k4⟩ := key_pg_state st.etcd_prefix digits
  unfold parse_state
  rw [if_neg k1, if_neg k2, if_pos k3]
  simp only [k4, hn, hv, if_false, Bool.false_eq_true]

/-- C17: for a key `/pg/state/<n>` with a PG number that is not zero and a value that is
not null, and with `OFFLINE`, `PEERING` and `INCOMPLETE` bits apart from each other,
`parse_state` stores the primary and the bits of the state names in the element of the PG
if the primary is not zero, `state` is an array of known names and the bits are not zero
and are `OFFLINE`, `PEERING` or `INCOMPLETE` alone or hold none of the three; in every
other case it returns with the client as it was. -/
theorem parse_state_pg_state (h : helpers) (st : etcd_state_client_t) (digits : List Char)
    (value : json) (hn : to_pg_num (h.stoull_full digits) ≠ 0) (hv : value.is_null = false)
    (hop : h.PG_OFFLINE &&& h.PG_PEERING = 0) (hoi : h.PG_OFFLINE &&& h.PG_INCOMPLETE = 0)
    (hpi : h.PG_PEERING &&& h.PG_INCOMPLETE = 0) :
    (∀ state, accepted_pg_state h value state →
      parse_state h st (st.etcd_prefix ++ s_pg_state ++ digits) value =
        Except.ok
          { st with
            pg_config := map_update nat_lt pg_config_t.zero
              (fun c => { c with cur_primary := (value.get s_primary).uint64_value,
                                 cur_state := state })
              st.pg_config (to_pg_num (h.stoull_full digits)) }) ∧
    ((¬ ∃ state, accepted_pg_state h value state) →
      parse_state h st (st.etcd_prefix ++ s_pg_state ++ digits) value = Except.ok st) := by
  rw [parse_state_pg_state_run h st digits value hn hv]
  cases hps : parse_state_names h 0 (value.get s_state).array_items with
  | none =>
    refine ⟨fun state ha => ?_, fun _ => rfl⟩
    obtain ⟨_, _, hnamed, _⟩ := ha
    have := (parse_state_names_iff h _ 0 state).2 hnamed
    rw [hps] at this
    cases this
  | some s =>
    have hs : named_state h (value.get s_state).array_items s :=
      (parse_state_names_iff h _ 0 s).1 hps
    by_cases hbad : bad_pg_state h (value.get s_primary).uint64_value value s = true
    · simp only [hbad, if_true]
      refine ⟨fun state ha => ?_, fun _ => trivial⟩
      obtain ⟨a1, a2, hnamed, a4, a5⟩ := ha
      have h1 := (parse_state_names_iff h _ 0 state).2 hnamed
      rw [hps] at h1
      have h2 : s = state := by simpa using h1
      subst h2
      have := (bad_pg_state_false_iff h _ value s hop hoi hpi).2 ⟨a1, a2, a4, a5⟩
      rw [hbad] at this
      cases this
    · have hgood : bad_pg_state h (value.get s_primary).uint64_value value s = false := by
        simpa using hbad
      simp only [hgood, if_false, Bool.false_eq_true]
      refine ⟨fun state ha => ?_, fun hno => ?_⟩
      · obtain ⟨_, _, hnamed, _⟩ := ha
        have h1 := (parse_state_names_iff h _ 0 state).2 hnamed
        rw [hps] at h1
        have h2 : s = state := by simpa using h1
        subst h2
        rfl
      · obtain ⟨b1, b2, b3, b4⟩ := (bad_pg_state_false_iff h _ value s hop hoi hpi).1 hgood
        exact absurd ⟨s, b1, b2, hs, b3, b4⟩ hno

end Etcd

namespace Etcd

theorem map_find_erase {κ β : Type} [DecidableEq κ] (k : κ) :
    ∀ (m : List (κ × β)) (x : κ),
      map_find (map_erase m k) x = if x = k then none else map_find m x := by
  intro m
  induction m with
  | nil => intro x; simp [map_erase, map_find]
  | cons e rest ih =>
    intro x
    obtain ⟨k1, b⟩ := e
    have ih2 := ih x
    unfold map_erase at ih2 ⊢
    by_cases h1 : k1 = k
    · subst h1
      simp only [List.filter_cons, decide_True, Bool.not_true, Bool.false_eq_true, if_false]
      rw [ih2]
      by_cases hx : x = k1
      · simp [hx]
      · have hx2 : ¬ k1 = x := fun hc => hx hc.symm
        simp [hx, map_find, hx2]
    · simp only [List.filter_cons, h1, decide_False, Bool.not_false, if_true, map_find]
      by_cases hx : k1 = x
      · subst hx
        simp [h1]
      · rw [if_neg hx, if_neg hx, ih2]

theorem is_up_iff (value : json) : is_up value = true ↔ up_value value := by
  unfold is_up up_value
  simp only [Bool.and_eq_true, decide_eq_true_eq]
  constructor
  · rintro ⟨⟨⟨⟨h1, h2⟩, h3⟩, h4⟩, h5⟩
    refine ⟨?_, ?_, ?_, ?_⟩
    · cases value <;> simp [json.is_object] at h1
      exact ⟨_, rfl⟩
    · cases hs : value.get s_state <;> rw [hs] at h2 <;> simp [json.eq_str] at h2
      rw [h2]
    · cases ha : value.get s_addresses <;> rw [ha] at h3 <;> simp [json.is_array] at h3
      exact ⟨_, rfl⟩
    · cases hp : value.get s_port
      case num p =>
        rw [hp] at h4 h5
        exact ⟨p, rfl, by omega, by omega⟩
      all_goals
        rw [hp] at h4
        simp [json.int64_value] at h4
  · rintro ⟨⟨items, h1⟩, h2, ⟨l, h3⟩, p, h4, h5, h6⟩
    refine ⟨⟨⟨⟨?_, ?_⟩, ?_⟩, ?_⟩, ?_⟩
    · rw [h1]; rfl
    · rw [h2]; simp [json.eq_str]
    · rw [h3]; rfl
    · rw [h4]; omega
    · rw [h4]; omega

theorem int64_value_num (p : Int) (h1 : -2 ^ 63 ≤ p) (h2 : p < 2 ^ 63) :
    (json.num p).int64_value = p := by
  unfold json.int64_value
  simp only []
  omega

/-- C18: for a key `/osd/state/<n>` with `n > 0` and every JSON value, `parse_state`
returns, and afterwards peer `n` is in `peer_states` exactly if the value is an object
whose `state` is "up", whose `addresses` is an array and whose `port` is a number in
1..65535; the value stored is then the given value; and the entry of no other peer
changes. -/
theorem parse_state_osd_state (h : helpers) (st : etcd_state_client_t) (digits : List Char)
    (value : json) (n : Nat) (hnum : h.stoull digits = some n) (hn : 0 < n) :
    ∃ st1, parse_state h st (st.etcd_prefix ++ s_osd_state ++ digits) value = Except.ok st1 ∧
      ((map_find st1.peer_states n).isSome = true ↔ up_value value) ∧
      (up_value value → map_find st1.peer_states n = some value) ∧
      (∀ m, m ≠ n → map_find st1.peer_states m = map_find st.peer_states m) ∧
      st1.pg_config = st.pg_config := by
  obtain ⟨k1, k2, k3, k4, k5⟩ := key_osd_state st.etcd_prefix digits
  unfold parse_state
  rw [if_neg k1, if_neg k2, if_neg k3, if_pos k4]
  simp only [k5, hnum, hn, if_true]
  by_cases hu : is_up value = true
  · have hv := (is_up_iff value).1 hu
    simp only [hu, if_true]
    refine ⟨_, rfl, ?_, ?_, ?_, rfl⟩
    · simp only [Sync.map_find_update, if_true, Option.isSome_some, true_iff]
      exact hv
    · intro _
      simp only [Sync.map_find_update, if_true]
    · intro m hm
      simp only [Sync.map_find_update, if_neg hm]
  · have hv : ¬ up_value value := fun hc => hu ((is_up_iff value).2 hc)
    simp only [hu, if_false, Bool.false_eq_true]
    refine ⟨_, rfl, ?_, ?_, ?_, rfl⟩
    · simp only [map_find_erase, if_true, Option.isSome_none, Bool.false_eq_true, false_iff]
      exact hv
    · intro hc; exact absurd hc hv
    · intro m hm
      simp only [map_find_erase, if_neg hm]

end Etcd

namespace Etcd

theorem map_find_none_iff {κ β : Type} [DecidableEq κ] :
    ∀ (m : List (κ × β)) (k : κ), map_find m k = none ↔ k ∉ m.map Prod.fst := by
  intro m
  induction m with
  | nil => intro k; simp [map_find]
  | cons e rest ih =>
    intro k
    obtain ⟨k1, b⟩ := e
    unfold map_find
    by_cases h1 : k1 = k
    · subst h1; simp
    · have h2 : ¬ k = k1 := fun hc => h1 hc.symm
      rw [if_neg h1, ih]
      simp [h2]

theorem keys_map_modify {κ β : Type} [DecidableEq κ] (f : β → β) (k : κ) :
    ∀ (m : List (κ × β)), (map_modify f m k).map Prod.fst = m.map Prod.fst := by
  intro m
  induction m with
  | nil => rfl
  | cons e rest ih =>
    obtain ⟨k1, b⟩ := e
    unfold map_modify
    split
    · rfl
    · simp [ih]

theorem mem_keys_insert {κ β : Type} (lt : κ → κ → Bool) (k : κ) (b : β) :
    ∀ (m : List (κ × β)) (x : κ),
      x ∈ (map_insert lt m k b).map Prod.fst ↔ x = k ∨ x ∈ m.map Prod.fst := by
  intro m
  induction m with
  | nil => intro x; simp [map_insert]
  | cons e rest ih =>
    intro x
    obtain ⟨k1, b1⟩ := e
    unfold map_insert
    split
    · simp
    · simp only [List.map_cons, List.mem_cons, ih]
      tauto

theorem nodup_keys_insert {κ β : Type} (lt : κ → κ → Bool) (k : κ) (b : β) :
    ∀ (m : List (κ × β)), (m.map Prod.fst).Nodup → k ∉ m.map Prod.fst →
      ((map_insert lt m k b).map Prod.fst).Nodup := by
  intro m
  induction m with
  | nil => intro _ _; simp [map_insert]
  | cons e rest ih =>
    intro hnd hk
    obtain ⟨k1, b1⟩ := e
    simp only [List.map_cons, List.nodup_cons, List.mem_cons, not_or] at hnd hk
    unfold map_insert
    split
    · simp only [List.map_cons, List.nodup_cons, List.mem_cons, not_or]
      exact ⟨⟨hk.1, hk.2⟩, hnd.1, hnd.2⟩
    · simp only [List.map_cons, List.nodup_cons, mem_keys_insert, not_or]
      exact ⟨⟨fun hc => hk.1 hc.symm, hnd.1⟩, ih hnd.2 hk.2⟩

theorem nodup_keys_update {κ β : Type} [DecidableEq κ] (lt : κ → κ → Bool) (d : β) (f : β → β)
    (m : List (κ × β)) (k : κ) (hnd : (m.map Prod.fst).Nodup) :
    ((map_update lt d f m k).map Prod.fst).Nodup := by
  unfold map_update
  cases hk : map_find m k with
  | none =>
    simp only []
    exact nodup_keys_insert lt k (f d) m hnd ((map_find_none_iff m k).1 hk)
  | some e =>
    simp only []
    rw [keys_map_modify]
    exact hnd

theorem mem_iff_map_find {κ β : Type} [DecidableEq κ] :
    ∀ (m : List (κ × β)), (m.map Prod.fst).Nodup →
      ∀ (k : κ) (v : β), (k, v) ∈ m ↔ map_find m k = some v := by
  intro m
  induction m with
  | nil => intro _ k v; simp [map_find]
  | cons e rest ih =>
    intro hnd k v
    obtain ⟨k1, b⟩ := e
    simp only [List.map_cons, List.nodup_cons] at hnd
    unfold map_find
    by_cases h1 : k1 = k
    · subst h1
      rw [if_pos rfl]
      simp only [List.mem_cons, Prod.mk.injEq, true_and, Option.some.injEq]
      constructor
      · rintro (hv | hin)
        · exact hv.symm
        · exact absurd (List.mem_map_of_mem Prod.fst hin) hnd.1
      · intro hv; exact Or.inl hv.symm
    · rw [if_neg h1, ← ih hnd.2]
      have h2 : ¬ k = k1 := fun hc => h1 hc.symm
      simp [h2]

theorem last_value_snoc (l : List json_kv_t) (kv : json_kv_t) (k : List Char) (v : json) :
    last_value (l ++ [kv]) k v ↔
      (kv.key = k ∧ kv.value = v) ∨ (kv.key ≠ k ∧ last_value l k v) := by
  constructor
  · rintro ⟨pre, post, heq, hall⟩
    rcases List.eq_nil_or_concat post with hp | ⟨post0, w, hp⟩
    · subst hp
      have h1 : l ++ [kv] = pre ++ [{ key := k, value := v }] := heq
      have h2 := List.append_inj' h1 rfl
      have h3 : kv = { key := k, value := v } := by simpa using h2.2
      left
      rw [h3]
      exact ⟨rfl, rfl⟩
    · subst hp
      have h1 : l ++ [kv] = (pre ++ { key := k, value := v } :: post0) ++ [w] := by
        rw [heq]; simp
      have h2 := List.append_inj' h1 rfl
      have h3 : kv = w := by simpa using h2.2
      right
      refine ⟨?_, pre, post0, h2.1, ?_⟩
      · rw [h3]; exact hall w (by simp)
      · intro x hx; exact hall x (by simp [hx])
  · rintro (⟨h1, h2⟩ | ⟨h1, pre, post, heq, hall⟩)
    · refine ⟨l, [], ?_, ?_⟩
      · rw [← h1, ← h2]
      · intro x hx; simp at hx
    · refine ⟨pre, post ++ [kv], ?_, ?_⟩
      · rw [heq]; simp
      · intro x hx
        simp only [List.mem_append, List.mem_singleton] at hx
        rcases hx with hx | hx
        · exact hall x hx
        · rw [hx]; exact h1

theorem gather_changes_spec (h : helpers) :
    ∀ (events : List json) (changes : List (List Char × json)) (done : List json_kv_t),
      (changes.map Prod.fst).Nodup →
      (∀ k v, map_find changes k = some v ↔ k ≠ [] ∧ last_value done k v) →
      ((gather_changes h changes events).map Prod.fst).Nodup ∧
      (∀ k v, map_find (gather_changes h changes events) k = some v ↔
        k ≠ [] ∧ last_value (done ++ event_kvs h events) k v) := by
  intro events
  induction events with
  | nil =>
    intro changes done hnd hf
    simpa [gather_changes, event_kvs] using ⟨hnd, hf⟩
  | cons ev rest ih =>
    intro changes done hnd hf
    have hsplit : done ++ event_kvs h (ev :: rest) =
        (done ++ [parse_etcd_kv h (ev.get s_kv)]) ++ event_kvs h rest := by
      simp [event_kvs]
    rw [hsplit]
    unfold gather_changes
    simp only []
    by_cases hk : (parse_etcd_kv h (ev.get s_kv)).key = []
    · rw [if_neg (by simpa using hk)]
      apply ih changes _ hnd
      intro k v
      rw [hf, last_value_snoc]
      constructor
      · rintro ⟨h1, h2⟩
        exact ⟨h1, Or.inr ⟨by rw [hk]; exact fun hc => h1 hc.symm, h2⟩⟩
      · rintro ⟨h1, h2 | h2⟩
        · rw [hk] at h2; exact absurd h2.1.symm h1
        · exact ⟨h1, h2.2⟩
    · rw [if_pos hk]
      apply ih _ _ (nodup_keys_update _ _ _ _ _ hnd)
      intro k v
      rw [Sync.map_find_update, last_value_snoc]
      by_cases hx : k = (parse_etcd_kv h (ev.get s_kv)).key
      · rw [if_pos hx]
        simp only [Option.some.injEq]
        constructor
        · intro hv
          exact ⟨by rw [hx]; exact hk, Or.inl ⟨hx.symm, hv⟩⟩
        · rintro ⟨_, h2 | h2⟩
          · exact h2.2
          · exact absurd hx.symm h2.1
      · rw [if_neg hx, hf]
        constructor
        · rintro ⟨h1, h2⟩
          exact ⟨h1, Or.inr ⟨fun hc => hx hc.symm, h2⟩⟩
        · rintro ⟨h1, h2 | h2⟩
          · exact absurd h2.1.symm hx
          · exact ⟨h1, h2.2⟩

/-- C19, counterexample: an event with an empty key and the value text "1", which parses,
gives no change, so `parse_state` is not called for that key. -/
theorem watch_changes_skips_empty_key :
    (sample_helpers.json_parse ['1']).2 = [] ∧
    (event_kvs sample_helpers (watch_events (sample_message [sample_event [] ['1']]))).map
      (fun kv => kv.key) = [[]] ∧
    (watch_changes sample_helpers (sample_message [sample_event [] ['1']])).length = 0 := by
  decide

/-- C19, as amended: the changes the watcher calls `parse_state` for hold each key once;
they are the keys that are not empty of the events whose value is valid JSON, each with
the value of the last such event of that key; and an event whose value text is not empty
and not valid JSON gets the empty key, so that it is skipped. -/
theorem watch_changes_last_value (h : helpers) (data : json) :
    ((watch_changes h data).map Prod.fst).Nodup ∧
    (∀ k v, (k, v) ∈ watch_changes h data ↔
      k ≠ [] ∧ last_value (event_kvs h (watch_events data)) k v) ∧
    (∀ kv_json, h.base64_decode (kv_json.get s_value).string_value ≠ [] →
      (h.json_parse (h.base64_decode (kv_json.get s_value).string_value)).2 ≠ [] →
      (parse_etcd_kv h kv_json).key = []) ∧
    (∀ kv_json, (h.base64_decode (kv_json.get s_value).string_value = [] ∨
        (h.json_parse (h.base64_decode (kv_json.get s_value).string_value)).2 = []) →
      (parse_etcd_kv h kv_json).key = h.base64_decode (kv_json.get s_key).string_value) := by
  have hs := gather_changes_spec h (watch_events data) [] [] (by simp)
    (by
      intro k v
      simp only [map_find, reduceCtorEq, false_iff, not_and]
      rintro _ ⟨pre, post, heq, _⟩
      simp at heq)
  simp only [List.nil_append] at hs
  refine ⟨hs.1, ?_, ?_, ?_⟩
  · intro k v
    rw [← hs.2]
    exact mem_iff_map_find _ hs.1 k v
  · intro kv_json h1 h2
    unfold parse_etcd_kv
    simp only [if_neg h1]
    rw [if_pos h2]
  · intro kv_json h1
    unfold parse_etcd_kv
    rcases h1 with h1 | h1
    · simp [h1]
    · by_cases h0 : h.base64_decode (kv_json.get s_value).string_value = []
      · simp [h0]
      · simp [h0, h1]

end Etcd

namespace Etcd

theorem map_find_cleared (n : Nat) :
    ∀ (cfg : List (Nat × pg_config_t)),
      map_find (cfg.map (fun e => (e.1, { e.2 with exists_ := false }))) n =
        (map_find cfg n).map (fun c => { c with exists_ := false }) := by
  intro cfg
  induction cfg with
  | nil => rfl
  | cons e rest ih =>
    obtain ⟨k, c⟩ := e
    simp only [List.map_cons, map_find]
    by_cases hk : k = n
    · simp [hk]
    · simp [hk, ih]

theorem map_find_parse_pg_item (h : helpers) (cfg : List (Nat × pg_config_t))
    (pg_item : List Char × json) (n : Nat) :
    map_find (parse_pg_item h cfg pg_item) n =
      if item_pg_num h pg_item ≠ 0 ∧ n = item_pg_num h pg_item then
        some (set_pg_config pg_item.2 (map_read pg_config_t.zero cfg (item_pg_num h pg_item)))
      else map_find cfg n := by
  unfold parse_pg_item
  simp only []
  by_cases h0 : item_pg_num h pg_item = 0
  · simp [h0]
  · rw [if_neg h0, Sync.map_find_update]
    by_cases hn : n = item_pg_num h pg_item
    · simp [hn, h0]
    · simp [hn]

theorem map_find_foldl_others (h : helpers) (n : Nat) :
    ∀ (post : List (List Char × json)) (cfg : List (Nat × pg_config_t)),
      (∀ x ∈ post, item_pg_num h x = 0 ∨ item_pg_num h x ≠ n) →
      map_find (post.foldl (parse_pg_item h) cfg) n = map_find cfg n := by
  intro post
  induction post with
  | nil => intro cfg _; rfl
  | cons x rest ih =>
    intro cfg hall
    rw [List.foldl_cons, ih _ (fun y hy => hall y (by simp [hy])), map_find_parse_pg_item]
    have hx := hall x (by simp)
    rw [if_neg]
    rintro ⟨h1, h2⟩
    rcases hx with hx | hx
    · exact h1 hx
    · exact hx h2.symm

theorem resize_length (n : Nat) (l : List Nat) : (resize n l).length = n := by
  unfold resize
  simp only [List.length_append, List.length_take, List.length_replicate]
  omega

theorem set_pg_config_spec (item : json) (c : pg_config_t) :
    (set_pg_config item c).exists_ = true ∧ (set_pg_config item c).target_set.length = 3 ∧
    (set_pg_config item c).pause =
      (if (item.get s_osd_set).array_items.length = 3 then (item.get s_pause).bool_value
       else true) := by
  unfold set_pg_config
  simp only [List.length_map, ne_eq]
  by_cases h3 : (item.get s_osd_set).array_items.length = 3
  · simp [h3]
  · simp [h3, resize_length]

theorem last_with (g : (List Char × json) → Nat) (n : Nat) :
    ∀ (l : List (List Char × json)), (∃ a ∈ l, g a = n) →
      ∃ pre b post, l = pre ++ b :: post ∧ g b = n ∧ ∀ x ∈ post, g x ≠ n := by
  intro l
  induction l with
  | nil => rintro ⟨a, ha, _⟩; simp at ha
  | cons y rest ih =>
    rintro ⟨a, ha, hga⟩
    by_cases hex : ∃ x ∈ rest, g x = n
    · obtain ⟨pre, b, post, h1, h2, h3⟩ := ih hex
      exact ⟨y :: pre, b, post, by rw [h1]; rfl, h2, h3⟩
    · have hay : a = y := by
        rcases List.mem_cons.1 ha with h1 | h1
        · exact h1
        · exact absurd ⟨a, h1, hga⟩ hex
      subst hay
      refine ⟨[], a, rest, rfl, hga, ?_⟩
      intro x hx hc
      exact hex ⟨x, hx, hc⟩

theorem config_pgs_last_item (h : helpers) (cfg : List (Nat × pg_config_t))
    (pre : List (List Char × json)) (item : List Char × json) (post : List (List Char × json))
    (h0 : item_pg_num h item ≠ 0)
    (hpost : ∀ x ∈ post, item_pg_num h x ≠ item_pg_num h item) :
    ∃ c, map_find ((pre ++ item :: post).foldl (parse_pg_item h) cfg) (item_pg_num h item) =
        some c ∧
      c.exists_ = true ∧ c.target_set.length = 3 ∧
      c.pause = (if (item.2.get s_osd_set).array_items.length = 3 then
                   (item.2.get s_pause).bool_value
                 else true) := by
  rw [List.foldl_append, List.foldl_cons,
    map_find_foldl_others h _ post _ (fun x hx => Or.inr (hpost x hx)),
    map_find_parse_pg_item, if_pos ⟨h0, rfl⟩]
  exact ⟨_, rfl, set_pg_config_spec _ _⟩

/-- C20: for every `/config/pgs` value `parse_state` returns, and afterwards every PG that
an item of `items` with a number other than zero lists exists and has a target set of 3
entries; its pause flag, after the last item that lists it, is true if the `osd_set` of
that item did not hold 3 elements and the `pause` of that item otherwise; and every PG
known before that no item lists has `exists` false. -/
theorem parse_state_config_pgs (h : helpers) (st : etcd_state_client_t) (value : json) :
    ∃ st1, parse_state h st (st.etcd_prefix ++ s_config_pgs) value = Except.ok st1 ∧
      (∀ item ∈ (value.get s_items).object_items, item_pg_num h item ≠ 0 →
        ∃ c, map_find st1.pg_config (item_pg_num h item) = some c ∧
          c.exists_ = true ∧ c.target_set.length = 3) ∧
      (∀ pre item post, (value.get s_items).object_items = pre ++ item :: post →
        item_pg_num h item ≠ 0 →
        (∀ x ∈ post, item_pg_num h x ≠ item_pg_num h item) →
        ∃ c, map_find st1.pg_config (item_pg_num h item) = some c ∧
          c.exists_ = true ∧ c.target_set.length = 3 ∧
          c.pause = (if (item.2.get s_osd_set).array_items.length = 3 then
                       (item.2.get s_pause).bool_value
                     else true)) ∧
      (∀ n c, map_find st.pg_config n = some c →
        (∀ item ∈ (value.get s_items).object_items,
          item_pg_num h item = 0 ∨ item_pg_num h item ≠ n) →
        map_find st1.pg_config n = some { c with exists_ := false }) := by
  refine ⟨_, by unfold parse_state; rw [if_pos rfl], ?_, ?_, ?_⟩
  · intro item hitem h0
    obtain ⟨pre, b, post, h1, h2, h3⟩ :=
      last_with (item_pg_num h) (item_pg_num h item) _ ⟨item, hitem, rfl⟩
    simp only []
    rw [h1, ← h2]
    have hb0 : item_pg_num h b ≠ 0 := by rw [h2]; exact h0
    obtain ⟨c, r1, r2, r3, _⟩ := config_pgs_last_item h _ pre b post hb0
      (fun x hx => by rw [h2]; exact h3 x hx)
    exact ⟨c, r1, r2, r3⟩
  · intro pre item post hitems h0 hpost
    simp only []
    rw [hitems]
    exact config_pgs_last_item h _ pre item post h0 hpost
  · intro n c hc hall
    simp only []
    rw [map_find_foldl_others h n _ _ hall, map_find_cleared, hc]
    rfl

end Etcd

namespace Flush

/-- Witness of C13: on the sample OSD the last sub-operation of the batch succeeds; the
action that was submitted leaves, the other one stays, and the state keeps `HAS_UNCLEAN`. -/
theorem handle_flush_op_last_done_witness :
    ∃ osd1 pg1, handle_flush_op sample_helpers sample_flush_osd false 1 1 1 2 0 =
        Except.ok osd1 ∧
      map_find osd1.pgs { pool_id := 1, pg_num := 1 } = some pg1 ∧
      pg1.flush_actions = [sample_action 2 2 false true] ∧
      pg1.flush_batch = none ∧ pg1.state = 8 + 2048 := by
  obtain ⟨osd1, pg1, h1, h2, h3, _, h5, h6⟩ :=
    handle_flush_op_last_done sample_helpers sample_flush_osd false 1 1 1 2 sample_batch_pg
      sample_batch (by decide) (by decide) (by decide) (by decide) (by decide)
  refine ⟨osd1, pg1, h1, h2, h3.trans (by decide), h5, ?_⟩
  rw [h6, h3]
  decide

/-- Witness of C15: on the sample OSD, with the sample state bits, the claim holds with its
hypotheses met. -/
theorem pick_next_recovery_priority_witness :
    pick_next_recovery sample_helpers sample_recovery_osd =
        some { degraded := true, oid := { inode := 5, stripe := 0 } } ∧
      idle_degraded sample_helpers sample_recovery_osd { inode := 5, stripe := 0 } :=
  ⟨by decide,
   (pick_next_recovery_priority sample_helpers sample_recovery_osd (by decide) (by decide)
      (by decide)).1 { inode := 5, stripe := 0 } (by decide)⟩

end Flush

namespace Etcd

/-- Witness of C17: the sample value for PG 7 meets the hypotheses, and its primary 1 and
state 8 are stored. -/
theorem parse_state_pg_state_witness :
    accepted_pg_state sample_helpers sample_pg_state 8 ∧
    (parse_state sample_helpers sample_client (['/', 'v'] ++ s_pg_state ++ ['7'])
        sample_pg_state).toOption.map (fun st => st.pg_config) =
      some [(7, { pg_config_t.zero with cur_primary := 1, cur_state := 8 })] := by
  have hacc : accepted_pg_state sample_helpers sample_pg_state 8 :=
    ⟨by decide, by decide, ⟨[8], List.Forall₂.cons (by decide) List.Forall₂.nil, by decide⟩,
     by decide, Or.inr (Or.inr (Or.inr (by decide)))⟩
  have hrun := (parse_state_pg_state sample_helpers sample_client ['7'] sample_pg_state
    (by decide) (by decide) (by decide) (by decide) (by decide)).1 8 hacc
  refine ⟨hacc, ?_⟩
  have hrun2 : parse_state sample_helpers sample_client (['/', 'v'] ++ s_pg_state ++ ['7'])
      sample_pg_state = _ := hrun
  rw [hrun2]
  decide

/-- Witness of C18: the sample value for peer 3 meets the hypotheses, and the peer is in
`peer_states` afterwards. -/
theorem parse_state_osd_state_witness :
    ∃ st1, parse_state sample_helpers sample_client (['/', 'v'] ++ s_osd_state ++ ['3'])
        sample_osd_state = Except.ok st1 ∧
      (map_find st1.peer_states 3).isSome = true := by
  obtain ⟨st1, h1, h2, _⟩ := parse_state_osd_state sample_helpers sample_client ['3']
    sample_osd_state 3 (by decide) (by decide)
  exact ⟨st1, h1, h2.2 ((is_up_iff sample_osd_state).1 (by decide))⟩

end Etcd

/-! ## Properties of `handle_stable_event` -/

namespace Stable

/-- With the listed version at the first position of the dirty index, `dirty_it--` steps
before `begin()`. -/
theorem handle_stable_event_first_position :
    handle_stable_event sample_names 0 sample_synced_bs
      { sample_op [⟨⟨1, 0⟩, 1⟩] with pending_ops := 1 } = .error .undefined := by
  rfl

/-- C25, evaluated on a dirty index whose first object has two journal-synced versions,
1 and 2: stabilizing version 2 appends one STABLE entry in one journal write, and when
that write completes version 2 is stable, but version 1, which lies at the first position
of the index, is still journal-synced. -/
theorem handle_stable_event_skips_first_entry :
    (stabilize_run sample_helpers sample_names sample_synced_bs
        (sample_op [⟨⟨1, 0⟩, 2⟩]) []).map
      (fun r => r.toOption.map (fun p => p.2.pending_ops)) = some (some 1) ∧
    (stabilize_run sample_helpers sample_names sample_synced_bs
        (sample_op [⟨⟨1, 0⟩, 2⟩]) [512]).map
      (fun r => r.toOption.map (fun p => p.1.dirty_db.map (fun e => (e.1, e.2.state)))) =
      some (some [(⟨⟨1, 0⟩, 1⟩, 4), (⟨⟨1, 0⟩, 2⟩, 5), (⟨⟨2, 0⟩, 1⟩, 20)]) := by
  decide

/-- C27, evaluated on a stabilize operation that lists two synced versions: its two STABLE
entries go out in one journal write, and when that write completes the callback is
invoked twice, once in each iteration of the loop over the listed versions. -/
theorem handle_stable_event_acknowledges_per_item :
    (stabilize_run sample_helpers sample_names sample_synced_bs
        (sample_op [⟨⟨1, 0⟩, 2⟩, ⟨⟨2, 0⟩, 1⟩]) []).map
      (fun r => r.toOption.map (fun p => (p.2.pending_ops, p.2.callbacks))) =
      some (some (1, [])) ∧
    (stabilize_run sample_helpers sample_names sample_synced_bs
        (sample_op [⟨⟨1, 0⟩, 2⟩, ⟨⟨2, 0⟩, 1⟩]) [512]).map
      (fun r => r.toOption.map (fun p => (p.2.pending_ops, p.2.retval, p.2.callbacks))) =
      some (some (0, 0, [0, 0])) := by
  decide

end Stable

/-! ## The checksum chain of the entries appended by `dequeue_stable` and `continue_sync` -/

theorem crc_chained_append (p : Nat) (a b : List (Nat × Nat)) :
    crc_chained p (a ++ b) ↔ crc_chained p a ∧ crc_chained (crc_last p a) b := by
  induction a generalizing p with
  | nil => simp [crc_chained, crc_last]
  | cons e rest ih => simp [crc_chained, crc_last, ih, and_assoc]

theorem crc_last_append (p : Nat) (a b : List (Nat × Nat)) :
    crc_last p (a ++ b) = crc_last (crc_last p a) b := by
  induction a generalizing p with
  | nil => simp [crc_last]
  | cons e rest ih => simp [crc_last, ih]

namespace Stable

theorem stable_appended_refl (j : journal_t) : appended j j :=
  ⟨[], by simp, by simp [crcs, crc_chained], by simp [crcs, crc_last]⟩

theorem stable_appended_trans {j j1 j2 : journal_t} (h1 : appended j j1) (h2 : appended j1 j2) :
    appended j j2 := by
  obtain ⟨es1, e1, c1, l1⟩ := h1
  obtain ⟨es2, e2, c2, l2⟩ := h2
  refine ⟨es1 ++ es2, by rw [e2, e1, List.append_assoc], ?_, ?_⟩
  · rw [crcs, List.map_append, crc_chained_append]
    exact ⟨c1, by rw [l1] at c2; exact c2⟩
  · rw [crcs, List.map_append, crc_last_append, l2, l1]
    rfl

theorem fill_one_appended {h : helpers} (hp : prefill_chains h) {n : Nat} {st st1 : fill_state}
    {v : obj_ver_id} (hf : fill_one h n st v = some st1) : appended st.journal st1.journal := by
  obtain ⟨hprev, hlog⟩ := hp st.journal h.JE_STABLE h.sizeof_journal_entry_stable
  unfold fill_one at hf
  simp only [] at hf
  split at hf
  · split at hf
    · split at hf
      · exact absurd hf (by simp)
      · simp only [Option.some.injEq] at hf
        subst hf
        exact ⟨[_], congrArg (fun l => l ++ [_]) hlog, by simp [crcs, crc_chained, hprev],
          by simp [crcs, crc_last]⟩
    · exact absurd hf (by simp)
  · simp only [Option.some.injEq] at hf
    subst hf
    exact ⟨[_], congrArg (fun l => l ++ [_]) hlog, by simp [crcs, crc_chained, hprev],
      by simp [crcs, crc_last]⟩

theorem fill_appended {h : helpers} (hp : prefill_chains h) {n : Nat} :
    ∀ (l : List obj_ver_id) (st st1 : fill_state), fill h n st l = some st1 →
      appended st.journal st1.journal := by
  intro l
  induction l with
  | nil =>
    intro st st1 hf
    simp only [fill, Option.some.injEq] at hf
    subst hf
    exact stable_appended_refl _
  | cons v rest ih =>
    intro st st1 hf
    unfold fill at hf
    split at hf
    · exact absurd hf (by simp)
    · rename_i sta ha
      exact stable_appended_trans (fill_one_appended hp ha) (ih sta st1 hf)

theorem dequeue_stable_appended {h : helpers} (hp : prefill_chains h) {bs : blockstore}
    {op : blockstore_operation} {r : outcome} (hr : dequeue_stable h bs op = some r) :
    appended bs.journal r.bs.journal := by
  unfold dequeue_stable at hr
  split at hr
  · simp only [Option.some.injEq] at hr; subst hr; exact stable_appended_refl _
  · simp only [Option.some.injEq] at hr; subst hr; exact stable_appended_refl _
  · simp only [Option.some.injEq] at hr; subst hr; exact stable_appended_refl _
  · split at hr
    · simp only [Option.some.injEq] at hr; subst hr; exact stable_appended_refl _
    · split at hr
      · simp only [Option.some.injEq] at hr; subst hr; exact stable_appended_refl _
      · simp only [] at hr
        split at hr
        · exact absurd hr (by simp)
        · rename_i st hst
          simp only [Option.some.injEq] at hr
          subst hr
          exact fill_appended hp _ _ _ hst

end Stable

namespace Sync

theorem sync_appended_refl (j : journal_t) : appended j j :=
  ⟨[], by simp, by simp [crcs, crc_chained], by simp [crcs, crc_last]⟩

theorem sync_appended_trans {j j1 j2 : journal_t} (h1 : appended j j1) (h2 : appended j1 j2) :
    appended j j2 := by
  obtain ⟨es1, e1, c1, l1⟩ := h1
  obtain ⟨es2, e2, c2, l2⟩ := h2
  refine ⟨es1 ++ es2, by rw [e2, e1, List.append_assoc], ?_, ?_⟩
  · rw [crcs, List.map_append, crc_chained_append]
    exact ⟨c1, by rw [l1] at c2; exact c2⟩
  · rw [crcs, List.map_append, crc_last_append, l2, l1]
    rfl

theorem appended_prepare {h : helpers} (hp : prefill_chains h) (j : journal_t) (s : Nat) :
    appended j (h.prepare_journal_sector_write j s) := by
  obtain ⟨hc, hl⟩ := hp.2 j s
  exact ⟨[], by simp [hl], by simp [crcs, crc_chained], by simp [crcs, crc_last, hc]⟩

theorem write_flush_appended {h : helpers} (hp : prefill_chains h) {n : Nat}
    {st st1 : write_state} (hw : write_flush h n st = some st1) :
    appended st.journal st1.journal := by
  unfold write_flush at hw
  split at hw
  · simp only [Option.some.injEq] at hw; subst hw; exact sync_appended_refl _
  · split at hw
    · exact absurd hw (by simp)
    · split at hw
      · split at hw
        · simp only [Option.some.injEq] at hw
          subst hw
          exact appended_prepare hp _ _
        · exact absurd hw (by simp)
      · simp only [Option.some.injEq] at hw; subst hw; exact sync_appended_refl _

theorem write_entry_appended {h : helpers} (hp : prefill_chains h) {st st1 : write_state}
    {it : obj_ver_id} (hw : write_entry h st it = some st1) :
    appended st.journal st1.journal := by
  unfold write_entry at hw
  simp only [] at hw
  split at hw
  · exact absurd hw (by simp)
  · simp only [Option.some.injEq] at hw
    subst hw
    obtain ⟨hprev, hlog⟩ := hp.1 st.journal
      (if (map_read dirty_entry.zero st.dirty_db it).state &&& h.BS_ST_INSTANT ≠ 0
        then h.JE_BIG_WRITE_INSTANT else h.JE_BIG_WRITE) h.sizeof_journal_entry_big_write
    exact ⟨[_], congrArg (fun l => l ++ [_]) hlog, by simpa [crcs, crc_chained] using hprev,
      by simp [crcs, crc_last]⟩

theorem write_entries_appended {h : helpers} (hp : prefill_chains h) {n : Nat} :
    ∀ (l : List obj_ver_id) (st st1 : write_state), write_entries h n st l = some st1 →
      appended st.journal st1.journal := by
  intro l
  induction l with
  | nil =>
    intro st st1 hw
    simp only [write_entries, Option.some.injEq] at hw
    subst hw
    exact sync_appended_refl _
  | cons it rest ih =>
    intro st st1 hw
    unfold write_entries at hw
    split at hw
    · exact absurd hw (by simp)
    · rename_i sta hfl
      split at hw
      · exact absurd hw (by simp)
      · rename_i stb hen
        exact sync_appended_trans (write_flush_appended hp hfl)
          (sync_appended_trans (write_entry_appended hp hen) (ih stb st1 hw))

theorem sync_data_sync_done_appended {h : helpers} (hp : prefill_chains h)
    {bs bs1 : blockstore_impl_t} {op op1 : blockstore_op_t} {r : Int}
    (hr : sync_data_sync_done h bs op = .ret r bs1 op1) : appended bs.journal bs1.journal := by
  unfold sync_data_sync_done at hr
  split at hr
  · simp only [flow.ret.injEq] at hr
    rw [← hr.2.1]; exact sync_appended_refl _
  · split at hr
    · simp only [flow.ret.injEq] at hr
      rw [← hr.2.1]; exact sync_appended_refl _
    · split at hr
      · exact absurd hr (by simp)
      · rename_i st hst
        split at hr
        · simp only [] at hr
          split at hr
          · simp only [flow.ret.injEq] at hr
            rw [← hr.2.1]
            exact sync_appended_trans (write_entries_appended hp _ _ _ hst) (appended_prepare hp _ _)
          · exact absurd hr (by simp)
        · exact absurd hr (by simp)

end Sync

/-! ## A relation kept by every block is kept by `continue_sync` -/

namespace Sync

theorem continue_sync_rel {h : helpers}
    (R : blockstore_impl_t → blockstore_op_t → blockstore_impl_t → blockstore_op_t → Prop)
    (hrefl : ∀ bs op, R bs op bs op)
    (htrans : ∀ {a c e : blockstore_impl_t} {b d f : blockstore_op_t},
      R a b c d → R c d e f → R a b e f)
    (hall : ∀ bs op, bs.immediate_commit = h.IMMEDIATE_ALL →
      R bs op bs (FINISH_OP { op with retval := 0 }))
    (hstart : ∀ bs op, op.op_state = 0 → R bs op (sync_start bs op).1 (sync_start bs op).2)
    (hsmall : ∀ bs op bs1 op1, op.op_state = SYNC_HAS_SMALL →
      (sync_has_small h bs op).ends bs1 op1 → R bs op bs1 op1)
    (hbig : ∀ bs op bs1 op1, op.op_state = SYNC_HAS_BIG →
      (sync_has_big bs op).ends bs1 op1 → R bs op bs1 op1)
    (hdata : ∀ bs op bs1 op1, op.op_state = SYNC_DATA_SYNC_DONE →
      (sync_data_sync_done h bs op).ends bs1 op1 → R bs op bs1 op1)
    (hjournal : ∀ bs op bs1 op1, op.op_state = SYNC_JOURNAL_WRITE_DONE →
      (sync_journal_write_done bs op).ends bs1 op1 → R bs op bs1 op1)
    (hack : ∀ bs op bs1 op1, op.op_state = SYNC_DONE → ack_sync h bs op = some (bs1, op1) →
      R bs op bs1 op1)
    {bs : blockstore_impl_t} {op : blockstore_op_t} {q : Bool} {o : outcome}
    (ho : continue_sync h bs op q = some o) : R bs op o.bs o.op := by
  by_cases hia : bs.immediate_commit = h.IMMEDIATE_ALL
  · unfold continue_sync at ho
    rw [if_pos hia] at ho
    simp only [Option.some.injEq] at ho
    subst ho
    exact hall bs op hia
  unfold continue_sync at ho
  rw [if_neg hia] at ho
  simp only [] at ho
  have f0 : R bs op (if op.op_state = 0 then sync_start bs op else (bs, op)).1
      (if op.op_state = 0 then sync_start bs op else (bs, op)).2 := by
    split
    · rename_i h0; exact hstart bs op h0
    · exact hrefl bs op
  generalize (if op.op_state = 0 then sync_start bs op else (bs, op)) = p0 at ho f0
  -- block of SYNC_HAS_SMALL
  rcases andThen_some ho with ⟨r, b, p, hf, rfl⟩ | ⟨bs1, op1, hf, ho1⟩
  · split at hf
    · rename_i hs; exact htrans f0 (hsmall _ _ _ _ hs (Or.inl ⟨r, hf⟩))
    · exact absurd hf (by simp)
  have f1 : R bs op bs1 op1 := by
    split at hf
    · rename_i hs; exact htrans f0 (hsmall _ _ _ _ hs (Or.inr hf))
    · simp only [flow.go.injEq] at hf
      obtain ⟨hb, hp⟩ := hf
      subst hb hp; exact f0
  -- block of SYNC_HAS_BIG
  rcases andThen_some ho1 with ⟨r, b, p, hf2, rfl⟩ | ⟨bs2, op2, hf2, ho2⟩
  · split at hf2
    · rename_i hs; exact htrans f1 (hbig _ _ _ _ hs (Or.inl ⟨r, hf2⟩))
    · exact absurd hf2 (by simp)
  have f2 : R bs op bs2 op2 := by
    split at hf2
    · rename_i hs; exact htrans f1 (hbig _ _ _ _ hs (Or.inr hf2))
    · simp only [flow.go.injEq] at hf2
      obtain ⟨hb, hp⟩ := hf2
      subst hb hp; exact f1
  -- block of SYNC_DATA_SYNC_DONE
  rcases andThen_some ho2 with ⟨r, b, p, hf3, rfl⟩ | ⟨bs3, op3, hf3, ho3⟩
  · split at hf3
    · rename_i hs; exact htrans f2 (hdata _ _ _ _ hs (Or.inl ⟨r, hf3⟩))
    · exact absurd hf3 (by simp)
  have f3 : R bs op bs3 op3 := by
    split at hf3
    · rename_i hs; exact htrans f2 (hdata _ _ _ _ hs (Or.inr hf3))
    · simp only [flow.go.injEq] at hf3
      obtain ⟨hb, hp⟩ := hf3
      subst hb hp; exact f2
  -- block of SYNC_JOURNAL_WRITE_DONE
  rcases andThen_some ho3 with ⟨r, b, p, hf4, rfl⟩ | ⟨bs4, op4, hf4, ho4⟩
  · split at hf4
    · rename_i hs; exact htrans f3 (hjournal _ _ _ _ hs (Or.inl ⟨r, hf4⟩))
    · exact absurd hf4 (by simp)
  have f4 : R bs op bs4 op4 := by
    split at hf4
    · rename_i hs; exact htrans f3 (hjournal _ _ _ _ hs (Or.inr hf4))
    · simp only [flow.go.injEq] at hf4
      obtain ⟨hb, hp⟩ := hf4
      subst hb hp; exact f3
  -- the acknowledgement
  rcases sync_finish_cases ho4 with ⟨-, hb, hp, -⟩ | ⟨-, hs, -, ha⟩
  · rw [hb, hp]; exact f4
  · exact htrans f4 (hack _ _ _ _ hs ha)

end Sync

namespace Sync

theorem sync_has_small_appended {h : helpers} (hp : prefill_chains h)
    {bs bs1 : blockstore_impl_t} {op op1 : blockstore_op_t}
    (he : (sync_has_small h bs op).ends bs1 op1) : appended bs.journal bs1.journal := by
  rcases he with ⟨r, hr⟩ | hg
  · unfold sync_has_small at hr
    split at hr
    · exact absurd hr (by simp)
    · split at hr
      · split at hr
        · simp only [flow.ret.injEq] at hr
          rw [← hr.2.1]; exact sync_appended_refl _
        · simp only [flow.ret.injEq] at hr
          rw [← hr.2.1]; exact appended_prepare hp _ _
      · exact absurd hr (by simp)
  · rw [(sync_has_small_go hg).1]; exact sync_appended_refl _

theorem continue_sync_appended {h : helpers} (hp : prefill_chains h)
    {bs : blockstore_impl_t} {op : blockstore_op_t} {q : Bool} {o : outcome}
    (ho : continue_sync h bs op q = some o) : appended bs.journal o.bs.journal := by
  refine continue_sync_rel (fun bs _ bs1 _ => appended bs.journal bs1.journal)
    (fun bs _ => sync_appended_refl _) (fun h1 h2 => sync_appended_trans h1 h2)
    (fun bs _ _ => sync_appended_refl _) ?_ ?_ ?_ ?_ ?_ ?_ ho
  · intro bs op _
    rw [sync_start_eq]; exact sync_appended_refl _
  · intro bs op bs1 op1 _ he
    exact sync_has_small_appended hp he
  · intro bs op bs1 op1 _ he
    rcases he with ⟨r, hr⟩ | hg
    · rcases sync_has_big_ret hr with ⟨-, hb, -⟩ | ⟨-, -, hb, -⟩
      · rw [hb]; exact sync_appended_refl _
      · rw [hb]; exact sync_appended_refl _
    · rw [(sync_has_big_go hg).2.1]; exact sync_appended_refl _
  · intro bs op bs1 op1 _ he
    rcases he with ⟨r, hr⟩ | hg
    · exact sync_data_sync_done_appended hp hr
    · exact (sync_data_sync_done_go hg).elim
  · intro bs op bs1 op1 _ he
    rcases he with ⟨r, hr⟩ | hg
    · rcases sync_journal_write_done_ret hr with ⟨-, hb, -⟩ | ⟨-, hb, -⟩
      · rw [hb]; exact sync_appended_refl _
      · rw [hb]; exact sync_appended_refl _
    · rw [(sync_journal_write_done_go hg).1]; exact sync_appended_refl _
  · intro bs op bs1 op1 _ ha
    rw [(ack_sync_frame ha).2]; exact sync_appended_refl _

theorem sync_sample_prefill_chains : prefill_chains sample_helpers :=
  ⟨fun _ _ _ => ⟨rfl, rfl⟩, fun _ _ => ⟨rfl, rfl⟩⟩

end Sync

namespace Stable

theorem stable_sample_prefill_chains : prefill_chains sample_helpers :=
  fun _ _ _ => ⟨rfl, rfl⟩

end Stable

/-- C22. Provided `prefill_single_journal_entry` hands back an entry whose `crc32_prev` is
the journal's `crc32_last`, and `prepare_journal_sector_write` leaves `crc32_last` alone:
the entries that one call of `dequeue_stable` appends to the journal, and those that one
call of `continue_sync` appends, are chained, that is the `crc32_prev` of each is the
`crc32` of the entry appended just before it and that of the first is the journal's
`crc32_last` at entry; and after the call `crc32_last` is the `crc32` of the last entry
appended. -/
theorem journal_entries_crc_chained (hs : Stable.helpers) (hy : Sync.helpers)
    (h1 : Stable.prefill_chains hs) (h2 : Sync.prefill_chains hy) :
    (∀ bs op r, Stable.dequeue_stable hs bs op = some r →
      ∃ es, r.bs.journal.entries = bs.journal.entries ++ es ∧
        crc_chained bs.journal.crc32_last (Stable.crcs es) ∧
        r.bs.journal.crc32_last = crc_last bs.journal.crc32_last (Stable.crcs es)) ∧
    (∀ bs op q o, Sync.continue_sync hy bs op q = some o →
      ∃ es, o.bs.journal.entries = bs.journal.entries ++ es ∧
        crc_chained bs.journal.crc32_last (Sync.crcs es) ∧
        o.bs.journal.crc32_last = crc_last bs.journal.crc32_last (Sync.crcs es)) :=
  ⟨fun _ _ _ hr => Stable.dequeue_stable_appended h1 hr,
   fun _ _ _ _ ho => Sync.continue_sync_appended h2 ho⟩

/-- Witness of C22: the sample helpers meet the hypotheses; on the samples `dequeue_stable`
appends two entries and the journal-write step of `continue_sync` one, chained as the
claim says. -/
theorem journal_entries_crc_chained_witness :
    Stable.prefill_chains Stable.sample_helpers ∧ Sync.prefill_chains Sync.sample_helpers ∧
    (∃ r es, Stable.dequeue_stable Stable.sample_helpers Stable.sample_synced_bs
        (Stable.sample_op [⟨⟨1, 0⟩, 2⟩, ⟨⟨2, 0⟩, 1⟩]) = some r ∧ es.length = 2 ∧
      r.bs.journal.entries = Stable.sample_synced_bs.journal.entries ++ es ∧
      crc_chained Stable.sample_synced_bs.journal.crc32_last (Stable.crcs es) ∧
      r.bs.journal.crc32_last =
        crc_last Stable.sample_synced_bs.journal.crc32_last (Stable.crcs es)) ∧
    (∃ o es, Sync.continue_sync Sync.sample_helpers
        (Sync.sample_bs 0 [] [] [(⟨⟨1, 0⟩, 1⟩, Sync.sample_entry 0x42)])
        { Sync.fresh_op with op_state := 4, sync_big_writes := [⟨⟨1, 0⟩, 1⟩] } false = some o ∧
      es.length = 1 ∧
      o.bs.journal.entries =
        (Sync.sample_bs 0 [] [] [(⟨⟨1, 0⟩, 1⟩, Sync.sample_entry 0x42)]).journal.entries ++ es ∧
      crc_chained (Sync.sample_bs 0 [] [] [(⟨⟨1, 0⟩, 1⟩, Sync.sample_entry 0x42)]).journal.crc32_last
        (Sync.crcs es) ∧
      o.bs.journal.crc32_last =
        crc_last (Sync.sample_bs 0 [] [] [(⟨⟨1, 0⟩, 1⟩, Sync.sample_entry 0x42)]).journal.crc32_last
          (Sync.crcs es)) := by
  have key := journal_entries_crc_chained Stable.sample_helpers Sync.sample_helpers
    Stable.stable_sample_prefill_chains Sync.sync_sample_prefill_chains
  refine ⟨Stable.stable_sample_prefill_chains, Sync.sync_sample_prefill_chains, ?_, ?_⟩
  · have hsome : (Stable.dequeue_stable Stable.sample_helpers Stable.sample_synced_bs
        (Stable.sample_op [⟨⟨1, 0⟩, 2⟩, ⟨⟨2, 0⟩, 1⟩])).isSome = true := by decide
    obtain ⟨r, hr⟩ := Option.isSome_iff_exists.mp hsome
    obtain ⟨es, he, hc, hl⟩ := key.1 _ _ r hr
    refine ⟨r, es, hr, ?_, he, hc, hl⟩
    have hlen : (Stable.dequeue_stable Stable.sample_helpers Stable.sample_synced_bs
        (Stable.sample_op [⟨⟨1, 0⟩, 2⟩, ⟨⟨2, 0⟩, 1⟩])).map
          (fun r => r.bs.journal.entries.length) = some 2 := by decide
    rw [hr] at hlen
    simp only [Option.map_some', Option.some.injEq] at hlen
    rw [he] at hlen
    simpa [Stable.sample_synced_bs, Stable.sample_journal] using hlen
  · have hsome : (Sync.continue_sync Sync.sample_helpers
        (Sync.sample_bs 0 [] [] [(⟨⟨1, 0⟩, 1⟩, Sync.sample_entry 0x42)])
        { Sync.fresh_op with op_state := 4, sync_big_writes := [⟨⟨1, 0⟩, 1⟩] } false).isSome =
        true := by decide
    obtain ⟨o, ho⟩ := Option.isSome_iff_exists.mp hsome
    obtain ⟨es, he, hc, hl⟩ := key.2 _ _ _ o ho
    refine ⟨o, es, ho, ?_, he, hc, hl⟩
    have hlen : (Sync.continue_sync Sync.sample_helpers
        (Sync.sample_bs 0 [] [] [(⟨⟨1, 0⟩, 1⟩, Sync.sample_entry 0x42)])
        { Sync.fresh_op with op_state := 4, sync_big_writes := [⟨⟨1, 0⟩, 1⟩] } false).map
          (fun o => o.bs.journal.entries.length) = some 1 := by decide
    rw [ho] at hlen
    simp only [Option.map_some', Option.some.injEq] at hlen
    rw [he] at hlen
    simpa [Sync.sample_bs, Sync.sample_journal] using hlen

/-! ## The sector use counts after the journal-write step of `continue_sync` -/

namespace Sync

theorem map_read_upd {κ β : Type} [DecidableEq κ] (lt : κ → κ → Bool) (d : β) (f : β → β)
    (m : List (κ × β)) (k x : κ) :
    map_read d (map_update lt d f m k) x =
      if x = k then f (map_read d m k) else map_read d m x := by
  have hf := map_find_update lt d f m k x
  by_cases hx : x = k
  · rw [if_pos hx] at hf
    rw [if_pos hx]
    unfold map_read at hf ⊢
    rw [hf]; rfl
  · rw [if_neg hx] at hf
    rw [if_neg hx]
    unfold map_read
    rw [hf]

theorem bump_used_read (used : List (Nat × Nat)) (o x : Nat) :
    map_read 0 (bump_used used o) x = map_read 0 used x + if x = o then 1 else 0 := by
  unfold bump_used
  rw [map_read_upd]
  by_cases hx : x = o
  · simp [hx]
  · simp [hx]

theorem write_flush_used {h : helpers} (hk : keeps_used h) {n : Nat} {st st1 : write_state}
    (hw : write_flush h n st = some st1) :
    st1.journal.used_sectors = st.journal.used_sectors ∧ st1.dirty_db = st.dirty_db := by
  unfold write_flush at hw
  split at hw
  · simp only [Option.some.injEq] at hw; subst hw; exact ⟨rfl, rfl⟩
  · split at hw
    · exact absurd hw (by simp)
    · split at hw
      · split at hw
        · simp only [Option.some.injEq] at hw
          subst hw
          exact ⟨hk.2 _ _, rfl⟩
        · exact absurd hw (by simp)
      · simp only [Option.some.injEq] at hw; subst hw; exact ⟨rfl, rfl⟩

theorem write_entry_used {h : helpers} (hk : keeps_used h) {st st1 : write_state}
    {it : obj_ver_id} (hw : write_entry h st it = some st1) :
    ∃ si je, st1.journal.sector_info.get? st1.journal.cur_sector = some si ∧
      st1.journal.entries.getLast? = some (st1.journal.cur_sector, je) ∧
      je.oid = it.oid ∧ je.version = it.version ∧
      (map_read dirty_entry.zero st1.dirty_db it).journal_sector = si.offset ∧
      (∀ k, k ≠ it → map_read dirty_entry.zero st1.dirty_db k =
        map_read dirty_entry.zero st.dirty_db k) ∧
      ∀ x, map_read 0 st1.journal.used_sectors x =
        map_read 0 st.journal.used_sectors x + if x = si.offset then 1 else 0 := by
  unfold write_entry at hw
  simp only [] at hw
  split at hw
  · exact absurd hw (by simp)
  · rename_i si hsi
    simp only [Option.some.injEq] at hw
    subst hw
    refine ⟨si, _, hsi, List.getLast?_concat _, rfl, rfl, ?_, ?_, ?_⟩
    · simp only [map_read_upd, if_true]
    · intro k hk1
      simp only [map_read_upd, if_neg hk1]
    · intro x
      simp only [bump_used_read, hk.1]

theorem write_entries_used {h : helpers} (hk : keeps_used h) {n : Nat} :
    ∀ (l : List obj_ver_id) (st st1 : write_state), l.Nodup →
      write_entries h n st l = some st1 →
      (∀ x, map_read 0 st1.journal.used_sectors x =
        map_read 0 st.journal.used_sectors x + sector_users st1.dirty_db l x) ∧
      (∀ k, k ∉ l → map_read dirty_entry.zero st1.dirty_db k =
        map_read dirty_entry.zero st.dirty_db k) := by
  intro l
  induction l with
  | nil =>
    intro st st1 _ hw
    simp only [write_entries, Option.some.injEq] at hw
    subst hw
    exact ⟨fun x => by simp [sector_users], fun _ _ => rfl⟩
  | cons it rest ih =>
    intro st st1 hnd hw
    obtain ⟨hnot, hrest⟩ := List.nodup_cons.mp hnd
    unfold write_entries at hw
    split at hw
    · exact absurd hw (by simp)
    · rename_i sta hfl
      split at hw
      · exact absurd hw (by simp)
      · rename_i stb hen
        obtain ⟨hu1, hd1⟩ := write_flush_used hk hfl
        obtain ⟨si, je, -, -, -, -, hjs, hfr, hu2⟩ := write_entry_used hk hen
        obtain ⟨hu3, hfr3⟩ := ih stb st1 hrest hw
        constructor
        · intro x
          have hit : (map_read dirty_entry.zero st1.dirty_db it).journal_sector = si.offset := by
            rw [hfr3 it hnot]; exact hjs
          rw [hu3 x, hu2 x, hu1]
          simp only [sector_users, List.countP_cons, hit]
          by_cases hx : x = si.offset
          · simp [hx]; omega
          · have hx2 : ¬ si.offset = x := fun e => hx e.symm
            simp [hx, hx2]
        · intro k hk1
          have hk2 : k ≠ it := fun e => hk1 (by rw [e]; exact List.mem_cons_self _ _)
          have hk3 : k ∉ rest := fun e => hk1 (List.mem_cons_of_mem _ e)
          rw [hfr3 k hk3, hfr k hk2, hd1]

theorem sync_data_sync_done_used {h : helpers} (hk : keeps_used h)
    {bs bs1 : blockstore_impl_t} {op op1 : blockstore_op_t}
    (hnd : op.sync_big_writes.Nodup)
    (hr : sync_data_sync_done h bs op = .ret 1 bs1 op1) (x : Nat) :
    map_read 0 bs1.journal.used_sectors x =
      map_read 0 bs.journal.used_sectors x + sector_users bs1.dirty_db op.sync_big_writes x := by
  unfold sync_data_sync_done at hr
  split at hr
  · simp only [flow.ret.injEq] at hr
    exact absurd hr.1 (by decide)
  · split at hr
    · simp only [flow.ret.injEq] at hr
      exact absurd hr.1 (by decide)
    · split at hr
      · exact absurd hr (by simp)
      · rename_i st hst
        split at hr
        · simp only [] at hr
          split at hr
          · simp only [flow.ret.injEq, true_and] at hr
            obtain ⟨hu, -⟩ := write_entries_used hk _ _ _ hnd hst
            rw [← hr.1]
            simp only [hk.2]
            exact hu x
          · exact absurd hr (by simp)
        · exact absurd hr (by simp)

theorem sample_keeps_used : keeps_used sample_helpers :=
  ⟨fun _ _ _ => rfl, fun _ _ => rfl⟩

/-- C23. Provided `prefill_single_journal_entry` and `prepare_journal_sector_write` leave
`journal.used_sectors` alone. One iteration of the loop of the journal-write step (lines
106-126) logs the entry of the big write under the current sector, sets the
`journal_sector` of the write's dirty entry to the offset of that sector and raises
`used_sectors` of that offset by one, leaving every other count and every other dirty
entry as it was. And when the journal-write step (lines 78-136) of a sync whose big
writes are distinct has submitted its writes, then for every sector offset `x` the count
`used_sectors[x]` has grown by the number of big writes of the sync whose `journal_sector`
is now `x`. -/
theorem journal_write_counts_used_sectors (h : helpers) (hk : keeps_used h) :
    (∀ st it st1, write_entry h st it = some st1 →
      ∃ si je, st1.journal.sector_info.get? st1.journal.cur_sector = some si ∧
        st1.journal.entries.getLast? = some (st1.journal.cur_sector, je) ∧
        je.oid = it.oid ∧ je.version = it.version ∧
        (map_read dirty_entry.zero st1.dirty_db it).journal_sector = si.offset ∧
        (∀ k, k ≠ it → map_read dirty_entry.zero st1.dirty_db k =
          map_read dirty_entry.zero st.dirty_db k) ∧
        ∀ x, map_read 0 st1.journal.used_sectors x =
          map_read 0 st.journal.used_sectors x + if x = si.offset then 1 else 0) ∧
    (∀ bs op bs1 op1, op.sync_big_writes.Nodup →
      sync_data_sync_done h bs op = .ret 1 bs1 op1 →
      ∀ x, map_read 0 bs1.journal.used_sectors x =
        map_read 0 bs.journal.used_sectors x +
          sector_users bs1.dirty_db op.sync_big_writes x) :=
  ⟨fun _ _ _ hw => write_entry_used hk hw,
   fun _ _ _ _ hnd hr x => sync_data_sync_done_used hk hnd hr x⟩

/-- Witness of C23: on a sample sync of two big writes, both of whose entries go to the
sector at offset 0, the count of that sector grows by two. -/
theorem journal_write_counts_used_sectors_witness :
    keeps_used sample_helpers ∧
    ∃ bs1 op1,
      sync_data_sync_done sample_helpers
        (sample_bs 0 [] [] [(⟨⟨1, 0⟩, 1⟩, sample_entry 0x42), (⟨⟨2, 0⟩, 1⟩, sample_entry 0x42)])
        { fresh_op with op_state := 4, sync_big_writes := [⟨⟨1, 0⟩, 1⟩, ⟨⟨2, 0⟩, 1⟩] } =
        .ret 1 bs1 op1 ∧
      sector_users bs1.dirty_db [⟨⟨1, 0⟩, 1⟩, ⟨⟨2, 0⟩, 1⟩] 0 = 2 ∧
      map_read 0 bs1.journal.used_sectors 0 = 0 + 2 := by
  refine ⟨sample_keeps_used, _, _, rfl, by decide, ?_⟩
  have key := (journal_write_counts_used_sectors sample_helpers sample_keeps_used).2
    (sample_bs 0 [] [] [(⟨⟨1, 0⟩, 1⟩, sample_entry 0x42), (⟨⟨2, 0⟩, 1⟩, sample_entry 0x42)])
    { fresh_op with op_state := 4, sync_big_writes := [⟨⟨1, 0⟩, 1⟩, ⟨⟨2, 0⟩, 1⟩] } _ _
    (by decide) rfl 0
  exact key

end Sync

/-! ## The sync state machine is linear -/

namespace Sync

theorem linear_step_lt {s s1 : Nat} (h : linear_step s s1) : s < s1 := by
  simp only [linear_step, SYNC_HAS_SMALL, SYNC_HAS_BIG, SYNC_DATA_SYNC_SENT, SYNC_DATA_SYNC_DONE,
    SYNC_JOURNAL_WRITE_SENT, SYNC_JOURNAL_WRITE_DONE, SYNC_JOURNAL_SYNC_SENT, SYNC_DONE] at h
  omega

theorem linear_path_le {s s1 : Nat} (h : linear_path s s1) : s ≤ s1 := by
  unfold linear_path at h
  induction h with
  | refl => exact Nat.le_refl _
  | tail _ hs ih => exact Nat.le_trans ih (Nat.le_of_lt (linear_step_lt hs))

theorem linear_path_single {s s1 : Nat} (h : linear_step s s1) : linear_path s s1 :=
  Relation.ReflTransGen.single h

theorem stage_lin_refl (bs : blockstore_impl_t) (op : blockstore_op_t) :
    stage_lin bs op bs op :=
  ⟨Relation.ReflTransGen.refl, [], by simp, Or.inl ⟨rfl, rfl, Or.inl rfl⟩⟩

theorem stage_lin_trans {a c e : blockstore_impl_t} {b d f : blockstore_op_t}
    (h1 : stage_lin a b c d) (h2 : stage_lin c d e f) : stage_lin a b e f := by
  obtain ⟨p1, f1, e1, c1⟩ := h1
  obtain ⟨p2, f2, e2, c2⟩ := h2
  refine ⟨Relation.ReflTransGen.trans p1 p2, f1 ++ f2, by rw [e2, e1, List.append_assoc], ?_⟩
  rcases c1 with ⟨hf1, hp1, hs1⟩ | ⟨hn1, hs1, hp1, hne1⟩
  · rcases c2 with ⟨hf2, hp2, hs2⟩ | ⟨hn2, hs2, hp2, hne2⟩
    · left
      refine ⟨by simp [hf1, hf2], by rw [hp2, hp1], ?_⟩
      rcases hs1 with hs1 | ⟨ha, hb⟩
      · rcases hs2 with hs2 | ⟨hc, hd⟩
        · left; rw [hs2, hs1]
        · right; rw [hs1] at hc; exact ⟨hc, hd⟩
      · rcases hs2 with hs2 | ⟨hc, hd⟩
        · right; rw [hs2]; exact ⟨ha, hb⟩
        · right; exact ⟨ha, hd⟩
    · right
      refine ⟨?_, hs2, by simp [hf1, hp2], by simp [hf1, hne2]⟩
      rcases hs1 with hs1 | ⟨ha, _⟩
      · rw [hs1] at hn2; exact hn2
      · exact ha
  · rcases c2 with ⟨hf2, hp2, hs2⟩ | ⟨hn2, _, _, _⟩
    · right
      rcases hs2 with hs2 | ⟨hc, _⟩
      · exact ⟨hn1, by rw [hs2]; exact hs1, by simp [hf2, hp2, hp1], by simp [hf2, hne1]⟩
      · exact absurd hs1 hc
    · exact absurd hs1 hn2

theorem sync_start_lin (bs : blockstore_impl_t) (op : blockstore_op_t) (h0 : op.op_state = 0) :
    stage_lin bs op (sync_start bs op).1 (sync_start bs op).2 := by
  have hs : (sync_start bs op).2.op_state = SYNC_HAS_BIG ∨
      (sync_start bs op).2.op_state = SYNC_HAS_SMALL ∨
      (sync_start bs op).2.op_state = SYNC_DONE := by
    unfold sync_start
    simp only []
    split
    · left; rfl
    · split
      · right; left; rfl
      · right; right; rfl
  have e1 : (sync_start bs op).1.ring = bs.ring := by rw [sync_start_eq]
  have e2 : (sync_start bs op).2.pending_ops = op.pending_ops := by rw [sync_start_eq]
  refine ⟨linear_path_single (Or.inl ⟨h0, hs⟩), [], by rw [e1]; simp,
    Or.inl ⟨rfl, e2, Or.inr ⟨?_, ?_⟩⟩⟩
  · rw [h0]
    simp [is_sent, SYNC_DATA_SYNC_SENT, SYNC_JOURNAL_WRITE_SENT, SYNC_JOURNAL_SYNC_SENT]
  · rcases hs with hs | hs | hs <;> rw [hs] <;>
      simp [is_sent, SYNC_HAS_SMALL, SYNC_HAS_BIG, SYNC_DONE, SYNC_DATA_SYNC_SENT,
        SYNC_JOURNAL_WRITE_SENT, SYNC_JOURNAL_SYNC_SENT]

theorem sync_has_small_lin {h : helpers} {bs bs1 : blockstore_impl_t}
    {op op1 : blockstore_op_t} (hs : op.op_state = SYNC_HAS_SMALL)
    (he : (sync_has_small h bs op).ends bs1 op1) : stage_lin bs op bs1 op1 := by
  rcases he with ⟨r, hr⟩ | hg
  · rcases sync_has_small_ret hr with ⟨-, hb, hp⟩ | ⟨-, hst, -, hfr, hp⟩
    · subst hb hp; exact stage_lin_refl _ _
    · refine ⟨linear_path_single ?_, _, hfr, Or.inr ⟨?_, ?_, by rw [hp]; rfl, by simp⟩⟩
      · rw [hs, hst]; simp [linear_step]
      · rw [hs]
        simp [is_sent, SYNC_HAS_SMALL, SYNC_DATA_SYNC_SENT, SYNC_JOURNAL_WRITE_SENT,
          SYNC_JOURNAL_SYNC_SENT]
      · rw [hst]; simp [is_sent]
  · obtain ⟨hb, hp⟩ := sync_has_small_go hg
    subst hb hp
    refine ⟨linear_path_single ?_, [], by simp, Or.inl ⟨rfl, rfl, Or.inr ⟨?_, ?_⟩⟩⟩
    · simp [hs, linear_step]
    · rw [hs]
      simp [is_sent, SYNC_HAS_SMALL, SYNC_DATA_SYNC_SENT, SYNC_JOURNAL_WRITE_SENT,
        SYNC_JOURNAL_SYNC_SENT]
    · simp [is_sent, SYNC_JOURNAL_WRITE_DONE, SYNC_DATA_SYNC_SENT, SYNC_JOURNAL_WRITE_SENT,
        SYNC_JOURNAL_SYNC_SENT]

theorem sync_has_big_lin {bs bs1 : blockstore_impl_t}
    {op op1 : blockstore_op_t} (hs : op.op_state = SYNC_HAS_BIG)
    (he : (sync_has_big bs op).ends bs1 op1) : stage_lin bs op bs1 op1 := by
  rcases he with ⟨r, hr⟩ | hg
  · rcases sync_has_big_ret hr with ⟨-, hb, hp⟩ | ⟨-, -, -, hfr, hp⟩
    · subst hb hp; exact stage_lin_refl _ _
    · refine ⟨linear_path_single ?_, _, hfr, Or.inr ⟨?_, ?_, by rw [hp]; rfl, by simp⟩⟩
      · rw [hs, hp]; simp [linear_step]
      · rw [hs]
        simp [is_sent, SYNC_HAS_BIG, SYNC_DATA_SYNC_SENT, SYNC_JOURNAL_WRITE_SENT,
          SYNC_JOURNAL_SYNC_SENT]
      · rw [hp]; simp [is_sent]
  · obtain ⟨-, hb, hp⟩ := sync_has_big_go hg
    subst hb hp
    refine ⟨linear_path_single ?_, [], by simp, Or.inl ⟨rfl, rfl, Or.inr ⟨?_, ?_⟩⟩⟩
    · simp [hs, linear_step]
    · rw [hs]
      simp [is_sent, SYNC_HAS_BIG, SYNC_DATA_SYNC_SENT, SYNC_JOURNAL_WRITE_SENT,
        SYNC_JOURNAL_SYNC_SENT]
    · simp [is_sent, SYNC_DATA_SYNC_DONE, SYNC_DATA_SYNC_SENT, SYNC_JOURNAL_WRITE_SENT,
        SYNC_JOURNAL_SYNC_SENT]

theorem write_flush_count {h : helpers} {n : Nat} {st st1 : write_state}
    (hw : write_flush h n st = some st1) :
    ∃ fresh, st1.prepared = st.prepared ++ fresh ∧ st1.s = st.s + fresh.length := by
  unfold write_flush at hw
  split at hw
  · simp only [Option.some.injEq] at hw
    subst hw
    exact ⟨[], by simp, by simp⟩
  · split at hw
    · exact absurd hw (by simp)
    · split at hw
      · split at hw
        · simp only [Option.some.injEq] at hw
          subst hw
          exact ⟨[_], rfl, by simp⟩
        · exact absurd hw (by simp)
      · simp only [Option.some.injEq] at hw
        subst hw
        exact ⟨[], by simp, by simp⟩

theorem write_entry_count {h : helpers} {st st1 : write_state} {it : obj_ver_id}
    (hw : write_entry h st it = some st1) : st1.prepared = st.prepared ∧ st1.s = st.s := by
  unfold write_entry at hw
  simp only [] at hw
  split at hw
  · exact absurd hw (by simp)
  · simp only [Option.some.injEq] at hw
    subst hw
    exact ⟨rfl, rfl⟩

theorem write_entries_count {h : helpers} {n : Nat} :
    ∀ (l : List obj_ver_id) (st st1 : write_state), write_entries h n st l = some st1 →
      ∃ fresh, st1.prepared = st.prepared ++ fresh ∧ st1.s = st.s + fresh.length := by
  intro l
  induction l with
  | nil =>
    intro st st1 hw
    simp only [write_entries, Option.some.injEq] at hw
    subst hw
    exact ⟨[], by simp, by simp⟩
  | cons it rest ih =>
    intro st st1 hw
    unfold write_entries at hw
    split at hw
    · exact absurd hw (by simp)
    · rename_i sta hfl
      split at hw
      · exact absurd hw (by simp)
      · rename_i stb hen
        obtain ⟨f1, hf1, hc1⟩ := write_flush_count hfl
        obtain ⟨hf2, hc2⟩ := write_entry_count hen
        obtain ⟨f3, hf3, hc3⟩ := ih stb st1 hw
        refine ⟨f1 ++ f3, by rw [hf3, hf2, hf1, List.append_assoc], ?_⟩
        rw [hc3, hc2, hc1, List.length_append]
        omega

theorem sync_data_sync_done_count {h : helpers} {bs bs1 : blockstore_impl_t}
    {op op1 : blockstore_op_t} {r : Int} (hr : sync_data_sync_done h bs op = .ret r bs1 op1) :
    (bs1 = bs ∧ op1 = op) ∨
    (op1.op_state = SYNC_JOURNAL_WRITE_SENT ∧
      ∃ fresh, bs1.ring.prepared = bs.ring.prepared ++ fresh ∧
        op1.pending_ops = (fresh.length : Int) ∧ fresh ≠ []) := by
  unfold sync_data_sync_done at hr
  split at hr
  · simp only [flow.ret.injEq] at hr
    exact Or.inl ⟨hr.2.1.symm, hr.2.2.symm⟩
  · split at hr
    · simp only [flow.ret.injEq] at hr
      exact Or.inl ⟨hr.2.1.symm, hr.2.2.symm⟩
    · split at hr
      · exact absurd hr (by simp)
      · rename_i st hst
        split at hr
        · simp only [] at hr
          split at hr
          · simp only [flow.ret.injEq] at hr
            obtain ⟨-, h2, h3⟩ := hr
            subst h2 h3
            obtain ⟨f1, hf1, hc1⟩ := write_entries_count _ _ _ hst
            refine Or.inr ⟨rfl, f1 ++ [sync_io.journal_sector_write st.journal.cur_sector],
              ?_, ?_, by simp⟩
            · simp only [hf1, List.append_assoc]
            · simp only [hc1, List.length_append, List.length_singleton]
              push_cast
              omega
          · exact absurd hr (by simp)
        · exact absurd hr (by simp)

theorem sync_data_sync_done_lin {h : helpers} {bs bs1 : blockstore_impl_t}
    {op op1 : blockstore_op_t} (hs : op.op_state = SYNC_DATA_SYNC_DONE)
    (he : (sync_data_sync_done h bs op).ends bs1 op1) : stage_lin bs op bs1 op1 := by
  rcases he with ⟨r, hr⟩ | hg
  · rcases sync_data_sync_done_count hr with ⟨hb, hp⟩ | ⟨hst, fresh, hfr, hp, hne⟩
    · subst hb hp; exact stage_lin_refl _ _
    · refine ⟨linear_path_single ?_, fresh, hfr, Or.inr ⟨?_, ?_, hp, hne⟩⟩
      · rw [hs, hst]; simp [linear_step]
      · rw [hs]
        simp [is_sent, SYNC_DATA_SYNC_DONE, SYNC_DATA_SYNC_SENT, SYNC_JOURNAL_WRITE_SENT,
          SYNC_JOURNAL_SYNC_SENT]
      · rw [hst]; simp [is_sent]
  · exact (sync_data_sync_done_go hg).elim

theorem sync_journal_write_done_lin {bs bs1 : blockstore_impl_t}
    {op op1 : blockstore_op_t} (hs : op.op_state = SYNC_JOURNAL_WRITE_DONE)
    (he : (sync_journal_write_done bs op).ends bs1 op1) : stage_lin bs op bs1 op1 := by
  rcases he with ⟨r, hr⟩ | hg
  · rcases sync_journal_write_done_ret hr with ⟨-, hb, hp⟩ | ⟨-, -, hfr, hp⟩
    · subst hb hp; exact stage_lin_refl _ _
    · refine ⟨linear_path_single ?_, _, hfr, Or.inr ⟨?_, ?_, by rw [hp]; rfl, by simp⟩⟩
      · rw [hs, hp]; simp [linear_step]
      · rw [hs]
        simp [is_sent, SYNC_JOURNAL_WRITE_DONE, SYNC_DATA_SYNC_SENT, SYNC_JOURNAL_WRITE_SENT,
          SYNC_JOURNAL_SYNC_SENT]
      · rw [hp]; simp [is_sent]
  · obtain ⟨hb, hp⟩ := sync_journal_write_done_go hg
    subst hb hp
    refine ⟨linear_path_single ?_, [], by simp, Or.inl ⟨rfl, rfl, Or.inr ⟨?_, ?_⟩⟩⟩
    · simp [hs, linear_step]
    · rw [hs]
      simp [is_sent, SYNC_JOURNAL_WRITE_DONE, SYNC_DATA_SYNC_SENT, SYNC_JOURNAL_WRITE_SENT,
        SYNC_JOURNAL_SYNC_SENT]
    · simp [is_sent, SYNC_DONE, SYNC_DATA_SYNC_SENT, SYNC_JOURNAL_WRITE_SENT,
        SYNC_JOURNAL_SYNC_SENT]

theorem continue_sync_lin {h : helpers} {bs : blockstore_impl_t} {op : blockstore_op_t}
    {q : Bool} {o : outcome} (ho : continue_sync h bs op q = some o) :
    stage_lin bs op o.bs o.op := by
  refine continue_sync_rel stage_lin stage_lin_refl (fun h1 h2 => stage_lin_trans h1 h2)
    ?_ sync_start_lin ?_ ?_ ?_ ?_ ?_ ho
  · intro bs op _
    exact ⟨Relation.ReflTransGen.refl, [], by simp, Or.inl ⟨rfl, rfl, Or.inl rfl⟩⟩
  · intro bs op bs1 op1 hs he; exact sync_has_small_lin hs he
  · intro bs op bs1 op1 hs he; exact sync_has_big_lin hs he
  · intro bs op bs1 op1 hs he; exact sync_data_sync_done_lin hs he
  · intro bs op bs1 op1 hs he; exact sync_journal_write_done_lin hs he
  · intro bs op bs1 op1 _ ha
    obtain ⟨hop, hbs⟩ := ack_sync_frame ha
    exact ⟨by rw [hop]; exact Relation.ReflTransGen.refl, [], by rw [hbs]; simp,
      Or.inl ⟨rfl, by rw [hop], Or.inl (by rw [hop])⟩⟩

theorem handle_sync_event_lin {h : helpers} {bs : blockstore_impl_t} {op : blockstore_op_t}
    {res : Int} {len : Nat} {r : blockstore_impl_t × blockstore_op_t}
    (he : handle_sync_event h bs op res len = some r) :
    r.2.pending_ops = op.pending_ops - 1 ∧
    ((op.pending_ops - 1 ≠ 0 ∧ r.2.op_state = op.op_state) ∨
     (op.pending_ops - 1 = 0 ∧ linear_step op.op_state r.2.op_state)) := by
  unfold handle_sync_event at he
  simp only [] at he
  split at he
  · exact absurd he (by simp)
  · split at he
    · rename_i hz
      split at he
      · rename_i hs
        simp only [Option.some.injEq] at he
        subst he
        exact ⟨rfl, Or.inr ⟨hz, by rw [hs]; simp [linear_step]⟩⟩
      · split at he
        · rename_i hs
          simp only [Option.some.injEq] at he
          subst he
          exact ⟨rfl, Or.inr ⟨hz, by rw [hs]; simp [linear_step]⟩⟩
        · split at he
          · rename_i hs
            simp only [Option.some.injEq] at he
            subst he
            exact ⟨rfl, Or.inr ⟨hz, by rw [hs]; simp [linear_step]⟩⟩
          · exact absurd he (by simp)
    · rename_i hz
      simp only [Option.some.injEq] at he
      subst he
      exact ⟨rfl, Or.inl ⟨hz, rfl⟩⟩

theorem handle_sync_event_some (h : helpers) (bs : blockstore_impl_t) (op : blockstore_op_t)
    (res : Int) (len : Nat) (hres : res % 2 ^ 64 = (len : Int)) (hs : is_sent op.op_state) :
    ∃ r, handle_sync_event h bs op res len = some r := by
  unfold handle_sync_event
  simp only []
  rw [if_neg (by simpa using hres)]
  split
  · rcases hs with hs | hs | hs
    · rw [if_pos hs]; exact ⟨_, rfl⟩
    · have h1 : ¬ op.op_state = SYNC_DATA_SYNC_SENT := by
        rw [hs]; simp [SYNC_DATA_SYNC_SENT, SYNC_JOURNAL_WRITE_SENT]
      rw [if_neg h1, if_pos hs]; exact ⟨_, rfl⟩
    · have h1 : ¬ op.op_state = SYNC_DATA_SYNC_SENT := by
        rw [hs]; simp [SYNC_DATA_SYNC_SENT, SYNC_JOURNAL_SYNC_SENT]
      have h2 : ¬ op.op_state = SYNC_JOURNAL_WRITE_SENT := by
        rw [hs]; simp [SYNC_JOURNAL_WRITE_SENT, SYNC_JOURNAL_SYNC_SENT]
      rw [if_neg h1, if_neg h2, if_pos hs]; exact ⟨_, rfl⟩
  · exact ⟨_, rfl⟩

theorem step_pending_inv {h : helpers} {st st1 : run_state} {e : event}
    (hi : pending_inv st) (hs : step h st e = some st1) : pending_inv st1 := by
  cases e with
  | other f =>
    simp only [step, Option.some.injEq] at hs
    subst hs
    exact hi
  | continue_sync q =>
    simp only [step] at hs
    split at hs
    · exact absurd hs (by simp)
    · split at hs
      · exact absurd hs (by simp)
      · rename_i o ho
        simp only [Option.some.injEq] at hs
        subst hs
        obtain ⟨-, fresh, hfr, hc⟩ := continue_sync_lin ho
        obtain ⟨hlen, hsent⟩ := hi
        unfold pending_inv
        simp only [hfr, List.drop_left, List.length_append]
        rcases hc with ⟨hf, hp, hst⟩ | ⟨hn, hs1, hp, -⟩
        · subst hf
          refine ⟨by rw [hp, hlen]; simp, fun hne => ?_⟩
          rw [hp] at hne
          rcases hst with hst | ⟨ha, -⟩
          · rw [hst]; exact hsent hne
          · exact absurd (hsent hne) ha
        · have hz : st.op.pending_ops = 0 := by
            by_contra hne
            exact hn (hsent hne)
          rw [hz] at hlen
          refine ⟨?_, fun _ => hs1⟩
          rw [hp]
          push_cast
          omega
  | complete i res len =>
    simp only [step] at hs
    split at hs
    · exact absurd hs (by simp)
    · split at hs
      · exact absurd hs (by simp)
      · rename_i io hio
        split at hs
        · exact absurd hs (by simp)
        · rename_i r he
          simp only [Option.some.injEq] at hs
          subst hs
          obtain ⟨hlen, hsent⟩ := hi
          obtain ⟨hp, hc⟩ := handle_sync_event_lin he
          have hi1 : i < st.outstanding.length := by
            rcases Nat.lt_or_ge i st.outstanding.length with hlt | hge
            · exact hlt
            · rw [List.get?_eq_none.mpr hge] at hio
              exact absurd hio (by simp)
          unfold pending_inv
          simp only [List.length_eraseIdx, if_pos hi1]
          refine ⟨?_, fun hne => ?_⟩
          · rw [hp, hlen]
            omega
          · rcases hc with ⟨hnz, hst⟩ | ⟨hz, -⟩
            · rw [hst]
              exact hsent (by omega)
            · rw [hp] at hne
              exact absurd hz hne

theorem run_pending_inv {h : helpers} :
    ∀ (evs : List event) (st st1 : run_state), pending_inv st → run h st evs = some st1 →
      pending_inv st1 := by
  intro evs
  induction evs with
  | nil =>
    intro st st1 hi hr
    simp only [run, Option.some.injEq] at hr
    subst hr
    exact hi
  | cons e es ih =>
    intro st st1 hi hr
    unfold run at hr
    split at hr
    · exact absurd hr (by simp)
    · rename_i st2 hs
      exact ih st2 st1 (step_pending_inv hi hs) hr

theorem start_pending_inv (bs : blockstore_impl_t) : pending_inv (start bs) :=
  ⟨rfl, fun hne => absurd rfl hne⟩

/-- C26. In every state that a run of one sync operation reaches from a fresh operation,
by calls of `continue_sync` and by completions of its requests in any order:
`pending_ops` is the number of the operation's requests in flight and is non-zero only in
a SENT state; a further call of `continue_sync` takes `op_state` along changes of the
list 0 -> HAS_BIG, HAS_SMALL or DONE, HAS_BIG -> DATA_SYNC_SENT or DATA_SYNC_DONE,
DATA_SYNC_SENT -> DATA_SYNC_DONE, DATA_SYNC_DONE -> JOURNAL_WRITE_SENT, HAS_SMALL ->
JOURNAL_WRITE_SENT or JOURNAL_WRITE_DONE, JOURNAL_WRITE_SENT -> JOURNAL_WRITE_DONE,
JOURNAL_WRITE_DONE -> JOURNAL_SYNC_SENT or DONE, JOURNAL_SYNC_SENT -> DONE, and never
lowers it; and the completion of a request in flight with the result expected makes
`handle_sync_event` return, without reaching the branch of the unexpected state, with
`op_state` as it was or moved by one change of the list. -/
theorem sync_state_machine_linear (h : helpers) (bs : blockstore_impl_t) (evs : List event)
    (st : run_state) (hrun : run h (start bs) evs = some st) :
    st.op.pending_ops = (st.outstanding.length : Int) ∧
    (st.op.pending_ops ≠ 0 → is_sent st.op.op_state) ∧
    (∀ q o, continue_sync h st.bs st.op q = some o →
      linear_path st.op.op_state o.op.op_state ∧ st.op.op_state ≤ o.op.op_state) ∧
    (∀ i io res iov_len, st.outstanding.get? i = some io →
      res % 2 ^ 64 = (iov_len_of io iov_len : Int) →
      ∃ r, handle_sync_event h st.bs st.op res (iov_len_of io iov_len) = some r ∧
        (r.2.op_state = st.op.op_state ∨ linear_step st.op.op_state r.2.op_state) ∧
        st.op.op_state ≤ r.2.op_state) := by
  obtain ⟨hlen, hsent⟩ := run_pending_inv evs _ st (start_pending_inv bs) hrun
  refine ⟨hlen, hsent, ?_, ?_⟩
  · intro q o ho
    obtain ⟨hp, -⟩ := continue_sync_lin ho
    exact ⟨hp, linear_path_le hp⟩
  · intro i io res len hio hres
    have hi1 : i < st.outstanding.length := by
      rcases Nat.lt_or_ge i st.outstanding.length with hlt | hge
      · exact hlt
      · rw [List.get?_eq_none.mpr hge] at hio
        exact absurd hio (by simp)
    have hne : st.op.pending_ops ≠ 0 := by rw [hlen]; omega
    obtain ⟨r, hr⟩ := handle_sync_event_some h st.bs st.op res _ hres (hsent hne)
    obtain ⟨-, hc⟩ := handle_sync_event_lin hr
    refine ⟨r, hr, ?_, ?_⟩
    · rcases hc with ⟨-, hst⟩ | ⟨-, hst⟩
      · exact Or.inl hst
      · exact Or.inr hst
    · rcases hc with ⟨-, hst⟩ | ⟨-, hst⟩
      · rw [hst]
      · exact Nat.le_of_lt (linear_step_lt hst)

/-- Witness of C26: on the sample blockstore with one big and one small write the first
call of `continue_sync` leaves the operation in SYNC_DATA_SYNC_SENT with the data fsync in
flight, and its completion takes the operation to SYNC_DATA_SYNC_DONE. -/
theorem sync_state_machine_linear_witness :
    ∃ st, run sample_helpers
        (start (sample_bs 0 [⟨⟨1, 0⟩, 1⟩] [⟨⟨2, 0⟩, 1⟩]
          [(⟨⟨1, 0⟩, 1⟩, sample_entry 0x42), (⟨⟨2, 0⟩, 1⟩, sample_entry 0x41)]))
        [event.continue_sync false] = some st ∧
      st.op.op_state = SYNC_DATA_SYNC_SENT ∧ st.op.pending_ops = 1 ∧
      st.outstanding = [sync_io.data_fsync 3] ∧
      ∃ r, handle_sync_event sample_helpers st.bs st.op 0 0 = some r ∧
        (r.2.op_state = st.op.op_state ∨ linear_step st.op.op_state r.2.op_state) := by
  have hev : (run sample_helpers
        (start (sample_bs 0 [⟨⟨1, 0⟩, 1⟩] [⟨⟨2, 0⟩, 1⟩]
          [(⟨⟨1, 0⟩, 1⟩, sample_entry 0x42), (⟨⟨2, 0⟩, 1⟩, sample_entry 0x41)]))
        [event.continue_sync false]).map
      (fun st => (st.op.op_state, st.op.pending_ops, st.outstanding)) =
      some (3, 1, [sync_io.data_fsync 3]) := by
    decide
  cases hrun : run sample_helpers
      (start (sample_bs 0 [⟨⟨1, 0⟩, 1⟩] [⟨⟨2, 0⟩, 1⟩]
        [(⟨⟨1, 0⟩, 1⟩, sample_entry 0x42), (⟨⟨2, 0⟩, 1⟩, sample_entry 0x41)]))
      [event.continue_sync false] with
  | none => rw [hrun] at hev; simp at hev
  | some st =>
    rw [hrun] at hev
    simp only [Option.map_some', Option.some.injEq, Prod.mk.injEq] at hev
    obtain ⟨hs, hp, ho⟩ := hev
    obtain ⟨r, hr, hc, -⟩ := (sync_state_machine_linear sample_helpers _ _ st hrun).2.2.2
      0 (sync_io.data_fsync 3) 0 0 (by rw [ho]; rfl) (by decide)
    exact ⟨st, rfl, hs, hp, ho, r, hr, hc⟩

end Sync

/-! ## No state assignment of `ack_sync` or `handle_stable_event` moves an entry backwards -/

namespace Sync

theorem bool_and_not_set (s m x : Bool) (h2 : (x && m) = x) :
    Bool.xor (Bool.xor s (s && m) || x) ((Bool.xor s (s && m) || x) && m) =
      Bool.xor s (s && m) := by
  revert h2; cases s <;> cases m <;> cases x <;> simp

theorem bool_and_not_kind (d m s w : Bool) (h1 : (d && m) = false) (h2 : (s && m) = s)
    (h3 : (w && m) = w) :
    Bool.xor (d || s) ((d || s) && m) = Bool.xor (d || w) ((d || w) && m) := by
  revert h1 h2 h3; cases d <;> cases m <;> cases s <;> cases w <;> simp

/-- Replacing the workflow of a state leaves the bits outside the mask as they are. -/
theorem and_not_set_workflow (h : helpers) (s x : Nat)
    (hx : x &&& h.BS_ST_WORKFLOW_MASK = x) :
    and_not (set_workflow h s x) h.BS_ST_WORKFLOW_MASK = and_not s h.BS_ST_WORKFLOW_MASK := by
  apply Nat.eq_of_testBit_eq
  intro i
  simp only [set_workflow, and_not, Nat.testBit_and, Nat.testBit_or, Nat.testBit_xor]
  exact bool_and_not_set _ _ _ (testBit_of_and_eq_self hx i)

theorem and_not_delete (h : helpers) (hl : layout_ok h) :
    and_not (h.BS_ST_DELETE ||| h.BS_ST_SYNCED) h.BS_ST_WORKFLOW_MASK =
      and_not (h.BS_ST_DELETE ||| h.BS_ST_WRITTEN) h.BS_ST_WORKFLOW_MASK := by
  obtain ⟨-, hd, -, hw, hs, -⟩ := hl
  apply Nat.eq_of_testBit_eq
  intro i
  simp only [and_not, Nat.testBit_and, Nat.testBit_or, Nat.testBit_xor]
  exact bool_and_not_kind _ _ _ _ (testBit_of_and_eq_zero hd i) (testBit_of_and_eq_self hs i)
    (testBit_of_and_eq_self hw i)

/-- The workflow of `BS_ST_DELETE | BS_ST_SYNCED` is BS_ST_SYNCED. -/
theorem delete_synced_mask (h : helpers) (hl : layout_ok h) :
    (h.BS_ST_DELETE ||| h.BS_ST_SYNCED) &&& h.BS_ST_WORKFLOW_MASK = h.BS_ST_SYNCED := by
  obtain ⟨-, hd, -, -, hs, -⟩ := hl
  apply Nat.eq_of_testBit_eq
  intro i
  simp only [Nat.testBit_and, Nat.testBit_or]
  exact bool_kind_mask _ _ _ (testBit_of_and_eq_zero hd i) (testBit_of_and_eq_self hs i)

theorem forward_refl (h : helpers) (e : dirty_entry) : forward h e e :=
  ⟨Nat.le_refl _, rfl⟩

theorem forward_trans {h : helpers} {e e1 e2 : dirty_entry} (h1 : forward h e e1)
    (h2 : forward h e1 e2) : forward h e e2 :=
  ⟨Nat.le_trans h1.1 h2.1, h2.2.trans h1.2⟩

theorem calm_refl (h : helpers) (e : dirty_entry) : calm h e e :=
  ⟨forward_refl h e, fun x => x⟩

theorem calm_trans {h : helpers} {e e1 e2 : dirty_entry} (h1 : calm h e e1)
    (h2 : calm h e1 e2) : calm h e e2 :=
  ⟨forward_trans h1.1 h2.1, fun x => h2.2 (h1.2 x)⟩

/-- An entry whose workflow is replaced by SYNCED, from a position before SYNCED. -/
theorem forward_synced (h : helpers) (hl : layout_ok h) (e : dirty_entry)
    (hw : workflow h e.state < h.BS_ST_SYNCED) :
    forward h e { e with state := set_workflow h e.state h.BS_ST_SYNCED } := by
  obtain ⟨-, -, -, -, hs, -⟩ := hl
  refine ⟨?_, and_not_set_workflow h _ _ hs⟩
  show workflow h e.state ≤ set_workflow h e.state h.BS_ST_SYNCED &&& h.BS_ST_WORKFLOW_MASK
  rw [set_workflow_mask h _ _ hs]
  exact Nat.le_of_lt hw

/-- An entry woken from WAIT_BIG. -/
theorem calm_woken (h : helpers) (hl : layout_ok h) (ho : workflow_ordered h) (e : dirty_entry)
    (hw : e.state &&& h.BS_ST_WORKFLOW_MASK = h.BS_ST_WAIT_BIG) :
    calm h e { e with state := set_workflow h e.state h.BS_ST_IN_FLIGHT } := by
  obtain ⟨-, -, hif, -⟩ := hl
  have hm : workflow h (set_workflow h e.state h.BS_ST_IN_FLIGHT) = h.BS_ST_IN_FLIGHT :=
    set_workflow_mask h _ _ hif
  refine ⟨⟨?_, and_not_set_workflow h _ _ hif⟩, fun _ => ?_⟩
  · show workflow h e.state ≤ workflow h (set_workflow h e.state h.BS_ST_IN_FLIGHT)
    rw [hm]
    unfold workflow
    rw [hw]
    exact ho.1
  · show workflow h (set_workflow h e.state h.BS_ST_IN_FLIGHT) < h.BS_ST_SYNCED
    rw [hm]
    exact ho.2

theorem db_calm_refl (h : helpers) (db : List (obj_ver_id × dirty_entry)) : db_calm h db db :=
  ⟨fun _ e he => ⟨e, he, calm_refl h e⟩, fun _ hk => hk⟩

theorem db_calm_trans {h : helpers} {db db1 db2 : List (obj_ver_id × dirty_entry)}
    (h1 : db_calm h db db1) (h2 : db_calm h db1 db2) : db_calm h db db2 := by
  refine ⟨fun k e he => ?_, fun k hk => h2.2 k (h1.2 k hk)⟩
  obtain ⟨e1, he1, hc1⟩ := h1.1 k e he
  obtain ⟨e2, he2, hc2⟩ := h2.1 k e1 he1
  exact ⟨e2, he2, calm_trans hc1 hc2⟩

theorem wake_followers_calm (h : helpers) (hl : layout_ok h) (ho : workflow_ordered h)
    (oid : object_id) :
    ∀ (l : List (obj_ver_id × dirty_entry)), db_calm h l (wake_followers h oid l) := by
  intro l
  induction l with
  | nil => exact db_calm_refl h []
  | cons a rest ih =>
    obtain ⟨k1, e1⟩ := a
    unfold wake_followers
    by_cases hoid : k1.oid = oid
    · simp only [if_pos hoid]
      constructor
      · intro k e he
        simp only [map_find] at he ⊢
        by_cases hk : k1 = k
        · simp only [if_pos hk] at he ⊢
          simp only [Option.some.injEq] at he
          subst he
          by_cases hw : e1.state &&& h.BS_ST_WORKFLOW_MASK = h.BS_ST_WAIT_BIG
          · simp only [if_pos hw]
            exact ⟨_, rfl, calm_woken h hl ho e1 hw⟩
          · simp only [if_neg hw]
            exact ⟨_, rfl, calm_refl h e1⟩
        · simp only [if_neg hk] at he ⊢
          exact ih.1 k e he
      · intro k hk
        simp only [map_find] at hk ⊢
        by_cases hkk : k1 = k
        · simp only [if_pos hkk] at hk
          exact absurd hk (by simp)
        · simp only [if_neg hkk] at hk ⊢
          exact ih.2 k hk
    · simp only [if_neg hoid]
      exact db_calm_refl h _

theorem after_key_calm (h : helpers) (hl : layout_ok h) (ho : workflow_ordered h)
    (it : obj_ver_id) :
    ∀ (l l1 : List (obj_ver_id × dirty_entry)), after_key h it l = some l1 →
      db_calm h l l1 := by
  intro l
  induction l with
  | nil => intro l1 ha; simp [after_key] at ha
  | cons a rest ih =>
    intro l1 ha
    obtain ⟨k1, e1⟩ := a
    unfold after_key at ha
    by_cases hk : k1 = it
    · simp only [if_pos hk, Option.some.injEq] at ha
      subst ha
      have hw := wake_followers_calm h hl ho it.oid rest
      constructor
      · intro k e hke
        simp only [map_find] at hke ⊢
        by_cases hkk : k1 = k
        · simp only [if_pos hkk] at hke ⊢
          simp only [Option.some.injEq] at hke
          subst hke
          exact ⟨_, rfl, calm_refl h e1⟩
        · simp only [if_neg hkk] at hke ⊢
          exact hw.1 k e hke
      · intro k hkn
        simp only [map_find] at hkn ⊢
        by_cases hkk : k1 = k
        · simp only [if_pos hkk] at hkn
          exact absurd hkn (by simp)
        · simp only [if_neg hkk] at hkn ⊢
          exact hw.2 k hkn
    · simp only [if_neg hk] at ha
      cases hr : after_key h it rest with
      | none => rw [hr] at ha; simp at ha
      | some r =>
        rw [hr] at ha
        simp only [Option.map_some', Option.some.injEq] at ha
        subst ha
        have hc := ih r hr
        constructor
        · intro k e hke
          simp only [map_find] at hke ⊢
          by_cases hkk : k1 = k
          · simp only [if_pos hkk] at hke ⊢
            simp only [Option.some.injEq] at hke
            subst hke
            exact ⟨_, rfl, calm_refl h e1⟩
          · simp only [if_neg hkk] at hke ⊢
            exact hc.1 k e hke
        · intro k hkn
          simp only [map_find] at hkn ⊢
          by_cases hkk : k1 = k
          · simp only [if_pos hkk] at hkn
            exact absurd hkn (by simp)
          · simp only [if_neg hkk] at hkn ⊢
            exact hc.2 k hkn

theorem db_acked_calm {h : helpers} {l : List obj_ver_id}
    {db db1 db2 : List (obj_ver_id × dirty_entry)}
    (h1 : db_acked h l db db1) (h2 : db_calm h db1 db2) : db_acked h l db db2 := by
  refine ⟨fun k e he => ?_, fun k hk hn => h2.2 k (h1.2 k hk hn)⟩
  obtain ⟨e1, he1, hf1, hc1⟩ := h1.1 k e he
  obtain ⟨e2, he2, hc2⟩ := h2.1 k e1 he1
  exact ⟨e2, he2, forward_trans hf1 hc2.1, fun hk hw => hc2.2 (hc1 hk hw)⟩

theorem db_acked_append {h : helpers} {l1 l2 : List obj_ver_id}
    {db db1 db2 : List (obj_ver_id × dirty_entry)}
    (h1 : db_acked h l1 db db1) (h2 : db_acked h l2 db1 db2) :
    db_acked h (l1 ++ l2) db db2 := by
  constructor
  · intro k e he
    obtain ⟨e1, he1, hf1, hc1⟩ := h1.1 k e he
    obtain ⟨e2, he2, hf2, hc2⟩ := h2.1 k e1 he1
    refine ⟨e2, he2, forward_trans hf1 hf2, fun hk hw => ?_⟩
    have hk1 : k ∉ l1 := fun x => hk (List.mem_append_left _ x)
    have hk2 : k ∉ l2 := fun x => hk (List.mem_append_right _ x)
    exact hc2 hk2 (hc1 hk1 hw)
  · intro k hk hn
    have hk1 : k ∉ l1 := fun x => hk (List.mem_append_left _ x)
    have hk2 : k ∉ l2 := fun x => hk (List.mem_append_right _ x)
    exact h2.2 k hk2 (h1.2 k hk1 hn)

/-- The writes that are not yet synced and are not among `l` are still not synced after
the writes `l` were acknowledged. -/
theorem unsynced_in_acked {h : helpers} {l l2 : List obj_ver_id}
    {db db1 : List (obj_ver_id × dirty_entry)} (ha : db_acked h l db db1)
    (hu : unsynced_in h db l2) (hd : ∀ it ∈ l2, it ∉ l) : unsynced_in h db1 l2 := by
  intro it hit e1 he1
  cases hf : map_find db it with
  | none =>
    rw [ha.2 it (hd it hit) hf] at he1
    exact absurd he1 (by simp)
  | some e =>
    obtain ⟨e2, he2, -, hc⟩ := ha.1 it e hf
    rw [he2] at he1
    simp only [Option.some.injEq] at he1
    subst he1
    exact hc (hd it hit) (hu it hit e hf)

/-- The assignment of a new state to the entry of key `it`. -/
theorem db_acked_update (h : helpers) (db : List (obj_ver_id × dirty_entry)) (it : obj_ver_id)
    (st : Nat)
    (hf : ∀ e, map_find db it = some e → forward h e { e with state := st }) :
    db_acked h [it] db
      (map_update obj_ver_id.lt dirty_entry.zero (fun d => { d with state := st }) db it) := by
  constructor
  · intro k e he
    rw [map_find_update]
    by_cases hk : k = it
    · subst hk
      rw [if_pos rfl]
      have hr : map_read dirty_entry.zero db k = e := by
        unfold map_read; rw [he]; rfl
      rw [hr]
      exact ⟨_, rfl, hf e he, fun hn => absurd (List.mem_singleton.mpr rfl) hn⟩
    · rw [if_neg hk]
      exact ⟨e, he, forward_refl h e, fun _ hw => hw⟩
  · intro k hk hn
    have hk1 : k ≠ it := fun x => hk (List.mem_singleton.mpr x)
    rw [map_find_update, if_neg hk1]
    exact hn

theorem ack_sync_big_acked (h : helpers) (hl : layout_ok h) (ho : workflow_ordered h)
    (hms : mark_stable_forward h) (bs bs1 : blockstore_impl_t) (it : obj_ver_id)
    (hu : unsynced_in h bs.dirty_db [it]) (ha : ack_sync_big h bs it = some bs1) :
    db_acked h [it] bs.dirty_db bs1.dirty_db := by
  unfold ack_sync_big at ha
  simp only [] at ha
  split at ha
  · exact absurd ha (by simp)
  · rename_i e he
    have h1 := db_acked_update h bs.dirty_db it (set_workflow h e.state h.BS_ST_SYNCED)
      (by
        intro e0 he0
        rw [he] at he0
        simp only [Option.some.injEq] at he0
        subst he0
        exact forward_synced h hl e (hu it (List.mem_singleton.mpr rfl) e he))
    split at ha
    · exact absurd ha (by simp)
    · rename_i db4 hak
      simp only [Option.some.injEq] at ha
      subst ha
      have h3 := after_key_calm h hl ho it _ _ hak
      refine db_acked_calm ?_ h3
      split
      · exact db_acked_calm h1 (hms _ _ it)
      · exact h1

theorem ack_sync_small_acked (h : helpers) (hl : layout_ok h)
    (hms : mark_stable_forward h) (bs : blockstore_impl_t) (it : obj_ver_id)
    (hu : unsynced_in h bs.dirty_db [it]) :
    db_acked h [it] bs.dirty_db (ack_sync_small h bs it).dirty_db := by
  unfold ack_sync_small
  simp only []
  split
  · rename_i hdw
    have h1 := db_acked_update h bs.dirty_db it (h.BS_ST_DELETE ||| h.BS_ST_SYNCED)
      (by
        intro e0 he0
        have hr : map_read dirty_entry.zero bs.dirty_db it = e0 := by
          unfold map_read; rw [he0]; rfl
        rw [hr] at hdw
        have hlt := hu it (List.mem_singleton.mpr rfl) e0 he0
        refine ⟨?_, ?_⟩
        · show workflow h e0.state ≤
            (h.BS_ST_DELETE ||| h.BS_ST_SYNCED) &&& h.BS_ST_WORKFLOW_MASK
          rw [delete_synced_mask h hl]
          exact Nat.le_of_lt hlt
        · show and_not (h.BS_ST_DELETE ||| h.BS_ST_SYNCED) h.BS_ST_WORKFLOW_MASK =
            and_not e0.state h.BS_ST_WORKFLOW_MASK
          rw [hdw]
          exact and_not_delete h hl)
    exact db_acked_calm h1 (hms _ _ it)
  · have h1 := db_acked_update h bs.dirty_db it
      (set_workflow h (map_read dirty_entry.zero bs.dirty_db it).state h.BS_ST_SYNCED)
      (by
        intro e0 he0
        have hr : map_read dirty_entry.zero bs.dirty_db it = e0 := by
          unfold map_read; rw [he0]; rfl
        rw [hr]
        exact forward_synced h hl e0 (hu it (List.mem_singleton.mpr rfl) e0 he0))
    split
    · exact db_acked_calm h1 (hms _ _ it)
    · exact h1

theorem db_acked_nil (h : helpers) (db : List (obj_ver_id × dirty_entry)) :
    db_acked h [] db db :=
  ⟨fun _ e he => ⟨e, he, forward_refl h e, fun _ hw => hw⟩, fun _ _ hn => hn⟩

theorem unsynced_in_tail {h : helpers} {db : List (obj_ver_id × dirty_entry)}
    {it : obj_ver_id} {rest : List obj_ver_id} (hu : unsynced_in h db (it :: rest)) :
    unsynced_in h db [it] ∧ unsynced_in h db rest :=
  ⟨fun x hx => by rw [List.mem_singleton.mp hx]; exact hu it (List.mem_cons_self _ _),
   fun x hx => hu x (List.mem_cons_of_mem _ hx)⟩

theorem ack_sync_bigs_acked (h : helpers) (hl : layout_ok h) (ho : workflow_ordered h)
    (hms : mark_stable_forward h) :
    ∀ (l : List obj_ver_id) (bs bs1 : blockstore_impl_t), l.Nodup →
      unsynced_in h bs.dirty_db l → ack_sync_bigs h bs l = some bs1 →
      db_acked h l bs.dirty_db bs1.dirty_db := by
  intro l
  induction l with
  | nil =>
    intro bs bs1 _ _ ha
    simp only [ack_sync_bigs, Option.some.injEq] at ha
    subst ha
    exact db_acked_nil h _
  | cons it rest ih =>
    intro bs bs1 hnd hu ha
    obtain ⟨hnot, hrest⟩ := List.nodup_cons.mp hnd
    obtain ⟨hu1, hu2⟩ := unsynced_in_tail hu
    unfold ack_sync_bigs at ha
    split at ha
    · exact absurd ha (by simp)
    · rename_i bsa hb
      have h1 := ack_sync_big_acked h hl ho hms bs bsa it hu1 hb
      have hu3 : unsynced_in h bsa.dirty_db rest :=
        unsynced_in_acked h1 hu2 (fun x hx hm => hnot (by rw [← List.mem_singleton.mp hm]; exact hx))
      exact db_acked_append h1 (ih bsa bs1 hrest hu3 ha)

theorem ack_sync_smalls_acked (h : helpers) (hl : layout_ok h)
    (hms : mark_stable_forward h) :
    ∀ (l : List obj_ver_id) (bs : blockstore_impl_t), l.Nodup →
      unsynced_in h bs.dirty_db l →
      db_acked h l bs.dirty_db (ack_sync_smalls h bs l).dirty_db := by
  intro l
  induction l with
  | nil =>
    intro bs _ _
    exact db_acked_nil h _
  | cons it rest ih =>
    intro bs hnd hu
    obtain ⟨hnot, hrest⟩ := List.nodup_cons.mp hnd
    obtain ⟨hu1, hu2⟩ := unsynced_in_tail hu
    unfold ack_sync_smalls
    have h1 := ack_sync_small_acked h hl hms bs it hu1
    have hu3 : unsynced_in h (ack_sync_small h bs it).dirty_db rest :=
      unsynced_in_acked h1 hu2 (fun x hx hm => hnot (by rw [← List.mem_singleton.mp hm]; exact hx))
    exact db_acked_append h1 (ih _ hrest hu3)

theorem ack_sync_acked (h : helpers) (hl : layout_ok h) (ho : workflow_ordered h)
    (hms : mark_stable_forward h) (bs bs1 : blockstore_impl_t) (op op1 : blockstore_op_t)
    (hnd : (op.sync_big_writes ++ op.sync_small_writes).Nodup)
    (hu : unsynced_in h bs.dirty_db (op.sync_big_writes ++ op.sync_small_writes))
    (ha : ack_sync h bs op = some (bs1, op1)) :
    db_acked h (op.sync_big_writes ++ op.sync_small_writes) bs.dirty_db bs1.dirty_db := by
  unfold ack_sync at ha
  split at ha
  · exact absurd ha (by simp)
  · rename_i bsa hb
    simp only [Option.some.injEq, Prod.mk.injEq] at ha
    obtain ⟨hbs, -⟩ := ha
    subst hbs
    obtain ⟨hn1, hn2, hdis⟩ := List.nodup_append.mp hnd
    have hu1 : unsynced_in h bs.dirty_db op.sync_big_writes :=
      fun x hx => hu x (List.mem_append_left _ hx)
    have hu2 : unsynced_in h bs.dirty_db op.sync_small_writes :=
      fun x hx => hu x (List.mem_append_right _ hx)
    have h1 := ack_sync_bigs_acked h hl ho hms _ bs bsa hn1 hu1 hb
    have hu3 : unsynced_in h bsa.dirty_db op.sync_small_writes :=
      unsynced_in_acked h1 hu2 (fun x hx hm => hdis hm hx)
    exact db_acked_append h1 (ack_sync_smalls_acked h hl hms _ bsa hn2 hu3)

end Sync

namespace Stable

theorem stabilized_refl (c : state_names) (e : dirty_entry) : stabilized c e e := Or.inl rfl

theorem stabilized_stabilize (c : state_names) (e : dirty_entry) :
    stabilized c e (stabilize c e) := by
  unfold stabilize
  split
  · rename_i hj; exact Or.inr (Or.inl ⟨hj, rfl⟩)
  · split
    · rename_i hd; exact Or.inr (Or.inr ⟨hd, rfl⟩)
    · exact Or.inl rfl

theorem stabilized_trans {c : state_names} (hc : names_ordered c) {e e1 e2 : dirty_entry}
    (h1 : stabilized c e e1) (h2 : stabilized c e1 e2) : stabilized c e e2 := by
  obtain ⟨o1, o2, o3⟩ := hc
  rcases h1 with h1 | ⟨hs, h1⟩ | ⟨hs, h1⟩
  · rw [h1] at h2; exact h2
  · rcases h2 with h2 | ⟨hs2, -⟩ | ⟨hs2, -⟩
    · rw [h2]; exact Or.inr (Or.inl ⟨hs, h1⟩)
    · rw [h1] at hs2; simp only [] at hs2; omega
    · rw [h1] at hs2; simp only [] at hs2; omega
  · rcases h2 with h2 | ⟨hs2, -⟩ | ⟨hs2, -⟩
    · rw [h2]; exact Or.inr (Or.inr ⟨hs, h1⟩)
    · rw [h1] at hs2; simp only [] at hs2; omega
    · rw [h1] at hs2; simp only [] at hs2; omega

theorem stabilized_le {c : state_names} (hc : names_ordered c) {e e1 : dirty_entry}
    (h1 : stabilized c e e1) : e.state ≤ e1.state := by
  obtain ⟨o1, o2, o3⟩ := hc
  rcases h1 with h1 | ⟨hs, h1⟩ | ⟨hs, h1⟩
  · rw [h1]
  · rw [h1, hs]; exact Nat.le_of_lt o1
  · rw [h1, hs]; exact Nat.le_of_lt o3

theorem db_stabilized_refl (c : state_names) :
    ∀ (db : List (obj_ver_id × dirty_entry)), db_stabilized c db db := by
  intro db
  induction db with
  | nil => exact List.Forall₂.nil
  | cons a rest ih => exact List.Forall₂.cons ⟨rfl, stabilized_refl c _⟩ ih

theorem db_stabilized_trans {c : state_names} (hc : names_ordered c) :
    ∀ {db db1 db2 : List (obj_ver_id × dirty_entry)}, db_stabilized c db db1 →
      db_stabilized c db1 db2 → db_stabilized c db db2 := by
  intro db db1 db2 h1
  induction h1 generalizing db2 with
  | nil => intro h2; cases h2; exact List.Forall₂.nil
  | cons hab _ ih =>
    intro h2
    cases h2 with
    | cons hbc hrest =>
      exact List.Forall₂.cons ⟨hbc.1.trans hab.1, stabilized_trans hc hab.2 hbc.2⟩ (ih hrest)

theorem stabilize_at_stabilized (c : state_names) :
    ∀ (db : List (obj_ver_id × dirty_entry)) (i : Nat),
      db_stabilized c db (stabilize_at c db i) := by
  intro db
  induction db with
  | nil => intro i; exact List.Forall₂.nil
  | cons a rest ih =>
    intro i
    obtain ⟨k, d⟩ := a
    cases i with
    | zero =>
      exact List.Forall₂.cons ⟨rfl, stabilized_stabilize c d⟩ (db_stabilized_refl c rest)
    | succ j =>
      exact List.Forall₂.cons ⟨rfl, stabilized_refl c d⟩ (ih j)

theorem mark_stable_from_stabilized {c : state_names} (hc : names_ordered c)
    (oid : object_id) :
    ∀ (i : Nat) (db db1 : List (obj_ver_id × dirty_entry)),
      mark_stable_from c oid db i = some db1 → db_stabilized c db db1 := by
  intro i
  induction i with
  | zero => intro db db1 hm; simp [mark_stable_from] at hm
  | succ j ih =>
    intro db db1 hm
    unfold mark_stable_from at hm
    simp only [] at hm
    split at hm
    · exact db_stabilized_trans hc (stabilize_at_stabilized c db (j + 1)) (ih _ _ hm)
    · simp only [Option.some.injEq] at hm
      subst hm
      exact stabilize_at_stabilized c db (j + 1)

theorem stable_item_stabilized {c : state_names} (hc : names_ordered c)
    {st st1 : List (obj_ver_id × dirty_entry) × blockstore_operation} {v : obj_ver_id}
    (hs : stable_item c st v = some st1) : db_stabilized c st.1 st1.1 := by
  unfold stable_item at hs
  simp only [] at hs
  split at hs
  · exact absurd hs (by simp)
  · rename_i db1 hm
    simp only [Option.some.injEq] at hs
    subst hs
    split at hm
    · simp only [Option.some.injEq] at hm
      subst hm
      exact db_stabilized_refl c _
    · exact mark_stable_from_stabilized hc _ _ _ _ hm

theorem stable_items_stabilized {c : state_names} (hc : names_ordered c) :
    ∀ (l : List obj_ver_id) (st st1 : List (obj_ver_id × dirty_entry) × blockstore_operation),
      stable_items c st l = some st1 → db_stabilized c st.1 st1.1 := by
  intro l
  induction l with
  | nil =>
    intro st st1 hs
    simp only [stable_items, Option.some.injEq] at hs
    subst hs
    exact db_stabilized_refl c _
  | cons v rest ih =>
    intro st st1 hs
    unfold stable_items at hs
    split at hs
    · exact absurd hs (by simp)
    · rename_i sta ha
      exact db_stabilized_trans hc (stable_item_stabilized hc ha) (ih sta st1 hs)

theorem handle_stable_event_stabilized {c : state_names} (hc : names_ordered c) {res : Int}
    {bs bs1 : blockstore} {op op1 : blockstore_operation}
    (he : handle_stable_event c res bs op = .ok (bs1, op1)) :
    db_stabilized c bs.dirty_db bs1.dirty_db := by
  unfold handle_stable_event at he
  split at he
  · exact absurd he (by simp)
  · simp only [] at he
    split at he
    · split at he
      · exact absurd he (by simp)
      · rename_i db1 op2 hs
        simp only [Except.ok.injEq, Prod.mk.injEq] at he
        rw [← he.1]
        exact stable_items_stabilized hc _ _ _ hs
    · simp only [Except.ok.injEq, Prod.mk.injEq] at he
      rw [← he.1]
      exact db_stabilized_refl c _

theorem db_stabilized_find {c : state_names} :
    ∀ {db db1 : List (obj_ver_id × dirty_entry)}, db_stabilized c db db1 →
      ∀ k e, map_find db k = some e → ∃ e1, map_find db1 k = some e1 ∧ stabilized c e e1 := by
  intro db db1 h1
  induction h1 with
  | nil => intro k e he; simp [map_find] at he
  | @cons a b l1 l2 hab _ ih =>
    intro k e he
    obtain ⟨ka, ea⟩ := a
    obtain ⟨kb, eb⟩ := b
    obtain ⟨hk, hst⟩ := hab
    simp only [] at hk hst
    subst hk
    simp only [map_find] at he ⊢
    by_cases hkk : kb = k
    · simp only [if_pos hkk] at he ⊢
      simp only [Option.some.injEq] at he
      subst he
      exact ⟨eb, rfl, hst⟩
    · simp only [if_neg hkk] at he ⊢
      exact ih k e he

theorem sample_names_ordered : names_ordered sample_names := by
  unfold names_ordered sample_names
  decide

end Stable

namespace Sync

theorem sample_workflow_ordered : workflow_ordered sample_helpers := by
  unfold workflow_ordered sample_helpers
  decide

theorem sample_mark_stable_forward : mark_stable_forward sample_helpers := by
  intro db uw v
  have hx : (0x60 : Nat) &&& sample_helpers.BS_ST_WORKFLOW_MASK = 0x60 := by decide
  constructor
  · intro k e he
    show ∃ e1, map_find (map_modify _ db v) k = some e1 ∧ calm sample_helpers e e1
    rw [map_find_modify]
    by_cases hk : k = v
    · subst hk
      rw [if_pos rfl, he]
      simp only [Option.map_some']
      by_cases hw : e.state &&& 0xF0 = 0x50
      · rw [if_pos hw]
        refine ⟨_, rfl, ⟨?_, ?_⟩, fun hlt => ?_⟩
        · show e.state &&& 0xF0 ≤ set_workflow sample_helpers e.state 0x60 &&& 0xF0
          rw [show set_workflow sample_helpers e.state 0x60 &&& 0xF0 = 0x60 from
            set_workflow_mask sample_helpers e.state 0x60 hx, hw]
          decide
        · exact and_not_set_workflow sample_helpers e.state 0x60 hx
        · have : e.state &&& 0xF0 < 0x50 := hlt
          omega
      · rw [if_neg hw]
        exact ⟨e, rfl, calm_refl _ e⟩
    · rw [if_neg hk]
      exact ⟨e, he, calm_refl _ e⟩
  · intro k hk
    show map_find (map_modify _ db v) k = none
    rw [map_find_modify]
    by_cases hkv : k = v
    · subst hkv
      rw [if_pos rfl, hk]
      rfl
    · rw [if_neg hkv]
      exact hk

end Sync

/-- C24. Provided the state constants form a bit layout with the workflow values numbered
in the order of the axis, `mark_stable` moves no entry backwards and leaves unsynced
entries unsynced, and the writes of the sync are distinct and not yet synced: every dirty
entry that `ack_sync` finds is still in the index afterwards, at the same or a later
position on the workflow axis and with the same bits outside the workflow mask, which
hold the kind and the INSTANT flag. And provided the state constants of the older
blockstore are numbered as in its header: every dirty entry that `handle_stable_event`
finds is still in the index afterwards, either as it was, or moved from journal-synced to
journal-stable, or from data-metadata-synced to data-stable, and its state number has not
gone down. -/
theorem state_assignments_move_forward (h : Sync.helpers) (c : Stable.state_names)
    (hl : Sync.layout_ok h) (ho : Sync.workflow_ordered h) (hms : Sync.mark_stable_forward h)
    (hc : Stable.names_ordered c) :
    (∀ (bs bs1 : Sync.blockstore_impl_t) (op op1 : Sync.blockstore_op_t),
      (op.sync_big_writes ++ op.sync_small_writes).Nodup →
      Sync.unsynced_in h bs.dirty_db (op.sync_big_writes ++ op.sync_small_writes) →
      Sync.ack_sync h bs op = some (bs1, op1) →
      ∀ k e, map_find bs.dirty_db k = some e →
        ∃ e1, map_find bs1.dirty_db k = some e1 ∧
          Sync.workflow h e.state ≤ Sync.workflow h e1.state ∧
          and_not e1.state h.BS_ST_WORKFLOW_MASK = and_not e.state h.BS_ST_WORKFLOW_MASK) ∧
    (∀ (res : Int) (bs bs1 : Stable.blockstore) (op op1 : Stable.blockstore_operation),
      Stable.handle_stable_event c res bs op = .ok (bs1, op1) →
      ∀ k e, map_find bs.dirty_db k = some e →
        ∃ e1, map_find bs1.dirty_db k = some e1 ∧ e.state ≤ e1.state ∧
          (e1 = e ∨ (e.state = c.ST_J_SYNCED ∧ e1 = { e with state := c.ST_J_STABLE }) ∨
            (e.state = c.ST_D_META_SYNCED ∧ e1 = { e with state := c.ST_D_STABLE }))) := by
  constructor
  · intro bs bs1 op op1 hnd hu ha k e he
    obtain ⟨e1, he1, hf, -⟩ := (Sync.ack_sync_acked h hl ho hms bs bs1 op op1 hnd hu ha).1 k e he
    exact ⟨e1, he1, hf.1, hf.2⟩
  · intro res bs bs1 op op1 hev k e he
    obtain ⟨e1, he1, hst⟩ :=
      Stable.db_stabilized_find (Stable.handle_stable_event_stabilized hc hev) k e he
    exact ⟨e1, he1, Stable.stabilized_le hc hst, hst⟩

/-- Witness of C24: the sample constants and the sample `mark_stable` meet the hypotheses.
On the samples, `ack_sync` takes a written big write with the INSTANT flag to STABLE and a
written small write to SYNCED, and `handle_stable_event` takes the journal-synced version
2 of object 1 to journal-stable. -/
theorem state_assignments_move_forward_witness :
    (∃ bs1 op1 e1,
      Sync.ack_sync Sync.sample_helpers
        (Sync.sample_bs 0 [] []
          [(⟨⟨1, 0⟩, 1⟩, Sync.sample_entry 0x142), (⟨⟨2, 0⟩, 1⟩, Sync.sample_entry 0x41)])
        { Sync.fresh_op with op_state := 8, sync_big_writes := [⟨⟨1, 0⟩, 1⟩],
                             sync_small_writes := [⟨⟨2, 0⟩, 1⟩] } = some (bs1, op1) ∧
      map_find bs1.dirty_db ⟨⟨1, 0⟩, 1⟩ = some e1 ∧
      Sync.workflow Sync.sample_helpers (Sync.sample_entry 0x142).state ≤
        Sync.workflow Sync.sample_helpers e1.state ∧
      and_not e1.state 0xF0 = and_not (Sync.sample_entry 0x142).state 0xF0) ∧
    (∃ bs1 op1 e1,
      Stable.handle_stable_event Stable.sample_names 512 Stable.sample_synced_bs
        { Stable.sample_op [⟨⟨1, 0⟩, 2⟩] with pending_ops := 1 } = .ok (bs1, op1) ∧
      map_find bs1.dirty_db ⟨⟨1, 0⟩, 2⟩ = some e1 ∧ (4 : Nat) ≤ e1.state) := by
  have key := state_assignments_move_forward Sync.sample_helpers Stable.sample_names
    Sync.sample_layout_ok Sync.sample_workflow_ordered Sync.sample_mark_stable_forward
    Stable.sample_names_ordered
  constructor
  · obtain ⟨e1, he1, hw, hb⟩ := key.1
      (Sync.sample_bs 0 [] []
        [(⟨⟨1, 0⟩, 1⟩, Sync.sample_entry 0x142), (⟨⟨2, 0⟩, 1⟩, Sync.sample_entry 0x41)]) _
      { Sync.fresh_op with op_state := 8, sync_big_writes := [⟨⟨1, 0⟩, 1⟩],
                           sync_small_writes := [⟨⟨2, 0⟩, 1⟩] } _
      (by decide)
      (by
        intro it hit e he
        simp only [List.mem_append, List.mem_singleton, List.mem_cons, List.not_mem_nil,
          or_false] at hit
        rcases hit with rfl | rfl
        · have : e = Sync.sample_entry 0x142 := by
            have h2 : map_find (Sync.sample_bs 0 [] []
              [(⟨⟨1, 0⟩, 1⟩, Sync.sample_entry 0x142), (⟨⟨2, 0⟩, 1⟩, Sync.sample_entry 0x41)]).dirty_db
              ⟨⟨1, 0⟩, 1⟩ = some (Sync.sample_entry 0x142) := by decide
            rw [h2] at he
            exact (Option.some.inj he).symm
          rw [this]; decide
        · have : e = Sync.sample_entry 0x41 := by
            have h2 : map_find (Sync.sample_bs 0 [] []
              [(⟨⟨1, 0⟩, 1⟩, Sync.sample_entry 0x142), (⟨⟨2, 0⟩, 1⟩, Sync.sample_entry 0x41)]).dirty_db
              ⟨⟨2, 0⟩, 1⟩ = some (Sync.sample_entry 0x41) := by decide
            rw [h2] at he
            exact (Option.some.inj he).symm
          rw [this]; decide)
      rfl ⟨⟨1, 0⟩, 1⟩ (Sync.sample_entry 0x142) (by decide)
    exact ⟨_, _, e1, rfl, he1, hw, hb⟩
  · obtain ⟨e1, he1, hle, -⟩ := key.2 512 Stable.sample_synced_bs _
      { Stable.sample_op [⟨⟨1, 0⟩, 2⟩] with pending_ops := 1 } _ rfl ⟨⟨1, 0⟩, 2⟩
      { state := 4, location := 0, offset := 0, size := 0 } (by decide)
    exact ⟨_, _, e1, rfl, he1, hle⟩

/-! ## What `handle_flush_op` forgets when a batch is done -/

namespace Flush

/-- C30, evaluated on a PG with the submitted action of object 1 and the unsubmitted
action of object 2, where both objects have a version override and a write of object 2
waits: when the batch is done the action of object 2 stays in `flush_actions`, yet its
version override is erased along with that of object 1, its write leaves the write queue
and `continue_primary_write` is called for it. -/
theorem handle_flush_op_forgets_unsubmitted_object :
    (handle_flush_op sample_helpers sample_override_osd false 1 1 1 2 0).toOption.map
      (fun osd1 => ((map_find osd1.pgs { pool_id := 1, pg_num := 1 }).map
        (fun pg => (pg.flush_actions, pg.ver_override, pg.write_queue)), osd1.calls)) =
      some (some ([sample_action 2 2 false true], [], []), [call.continue_primary_write 77]) := by
  rfl

end Flush

/-! ## Properties of `outbox_push` and `handle_send` -/

namespace Msgr

/-- C28, evaluated on a send list of one iovec of 100 bytes at address 1000 of which the
socket took 10 bytes: the length left is 90, but the base address is 1040, not 1010,
because the sum is made on an `int*` and so in steps of `sizeof(int)` bytes. -/
theorem handle_send_advances_base_in_ints :
    (handle_send sample_helpers 10
        (sample_messenger { sample_client 1 with
          refs := 1, send_list := [{ iov_base := 1000, iov_len := 100 }],
          outbox := [{ op := 100, flags := 1 }] })
        { sample_client 1 with
          refs := 1, send_list := [{ iov_base := 1000, iov_len := 100 }],
          outbox := [{ op := 100, flags := 1 }] }).map
      (fun r => (r.2.send_list, r.2.outbox, r.2.write_msg_iovlen)) =
      some ([{ iov_base := 1040, iov_len := 90 }], [{ op := 100, flags := 1 }], 0) := by
  decide

/-- C29, evaluated on the reply to a SEC_READ_BMP request that failed with -EINVAL, on a
client with nothing queued: one iovec, the header, is appended to `send_list` and two
entries to `outbox`; and with a send in flight one iovec is appended to
`next_send_list` and two entries to `next_outbox`. -/
theorem outbox_push_read_bmp_reply_unpaired :
    (outbox_push sample_helpers 0 sample_now (sample_messenger (sample_client 0))
        (sample_op 0 16 (-22))).map
      (fun r => (map_find r.1.clients 7).map
        (fun cl => (cl.send_list, cl.outbox, cl.next_send_list, cl.next_outbox))) =
      some (some ([{ iov_base := 2000, iov_len := 128 }],
                  [{ op := 100, flags := 1 }, { op := 100, flags := 2 }], [], [])) ∧
    (outbox_push sample_helpers 0 sample_now (sample_messenger (sample_client 1))
        (sample_op 0 16 (-22))).map
      (fun r => (map_find r.1.clients 7).map
        (fun cl => (cl.send_list, cl.outbox, cl.next_send_list, cl.next_outbox))) =
      some (some ([], [], [{ iov_base := 2000, iov_len := 128 }],
                  [{ op := 100, flags := 1 }, { op := 100, flags := 2 }])) := by
  constructor <;> rfl

end Msgr

/-! ## Properties of `osd_t::enqueue_op` -/

namespace Osd

theorem bad_command_iff (h : helpers) (op : osd_any_op_t) :
    bad_command h op = true ↔ rejected h op := by
  simp only [bad_command, rejected, Bool.or_eq_true, Bool.and_eq_true, decide_eq_true_eq,
    gt_iff_lt, ne_eq]
  tauto

/-- C21, on a stabilize request of 48 bytes and on a delete request, both with the right
magic and an opcode in range: each is handed to the blockstore once, but the length
handed over with the stabilize request is 2, the number of versions, and the delete
request brings only object and version: offset and length of `bs_op` stay what they
were. -/
theorem enqueue_op_copies_by_opcode :
    ¬ rejected sample_helpers (sample_op 4).op ∧
    (enqueue_op sample_helpers sample_osd 7 (sample_op 4)).1.enqueued =
      [{ flags := 4, oid := ⟨9, 0⟩, version := 9, offset := 4096, len := 2, buf := 5000,
         retval := 0 }] ∧
    ¬ rejected sample_helpers (sample_op 5).op ∧
    (enqueue_op sample_helpers sample_osd 7 (sample_op 5)).1.enqueued =
      [{ flags := 5, oid := ⟨2, 0⟩, version := 4, offset := 4096, len := 8192, buf := 0,
         retval := 0 }] := by
  refine ⟨?_, by decide, ?_, by decide⟩
  · rw [← bad_command_iff]; decide
  · rw [← bad_command_iff]; decide

/-- C21, amended: `enqueue_op` rejects an operation, storing retval -EINVAL, running the
callback and handing nothing to the blockstore, exactly when the magic is wrong, the
opcode is out of range, or it is a secondary read or write whose length is above
OSD_RW_MAX or whose length or offset is not a multiple of OSD_RW_ALIGN. Every other
operation is handed to the blockstore exactly once, the callback is not run, and what
is copied depends on the opcode: object, version, offset, length and buffer for a
secondary read or write; object and version for a delete; the number of versions and the
buffer for a stabilize; nothing for any other opcode. -/
theorem enqueue_op_rejects_or_enqueues (h : helpers) (osd : osd_t) (peer_fd : Int)
    (cur_op : osd_op_t) :
    (rejected h cur_op.op ∧
      (enqueue_op h osd peer_fd cur_op).2 =
        { cur_op with bs_op := { cur_op.bs_op with retval := -EINVAL } } ∧
      (enqueue_op h osd peer_fd cur_op).1 =
        callback osd peer_fd (enqueue_op h osd peer_fd cur_op).2 ∧
      (enqueue_op h osd peer_fd cur_op).1.enqueued = osd.enqueued) ∨
    (¬ rejected h cur_op.op ∧
      (enqueue_op h osd peer_fd cur_op).1 =
        { osd with enqueued := osd.enqueued ++ [(enqueue_op h osd peer_fd cur_op).2.bs_op] } ∧
      (enqueue_op h osd peer_fd cur_op).2 =
        { cur_op with bs_op := (enqueue_op h osd peer_fd cur_op).2.bs_op } ∧
      (enqueue_op h osd peer_fd cur_op).2.bs_op =
        (let b := { cur_op.bs_op with flags := op_flags h cur_op.op.hdr.opcode }
         if cur_op.op.hdr.opcode = h.OSD_OP_SECONDARY_READ ∨
            cur_op.op.hdr.opcode = h.OSD_OP_SECONDARY_WRITE then
           { b with oid := cur_op.op.sec_rw.oid, version := cur_op.op.sec_rw.version,
                    offset := cur_op.op.sec_rw.offset, len := cur_op.op.sec_rw.len,
                    buf := cur_op.buf }
         else if cur_op.op.hdr.opcode = h.OSD_OP_SECONDARY_DELETE then
           { b with oid := cur_op.op.sec_del.oid, version := cur_op.op.sec_del.version }
         else if cur_op.op.hdr.opcode = h.OSD_OP_SECONDARY_STABILIZE then
           { b with len := cur_op.op.len / h.sizeof_obj_ver_id, buf := cur_op.buf }
         else b)) := by
  by_cases hb : bad_command h cur_op.op = true
  · left
    refine ⟨(bad_command_iff h _).1 hb, ?_, ?_, ?_⟩
    · simp [enqueue_op, hb]
    · simp [enqueue_op, hb]
    · simp only [enqueue_op, hb, if_true, callback]
      split <;> rfl
  · right
    have hr : ¬ rejected h cur_op.op := fun hr => hb ((bad_command_iff h _).2 hr)
    refine ⟨hr, ?_, ?_, ?_⟩
    · simp [enqueue_op, hb]
    · simp [enqueue_op, hb]
    · simp [enqueue_op, hb, fill_bs_op]

end Osd

end Vitastor
